import Mathlib

/-!
BOUT++ field core: reference-counted blocks and copy-on-write fields.

A shallow embedding of the memory-block pool and of the `Field3D` container of
`SRC/field/field3d.cpp`.  Values are rationals (exact arithmetic); pointers to
`memblock3d` are heap addresses (`Nat`), the null pointer is `none`.
-/

namespace BOUT

/-! ## Data model -/

/-- Staggered-grid cell location of a field (`CELL_LOC`). -/
inductive CELL_LOC
  | CELL_DEFAULT
  | CELL_CENTRE
  | CELL_XLOW
  | CELL_YLOW
  | CELL_ZLOW
  | CELL_VSHIFT
  deriving DecidableEq, Repr

/-- A block of memory (`memblock3d`): the 3D buffer, the reference count and the
intrusive link used by both the allocation list and the free list. -/
structure memblock3d where
  data : Nat → Nat → Nat → ℚ
  refs : Int
  next : Option Nat

/-- Process-wide state of the pool: the heap of blocks created with
`new memblock3d` (addresses below `brk` are in use), the contents `uninit a` that
`r3tensor` hands out for the block created at address `a`, and the three static
members `nblocks`, `blocklist` and `free_block` of `Field3D`. -/
structure Pool where
  heap : Nat → memblock3d
  brk : Nat
  uninit : Nat → Nat → Nat → Nat → ℚ
  nblocks : Int
  blocklist : Option Nat
  free_block : Option Nat

/-- A `Field3D` object: the pointer to its block and its cell location. -/
structure Field3D where
  block : Option Nat
  location : CELL_LOC
  deriving DecidableEq

/-- Globals consulted by the field code: the local grid sizes `ngx`, `ngy`,
`ngz`, the flag `StaggerGrids`, the interpolation routine `interp_to`
(interpolation.h) and the C library function `pow`. -/
structure Globals where
  ngx : Nat
  ngy : Nat
  ngz : Nat
  StaggerGrids : Bool
  interp_to : Field3D → CELL_LOC → Pool → Option (Field3D × Pool)
  pow : ℚ → ℚ → ℚ

/-- The pool before any block has been created (`nblocks = 0`, both lists null). -/
def Pool.empty (uninit : Nat → Nat → Nat → Nat → ℚ) : Pool :=
  { heap := fun _ => { data := fun _ _ _ => 0, refs := 0, next := none },
    brk := 0, uninit := uninit, nblocks := 0, blocklist := none, free_block := none }

/-- Value `b->data[jx][jy][jz]`. -/
def Pool.read (p : Pool) (b jx jy jz : Nat) : ℚ :=
  (p.heap b).data jx jy jz

/-- Store `b->data[jx][jy][jz] = v`. -/
def Pool.write (p : Pool) (b jx jy jz : Nat) (v : ℚ) : Pool :=
  { p with
    heap := Function.update p.heap b
      ⟨fun x y z => if x = jx ∧ y = jy ∧ z = jz then v else (p.heap b).data x y z,
        (p.heap b).refs, (p.heap b).next⟩ }

/-- Store `b->refs = r`. -/
def Pool.setRefs (p : Pool) (b : Nat) (r : Int) : Pool :=
  { p with heap := Function.update p.heap b ⟨(p.heap b).data, r, (p.heap b).next⟩ }

/-- Store `b->next = n`. -/
def Pool.setNext (p : Pool) (b : Nat) (n : Option Nat) : Pool :=
  { p with heap := Function.update p.heap b ⟨(p.heap b).data, (p.heap b).refs, n⟩ }

/-- Statement `b->refs--`. -/
def Pool.decRefs (b : Nat) (p : Pool) : Pool :=
  p.setRefs b ((p.heap b).refs - 1)

/-- Statement `b->refs++`. -/
def Pool.incRefs (b : Nat) (p : Pool) : Pool :=
  p.setRefs b ((p.heap b).refs + 1)

/-- The loop `for(j=0;j<n;j++) body`. -/
def forLoop {S : Type} (n : Nat) (body : Nat → S → S) (s : S) : S :=
  match n with
  | 0 => s
  | k + 1 => body k (forLoop k body s)

/-- The triple loop over the local grid, `jx` outermost and `jz` innermost. -/
def loop3 {S : Type} (nx ny nz : Nat) (body : Nat → Nat → Nat → S → S) (s : S) : S :=
  forLoop nx (fun jx sx =>
    forLoop ny (fun jy sy =>
      forLoop nz (fun jz sz => body jx jy jz sz) sy) sx) s

/-! ## Pool operations -/

/-- `Field3D::new_block` (field3d.cpp:2016): pop the head of the free list, or
create a block and link it at the head of the allocation list. -/
def new_block (p : Pool) : Nat × Pool :=
  match p.free_block with
  | some nb =>
      (nb, (({ p with free_block := (p.heap nb).next }).setNext nb none).setRefs nb 1)
  | none =>
      (p.brk, { p with
        heap := Function.update p.heap p.brk ⟨p.uninit p.brk, 1, p.blocklist⟩,
        brk := p.brk + 1, blocklist := some p.brk, nblocks := p.nblocks + 1 })

/-- `Field3D::alloc_data` (field3d.cpp:2047): make sure the field has a block
that no other object references. -/
def Field3D.alloc_data (G : Globals) (f : Field3D) (p : Pool) : Field3D × Pool :=
  match f.block with
  | some b =>
      if (p.heap b).refs > 1 then
        (⟨some (new_block p).1, f.location⟩,
          Pool.decRefs b (loop3 G.ngx G.ngy G.ngz
            (fun jx jy jz q => q.write (new_block p).1 jx jy jz (q.read b jx jy jz))
            (new_block p).2))
      else (f, p)
  | none => (⟨some (new_block p).1, f.location⟩, (new_block p).2)

/-- `Field3D::Allocate` (field3d.cpp:90). -/
def Field3D.Allocate (G : Globals) (f : Field3D) (p : Pool) : Field3D × Pool :=
  f.alloc_data G p

/-- `Field3D::free_data` (field3d.cpp:2075): drop the reference; the block goes
on the free list when the count reaches zero. -/
def Field3D.free_data (f : Field3D) (p : Pool) : Field3D × Pool :=
  match f.block with
  | none => (f, p)
  | some b =>
      (⟨none, f.location⟩,
        if ((Pool.decRefs b p).heap b).refs = 0 then
          { (Pool.decRefs b p).setNext b p.free_block with free_block := some b }
        else Pool.decRefs b p)

/-! ## Construction, destruction and assignment -/

/-- Default constructor `Field3D::Field3D()` (field3d.cpp:38): no data, cell centred. -/
def Field3D.ctor : Field3D :=
  ⟨none, CELL_LOC.CELL_CENTRE⟩

/-- Copy constructor `Field3D::Field3D(const Field3D&)` (field3d.cpp:54): share
the block of `f` and count the new reference.  Fails on the null dereference
`block->refs++` when `f` has no data. -/
def Field3D.copy_ctor (f : Field3D) (p : Pool) : Option (Field3D × Pool) :=
  match f.block with
  | none => none
  | some b => some (⟨some b, f.location⟩, Pool.incRefs b p)

/-- Destructor `Field3D::~Field3D()` (field3d.cpp:77). -/
def Field3D.dtor (f : Field3D) (p : Pool) : Pool :=
  (f.free_data p).2

/-- `Field3D::operator=(const Field3D&)` (field3d.cpp:211).  `sameObject` is the
test `this == &rhs`. -/
def Field3D.operator_assign (f rhs : Field3D) (sameObject : Bool) (p : Pool) :
    Option (Field3D × Pool) :=
  if sameObject then some (f, p)
  else
    match rhs.block with
    | none => none
    | some rb =>
        some (⟨some rb, rhs.location⟩,
          Pool.incRefs rb (if f.block ≠ none then (f.free_data p).2 else p))

/-- `Field3D::operator=(const real)` (field3d.cpp:338): allocate, then fill the
whole local grid; the location is kept. -/
def Field3D.operator_assign_real (G : Globals) (f : Field3D) (val : ℚ) (p : Pool) :
    Option (Field3D × Pool) :=
  match (f.Allocate G p).1.block with
  | none => none
  | some b =>
      some ((f.Allocate G p).1,
        loop3 G.ngx G.ngy G.ngz (fun jx jy jz q => q.write b jx jy jz val) (f.Allocate G p).2)

/-! ## Compound assignment -/

/-- The two branches every compound assignment ends with (field3d.cpp:388-406 for
`+=`): when `block->refs == 1` the grid is updated in place, otherwise the result
is written to a block from `new_block`, the old block loses one reference and the
field takes the new block.  `op l r` is the expression stored at a point, `l`
being `block->data[jx][jy][jz]` and `r` the right operand `rhs q jx jy jz` read
from the memory `q` at that moment. -/
def Field3D.combine (G : Globals) (f : Field3D) (op : ℚ → ℚ → ℚ)
    (rhs : Pool → Nat → Nat → Nat → ℚ) (p : Pool) : Option (Field3D × Pool) :=
  match f.block with
  | none => none
  | some b =>
      if (p.heap b).refs = 1 then
        some (f, loop3 G.ngx G.ngy G.ngz
          (fun jx jy jz q => q.write b jx jy jz (op (q.read b jx jy jz) (rhs q jx jy jz))) p)
      else
        some (⟨some (new_block p).1, f.location⟩,
          Pool.decRefs b (loop3 G.ngx G.ngy G.ngz
            (fun jx jy jz q =>
              q.write (new_block p).1 jx jy jz (op (q.read b jx jy jz) (rhs q jx jy jz)))
            (new_block p).2))

/-- Compound assignment with a `Field3D` operand whose location needs no
interpolation: the operand is read through `rhs.block->data`. -/
def Field3D.combine3D (G : Globals) (op : ℚ → ℚ → ℚ) (f rhs : Field3D) (p : Pool) :
    Option (Field3D × Pool) :=
  match rhs.block with
  | none => none
  | some rb => f.combine G op (fun q jx jy jz => q.read rb jx jy jz) p

/-- The staggered-grid dispatch at the head of the `Field3D` compound assignments
(field3d.cpp:379-382): with `StaggerGrids` set and different locations the
operator calls itself on the temporary `interp_to(rhs, location)`, which is
destroyed when the call returns.  `fuel` bounds the depth of that recursion. -/
def Field3D.withInterp (G : Globals)
    (core : Field3D → Field3D → Pool → Option (Field3D × Pool)) :
    Nat → Field3D → Field3D → Pool → Option (Field3D × Pool)
  | 0, f, rhs, p =>
      if G.StaggerGrids && decide (rhs.location ≠ f.location) then none
      else core f rhs p
  | fuel + 1, f, rhs, p =>
      if G.StaggerGrids && decide (rhs.location ≠ f.location) then
        match G.interp_to rhs f.location p with
        | none => none
        | some (tmp, p1) =>
            match Field3D.withInterp G core fuel f tmp p1 with
            | none => none
            | some (f2, p2) => some (f2, tmp.dtor p2)
      else core f rhs p

/-- `Field3D::operator+=(const Field3D&)` (field3d.cpp:368). -/
def Field3D.operator_plus_eq (G : Globals) (fuel : Nat) (f rhs : Field3D) (p : Pool) :
    Option (Field3D × Pool) :=
  Field3D.withInterp G (Field3D.combine3D G (fun l r => l + r)) fuel f rhs p

/-- `Field3D::operator+=(const Field2D&)` (field3d.cpp:415); `d` is `rhs.getData()`. -/
def Field3D.operator_plus_eq_2d (G : Globals) (f : Field3D) (d : Nat → Nat → ℚ) (p : Pool) :
    Option (Field3D × Pool) :=
  f.combine G (fun l r => l + r) (fun _ jx jy _ => d jx jy) p

/-- `Field3D::operator+=(const real&)` (field3d.cpp:457). -/
def Field3D.operator_plus_eq_real (G : Globals) (f : Field3D) (rhs : ℚ) (p : Pool) :
    Option (Field3D × Pool) :=
  f.combine G (fun l r => l + r) (fun _ _ _ _ => rhs) p

/-- `Field3D::operator-=(const Field3D&)` (field3d.cpp:500). -/
def Field3D.operator_minus_eq (G : Globals) (fuel : Nat) (f rhs : Field3D) (p : Pool) :
    Option (Field3D × Pool) :=
  Field3D.withInterp G (Field3D.combine3D G (fun l r => l - r)) fuel f rhs p

/-- `Field3D::operator-=(const Field2D&)` (field3d.cpp:543). -/
def Field3D.operator_minus_eq_2d (G : Globals) (f : Field3D) (d : Nat → Nat → ℚ) (p : Pool) :
    Option (Field3D × Pool) :=
  f.combine G (fun l r => l - r) (fun _ jx jy _ => d jx jy) p

/-- `Field3D::operator-=(const real&)` (field3d.cpp:585). -/
def Field3D.operator_minus_eq_real (G : Globals) (f : Field3D) (rhs : ℚ) (p : Pool) :
    Option (Field3D × Pool) :=
  f.combine G (fun l r => l - r) (fun _ _ _ _ => rhs) p

/-- `Field3D::operator*=(const Field3D&)` (field3d.cpp:628). -/
def Field3D.operator_times_eq (G : Globals) (fuel : Nat) (f rhs : Field3D) (p : Pool) :
    Option (Field3D × Pool) :=
  Field3D.withInterp G (Field3D.combine3D G (fun l r => l * r)) fuel f rhs p

/-- `Field3D::operator*=(const Field2D&)` (field3d.cpp:672). -/
def Field3D.operator_times_eq_2d (G : Globals) (f : Field3D) (d : Nat → Nat → ℚ) (p : Pool) :
    Option (Field3D × Pool) :=
  f.combine G (fun l r => l * r) (fun _ jx jy _ => d jx jy) p

/-- `Field3D::operator*=(const real)` (field3d.cpp:713). -/
def Field3D.operator_times_eq_real (G : Globals) (f : Field3D) (rhs : ℚ) (p : Pool) :
    Option (Field3D × Pool) :=
  f.combine G (fun l r => l * r) (fun _ _ _ _ => rhs) p

/-- `Field3D::operator/=(const Field3D&)` (field3d.cpp:757). -/
def Field3D.operator_div_eq (G : Globals) (fuel : Nat) (f rhs : Field3D) (p : Pool) :
    Option (Field3D × Pool) :=
  Field3D.withInterp G (Field3D.combine3D G (fun l r => l / r)) fuel f rhs p

/-- `Field3D::operator/=(const Field2D&)` (field3d.cpp:809): each point is
multiplied by `val = 1.0L / d[jx][jy]`. -/
def Field3D.operator_div_eq_2d (G : Globals) (f : Field3D) (d : Nat → Nat → ℚ) (p : Pool) :
    Option (Field3D × Pool) :=
  f.combine G (fun l r => l * (1 / r)) (fun _ jx jy _ => d jx jy) p

/-- `Field3D::operator/=(const real)` (field3d.cpp:860): each point is multiplied
by `val = 1.0 / rhs`. -/
def Field3D.operator_div_eq_real (G : Globals) (f : Field3D) (rhs : ℚ) (p : Pool) :
    Option (Field3D × Pool) :=
  f.combine G (fun l r => l * (1 / r)) (fun _ _ _ _ => rhs) p

/-- `Field3D::operator^=(const Field3D&)` (field3d.cpp:905). -/
def Field3D.operator_pow_eq (G : Globals) (fuel : Nat) (f rhs : Field3D) (p : Pool) :
    Option (Field3D × Pool) :=
  Field3D.withInterp G (Field3D.combine3D G (fun l r => G.pow l r)) fuel f rhs p

/-- `Field3D::operator^=(const Field2D&)` (field3d.cpp:957). -/
def Field3D.operator_pow_eq_2d (G : Globals) (f : Field3D) (d : Nat → Nat → ℚ) (p : Pool) :
    Option (Field3D × Pool) :=
  f.combine G (fun l r => G.pow l r) (fun _ jx jy _ => d jx jy) p

/-- `Field3D::operator^=(const real)` (field3d.cpp:999). -/
def Field3D.operator_pow_eq_real (G : Globals) (f : Field3D) (rhs : ℚ) (p : Pool) :
    Option (Field3D × Pool) :=
  f.combine G (fun l r => G.pow l r) (fun _ _ _ _ => rhs) p

/-- The five compound assignment operators `+=`, `-=`, `*=`, `/=`, `^=`. -/
inductive CompoundOp
  | plus
  | minus
  | times
  | div
  | pow
  deriving DecidableEq

/-- A right operand: a `Field3D`, the data of a `Field2D` (`rhs.getData()`), or a
`real`. -/
inductive Operand
  | field3d (rhs : Field3D)
  | field2d (d : Nat → Nat → ℚ)
  | real (rhs : ℚ)

/-- Overload resolution of the compound assignments of `Field3D`. -/
def Field3D.compound (G : Globals) (o : CompoundOp) (fuel : Nat) (f : Field3D) (r : Operand)
    (p : Pool) : Option (Field3D × Pool) :=
  match o, r with
  | .plus, .field3d rhs => Field3D.operator_plus_eq G fuel f rhs p
  | .plus, .field2d d => f.operator_plus_eq_2d G d p
  | .plus, .real v => f.operator_plus_eq_real G v p
  | .minus, .field3d rhs => Field3D.operator_minus_eq G fuel f rhs p
  | .minus, .field2d d => f.operator_minus_eq_2d G d p
  | .minus, .real v => f.operator_minus_eq_real G v p
  | .times, .field3d rhs => Field3D.operator_times_eq G fuel f rhs p
  | .times, .field2d d => f.operator_times_eq_2d G d p
  | .times, .real v => f.operator_times_eq_real G v p
  | .div, .field3d rhs => Field3D.operator_div_eq G fuel f rhs p
  | .div, .field2d d => f.operator_div_eq_2d G d p
  | .div, .real v => f.operator_div_eq_real G v p
  | .pow, .field3d rhs => Field3D.operator_pow_eq G fuel f rhs p
  | .pow, .field2d d => f.operator_pow_eq_2d G d p
  | .pow, .real v => f.operator_pow_eq_real G v p

/-- The binary operators `+`, `-`, `*`, `/`, `^` of `Field3D` with a `Field3D`,
`Field2D` or `real` operand (field3d.cpp:1060-1266): `Field3D result = *this;
result op= other; return(result);`. -/
def Field3D.binary (G : Globals) (o : CompoundOp) (fuel : Nat) (f : Field3D) (r : Operand)
    (p : Pool) : Option (Field3D × Pool) :=
  match f.copy_ctor p with
  | none => none
  | some (result, p1) => Field3D.compound G o fuel result r p1

/-- The mathematical operation a compound operator stands for. -/
def CompoundOp.eval (G : Globals) : CompoundOp → ℚ → ℚ → ℚ
  | .plus, l, r => l + r
  | .minus, l, r => l - r
  | .times, l, r => l * r
  | .div, l, r => l / r
  | .pow, l, r => G.pow l r

/-- Value of a right operand at a grid point, a `Field2D` being broadcast over z. -/
def Operand.value (p : Pool) : Operand → Nat → Nat → Nat → Option ℚ
  | .field3d rhs, x, y, z => rhs.block.map (fun rb => p.read rb x y z)
  | .field2d d, x, y, _ => some (d x y)
  | .real v, _, _, _ => some v

/-! ## Programs over several field objects -/

/-- The objects of a program: the pool and the `Field3D` objects created so far,
`fields k = none` for an object that has been destroyed. -/
structure State where
  pool : Pool
  fields : Nat → Option Field3D
  nfields : Nat

/-- Start of the program: empty pool, no object. -/
def State.empty (uninit : Nat → Nat → Nat → Nat → ℚ) : State :=
  ⟨Pool.empty uninit, fun _ => none, 0⟩

/-- The live object number `k`. -/
def State.field (s : State) (k : Nat) : Option Field3D :=
  if k < s.nfields then s.fields k else none

/-- Object `k` becomes `f`, the pool becomes `p`. -/
def State.put (s : State) (k : Nat) (f : Field3D) (p : Pool) : State :=
  ⟨p, Function.update s.fields k (some f), s.nfields⟩

/-- A new object `f` is created, the pool becomes `p`. -/
def State.push (s : State) (f : Field3D) (p : Pool) : State :=
  ⟨p, Function.update s.fields s.nfields (some f), s.nfields + 1⟩

/-- What object `k` reads at a grid point: `block->data[x][y][z]`. -/
def State.value (s : State) (k x y z : Nat) : Option ℚ :=
  match s.field k with
  | none => none
  | some f => f.block.map (fun b => s.pool.read b x y z)

/-- A right operand as written in a program: object number `j`, `Field2D` data, or a
`real`. -/
inductive Arg
  | field3d (j : Nat)
  | field2d (d : Nat → Nat → ℚ)
  | real (v : ℚ)

/-- The operand an argument denotes. -/
def State.operand (s : State) : Arg → Option Operand
  | .field3d j => (s.field j).map Operand.field3d
  | .field2d d => some (Operand.field2d d)
  | .real v => some (Operand.real v)

/-- Statements of a program over `Field3D` objects. -/
inductive Action
  | construct
  | copy (src : Nat)
  | assign (dst src : Nat)
  | assignReal (k : Nat) (val : ℚ)
  | allocate (k : Nat)
  | compound (k : Nat) (o : CompoundOp) (a : Arg) (fuel : Nat)
  | binary (k : Nat) (o : CompoundOp) (a : Arg) (fuel : Nat)
  | destroy (k : Nat)

/-- One statement.  `none` is a crash (null dereference, dead object, or the
staggered recursion out of fuel). -/
def step (G : Globals) (s : State) : Action → Option State
  | .construct => some (s.push Field3D.ctor s.pool)
  | .copy src =>
      match s.field src with
      | none => none
      | some f => (f.copy_ctor s.pool).map (fun r => s.push r.1 r.2)
  | .assign dst src =>
      match s.field dst, s.field src with
      | some f, some rhs =>
          (f.operator_assign rhs (decide (dst = src)) s.pool).map (fun r => s.put dst r.1 r.2)
      | _, _ => none
  | .assignReal k val =>
      match s.field k with
      | none => none
      | some f => (f.operator_assign_real G val s.pool).map (fun r => s.put k r.1 r.2)
  | .allocate k =>
      match s.field k with
      | none => none
      | some f => some (s.put k (f.Allocate G s.pool).1 (f.Allocate G s.pool).2)
  | .compound k o a fuel =>
      match s.field k, s.operand a with
      | some f, some r => (f.compound G o fuel r s.pool).map (fun r => s.put k r.1 r.2)
      | _, _ => none
  | .binary k o a fuel =>
      match s.field k, s.operand a with
      | some f, some r => (f.binary G o fuel r s.pool).map (fun r => s.push r.1 r.2)
      | _, _ => none
  | .destroy k =>
      match s.field k with
      | none => none
      | some f => some ⟨f.dtor s.pool, Function.update s.fields k none, s.nfields⟩

/-- A sequence of statements. -/
def run (G : Globals) : List Action → State → Option State
  | [], s => some s
  | a :: as, s =>
      match step G s a with
      | none => none
      | some s1 => run G as s1

/-- States a program can reach from the start. -/
inductive Reachable (G : Globals) (uninit : Nat → Nat → Nat → Nat → ℚ) : State → Prop
  | start : Reachable G uninit (State.empty uninit)
  | next (s t : State) (a : Action) : Reachable G uninit s → step G s a = some t →
      Reachable G uninit t

/-! ## The free list and the reference count -/

/-- The list `l` is the chain of `next` links that starts at `h` and ends at null. -/
def IsChain (heap : Nat → memblock3d) : Option Nat → List Nat → Prop
  | h, [] => h = none
  | h, i :: l => h = some i ∧ IsChain heap (heap i).next l

/-- The blocks on the free list, head first. -/
def Pool.FreeList (p : Pool) (l : List Nat) : Prop :=
  IsChain p.heap p.free_block l

/-- Whether an object slot points to block `i` (1 or 0). -/
def ptsTo (o : Option Field3D) (i : Nat) : Nat :=
  if o.bind Field3D.block = some i then 1 else 0

/-- Number of objects among the first `n` whose block pointer is `i`. -/
def holders (fields : Nat → Option Field3D) : Nat → Nat → Nat
  | 0, _ => 0
  | n + 1, i => holders fields n i + ptsTo (fields n) i

/-- The pool invariant: block pointers are valid, every block's count is the
number of objects that point to it, and the free list is a duplicate-free chain of
exactly the blocks with count zero. -/
structure Inv (s : State) : Prop where
  ptr : ∀ k, k < s.nfields → ∀ b, (s.fields k).bind Field3D.block = some b → b < s.pool.brk
  refs : ∀ i, i < s.pool.brk → (s.pool.heap i).refs = (holders s.fields s.nfields i : Int)
  free : ∃ l, s.pool.FreeList l ∧ l.Nodup ∧
    ∀ i, i ∈ l ↔ (i < s.pool.brk ∧ (s.pool.heap i).refs = 0)

/-! ## Predicates used in the proofs -/

/-- The memory `q` is `p` with block `t` overwritten by `val p` on the points of
`D`; counts, links and every other block are those of `p`. -/
def Filled (t : Nat) (val : Pool → Nat → Nat → Nat → ℚ) (D : Nat → Nat → Nat → Prop)
    (p q : Pool) : Prop :=
  q = { p with heap := q.heap } ∧
  (∀ i, i ≠ t → q.heap i = p.heap i) ∧
  (q.heap t).refs = (p.heap t).refs ∧ (q.heap t).next = (p.heap t).next ∧
  (∀ x y z, D x y z → (q.heap t).data x y z = val p x y z) ∧
  (∀ x y z, ¬ D x y z → (q.heap t).data x y z = (p.heap t).data x y z)

/-- The value stored at a point depends on the memory at that point only. -/
def Pointwise (val : Pool → Nat → Nat → Nat → ℚ) : Prop :=
  ∀ (q r : Pool) (x y z : Nat),
    (∀ i, (q.heap i).data x y z = (r.heap i).data x y z) → val q x y z = val r x y z

/-- Points already visited when the triple loop is about to run the body at
`(jx, jy, jz)`. -/
def Visited (ny nz jx jy jz : Nat) (x y z : Nat) : Prop :=
  y < ny ∧ z < nz ∧ (x < jx ∨ (x = jx ∧ (y < jy ∨ (y = jy ∧ z < jz))))

/-- Two memories with the same counts, links and list heads. -/
def SameShape (p q : Pool) : Prop :=
  q.brk = p.brk ∧ q.free_block = p.free_block ∧ q.nblocks = p.nblocks ∧
  q.blocklist = p.blocklist ∧
  ∀ i, (q.heap i).refs = (p.heap i).refs ∧ (q.heap i).next = (p.heap i).next

/-- The pool part of the invariant, for a given number `H i` of holders of each
block `i`. -/
structure PInv (p : Pool) (H : Nat → Int) : Prop where
  refs : ∀ i, i < p.brk → (p.heap i).refs = H i
  out : ∀ i, p.brk ≤ i → H i = 0
  free : ∃ l, p.FreeList l ∧ l.Nodup ∧ ∀ i, i ∈ l ↔ (i < p.brk ∧ (p.heap i).refs = 0)

/-- The operand `val` reads the memory only at the point asked for and only in
blocks below address `n`. -/
def PointwiseBelow (n : Nat) (val : Pool → Nat → Nat → Nat → ℚ) : Prop :=
  ∀ (q r : Pool) (x y z : Nat),
    (∀ i, i < n → (q.heap i).data x y z = (r.heap i).data x y z) → val q x y z = val r x y z

/-- Summary of a mutating member function called on object `k` in state `s`: the
object ends as `f2` in the pool `p2`, sole holder of block `b2`, which carries `v` on
the grid; the invariant holds again and the data of every other block is kept. -/
structure Effect (G : Globals) (s : State) (k : Nat) (f2 : Field3D) (p2 : Pool) (b2 : Nat)
    (v : Nat → Nat → Nat → ℚ) : Prop where
  inv : Inv (s.put k f2 p2)
  block : f2.block = some b2
  loc : ∀ f, s.fields k = some f → f2.location = f.location
  brk : s.pool.brk ≤ p2.brk
  frame : ∀ i, i < s.pool.brk → i ≠ b2 → (p2.heap i).data = (s.pool.heap i).data
  alone : ∀ j, j < s.nfields → j ≠ k → (s.fields j).bind Field3D.block ≠ some b2
  vals : ∀ x y z, x < G.ngx → y < G.ngy → z < G.ngz → p2.read b2 x y z = v x y z

/-- A right operand that needs no interpolation and, when a field, has data. -/
def Operand.ready (G : Globals) (f : Field3D) (brk : Nat) : Operand → Prop
  | .field3d rhs =>
      (∃ rb, rhs.block = some rb ∧ rb < brk) ∧
        (G.StaggerGrids = false ∨ rhs.location = f.location)
  | .field2d _ => True
  | .real _ => True

/-- Value of a right operand at a grid point, `0` standing for missing data. -/
def Operand.get (r : Operand) (p : Pool) (x y z : Nat) : ℚ :=
  (r.value p x y z).getD 0

/-- What the field code relies on when it calls `interp_to` on a live object: a
result is a temporary at the requested location that respects the pool invariant
and leaves what every object reads unchanged; an operand with data gives a result
with data. -/
structure InterpOK (G : Globals) : Prop where
  safe : ∀ (s : State) (j : Nat) (rhs : Field3D) (loc : CELL_LOC) (tmp : Field3D) (p1 : Pool),
    Inv s → s.field j = some rhs → G.interp_to rhs loc s.pool = some (tmp, p1) →
      tmp.location = loc ∧ Inv (s.push tmp p1) ∧
        ∀ i x y z, i < s.nfields → (s.push tmp p1).value i x y z = s.value i x y z
  live : ∀ (s : State) (j : Nat) (rhs : Field3D) (loc : CELL_LOC),
    Inv s → s.field j = some rhs → rhs.block ≠ none →
      ∃ tmp p1, G.interp_to rhs loc s.pool = some (tmp, p1) ∧ tmp.block ≠ none

/-- The invariant holds in `t` and every object of `s` other than `k` reads in `t`
what it read in `s`. -/
structure Kept (s : State) (k : Nat) (t : State) : Prop where
  inv : Inv t
  others : ∀ j x y z, j < s.nfields → j ≠ k → t.value j x y z = s.value j x y z
  size : s.nfields ≤ t.nfields

/-- The object a statement writes to; a statement that creates an object writes to
the new one. -/
def Action.target (n : Nat) : Action → Nat
  | .construct => n
  | .copy _ => n
  | .assign dst _ => dst
  | .assignReal k _ => k
  | .allocate k => k
  | .compound k _ _ _ => k
  | .binary _ _ _ _ => n
  | .destroy k => k

/-! ## A sample configuration and sample programs -/

/-- An interpolation routine that changes no value: the result shares the block of
its operand and carries the requested location. -/
def interp_share (rhs : Field3D) (loc : CELL_LOC) (p : Pool) : Option (Field3D × Pool) :=
  match rhs.block with
  | none => none
  | some b => some (⟨some b, loc⟩, Pool.incRefs b p)

/-- A 2 x 2 x 2 grid with staggering on. -/
def sampleGlobals : Globals :=
  ⟨2, 2, 2, true, interp_share, fun l _ => l⟩

/-- Two objects, `a = 2.0` and `b = 3.0`. -/
def sampleProgram : List Action :=
  [Action.construct, Action.assignReal 0 2, Action.construct, Action.assignReal 1 3]

/-- The state after `sampleProgram`. -/
def sampleState : State :=
  (run sampleGlobals sampleProgram (State.empty (fun _ _ _ _ => 0))).getD
    (State.empty (fun _ _ _ _ => 0))

/-- A pool with one block in use. -/
def sampleOneBlock : Pool :=
  (new_block (Pool.empty (fun _ _ _ _ => 0))).2

/-- A pool whose only block has been released. -/
def sampleFreed : Pool :=
  (Field3D.free_data ⟨some 0, CELL_LOC.CELL_CENTRE⟩ sampleOneBlock).2

/-! ## Element access -/

/-- `Field3D::getData()` (field3d.cpp:95).  `check` says whether `CHECK` is
defined: a field without data then stops the program.  The result is the block
whose buffer `block->data` is handed out, with the field and the pool after
`Allocate()`. -/
def Field3D.getData (G : Globals) (check : Bool) (f : Field3D) (p : Pool) :
    Option (Nat × Field3D × Pool) :=
  if check && f.block.isNone then none
  else
    match (f.Allocate G p).1.block with
    | none => none
    | some b => some (b, (f.Allocate G p).1, (f.Allocate G p).2)

/-- `Field3D::operator[](int jx)` (field3d.cpp:168): the row `block->data[jx]`
after `Allocate()`, as the pair of the block and `jx`.  An index outside
`0 <= jx < ngx` stops the program when `CHECK` is defined and reads past the buffer
otherwise; both are `none`. -/
def Field3D.operator_index (G : Globals) (check : Bool) (f : Field3D) (jx : Int) (p : Pool) :
    Option ((Nat × Nat) × Field3D × Pool) :=
  if check && f.block.isNone then none
  else if jx < 0 ∨ jx ≥ G.ngx then none
  else
    match (f.Allocate G p).1.block with
    | none => none
    | some b => some ((b, jx.toNat), (f.Allocate G p).1, (f.Allocate G p).2)

/-- `Field3D::operator[](bindex&)` (field3d.cpp:188): the element
`block->data[bx.jx][bx.jy][bx.jz]` of the block the field has at the call, as the
block and the three indices.  The function does not call `Allocate()`; the field and
the pool are left as they are.  A field without data, or an index outside the
buffer, is `none`. -/
def Field3D.operator_index_bindex (G : Globals) (f : Field3D) (jx jy jz : Int) :
    Option (Nat × Nat × Nat × Nat) :=
  match f.block with
  | none => none
  | some b =>
      if 0 ≤ jx ∧ jx < G.ngx ∧ 0 ≤ jy ∧ jy < G.ngy ∧ 0 ≤ jz ∧ jz < G.ngz then
        some (b, jx.toNat, jy.toNat, jz.toNat)
      else none

/-- The statement `k[bx] = v` of a program, `bx` being the `bindex` with the
components `jx`, `jy`, `jz`. -/
def State.setBindex (G : Globals) (k : Nat) (jx jy jz : Int) (v : ℚ) (s : State) :
    Option State :=
  match s.field k with
  | none => none
  | some f =>
      match f.operator_index_bindex G jx jy jz with
      | none => none
      | some (b, x, y, z) => some ⟨s.pool.write b x y z v, s.fields, s.nfields⟩

/-- Two objects on a 2 x 2 x 2 grid: `a = 2.0`, then `b = a`. -/
def sampleShared : State :=
  (run sampleGlobals [Action.construct, Action.assignReal 0 2, Action.construct,
    Action.assign 1 0] (State.empty (fun _ _ _ _ => 0))).getD (State.empty (fun _ _ _ _ => 0))

/-! ## The mesh and the loops of the boundary code -/

/-- Globals of `globals.h` read by the boundary code, on top of the ones the field
code reads: whether `CHECK` is defined, the guard cell counts `MXG` and `MYG`, the
last x index `ncx`, this processor's x index `PE_XIND` out of `NXPE`, the y
neighbours `UDATA_INDEST`, `UDATA_OUTDEST`, `DDATA_INDEST`, `DDATA_OUTDEST`
(negative: none) with the x indices `UDATA_XSPLIT`, `DDATA_XSPLIT` where the inner and
the outer neighbour meet, the flag `ShiftXderivs`, and `Field3D::ShiftZ(bool)`, which
rests on the FFT routines of `fft.h`. -/
structure Mesh extends Globals where
  CHECK : Bool
  MXG : Int
  MYG : Int
  ncx : Int
  PE_XIND : Int
  NXPE : Int
  UDATA_INDEST : Int
  UDATA_OUTDEST : Int
  UDATA_XSPLIT : Int
  DDATA_INDEST : Int
  DDATA_OUTDEST : Int
  DDATA_XSPLIT : Int
  ShiftXderivs : Bool
  ShiftZ : Bool → Field3D → Pool → Option (Field3D × Pool)

/-- Values of the counter in `for(j=a;j<b;j++)`, in the order of the loop. -/
def upTo (a b : Int) : List Int :=
  (List.range (b - a).toNat).map (fun (i : Nat) => a + (i : Int))

/-- Values of the counter in `for(j=a;j>b;j--)`, in the order of the loop. -/
def downTo (a b : Int) : List Int :=
  (List.range (a - b).toNat).map (fun (i : Nat) => a - (i : Int))

/-- A `for` loop whose counter takes the values of `l` in turn and whose body can
stop the program. -/
def forEachM {S : Type} (l : List Int) (body : Int → S → Option S) (s : S) : Option S :=
  match l with
  | [] => some s
  | j :: l =>
      match body j s with
      | none => none
      | some t => forEachM l body t

/-- The call `k[jx]` of `operator[](int)` on object `k` of a program. -/
def State.index (M : Mesh) (k : Nat) (jx : Int) (s : State) : Option ((Nat × Nat) × State) :=
  match s.field k with
  | none => none
  | some f =>
      match f.operator_index M.toGlobals M.CHECK jx s.pool with
      | none => none
      | some (r, f2, p2) => some (r, s.put k f2 p2)

/-- The value of the expression `k[jx][jy][jz]`, and the state after the call of
`operator[]`.  Indices outside the buffer are `none`. -/
def State.getElem (M : Mesh) (k : Nat) (jx jy jz : Int) (s : State) : Option (ℚ × State) :=
  match s.index M k jx with
  | none => none
  | some ((b, x), t) =>
      if 0 ≤ jy ∧ jy < M.ngy ∧ 0 ≤ jz ∧ jz < M.ngz then
        some (t.pool.read b x jy.toNat jz.toNat, t)
      else none

/-- The statement `k[jx][jy][jz] = v`. -/
def State.setElem (M : Mesh) (k : Nat) (jx jy jz : Int) (v : ℚ) (s : State) : Option State :=
  match s.index M k jx with
  | none => none
  | some ((b, x), t) =>
      if 0 ≤ jy ∧ jy < M.ngy ∧ 0 ≤ jz ∧ jz < M.ngz then
        some ⟨t.pool.write b x jy.toNat jz.toNat v, t.fields, t.nfields⟩
      else none

/-- The statement `k[jx][jy][jz] = k[ix][iy][iz]`. -/
def State.copyElem (M : Mesh) (k : Nat) (jx jy jz ix iy iz : Int) (s : State) : Option State :=
  match s.getElem M k ix iy iz with
  | none => none
  | some (v, s1) => s1.setElem M k jx jy jz v

/-- The statement `k = k.ShiftZ(toreal)`: the result of `ShiftZ` is a temporary that
is assigned to `k` and then destroyed. -/
def State.assignShiftZ (M : Mesh) (k : Nat) (toreal : Bool) (s : State) : Option State :=
  match s.field k with
  | none => none
  | some f =>
      match M.ShiftZ toreal f s.pool with
      | none => none
      | some (tmp, p1) =>
          match f.operator_assign tmp false p1 with
          | none => none
          | some (f2, p2) => some (s.put k f2 (tmp.dtor p2))

/-! ## Boundary functions on `Field3D` -/

/-- `bndry_inner_zero(Field3D&)` (boundary.cpp:68). -/
def bndry_inner_zero (M : Mesh) (var : Nat) (s : State) : Option State :=
  if M.PE_XIND ≠ 0 then some s
  else
    forEachM (upTo 0 M.MXG) (fun jx =>
      forEachM (upTo 0 M.ngy) (fun jy =>
        forEachM (upTo 0 M.ngz) (fun jz => State.setElem M var jx jy jz 0))) s

/-- `bndry_inner_flat(Field3D&)` (boundary.cpp:94). -/
def bndry_inner_flat (M : Mesh) (var : Nat) (s : State) : Option State :=
  if M.PE_XIND ≠ 0 then some s
  else
    match (if M.ShiftXderivs then s.assignShiftZ M var true else some s) with
    | none => none
    | some s1 =>
        match forEachM (downTo (M.MXG - 1) (-1)) (fun jx =>
          forEachM (upTo 0 M.ngy) (fun jy =>
            forEachM (upTo 0 M.ngz) (fun jz =>
              State.copyElem M var jx jy jz M.MXG jy jz))) s1 with
        | none => none
        | some s2 => if M.ShiftXderivs then s2.assignShiftZ M var false else some s2

/-- `bndry_outer_zero(Field3D&)` (boundary.cpp:127). -/
def bndry_outer_zero (M : Mesh) (var : Nat) (s : State) : Option State :=
  if M.PE_XIND ≠ M.NXPE - 1 then some s
  else
    forEachM (downTo M.ncx (M.ncx - M.MXG)) (fun jx =>
      forEachM (upTo 0 M.ngy) (fun jy =>
        forEachM (upTo 0 M.ngz) (fun jz => State.setElem M var jx jy jz 0))) s

/-- The macro `LOOP_UPPER_BNDRY(code)` (boundary.cpp:146). -/
def LOOP_UPPER_BNDRY {S : Type} (M : Mesh) (code : Int → Int → S → Option S) (s : S) :
    Option S :=
  match (if M.UDATA_INDEST < 0 then
      forEachM (upTo 0 M.UDATA_XSPLIT) (fun jx =>
        forEachM (upTo (M.ngy - M.MYG - 1) M.ngy) (fun jy => code jx jy)) s
    else some s) with
  | none => none
  | some s1 =>
      if M.UDATA_OUTDEST < 0 then
        forEachM (upTo (if M.UDATA_XSPLIT < 0 then 0 else M.UDATA_XSPLIT) M.ngx) (fun jx =>
          forEachM (upTo (M.ngy - M.MYG - 1) M.ngy) (fun jy => code jx jy)) s1
      else some s1

/-- `bndry_yup_flat(Field3D&)` (boundary.cpp:174). -/
def bndry_yup_flat (M : Mesh) (var : Nat) (s : State) : Option State :=
  LOOP_UPPER_BNDRY M (fun jx jy =>
    forEachM (upTo 0 M.ngz) (fun jz =>
      State.copyElem M var jx jy jz jx (M.ngy - 1 - M.MYG) jz)) s

/-- `bndry_yup_zero(Field3D&)` (boundary.cpp:185). -/
def bndry_yup_zero (M : Mesh) (var : Nat) (s : State) : Option State :=
  LOOP_UPPER_BNDRY M (fun jx jy =>
    forEachM (upTo 0 M.ngz) (fun jz => State.setElem M var jx jy jz 0)) s

/-- The macro `LOOP_LOWER_BNDRY(code)` (boundary.cpp:199). -/
def LOOP_LOWER_BNDRY {S : Type} (M : Mesh) (code : Int → Int → S → Option S) (s : S) :
    Option S :=
  match (if M.DDATA_INDEST < 0 then
      forEachM (upTo 0 M.DDATA_XSPLIT) (fun jx =>
        forEachM (upTo 0 M.MYG) (fun jy => code jx jy)) s
    else some s) with
  | none => none
  | some s1 =>
      if M.DDATA_OUTDEST < 0 then
        forEachM (upTo (if M.DDATA_XSPLIT < 0 then 0 else M.DDATA_XSPLIT) M.ngx) (fun jx =>
          forEachM (upTo 0 M.MYG) (fun jy => code jx jy)) s1
      else some s1

/-- `bndry_ydown_flat(Field3D&)` (boundary.cpp:227). -/
def bndry_ydown_flat (M : Mesh) (var : Nat) (s : State) : Option State :=
  LOOP_LOWER_BNDRY M (fun jx jy =>
    forEachM (upTo 0 M.ngz) (fun jz => State.copyElem M var jx jy jz jx M.MYG jz)) s

/-- `bndry_ydown_zero(Field3D&)` (boundary.cpp:238). -/
def bndry_ydown_zero (M : Mesh) (var : Nat) (s : State) : Option State :=
  LOOP_LOWER_BNDRY M (fun jx jy =>
    forEachM (upTo 0 M.ngz) (fun jz => State.setElem M var jx jy jz 0)) s

/-! ## Relaxing boundary conditions -/

/-- Code `INNER_X` of `enum BNDRY_LOC` (boundary.cpp:260), a bit field. -/
def INNER_X : Nat := 1

/-- Code `OUTER_X` of `enum BNDRY_LOC`. -/
def OUTER_X : Nat := 2

/-- Code `UPPER_Y` of `enum BNDRY_LOC`. -/
def UPPER_Y : Nat := 4

/-- Code `LOWER_Y` of `enum BNDRY_LOC`. -/
def LOWER_Y : Nat := 8

/-- The statement
`F_var[jx][jy][jz] = (tmpvar[jx][jy][jz] - var[jx][jy][jz]) / tconst;` of
`BndryRelax`.  The two reads are made from left to right, then the store; each of the
three calls of `operator[]` acts on its own object. -/
def relaxPoint (M : Mesh) (var F_var tmpvar : Nat) (tconst : ℚ) (jx jy jz : Int)
    (s : State) : Option State :=
  match s.getElem M tmpvar jx jy jz with
  | none => none
  | some (a, s1) =>
      match s1.getElem M var jx jy jz with
      | none => none
      | some (b, s2) => s2.setElem M F_var jx jy jz ((a - b) / tconst)

/-- One loop nest of `BndryRelax`: `jx` over `xs`, `jy` over `ys`, `jz` from 0 to
`ngz - 1`, the body being the statement `relaxPoint`. -/
def relaxLoops (M : Mesh) (var F_var tmpvar : Nat) (tconst : ℚ) (xs ys : List Int)
    (s : State) : Option State :=
  forEachM xs (fun jx => forEachM ys (fun jy => forEachM (upTo 0 M.ngz) (fun jz =>
    relaxPoint M var F_var tmpvar tconst jx jy jz))) s

/-- The body of `case UPPER_Y` of `BndryRelax` (boundary.cpp:526). -/
def relaxUpper (M : Mesh) (var F_var tmpvar : Nat) (tconst : ℚ) (s : State) : Option State :=
  match (if M.UDATA_INDEST < 0 then
      relaxLoops M var F_var tmpvar tconst (upTo 0 M.UDATA_XSPLIT)
        (downTo (M.ngy - 1) (M.ngy - 1 - M.MYG)) s
    else some s) with
  | none => none
  | some s1 =>
      if M.UDATA_OUTDEST < 0 then
        relaxLoops M var F_var tmpvar tconst
          (upTo (if M.UDATA_XSPLIT < 0 then 0 else M.UDATA_XSPLIT) M.ngx)
          (downTo (M.ngy - 1) (M.ngy - 1 - M.MYG)) s1
      else some s1

/-- The body of `case LOWER_Y` of `BndryRelax` (boundary.cpp:543). -/
def relaxLower (M : Mesh) (var F_var tmpvar : Nat) (tconst : ℚ) (s : State) : Option State :=
  match (if M.DDATA_INDEST < 0 then
      relaxLoops M var F_var tmpvar tconst (upTo 0 M.DDATA_XSPLIT) (upTo 0 M.MYG) s
    else some s) with
  | none => none
  | some s1 =>
      if M.DDATA_OUTDEST < 0 then
        relaxLoops M var F_var tmpvar tconst
          (upTo (if M.DDATA_XSPLIT < 0 then 0 else M.DDATA_XSPLIT) M.ngx) (upTo 0 M.MYG) s1
      else some s1

/-- The `switch(loc)` of `BndryRelax` (boundary.cpp:512): `case OUTER_X` has no
`break` and runs on into `case UPPER_Y`; a value of `loc` that is no single edge
matches no case. -/
def relaxSwitch (M : Mesh) (var F_var tmpvar : Nat) (tconst : ℚ) (loc : Nat) (s : State) :
    Option State :=
  if loc = INNER_X then
    relaxLoops M var F_var tmpvar tconst (upTo 0 M.MXG) (upTo 0 M.ngy) s
  else if loc = OUTER_X then
    match relaxLoops M var F_var tmpvar tconst (downTo M.ncx (M.ncx - M.MXG))
        (upTo 0 M.ngy) s with
    | none => none
    | some s1 => relaxUpper M var F_var tmpvar tconst s1
  else if loc = UPPER_Y then relaxUpper M var F_var tmpvar tconst s
  else if loc = LOWER_Y then relaxLower M var F_var tmpvar tconst s
  else some s

/-- `BndryRelax(Field3D&, Field3D&, real, bndry_func3d, BNDRY_LOC)`
(boundary.cpp:492).  `var` and `F_var` are the numbers of the two objects passed by
reference; the local `tmpvar` is the object created on entry, number `s.nfields`,
and destroyed at either exit. -/
def BndryRelax (M : Mesh) (var F_var : Nat) (tconst : ℚ)
    (func : Nat → State → Option State) (loc : Nat) (s : State) : Option State :=
  match (if tconst ≤ 0 then func F_var (s.push Field3D.ctor s.pool)
    else
      match step M.toGlobals (s.push Field3D.ctor s.pool) (Action.assign s.nfields var) with
      | none => none
      | some s1 =>
          match func s.nfields s1 with
          | none => none
          | some s2 => relaxSwitch M var F_var s.nfields tconst loc s2) with
  | none => none
  | some s3 => step M.toGlobals s3 (Action.destroy s.nfields)

/-- The grid points of the boundary region of the single edge `loc`, over which
`BndryRelax` runs: `MXG` planes in x, `MYG` rows in y, the rows being cut in x where
this processor has a neighbour in y. -/
def Mesh.region (M : Mesh) (loc : Nat) (x y z : Nat) : Prop :=
  x < M.ngx ∧ y < M.ngy ∧ z < M.ngz ∧
    ((loc = INNER_X ∧ (x : Int) < M.MXG) ∨
      (loc = OUTER_X ∧ M.ncx - M.MXG < x ∧ (x : Int) ≤ M.ncx) ∨
      (loc = UPPER_Y ∧ (M.ngy : Int) - 1 - M.MYG < y ∧
        ((M.UDATA_INDEST < 0 ∧ (x : Int) < M.UDATA_XSPLIT) ∨
          (M.UDATA_OUTDEST < 0 ∧ M.UDATA_XSPLIT ≤ x))) ∨
      (loc = LOWER_Y ∧ (y : Int) < M.MYG ∧
        ((M.DDATA_INDEST < 0 ∧ (x : Int) < M.DDATA_XSPLIT) ∨
          (M.DDATA_OUTDEST < 0 ∧ M.DDATA_XSPLIT ≤ x))))

/-- The rate `(tmpvar - var) / tconst` at a grid point, for the values the objects
`tmpvar` and `var` have in the state `s`. -/
def relaxRate (s : State) (var tmpvar : Nat) (tconst : ℚ) (x y z : Nat) : ℚ :=
  ((s.value tmpvar x y z).getD 0 - (s.value var x y z).getD 0) / tconst

/-- The points the loops of `case UPPER_Y` of `BndryRelax` visit. -/
def Mesh.upperSet (M : Mesh) (x y z : Nat) : Prop :=
  (M.UDATA_INDEST < 0 ∧ (x : Int) ∈ upTo 0 M.UDATA_XSPLIT ∧
      (y : Int) ∈ downTo (M.ngy - 1) (M.ngy - 1 - M.MYG) ∧ (z : Int) ∈ upTo 0 M.ngz) ∨
    (M.UDATA_OUTDEST < 0 ∧
      (x : Int) ∈ upTo (if M.UDATA_XSPLIT < 0 then 0 else M.UDATA_XSPLIT) M.ngx ∧
      (y : Int) ∈ downTo (M.ngy - 1) (M.ngy - 1 - M.MYG) ∧ (z : Int) ∈ upTo 0 M.ngz)

/-- The points the loops of `case LOWER_Y` of `BndryRelax` visit. -/
def Mesh.lowerSet (M : Mesh) (x y z : Nat) : Prop :=
  (M.DDATA_INDEST < 0 ∧ (x : Int) ∈ upTo 0 M.DDATA_XSPLIT ∧
      (y : Int) ∈ upTo 0 M.MYG ∧ (z : Int) ∈ upTo 0 M.ngz) ∨
    (M.DDATA_OUTDEST < 0 ∧
      (x : Int) ∈ upTo (if M.DDATA_XSPLIT < 0 then 0 else M.DDATA_XSPLIT) M.ngx ∧
      (y : Int) ∈ upTo 0 M.MYG ∧ (z : Int) ∈ upTo 0 M.ngz)

/-- The points the `switch(loc)` of `BndryRelax` stores to. -/
def Mesh.written (M : Mesh) (loc : Nat) (x y z : Nat) : Prop :=
  (loc = INNER_X ∧ (x : Int) ∈ upTo 0 M.MXG ∧ (y : Int) ∈ upTo 0 M.ngy ∧
      (z : Int) ∈ upTo 0 M.ngz) ∨
    (loc = OUTER_X ∧
      (((x : Int) ∈ downTo M.ncx (M.ncx - M.MXG) ∧ (y : Int) ∈ upTo 0 M.ngy ∧
        (z : Int) ∈ upTo 0 M.ngz) ∨ M.upperSet x y z)) ∨
    (loc = UPPER_Y ∧ M.upperSet x y z) ∨ (loc = LOWER_Y ∧ M.lowerSet x y z)

/-! ## `Field2D` and the boundary functions on it -/

/-- Modelled from the spec: the class `Field2D`, whose source (field2d.cpp) is not
under src/.  A 2D field is unallocated (`none`) or holds one value per point of the
local x-y grid; assignment and element access have value semantics, which is what
copy-on-write gives to the users of a field. -/
structure Field2D where
  data : Option (Nat → Nat → ℚ)

/-- Modelled from the spec: the value of the expression `var[jx][jy]` for a
`Field2D`.  An unallocated field and an index outside the grid are `none`. -/
def Field2D.get (G : Globals) (var : Field2D) (jx jy : Int) : Option ℚ :=
  match var.data with
  | none => none
  | some d =>
      if 0 ≤ jx ∧ jx < G.ngx ∧ 0 ≤ jy ∧ jy < G.ngy then some (d jx.toNat jy.toNat) else none

/-- Modelled from the spec: the statement `var[jx][jy] = v` for a `Field2D`.  An
unallocated field and an index outside the grid are `none`. -/
def Field2D.set (G : Globals) (var : Field2D) (jx jy : Int) (v : ℚ) : Option Field2D :=
  match var.data with
  | none => none
  | some d =>
      if 0 ≤ jx ∧ jx < G.ngx ∧ 0 ≤ jy ∧ jy < G.ngy then
        some ⟨some (fun x y => if x = jx.toNat ∧ y = jy.toNat then v else d x y)⟩
      else none

/-- The statement `var[jx][jy] = var[ix][iy]` for a `Field2D`. -/
def Field2D.copyElem (G : Globals) (jx jy ix iy : Int) (var : Field2D) : Option Field2D :=
  match var.get G ix iy with
  | none => none
  | some v => var.set G jx jy v

/-- `bndry_inner_zero(Field2D&)` (boundary.cpp:56). -/
def bndry_inner_zero_2d (M : Mesh) (var : Field2D) : Option Field2D :=
  if M.PE_XIND ≠ 0 then some var
  else
    forEachM (upTo 0 M.MXG) (fun jx =>
      forEachM (upTo 0 M.ngy) (fun jy v => v.set M.toGlobals jx jy 0)) var

/-- `bndry_inner_flat(Field2D&)` (boundary.cpp:81). -/
def bndry_inner_flat_2d (M : Mesh) (var : Field2D) : Option Field2D :=
  if M.PE_XIND ≠ 0 then some var
  else
    forEachM (downTo (M.MXG - 1) (-1)) (fun jx =>
      forEachM (upTo 0 M.ngy) (fun jy =>
        Field2D.copyElem M.toGlobals jx jy (jx + 1) jy)) var

/-- `bndry_outer_zero(Field2D&)` (boundary.cpp:115). -/
def bndry_outer_zero_2d (M : Mesh) (var : Field2D) : Option Field2D :=
  if M.PE_XIND ≠ M.NXPE - 1 then some var
  else
    forEachM (downTo M.ncx (M.ncx - M.MXG)) (fun jx =>
      forEachM (upTo 0 M.ngy) (fun jy v => v.set M.toGlobals jx jy 0)) var

/-- `bndry_yup_flat(Field2D&)` (boundary.cpp:160). -/
def bndry_yup_flat_2d (M : Mesh) (var : Field2D) : Option Field2D :=
  LOOP_UPPER_BNDRY M (fun jx jy =>
    Field2D.copyElem M.toGlobals jx jy jx (M.ngy - 1 - M.MYG)) var

/-- `bndry_yup_zero(Field2D&)` (boundary.cpp:167). -/
def bndry_yup_zero_2d (M : Mesh) (var : Field2D) : Option Field2D :=
  LOOP_UPPER_BNDRY M (fun jx jy v => v.set M.toGlobals jx jy 0) var

/-- `bndry_ydown_flat(Field2D&)` (boundary.cpp:213). -/
def bndry_ydown_flat_2d (M : Mesh) (var : Field2D) : Option Field2D :=
  LOOP_LOWER_BNDRY M (fun jx jy => Field2D.copyElem M.toGlobals jx jy jx M.MYG) var

/-- `bndry_ydown_zero(Field2D&)` (boundary.cpp:220). -/
def bndry_ydown_zero_2d (M : Mesh) (var : Field2D) : Option Field2D :=
  LOOP_LOWER_BNDRY M (fun jx jy v => v.set M.toGlobals jx jy 0) var

/-! ## Lookup tables -/

/-- `enum BNDRY_TYPE` (boundary.cpp:254). -/
inductive BNDRY_TYPE
  | BNDRY_NULL
  | BNDRY_Z
  | BNDRY_ZERO_GRAD
  deriving DecidableEq

/-- The boundary functions of boundary.cpp that the tables point to; each name
stands for its `Field3D` and its `Field2D` overload. -/
inductive BndryFn
  | bndry_inner_zero
  | bndry_inner_flat
  | bndry_outer_zero
  | bndry_yup_flat
  | bndry_yup_zero
  | bndry_ydown_flat
  | bndry_ydown_zero
  deriving DecidableEq

/-- The `Field3D` overload a name stands for. -/
def BndryFn.call3d (M : Mesh) : BndryFn → Nat → State → Option State
  | .bndry_inner_zero => BOUT.bndry_inner_zero M
  | .bndry_inner_flat => BOUT.bndry_inner_flat M
  | .bndry_outer_zero => BOUT.bndry_outer_zero M
  | .bndry_yup_flat => BOUT.bndry_yup_flat M
  | .bndry_yup_zero => BOUT.bndry_yup_zero M
  | .bndry_ydown_flat => BOUT.bndry_ydown_flat M
  | .bndry_ydown_zero => BOUT.bndry_ydown_zero M

/-- The `Field2D` overload a name stands for. -/
def BndryFn.call2d (M : Mesh) : BndryFn → Field2D → Option Field2D
  | .bndry_inner_zero => bndry_inner_zero_2d M
  | .bndry_inner_flat => bndry_inner_flat_2d M
  | .bndry_outer_zero => bndry_outer_zero_2d M
  | .bndry_yup_flat => bndry_yup_flat_2d M
  | .bndry_yup_zero => bndry_yup_zero_2d M
  | .bndry_ydown_flat => bndry_ydown_flat_2d M
  | .bndry_ydown_zero => bndry_ydown_zero_2d M

/-- `struct BndryLookup` (boundary.cpp:270); a null function pointer is `none`. -/
structure BndryLookup where
  type : BNDRY_TYPE
  func3d : Option BndryFn
  func2d : Option BndryFn
  deriving DecidableEq

/-- `InnerBndryTable` (boundary.cpp:283). -/
def InnerBndryTable : List BndryLookup :=
  [⟨.BNDRY_Z, some .bndry_inner_zero, some .bndry_inner_zero⟩,
    ⟨.BNDRY_ZERO_GRAD, some .bndry_inner_flat, some .bndry_inner_flat⟩,
    ⟨.BNDRY_NULL, none, none⟩]

/-- `OuterBndryTable` (boundary.cpp:287). -/
def OuterBndryTable : List BndryLookup :=
  [⟨.BNDRY_Z, some .bndry_inner_zero, some .bndry_inner_zero⟩, ⟨.BNDRY_NULL, none, none⟩]

/-- `LowerBndryTable` (boundary.cpp:290). -/
def LowerBndryTable : List BndryLookup :=
  [⟨.BNDRY_Z, some .bndry_ydown_zero, some .bndry_ydown_zero⟩,
    ⟨.BNDRY_ZERO_GRAD, some .bndry_ydown_flat, some .bndry_ydown_flat⟩,
    ⟨.BNDRY_NULL, none, none⟩]

/-- `UpperBndryTable` (boundary.cpp:294). -/
def UpperBndryTable : List BndryLookup :=
  [⟨.BNDRY_Z, some .bndry_yup_zero, some .bndry_yup_zero⟩,
    ⟨.BNDRY_ZERO_GRAD, some .bndry_yup_flat, some .bndry_yup_flat⟩,
    ⟨.BNDRY_NULL, none, none⟩]

/-- The `do ... while(table[i].type != BNDRY_NULL)` loop of `BndryLookup3D` and
`BndryLookup2D` (boundary.cpp:354, 406) on the entries from `table[i]` on: `sel` is
the member read (`func3d` or `func2d`), `first` is `table[0]`'s.  Reading past the end
of the array is `none`. -/
def lookupFrom (sel : BndryLookup → Option BndryFn) (first : Option BndryFn)
    (type : BNDRY_TYPE) : List BndryLookup → Option (Option BndryFn)
  | [] => none
  | e :: rest =>
      if e.type = type then
        if sel e ≠ none then some (sel e) else some first
      else
        match rest with
        | [] => none
        | e2 :: _ =>
            if e2.type ≠ BNDRY_TYPE.BNDRY_NULL then lookupFrom sel first type rest
            else some first

/-- `BndryLookup3D(BndryLookup*, BNDRY_TYPE)` (boundary.cpp:347).  The outer `none`
is a read past the end of the table, the inner one a null function pointer. -/
def BndryLookup3D (table : List BndryLookup) (type : BNDRY_TYPE) : Option (Option BndryFn) :=
  match table with
  | [] => none
  | e0 :: _ =>
      if type = BNDRY_TYPE.BNDRY_NULL then some e0.func3d
      else lookupFrom BndryLookup.func3d e0.func3d type table

/-- `BndryLookup2D(BndryLookup*, BNDRY_TYPE)` (boundary.cpp:399). -/
def BndryLookup2D (table : List BndryLookup) (type : BNDRY_TYPE) : Option (Option BndryFn) :=
  match table with
  | [] => none
  | e0 :: _ =>
      if type = BNDRY_TYPE.BNDRY_NULL then some e0.func2d
      else lookupFrom BndryLookup.func2d e0.func2d type table

/-! ## Relaxing boundary conditions on `Field2D` -/

/-- The statement `F_var[jx][jy] = (tmpvar[jx][jy] - var[jx][jy]) / tconst;` of the
`Field2D` overload of `BndryRelax`. -/
def relaxPoint_2d (M : Mesh) (var tmpvar : Field2D) (tconst : ℚ) (jx jy : Int)
    (F_var : Field2D) : Option Field2D :=
  match tmpvar.get M.toGlobals jx jy, var.get M.toGlobals jx jy with
  | some a, some b => F_var.set M.toGlobals jx jy ((a - b) / tconst)
  | _, _ => none

/-- One loop nest of the `Field2D` overload of `BndryRelax`. -/
def relaxLoops_2d (M : Mesh) (var tmpvar : Field2D) (tconst : ℚ) (xs ys : List Int)
    (F_var : Field2D) : Option Field2D :=
  forEachM xs (fun jx => forEachM ys (fun jy => relaxPoint_2d M var tmpvar tconst jx jy))
    F_var

/-- The body of `case UPPER_Y` of the `Field2D` overload (boundary.cpp:593). -/
def relaxUpper_2d (M : Mesh) (var tmpvar : Field2D) (tconst : ℚ) (F_var : Field2D) :
    Option Field2D :=
  match (if M.UDATA_INDEST < 0 then
      relaxLoops_2d M var tmpvar tconst (upTo 0 M.UDATA_XSPLIT)
        (downTo (M.ngy - 1) (M.ngy - 1 - M.MYG)) F_var
    else some F_var) with
  | none => none
  | some F1 =>
      if M.UDATA_OUTDEST < 0 then
        relaxLoops_2d M var tmpvar tconst
          (upTo (if M.UDATA_XSPLIT < 0 then 0 else M.UDATA_XSPLIT) M.ngx)
          (downTo (M.ngy - 1) (M.ngy - 1 - M.MYG)) F1
      else some F1

/-- The body of `case LOWER_Y` of the `Field2D` overload (boundary.cpp:608). -/
def relaxLower_2d (M : Mesh) (var tmpvar : Field2D) (tconst : ℚ) (F_var : Field2D) :
    Option Field2D :=
  match (if M.DDATA_INDEST < 0 then
      relaxLoops_2d M var tmpvar tconst (upTo 0 M.DDATA_XSPLIT) (upTo 0 M.MYG) F_var
    else some F_var) with
  | none => none
  | some F1 =>
      if M.DDATA_OUTDEST < 0 then
        relaxLoops_2d M var tmpvar tconst
          (upTo (if M.DDATA_XSPLIT < 0 then 0 else M.DDATA_XSPLIT) M.ngx) (upTo 0 M.MYG) F1
      else some F1

/-- The `switch(loc)` of the `Field2D` overload of `BndryRelax` (boundary.cpp:581);
as in the `Field3D` overload, `case OUTER_X` runs on into `case UPPER_Y`. -/
def relaxSwitch_2d (M : Mesh) (var tmpvar : Field2D) (tconst : ℚ) (loc : Nat)
    (F_var : Field2D) : Option Field2D :=
  if loc = INNER_X then
    relaxLoops_2d M var tmpvar tconst (upTo 0 M.MXG) (upTo 0 M.ngy) F_var
  else if loc = OUTER_X then
    match relaxLoops_2d M var tmpvar tconst (downTo M.ncx (M.ncx - M.MXG))
        (upTo 0 M.ngy) F_var with
    | none => none
    | some F1 => relaxUpper_2d M var tmpvar tconst F1
  else if loc = UPPER_Y then relaxUpper_2d M var tmpvar tconst F_var
  else if loc = LOWER_Y then relaxLower_2d M var tmpvar tconst F_var
  else some F_var

/-- `BndryRelax(Field2D&, Field2D&, real, bndry_func2d, BNDRY_LOC)`
(boundary.cpp:562), for two distinct objects `var` and `F_var`; the result is the
pair of their values at the end.  The branch `tconst <= 0.0` has no `return`. -/
def BndryRelax_2d (M : Mesh) (var F_var : Field2D) (tconst : ℚ)
    (func : Field2D → Option Field2D) (loc : Nat) : Option (Field2D × Field2D) :=
  match (if tconst ≤ 0 then func var else some var) with
  | none => none
  | some var1 =>
      match func var1 with
      | none => none
      | some tmpvar =>
          match relaxSwitch_2d M var1 tmpvar tconst loc F_var with
          | none => none
          | some F1 => some (var1, F1)

/-! ## The intermediate-level interface -/

/-- The loop `for(i=0;i<3;i++) { if(loc & mask) apply(mask); mask *= 2; }` of
`apply_boundary` (boundary.cpp:658, 703), `n` being the number of rounds left. -/
def applyMasks {S : Type} (apply : Nat → S → Option S) (loc : Nat) :
    Nat → Nat → S → Option S
  | 0, _, s => some s
  | n + 1, mask, s =>
      match (if loc &&& mask ≠ 0 then apply mask s else some s) with
      | none => none
      | some s1 => applyMasks apply loc n (mask * 2) s1

/-- The `switch(loc)` of `apply_boundary` for a single edge. -/
def edgeTable (loc : Nat) : Option (List BndryLookup) :=
  if loc = INNER_X then some InnerBndryTable
  else if loc = OUTER_X then some OuterBndryTable
  else if loc = UPPER_Y then some UpperBndryTable
  else if loc = LOWER_Y then some LowerBndryTable
  else none

/-- `apply_boundary(Field3D&, Field3D&, BNDRY_LOC, BNDRY_TYPE, real)`
(boundary.cpp:631).  `fuel` bounds the depth of the recursion of the `default` case;
a call through a null function pointer is `none`. -/
def apply_boundary (M : Mesh) :
    Nat → Nat → Nat → Nat → BNDRY_TYPE → ℚ → State → Option State
  | fuel, var, F_var, loc, type, tconst, s =>
      if type = BNDRY_TYPE.BNDRY_NULL then some s
      else
        match edgeTable loc with
        | some table =>
            match BndryLookup3D table type with
            | some (some func) => BndryRelax M var F_var tconst (func.call3d M) loc s
            | _ => none
        | none =>
            match fuel with
            | 0 => none
            | fuel + 1 =>
                applyMasks (fun mask s1 => apply_boundary M fuel var F_var mask type tconst s1)
                  loc 3 1 s

/-- `apply_boundary(Field2D&, Field2D&, BNDRY_LOC, BNDRY_TYPE, real)`
(boundary.cpp:676), on the pair of the values of `var` and `F_var`. -/
def apply_boundary_2d (M : Mesh) :
    Nat → Nat → BNDRY_TYPE → ℚ → Field2D × Field2D → Option (Field2D × Field2D)
  | fuel, loc, type, tconst, vF =>
      if type = BNDRY_TYPE.BNDRY_NULL then some vF
      else
        match edgeTable loc with
        | some table =>
            match BndryLookup2D table type with
            | some (some func) => BndryRelax_2d M vF.1 vF.2 tconst (func.call2d M) loc
            | _ => none
        | none =>
            match fuel with
            | 0 => none
            | fuel + 1 =>
                applyMasks (fun mask vF1 => apply_boundary_2d M fuel mask type tconst vF1)
                  loc 3 1 vF

/-! ## The options of a boundary -/

/-- `struct BndryDesc` (boundary.cpp:300); a null string is `none`. -/
structure BndryDesc where
  table : List BndryLookup
  loc : Nat
  general : Option String
  code : Option String
  desc : Option String

/-- `getBndryString` (boundary.cpp:756).  `getString` is `options.getString`, which
returns null (`none`) for a setting that is absent; the messages written when
`verbose` is set are left out. -/
def getBndryString (getString : Option String → Option String → Option String)
    (name altname : Option String) (bndry : BndryDesc) : Option String :=
  match getString name bndry.code with
  | some str => some str
  | none =>
      match getString name bndry.general with
      | some str => some str
      | none =>
          match getString altname bndry.code with
          | some str => some str
          | none =>
              match getString altname bndry.general with
              | some str => some str
              | none =>
                  match getString (some "All") bndry.code with
                  | some str => some str
                  | none => getString (some "All") bndry.general

/-- The first setting that is present among the pairs of section and key `keys`,
in their order. -/
def firstSet (getString : Option String → Option String → Option String)
    (keys : List (Option String × Option String)) : Option String :=
  keys.findSome? (fun k => getString k.1 k.2)

/-- The function the comments of `BndryLookup3D` and `BndryLookup2D` describe:
the one of the first entry of type `type` when that entry has one, otherwise the one
of the first entry of the table (`first`). -/
def lookupSpec (sel : BndryLookup → Option BndryFn) (first : Option BndryFn)
    (type : BNDRY_TYPE) (entries : List BndryLookup) : Option BndryFn :=
  match entries.find? (fun e => decide (e.type = type)) with
  | some e => if sel e ≠ none then sel e else first
  | none => first

/-- `InnerBndry` (boundary.cpp:309), before any call of `BndrySetName`. -/
def InnerBndry : BndryDesc :=
  ⟨InnerBndryTable, INNER_X, some "xinner", none, none⟩

/-! ## Predicates about the boundary code -/

/-- What a piece of code did to the objects of `s`: in `t` the invariant holds, the
same objects are alive and have data, object `k` reads `w` on the grid points of `D`,
and every other object, and `k` on the grid points outside `D`, reads what it read
in `s`. -/
structure Changed (G : Globals) (s : State) (k : Nat) (D : Nat → Nat → Nat → Prop)
    (w : Nat → Nat → Nat → ℚ) (t : State) : Prop where
  inv : Inv t
  size : t.nfields = s.nfields
  live : ∀ j, j < s.nfields → (t.fields j).isSome = (s.fields j).isSome
  data : ∀ j, j < s.nfields →
    ((t.fields j).bind Field3D.block).isSome = ((s.fields j).bind Field3D.block).isSome
  here : ∀ x y z, x < G.ngx → y < G.ngy → z < G.ngz → D x y z →
    t.value k x y z = some (w x y z)
  rest : ∀ j x y z, j < s.nfields → x < G.ngx → y < G.ngy → z < G.ngz →
    (j ≠ k ∨ ¬ D x y z) → t.value j x y z = s.value j x y z

/-- Object `k` is alive and has data. -/
def State.hasData (s : State) (k : Nat) : Prop :=
  ∃ f b, s.field k = some f ∧ f.block = some b

/-- What `BndryRelax` relies on when it calls a boundary function on an object with
data: the call returns, and it changes the values of that object only. -/
def BndryOK (G : Globals) (func : Nat → State → Option State) : Prop :=
  ∀ (s : State) (k : Nat), Inv s → s.hasData k →
    ∃ t w, func k s = some t ∧ Changed G s k (fun _ _ _ => True) w t

/-- The loops of the boundary code stay inside the local grid. -/
structure Mesh.fits (M : Mesh) : Prop where
  mxg : M.MXG ≤ M.ngx
  myg : M.MYG < M.ngy
  ncx_lt : M.ncx < M.ngx
  ncx_ge : M.MXG ≤ M.ncx + 1
  usplit : M.UDATA_XSPLIT ≤ M.ngx
  dsplit : M.DDATA_XSPLIT ≤ M.ngx

/-! ## Sample meshes and fields -/

/-- A `ShiftZ` that changes no value: the result shares the block of the field. -/
def shiftZ_share (_ : Bool) (f : Field3D) (p : Pool) : Option (Field3D × Pool) :=
  f.copy_ctor p

/-- A mesh of `ngx` x `ngy` x `ngz` points with `MXG` guard cells in x and one in y,
on processor `PE_XIND` of `NXPE`, with no neighbour in y, built with `CHECK`. -/
def sampleMesh (ngx ngy ngz : Nat) (MXG PE_XIND NXPE : Int) : Mesh :=
  { toGlobals := ⟨ngx, ngy, ngz, false, interp_share, fun l _ => l⟩,
    CHECK := true, MXG := MXG, MYG := 1, ncx := (ngx : Int) - 1, PE_XIND := PE_XIND,
    NXPE := NXPE, UDATA_INDEST := -1, UDATA_OUTDEST := -1, UDATA_XSPLIT := 0,
    DDATA_INDEST := -1, DDATA_OUTDEST := -1, DDATA_XSPLIT := 0, ShiftXderivs := false,
    ShiftZ := shiftZ_share }

/-- The mesh of the end-to-end scenario: 6 x 6 x 5 points, `MXG = 2`, one processor. -/
def boxMesh : Mesh :=
  sampleMesh 6 6 5 2 0 1

/-- One field of value 1.0 on the mesh `boxMesh`. -/
def boxState : State :=
  (run boxMesh.toGlobals [Action.construct, Action.assignReal 0 1]
    (State.empty (fun _ _ _ _ => 0))).getD (State.empty (fun _ _ _ _ => 0))

/-- A mesh of 2 x 2 x 2 points with one guard cell in x, one processor. -/
def relaxMesh : Mesh :=
  sampleMesh 2 2 2 1 0 1

/-- The mesh `relaxMesh` seen from the second of two processors in x, which owns
the outer edge and not the inner one. -/
def outerMesh : Mesh :=
  sampleMesh 2 2 2 1 1 2

/-- An options file with the settings `[P] xinner = ZERO`, `[V] xinner = FLAT` and
`[All] xinner = ZERO_GRAD`. -/
def sampleOptions (sec key : Option String) : Option String :=
  if sec = some "P" ∧ key = some "xinner" then some "ZERO"
  else if sec = some "V" ∧ key = some "xinner" then some "FLAT"
  else if sec = some "All" ∧ key = some "xinner" then some "ZERO_GRAD"
  else none

/-- A `Field2D` of value `c` everywhere. -/
def Field2D.const (c : ℚ) : Field2D :=
  ⟨some (fun _ _ => c)⟩

/-! ## Globals and library routines of the z direction -/

/-- Modelled from the spec: the class `dcomplex` of `dcomplex.h` (not under src/), a
complex number given by its real and its imaginary part. -/
structure dcomplex where
  re : ℚ
  im : ℚ
  deriving DecidableEq

/-- Modelled from the spec: the product of two `dcomplex` numbers (`operator*=`). -/
def dcomplex.mul (a b : dcomplex) : dcomplex :=
  ⟨a.re * b.re - a.im * b.im, a.re * b.im + a.im * b.re⟩

/-- Functions of the C library that field3d.cpp calls on single values. -/
structure Libm where
  sqrt : ℚ → ℚ
  fabs : ℚ → ℚ
  sin : ℚ → ℚ
  cos : ℚ → ℚ
  tan : ℚ → ℚ
  sinh : ℚ → ℚ
  cosh : ℚ → ℚ
  tanh : ℚ → ℚ
  finite : ℚ → Bool

/-- Globals read by the z-direction code of field3d.cpp, on top of the ones of
`Globals`: whether `CHECK` is defined, the C library, the number `ncz` of points of
the periodic direction, its length `zlength`, the constant `PI`, the transforms
`rfft(in, length, out)` and `irfft(in, length, out)` of `fft.h` (given as the array
they fill), the macro `ROUND` (declared outside src/; given as the integer it yields
for a value), and the settings `ShiftXderivs`, `ShiftOrder`, `TwistShift` and
`TwistOrder`. -/
structure ZGrid extends Globals where
  CHECK : Bool
  libm : Libm
  ncz : Nat
  zlength : ℚ
  PI : ℚ
  rfft : (Nat → ℚ) → Nat → Nat → dcomplex
  irfft : (Nat → dcomplex) → Nat → Nat → ℚ
  ROUND : ℚ → Int
  ShiftXderivs : Bool
  ShiftOrder : Int
  TwistShift : Bool
  TwistOrder : Int

/-- The value `b->data[jx][jy][jz]` for `int` indices; an index outside the buffer
is `none`. -/
def Pool.readAt (G : Globals) (p : Pool) (b : Nat) (jx jy jz : Int) : Option ℚ :=
  if 0 ≤ jx ∧ jx < G.ngx ∧ 0 ≤ jy ∧ jy < G.ngy ∧ 0 ≤ jz ∧ jz < G.ngz then
    some (p.read b jx.toNat jy.toNat jz.toNat)
  else none

/-! ## Interpolation in z and stencils -/

/-- The value that an `int` of 32 bits holds for the integer `a`: `a` itself from
`-2^31` to `2^31 - 1`, and `a` wrapped around into that range otherwise. -/
def toInt32 (a : Int) : Int :=
  (a + 2147483648) % 4294967296 - 2147483648

/-- The head of `Field3D::interp_z` (field3d.cpp:1491-1502): the `int`
`zi = ROUND(zoffset)` and the rest `zoffset - (real) zi`; when the rest is negative
and `order > 1` they become `zi - 1`, again an `int`, and `zoffset + 1`.  `toInt32`
leaves the value of `ROUND` as it is whenever that value is an `int`. -/
def interp_z_split (ROUND : ℚ → Int) (zoffset : ℚ) (order : Int) : Int × ℚ :=
  if zoffset - (toInt32 (ROUND zoffset) : ℚ) < 0 ∧ order > 1 then
    (toInt32 (toInt32 (ROUND zoffset) - 1), zoffset - (toInt32 (ROUND zoffset) : ℚ) + 1)
  else (toInt32 (ROUND zoffset), zoffset - (toInt32 (ROUND zoffset) : ℚ))

/-- The `switch(order)` of `Field3D::interp_z` (field3d.cpp:1509-1536) for the
indices `jz0`, `jzp`, `jz2p`, `jzm` and the offset `zoffset`. -/
def interp_z_switch (G : Globals) (p : Pool) (b : Nat) (jx jy jz0 jzp jz2p jzm : Int)
    (zoffset : ℚ) (order : Int) : Option ℚ :=
  if order = 2 then do
    let d0 ← p.readAt G b jx jy jz0
    let dp ← p.readAt G b jx jy jzp
    pure ((1 - zoffset) * d0 + zoffset * dp)
  else if order = 3 then do
    let dm ← p.readAt G b jx jy jzm
    let d0 ← p.readAt G b jx jy jz0
    let dp ← p.readAt G b jx jy jzp
    pure (1 / 2 * zoffset * (zoffset - 1) * dm + (1 - zoffset * zoffset) * d0
      + 1 / 2 * zoffset * (zoffset + 1) * dp)
  else if order = 4 then do
    let dm ← p.readAt G b jx jy jzm
    let d0 ← p.readAt G b jx jy jz0
    let dp ← p.readAt G b jx jy jzp
    let d2p ← p.readAt G b jx jy jz2p
    pure (-zoffset * (zoffset - 1) * (zoffset - 2) * dm / 6
      + 1 / 2 * (zoffset * zoffset - 1) * (zoffset - 2) * d0
      - 1 / 2 * zoffset * (zoffset + 1) * (zoffset - 2) * dp
      + zoffset * (zoffset * zoffset - 1) * d2p / 6)
  else p.readAt G b jx jy jz0

/-- `Field3D::interp_z` (field3d.cpp:1489).  `Int.tmod` is the remainder `%` of C and
`toInt32` the `int` that holds the sum `jz0 + zi`; a field without data and `ncz = 0`
(a division by zero) are `none`. -/
def Field3D.interp_z (Z : ZGrid) (f : Field3D) (p : Pool) (jx jy jz0 : Int) (zoffset : ℚ)
    (order : Int) : Option ℚ :=
  match f.block with
  | none => none
  | some b =>
      if Z.ncz = 0 then none
      else
        interp_z_switch Z.toGlobals p b jx jy
          ((((toInt32 (jz0 + (interp_z_split Z.ROUND zoffset order).1)).tmod Z.ncz)
            + Z.ncz).tmod Z.ncz)
          ((((((toInt32 (jz0 + (interp_z_split Z.ROUND zoffset order).1)).tmod Z.ncz)
            + Z.ncz).tmod Z.ncz) + 1).tmod Z.ncz)
          ((((((toInt32 (jz0 + (interp_z_split Z.ROUND zoffset order).1)).tmod Z.ncz)
            + Z.ncz).tmod Z.ncz) + 2).tmod Z.ncz)
          ((((((toInt32 (jz0 + (interp_z_split Z.ROUND zoffset order).1)).tmod Z.ncz)
            + Z.ncz).tmod Z.ncz) - 1 + Z.ncz).tmod Z.ncz)
          (interp_z_split Z.ROUND zoffset order).2 order

/-- Modelled from the spec: the structure `bindex` (declared outside src/), with the
members that field3d.cpp reads: the index of a point, the indices of its neighbours
in x, y and z, the z offsets of the neighbours in x and y, and the flags that say
which neighbours in y lie across the twist-shift. -/
structure bindex where
  jx : Int
  jy : Int
  jz : Int
  jxp : Int
  jxm : Int
  jx2p : Int
  jx2m : Int
  jyp : Int
  jym : Int
  jy2p : Int
  jy2m : Int
  jzp : Int
  jzm : Int
  jz2p : Int
  jz2m : Int
  xp_offset : ℚ
  xm_offset : ℚ
  x2p_offset : ℚ
  x2m_offset : ℚ
  yp_offset : ℚ
  ym_offset : ℚ
  yp_shift : Bool
  ym_shift : Bool
  y2p_shift : Bool
  y2m_shift : Bool

/-- Modelled from the spec: the structure `stencil` (declared outside src/), with
the members that field3d.cpp writes: the index of the point and the values at the
centre `c`, at plus and minus one (`p`, `m`) and at plus and minus two (`pp`, `mm`). -/
structure stencil where
  jx : Int
  jy : Int
  jz : Int
  c : ℚ
  p : ℚ
  m : ℚ
  pp : ℚ
  mm : ℚ
  deriving DecidableEq

/-- The block `if(StaggerGrids && (loc != CELL_DEFAULT) && (loc != location))` that
ends `SetXStencil`, `SetYStencil` and `SetZStencil` (field3d.cpp:1365, 1431, 1470);
`low` is `CELL_XLOW`, `CELL_YLOW` or `CELL_ZLOW`. -/
def stencil.recentre (G : Globals) (location loc low : CELL_LOC) (fval : stencil) : stencil :=
  if G.StaggerGrids && decide (loc ≠ CELL_LOC.CELL_DEFAULT) && decide (loc ≠ location) then
    if location = CELL_LOC.CELL_CENTRE ∧ loc = low then
      { fval with pp := fval.p, p := fval.c }
    else if location = low then
      { fval with mm := fval.m, m := fval.c }
    else fval
  else fval

/-- `Field3D::SetXStencil` (field3d.cpp:1336). -/
def Field3D.SetXStencil (Z : ZGrid) (f : Field3D) (p : Pool) (bx : bindex) (loc : CELL_LOC) :
    Option stencil :=
  match f.block with
  | none => none
  | some b => do
      let c ← p.readAt Z.toGlobals b bx.jx bx.jy bx.jz
      let fval ←
        (if Z.ShiftXderivs && decide (Z.ShiftOrder ≠ 0) then do
          let vp ← f.interp_z Z p bx.jxp bx.jy bx.jz bx.xp_offset Z.ShiftOrder
          let vm ← f.interp_z Z p bx.jxm bx.jy bx.jz bx.xm_offset Z.ShiftOrder
          let vpp ← f.interp_z Z p bx.jxp bx.jy bx.jz bx.x2p_offset Z.ShiftOrder
          let vmm ← f.interp_z Z p bx.jxm bx.jy bx.jz bx.x2m_offset Z.ShiftOrder
          pure (⟨bx.jx, bx.jy, bx.jz, c, vp, vm, vpp, vmm⟩ : stencil)
        else do
          let vp ← p.readAt Z.toGlobals b bx.jxp bx.jy bx.jz
          let vm ← p.readAt Z.toGlobals b bx.jxm bx.jy bx.jz
          let vpp ← p.readAt Z.toGlobals b bx.jx2p bx.jy bx.jz
          let vmm ← p.readAt Z.toGlobals b bx.jx2m bx.jy bx.jz
          pure (⟨bx.jx, bx.jy, bx.jz, c, vp, vm, vpp, vmm⟩ : stencil))
      pure (fval.recentre Z.toGlobals f.location loc CELL_LOC.CELL_XLOW)

/-- One neighbour in y of `SetYStencil`: through `interp_z` when it lies across the
twist-shift, directly otherwise. -/
def Field3D.yNeighbour (Z : ZGrid) (f : Field3D) (p : Pool) (b : Nat) (shift : Bool)
    (jx jy jz : Int) (offset : ℚ) : Option ℚ :=
  if shift then f.interp_z Z p jx jy jz offset Z.TwistOrder
  else p.readAt Z.toGlobals b jx jy jz

/-- `Field3D::SetYStencil` (field3d.cpp:1384). -/
def Field3D.SetYStencil (Z : ZGrid) (f : Field3D) (p : Pool) (bx : bindex) (loc : CELL_LOC) :
    Option stencil :=
  match f.block with
  | none => none
  | some b => do
      let c ← p.readAt Z.toGlobals b bx.jx bx.jy bx.jz
      let fval ←
        (if !Z.TwistShift || decide (Z.TwistOrder = 0) then do
          let vp ← p.readAt Z.toGlobals b bx.jx bx.jyp bx.jz
          let vm ← p.readAt Z.toGlobals b bx.jx bx.jym bx.jz
          let vpp ← p.readAt Z.toGlobals b bx.jx bx.jy2p bx.jz
          let vmm ← p.readAt Z.toGlobals b bx.jx bx.jy2m bx.jz
          pure (⟨bx.jx, bx.jy, bx.jz, c, vp, vm, vpp, vmm⟩ : stencil)
        else do
          let vp ← f.yNeighbour Z p b bx.yp_shift bx.jx bx.jyp bx.jz bx.yp_offset
          let vm ← f.yNeighbour Z p b bx.ym_shift bx.jx bx.jym bx.jz bx.ym_offset
          let vpp ← f.yNeighbour Z p b bx.y2p_shift bx.jx bx.jy2p bx.jz bx.yp_offset
          let vmm ← f.yNeighbour Z p b bx.y2m_shift bx.jx bx.jy2m bx.jz bx.ym_offset
          pure (⟨bx.jx, bx.jy, bx.jz, c, vp, vm, vpp, vmm⟩ : stencil))
      pure (fval.recentre Z.toGlobals f.location loc CELL_LOC.CELL_YLOW)

/-- `Field3D::SetZStencil` (field3d.cpp:1449). -/
def Field3D.SetZStencil (Z : ZGrid) (f : Field3D) (p : Pool) (bx : bindex) (loc : CELL_LOC) :
    Option stencil :=
  match f.block with
  | none => none
  | some b => do
      let c ← p.readAt Z.toGlobals b bx.jx bx.jy bx.jz
      let vp ← p.readAt Z.toGlobals b bx.jx bx.jy bx.jzp
      let vm ← p.readAt Z.toGlobals b bx.jx bx.jy bx.jzm
      let vpp ← p.readAt Z.toGlobals b bx.jx bx.jy bx.jz2p
      let vmm ← p.readAt Z.toGlobals b bx.jx bx.jy bx.jz2m
      pure ((⟨bx.jx, bx.jy, bx.jz, c, vp, vm, vpp, vmm⟩ : stencil).recentre Z.toGlobals
        f.location loc CELL_LOC.CELL_ZLOW)

/-- Every index of the `bindex` lies inside the local grid. -/
def bindex.inGrid (G : Globals) (bx : bindex) : Prop :=
  (0 ≤ bx.jx ∧ bx.jx < G.ngx) ∧ (0 ≤ bx.jxp ∧ bx.jxp < G.ngx) ∧
    (0 ≤ bx.jxm ∧ bx.jxm < G.ngx) ∧ (0 ≤ bx.jx2p ∧ bx.jx2p < G.ngx) ∧
    (0 ≤ bx.jx2m ∧ bx.jx2m < G.ngx) ∧
    (0 ≤ bx.jy ∧ bx.jy < G.ngy) ∧ (0 ≤ bx.jyp ∧ bx.jyp < G.ngy) ∧
    (0 ≤ bx.jym ∧ bx.jym < G.ngy) ∧ (0 ≤ bx.jy2p ∧ bx.jy2p < G.ngy) ∧
    (0 ≤ bx.jy2m ∧ bx.jy2m < G.ngy) ∧
    (0 ≤ bx.jz ∧ bx.jz < G.ngz) ∧ (0 ≤ bx.jzp ∧ bx.jzp < G.ngz) ∧
    (0 ≤ bx.jzm ∧ bx.jzm < G.ngz) ∧ (0 ≤ bx.jz2p ∧ bx.jz2p < G.ngz) ∧
    (0 ≤ bx.jz2m ∧ bx.jz2m < G.ngz)

/-! ## Reductions, tests and pointwise functions -/

/-- The scan of `Field3D::Min` (field3d.cpp:1845-1851): `result` starts at
`block->data[0][0][0]` and takes every smaller value met on the grid. -/
def Field3D.minScan (G : Globals) (p : Pool) (b : Nat) : ℚ :=
  loop3 G.ngx G.ngy G.ngz
    (fun jx jy jz result => if p.read b jx jy jz < result then p.read b jx jy jz else result)
    (p.read b 0 0 0)

/-- `Field3D::Min` (field3d.cpp:1827).  `allreduce` is the call of `MPI_Allreduce`
with `MPI_MIN`.  A field without data is `none`, and so is an empty grid, where
`block->data[0][0][0]` lies outside the buffer. -/
def Field3D.Min (G : Globals) (allreduce : ℚ → ℚ) (f : Field3D) (p : Pool) (allpe : Bool) :
    Option ℚ :=
  match f.block with
  | none => none
  | some b =>
      if 0 < G.ngx ∧ 0 < G.ngy ∧ 0 < G.ngz then
        some (if allpe then allreduce (Field3D.minScan G p b) else Field3D.minScan G p b)
      else none

/-- The scan of `Field3D::Max` (field3d.cpp:1882-1888). -/
def Field3D.maxScan (G : Globals) (p : Pool) (b : Nat) : ℚ :=
  loop3 G.ngx G.ngy G.ngz
    (fun jx jy jz result => if p.read b jx jy jz > result then p.read b jx jy jz else result)
    (p.read b 0 0 0)

/-- `Field3D::Max` (field3d.cpp:1865).  `allreduce` is the call of `MPI_Allreduce`
with `MPI_MAX`. -/
def Field3D.Max (G : Globals) (allreduce : ℚ → ℚ) (f : Field3D) (p : Pool) (allpe : Bool) :
    Option ℚ :=
  match f.block with
  | none => none
  | some b =>
      if 0 < G.ngx ∧ 0 < G.ngy ∧ 0 < G.ngz then
        some (if allpe then allreduce (Field3D.maxScan G p b) else Field3D.maxScan G p b)
      else none

/-- `finite(const Field3D&)` (field3d.cpp:2559).  The loops run over `jx < ngx`,
`jy < ngy` and `jz < ncz`; the flag carried through them is `false` once the
function has returned `false`. -/
def finite (Z : ZGrid) (f : Field3D) (p : Pool) : Bool :=
  match f.block with
  | none => false
  | some b =>
      loop3 Z.ngx Z.ngy Z.ncz
        (fun jx jy jz r => if r = false then false else Z.libm.finite (p.read b jx jy jz)) true

/-- The body shared by `Field3D::Sqrt`, `Field3D::Abs` and the friend functions
`sin` to `tanh`: `result.Allocate()`, the loops that store `fn` of the value of `f`
at every grid point, and `result.location = location`.  A field without data is
`none` (the program stops under `CHECK` and reads through a null pointer otherwise). -/
def Field3D.mapValues (G : Globals) (fn : ℚ → ℚ) (f : Field3D) (p : Pool) :
    Option (Field3D × Pool) :=
  match f.block with
  | none => none
  | some b =>
      match (Field3D.ctor.Allocate G p).1.block with
      | none => none
      | some rb =>
          some (⟨some rb, f.location⟩,
            loop3 G.ngx G.ngy G.ngz
              (fun jx jy jz q => q.write rb jx jy jz (fn (q.read b jx jy jz)))
              (Field3D.ctor.Allocate G p).2)

/-- `Field3D::Sqrt` (field3d.cpp:1754); the test of the values under `CHECK` only
writes messages. -/
def Field3D.Sqrt (G : Globals) (L : Libm) (f : Field3D) (p : Pool) : Option (Field3D × Pool) :=
  f.mapValues G L.sqrt p

/-- `Field3D::Abs` (field3d.cpp:1798). -/
def Field3D.Abs (G : Globals) (L : Libm) (f : Field3D) (p : Pool) : Option (Field3D × Pool) :=
  f.mapValues G L.fabs p

/-- The friend function `sin(const Field3D&)` (field3d.cpp:2209). -/
def Field3D.sin (G : Globals) (L : Libm) (f : Field3D) (p : Pool) : Option (Field3D × Pool) :=
  f.mapValues G L.sin p

/-- The friend function `cos(const Field3D&)` (field3d.cpp:2230). -/
def Field3D.cos (G : Globals) (L : Libm) (f : Field3D) (p : Pool) : Option (Field3D × Pool) :=
  f.mapValues G L.cos p

/-- The friend function `tan(const Field3D&)` (field3d.cpp:2251). -/
def Field3D.tan (G : Globals) (L : Libm) (f : Field3D) (p : Pool) : Option (Field3D × Pool) :=
  f.mapValues G L.tan p

/-- The friend function `sinh(const Field3D&)` (field3d.cpp:2272). -/
def Field3D.sinh (G : Globals) (L : Libm) (f : Field3D) (p : Pool) : Option (Field3D × Pool) :=
  f.mapValues G L.sinh p

/-- The friend function `cosh(const Field3D&)` (field3d.cpp:2293). -/
def Field3D.cosh (G : Globals) (L : Libm) (f : Field3D) (p : Pool) : Option (Field3D × Pool) :=
  f.mapValues G L.cosh p

/-- The friend function `tanh(const Field3D&)` (field3d.cpp:2314). -/
def Field3D.tanh (G : Globals) (L : Libm) (f : Field3D) (p : Pool) : Option (Field3D × Pool) :=
  f.mapValues G L.tanh p

/-- The eight pointwise functions of field3d.cpp. -/
inductive MathFn
  | sqrt
  | abs
  | sin
  | cos
  | tan
  | sinh
  | cosh
  | tanh
  deriving DecidableEq

/-- The C library function a pointwise function applies to a value. -/
def MathFn.value (L : Libm) : MathFn → ℚ → ℚ
  | .sqrt => L.sqrt
  | .abs => L.fabs
  | .sin => L.sin
  | .cos => L.cos
  | .tan => L.tan
  | .sinh => L.sinh
  | .cosh => L.cosh
  | .tanh => L.tanh

/-- The function of field3d.cpp a name stands for. -/
def MathFn.call (G : Globals) (L : Libm) : MathFn → Field3D → Pool → Option (Field3D × Pool)
  | .sqrt => Field3D.Sqrt G L
  | .abs => Field3D.Abs G L
  | .sin => Field3D.sin G L
  | .cos => Field3D.cos G L
  | .tan => Field3D.tan G L
  | .sinh => Field3D.sinh G L
  | .cosh => Field3D.cosh G L
  | .tanh => Field3D.tanh G L

/-! ## Fourier filtering and shifting in z -/

/-- The statement `return result;` for a local `result`: the language lets the
compiler build the local in the place of the returned object (`elide`); otherwise
the returned object is copy-constructed from the local, which is then destroyed. -/
def returnLocal (elide : Bool) (result : Field3D) (p : Pool) : Option (Field3D × Pool) :=
  if elide then some (result, p)
  else
    match result.copy_ctor p with
    | none => none
    | some (r, p1) => some (r, result.dtor p1)

/-- The array `b->data[jx][jy]` handed to `rfft`. -/
def Pool.line (p : Pool) (b jx jy : Nat) : Nat → ℚ :=
  fun jz => p.read b jx jy jz

/-- The statements `irfft(v, ncz, b->data[jx][jy]); b->data[jx][jy][ncz] =
b->data[jx][jy][0];`, where `out` holds the `ncz` values `irfft` computes from `v`. -/
def Pool.storeLine (p : Pool) (b jx jy ncz : Nat) (out : Nat → ℚ) : Pool :=
  (forLoop ncz (fun jz q => q.write b jx jy jz (out jz)) p).write b jx jy ncz
    ((forLoop ncz (fun jz q => q.write b jx jy jz (out jz)) p).read b jx jy 0)

/-- The loop `for(jz=zmax+1;jz<=ncz/2;jz++) f[jz] = 0.0;` of `low_pass`
(field3d.cpp:2491); the counter is `jz = zmax + 1 + i`. -/
def zeroModes (ncz : Nat) (zmax : Int) (v : Nat → dcomplex) : Nat → dcomplex :=
  forLoop (((ncz / 2 : Nat) : Int) - zmax).toNat
    (fun i w => Function.update w (zmax + 1 + (i : Int)).toNat ⟨0, 0⟩) v

/-- The statement `if(zmin==0) f[0] = 0.0;` of the second `low_pass`
(field3d.cpp:2541). -/
def zeroZonal (zmin : Int) (v : Nat → dcomplex) : Nat → dcomplex :=
  if zmin = 0 then Function.update v 0 ⟨0, 0⟩ else v

/-- The loops over `jx` and `jy` of `low_pass` (field3d.cpp:2484-2498): the line of
block `b` is transformed, filtered by `filter` and transformed back into the line of
block `rb`. -/
def lowPassLines (Z : ZGrid) (filter : (Nat → dcomplex) → Nat → dcomplex) (b rb : Nat)
    (p : Pool) : Pool :=
  forLoop Z.ngx (fun jx px =>
    forLoop Z.ngy (fun jy q =>
      q.storeLine rb jx jy Z.ncz (Z.irfft (filter (Z.rfft (q.line b jx jy) Z.ncz)) Z.ncz))
      px) p

/-- `low_pass(const Field3D &var, int zmax)` (field3d.cpp:2463).  `return var` copies
the argument. -/
def low_pass (Z : ZGrid) (elide : Bool) (var : Field3D) (zmax : Int) (p : Pool) :
    Option (Field3D × Pool) :=
  match var.block with
  | none => var.copy_ctor p
  | some b =>
      if zmax ≥ ((Z.ncz / 2 : Nat) : Int) ∨ zmax < 0 then var.copy_ctor p
      else
        match (Field3D.ctor.Allocate Z.toGlobals p).1.block with
        | none => none
        | some rb =>
            returnLocal elide ⟨some rb, var.location⟩
              (lowPassLines Z (zeroModes Z.ncz zmax) b rb
                (Field3D.ctor.Allocate Z.toGlobals p).2)

/-- `low_pass(const Field3D &var, int zmax, int zmin)` (field3d.cpp:2510).  When
nothing is to be removed the function returns its local `result`, which has not been
allocated. -/
def low_pass_zmin (Z : ZGrid) (elide : Bool) (var : Field3D) (zmax zmin : Int) (p : Pool) :
    Option (Field3D × Pool) :=
  match var.block with
  | none => var.copy_ctor p
  | some b =>
      if zmax ≥ ((Z.ncz / 2 : Nat) : Int) ∨ zmax < 0 then returnLocal elide Field3D.ctor p
      else
        match (Field3D.ctor.Allocate Z.toGlobals p).1.block with
        | none => none
        | some rb =>
            returnLocal elide ⟨some rb, var.location⟩
              (lowPassLines Z (fun v => zeroZonal zmin (zeroModes Z.ncz zmax v)) b rb
                (Field3D.ctor.Allocate Z.toGlobals p).2)

/-- The loop `for(jz=1;jz<=ncz/2;jz++) { kwave=jz*2.0*PI/zlength; v[jz] *=
dcomplex(cos(kwave*zangle), -sin(kwave*zangle)); }` of `ShiftZ` (field3d.cpp:1567);
the counter is `jz = i + 1`. -/
def phaseShift (Z : ZGrid) (zangle : ℚ) (v : Nat → dcomplex) : Nat → dcomplex :=
  forLoop (Z.ncz / 2)
    (fun i w => Function.update w (i + 1)
      ((w (i + 1)).mul
        ⟨Z.libm.cos (((i + 1 : Nat) : ℚ) * 2 * Z.PI / Z.zlength * zangle),
          -Z.libm.sin (((i + 1 : Nat) : ℚ) * 2 * Z.PI / Z.zlength * zangle)⟩)) v

/-- `Field3D::ShiftZ(int jx, int jy, double zangle)` (field3d.cpp:1541).  Under
`CHECK` a field without data stops the program; a line outside the buffer is `none`. -/
def Field3D.ShiftZ_line (Z : ZGrid) (f : Field3D) (jx jy : Nat) (zangle : ℚ) (p : Pool) :
    Option (Field3D × Pool) :=
  if Z.CHECK && f.block.isNone then none
  else if Z.ncz = 1 then some (f, p)
  else
    match (f.Allocate Z.toGlobals p).1.block with
    | none => none
    | some b =>
        if jx < Z.ngx ∧ jy < Z.ngy then
          some ((f.Allocate Z.toGlobals p).1,
            (f.Allocate Z.toGlobals p).2.storeLine b jx jy Z.ncz
              (Z.irfft (phaseShift Z zangle
                (Z.rfft ((f.Allocate Z.toGlobals p).2.line b jx jy) Z.ncz)) Z.ncz))
        else none

/-- A `for` loop from `0` to `n - 1` whose body can stop the program. -/
def forLoopM {S : Type} (n : Nat) (body : Nat → S → Option S) (s : S) : Option S :=
  match n with
  | 0 => some s
  | k + 1 =>
      match forLoopM k body s with
      | none => none
      | some t => body k t

/-- `Field3D::ShiftZ(const real zangle) const` (field3d.cpp:1603): `result = *this`,
then every line of `result` is shifted. -/
def Field3D.ShiftZ (Z : ZGrid) (elide : Bool) (f : Field3D) (zangle : ℚ) (p : Pool) :
    Option (Field3D × Pool) :=
  match Field3D.ctor.operator_assign f false p with
  | none => none
  | some r0 =>
      match forLoopM Z.ngx (fun jx rx =>
          forLoopM Z.ngy (fun jy r => Field3D.ShiftZ_line Z r.1 jx jy zangle r.2) rx) r0 with
      | none => none
      | some r => returnLocal elide r.1 r.2

/-- What the field code relies on when it calls `rfft` and `irfft` of `fft.h` with
length `ncz`: they are the real discrete Fourier transform and its inverse.  `rfft`
reads `ncz` values and gives the coefficients of the modes `0` to `ncz/2`, the one of
mode `0` real and, for even `ncz`, the one of mode `ncz/2` real; `irfft` reads those
coefficients and gives `ncz` values; each undoes the other. -/
structure ZGrid.ExactDFT (Z : ZGrid) : Prop where
  rfft_reads : ∀ x y : Nat → ℚ, (∀ z, z < Z.ncz → x z = y z) →
    ∀ k, k ≤ Z.ncz / 2 → Z.rfft x Z.ncz k = Z.rfft y Z.ncz k
  irfft_reads : ∀ v w : Nat → dcomplex, (∀ k, k ≤ Z.ncz / 2 → v k = w k) →
    ∀ z, z < Z.ncz → Z.irfft v Z.ncz z = Z.irfft w Z.ncz z
  dc_real : ∀ x : Nat → ℚ, (Z.rfft x Z.ncz 0).im = 0
  nyquist_real : ∀ x : Nat → ℚ, Z.ncz % 2 = 0 → (Z.rfft x Z.ncz (Z.ncz / 2)).im = 0
  inv_fwd : ∀ (x : Nat → ℚ) (z : Nat), z < Z.ncz → Z.irfft (Z.rfft x Z.ncz) Z.ncz z = x z
  fwd_inv : ∀ v : Nat → dcomplex, (v 0).im = 0 →
    (Z.ncz % 2 = 0 → (v (Z.ncz / 2)).im = 0) →
    ∀ k, k ≤ Z.ncz / 2 → Z.rfft (Z.irfft v Z.ncz) Z.ncz k = v k

/-- What `ShiftZ` relies on when it calls `cos` and `sin`: `cos` is even, `sin` is odd
and the squares of the two add up to one. -/
structure Libm.Circular (L : Libm) : Prop where
  cos_neg : ∀ t, L.cos (-t) = L.cos t
  sin_neg : ∀ t, L.sin (-t) = -L.sin t
  unit : ∀ t, L.cos t * L.cos t + L.sin t * L.sin t = 1

/-- The line `ShiftZ(jx, jy, zangle)` leaves where it found the line `x`, up to the
point `z = ncz`: the shifted values, and the first of them again at `z = ncz`. -/
def ZGrid.shiftLine (Z : ZGrid) (zangle : ℚ) (x : Nat → ℚ) (z : Nat) : ℚ :=
  if z < Z.ncz then Z.irfft (phaseShift Z zangle (Z.rfft x Z.ncz)) Z.ncz z
  else Z.irfft (phaseShift Z zangle (Z.rfft x Z.ncz)) Z.ncz 0

/-- The line `low_pass` stores for the line `x`, up to the point `z = ncz`. -/
def ZGrid.filterLine (Z : ZGrid) (filter : (Nat → dcomplex) → Nat → dcomplex) (x : Nat → ℚ)
    (z : Nat) : ℚ :=
  if z < Z.ncz then Z.irfft (filter (Z.rfft x Z.ncz)) Z.ncz z
  else Z.irfft (filter (Z.rfft x Z.ncz)) Z.ncz 0

/-! ## Sample grids in z -/

/-- A square root that is exact on the squares of rational numbers. -/
def sampleSqrt (q : ℚ) : ℚ :=
  (Nat.sqrt q.num.natAbs : ℚ) / (Nat.sqrt q.den : ℚ)

/-- Sample library functions on rational numbers.  `cos` and `sin` are the rational
parametrisation of the circle, with a quarter turn at `t = 2`; a value counts as
finite up to `10 ^ 308` in size. -/
def sampleLibm : Libm :=
  { sqrt := sampleSqrt
    fabs := fun q => |q|
    sin := fun t => t / (1 + t / 2 * (t / 2))
    cos := fun t => (1 - t / 2 * (t / 2)) / (1 + t / 2 * (t / 2))
    tan := fun t => t / (1 - t / 2 * (t / 2))
    sinh := fun t => t
    cosh := fun _ => 1
    tanh := fun t => t
    finite := fun q => decide (|q| ≤ 10 ^ 308) }

/-- Sample forward transform: the real discrete Fourier transform of the lengths 1
and 2, and for the length 3 the transform that gives the imaginary part of mode 1 in
units of the square root of 3. -/
def sampleRfft (x : Nat → ℚ) (n : Nat) (k : Nat) : dcomplex :=
  match n, k with
  | 1, 0 => ⟨x 0, 0⟩
  | 2, 0 => ⟨x 0 + x 1, 0⟩
  | 2, 1 => ⟨x 0 - x 1, 0⟩
  | 3, 0 => ⟨x 0 + x 1 + x 2, 0⟩
  | 3, 1 => ⟨x 0 - (x 1 + x 2) / 2, (x 2 - x 1) / 2⟩
  | _, _ => ⟨0, 0⟩

/-- Sample inverse transform, the inverse of `sampleRfft`; it reads the real part of
the coefficients of mode `0` and, for the length 2, of mode `1`. -/
def sampleIrfft (v : Nat → dcomplex) (n : Nat) (z : Nat) : ℚ :=
  match n, z with
  | 1, 0 => (v 0).re
  | 2, 0 => ((v 0).re + (v 1).re) / 2
  | 2, 1 => ((v 0).re - (v 1).re) / 2
  | 3, 0 => ((v 0).re + 2 * (v 1).re) / 3
  | 3, 1 => ((v 0).re - (v 1).re) / 3 - (v 1).im
  | 3, 2 => ((v 0).re - (v 1).re) / 3 + (v 1).im
  | _, _ => 0

/-- A sample for the macro `ROUND` and the conversion of its value to the `int zi`:
the nearest integer where it fits the `int`, and `-2^31` where it does not, the value
that the conversion instructions of x86 give out of range. -/
def sampleROUND (q : ℚ) : Int :=
  if |q| ≤ 2147483647 then round q else -2147483648

/-- A grid of `ngx` x `ngy` x `ngz` points with `ncz` points in the period of z, of
length `2 PI`, with staggering on and the sample library and transforms. -/
def sampleZ (ngx ngy ngz ncz : Nat) : ZGrid :=
  { toGlobals := ⟨ngx, ngy, ngz, true, interp_share, fun l _ => l⟩
    CHECK := true
    libm := sampleLibm
    ncz := ncz
    zlength := 2 * (355 / 113)
    PI := 355 / 113
    rfft := sampleRfft
    irfft := sampleIrfft
    ROUND := sampleROUND
    ShiftXderivs := false
    ShiftOrder := 0
    TwistShift := false
    TwistOrder := 0 }

/-- One field on a grid of one line in z, with the value `2 z + 1` at the point `z`:
the block is created by `Allocate()` and holds what the memory held. -/
def lineState (ngz ncz : Nat) : State :=
  (run (sampleZ 1 1 ngz ncz).toGlobals [Action.construct, Action.allocate 0]
    (State.empty (fun _ _ _ z => 2 * (z : ℚ) + 1))).getD (State.empty (fun _ _ _ _ => 0))

/-- The indices of the point `(0, 0, 0)` on a grid of 2 x 2 x 2 points, with no shift
in z. -/
def sampleBindex : bindex :=
  { jx := 0, jy := 0, jz := 0, jxp := 1, jxm := 0, jx2p := 1, jx2m := 0,
    jyp := 1, jym := 0, jy2p := 1, jy2m := 0, jzp := 1, jzm := 1, jz2p := 0, jz2m := 0,
    xp_offset := 0, xm_offset := 0, x2p_offset := 0, x2m_offset := 0,
    yp_offset := 0, ym_offset := 0,
    yp_shift := false, ym_shift := false, y2p_shift := false, y2m_shift := false }

/-- The objects of `sampleState` with the second one, `b = 3.0`, at `CELL_XLOW`. -/
def stagState : State :=
  ⟨sampleState.pool,
    Function.update sampleState.fields 1 (some ⟨some 1, CELL_LOC.CELL_XLOW⟩), 2⟩

/-! ## The lookups by label -/

/-- `struct BndryNameLookup` (boundary.cpp:263); a null string is `none`. -/
structure BndryNameLookup where
  type : BNDRY_TYPE
  label : Option String
  name : Option String
  deriving DecidableEq

/-- `BndryNameTable` (boundary.cpp:279). -/
def BndryNameTable : List BndryNameLookup :=
  [⟨.BNDRY_Z, some "ZERO", some "Zero value"⟩,
    ⟨.BNDRY_ZERO_GRAD, some "ZERO_GRAD", some "Zero gradient"⟩,
    ⟨.BNDRY_NULL, none, none⟩]

/-- The loop `do { } while(BndryNameTable[i].type != BNDRY_NULL);` of
`BndryLookup3D(BndryLookup*, const char*, bool)` (boundary.cpp:472): the body is empty
and `i` keeps its value.  `fuel` is the number of rounds the loop may make; `none` is a
loop that has not ended within them, or a read past the end of the table. -/
def nameLoop : Nat → Nat → Option BNDRY_TYPE
  | 0, _ => none
  | fuel + 1, i =>
      match BndryNameTable.get? i with
      | none => none
      | some e =>
          if e.type ≠ BNDRY_TYPE.BNDRY_NULL then nameLoop fuel i
          else some BNDRY_TYPE.BNDRY_NULL

/-- `BndryLookup3D(BndryLookup *table, const char *label, bool dummy)`
(boundary.cpp:463); a null `label` is `none`. -/
def BndryLookup3D_label (fuel : Nat) (table : List BndryLookup) (label : Option String)
    (_dummy : Bool) : Option BNDRY_TYPE :=
  match label with
  | none => table.head?.map BndryLookup.type
  | some l =>
      if l = "" then table.head?.map BndryLookup.type
      else nameLoop fuel 0

/-- `BndryLookup2D(BndryLookup *table, const char *label, bool dummy)`
(boundary.cpp:480). -/
def BndryLookup2D_label (_table : List BndryLookup) (_label : Option String)
    (_dummy : Bool) : BNDRY_TYPE :=
  BNDRY_TYPE.BNDRY_NULL

/-- The translation that `BndryNameTable` stands for, the specification of a lookup by
label: the type of the first entry of the table with this short name. -/
def BndryNameTable.typeOf (label : String) : Option BNDRY_TYPE :=
  (BndryNameTable.find? (fun e => e.label = some label)).map BndryNameLookup.type

/-! ## The full stencil -/

/-- Modelled from the spec: the structure `bstencil` (declared outside src/), with the
members that `Field3D::SetStencil` writes: the index of the point, the value `cc` at
the point and the values at one and two points away in x, y and z. -/
structure bstencil where
  jx : Int
  jy : Int
  jz : Int
  cc : ℚ
  xp : ℚ
  xm : ℚ
  x2p : ℚ
  x2m : ℚ
  yp : ℚ
  ym : ℚ
  y2p : ℚ
  y2m : ℚ
  zp : ℚ
  zm : ℚ
  z2p : ℚ
  z2m : ℚ
  deriving DecidableEq

/-- `Field3D::SetStencil` (field3d.cpp:1275).  `fval` is the stencil handed in, whose
members in x are kept when `need_x` is off. -/
def Field3D.SetStencil (Z : ZGrid) (f : Field3D) (p : Pool) (fval : bstencil) (bx : bindex)
    (need_x : Bool) : Option bstencil :=
  match f.block with
  | none => none
  | some b => do
      let cc ← p.readAt Z.toGlobals b bx.jx bx.jy bx.jz
      let fx ←
        (if need_x then
          if Z.ShiftXderivs then do
            let xp ← f.interp_z Z p bx.jxp bx.jy bx.jz bx.xp_offset Z.ShiftOrder
            let xm ← f.interp_z Z p bx.jxm bx.jy bx.jz bx.xm_offset Z.ShiftOrder
            let x2p ← f.interp_z Z p bx.jx2p bx.jy bx.jz bx.x2p_offset Z.ShiftOrder
            let x2m ← f.interp_z Z p bx.jx2m bx.jy bx.jz bx.x2m_offset Z.ShiftOrder
            pure (xp, xm, x2p, x2m)
          else do
            let xp ← p.readAt Z.toGlobals b bx.jxp bx.jy bx.jz
            let xm ← p.readAt Z.toGlobals b bx.jxm bx.jy bx.jz
            let x2p ← p.readAt Z.toGlobals b bx.jx2p bx.jy bx.jz
            let x2m ← p.readAt Z.toGlobals b bx.jx2m bx.jy bx.jz
            pure (xp, xm, x2p, x2m)
        else pure (fval.xp, fval.xm, fval.x2p, fval.x2m))
      let yp ← f.yNeighbour Z p b bx.yp_shift bx.jx bx.jyp bx.jz bx.yp_offset
      let ym ← f.yNeighbour Z p b bx.ym_shift bx.jx bx.jym bx.jz bx.ym_offset
      let y2p ← f.yNeighbour Z p b bx.y2p_shift bx.jx bx.jy2p bx.jz bx.yp_offset
      let y2m ← f.yNeighbour Z p b bx.y2m_shift bx.jx bx.jy2m bx.jz bx.ym_offset
      let zp ← p.readAt Z.toGlobals b bx.jx bx.jy bx.jzp
      let zm ← p.readAt Z.toGlobals b bx.jx bx.jy bx.jzm
      let z2p ← p.readAt Z.toGlobals b bx.jx bx.jy bx.jz2p
      let z2m ← p.readAt Z.toGlobals b bx.jx bx.jy bx.jz2m
      pure ⟨bx.jx, bx.jy, bx.jz, cc, fx.1, fx.2.1, fx.2.2.1, fx.2.2.2, yp, ym, y2p, y2m,
        zp, zm, z2p, z2m⟩

/-! ## The z indices of `interp_z` -/

/-- Modelled from the spec: the type `rvec` (declared outside src/), a
`std::vector<real>`. -/
abbrev rvec := List ℚ

/-- The choice `(fabs(ep) < fabs(em)) ? ep : em` of `nl_filter`. -/
def nl_pick (L : Libm) (ep em : ℚ) : ℚ :=
  if L.fabs ep < L.fabs em then ep else em

/-- The body of the loop of `nl_filter` (smoothing.cpp:159-190) for the index `i`. -/
def nl_filter_step (L : Libm) (w : ℚ) (i : Nat) (f : rvec) : rvec :=
  let dp := f.getD (i + 1) 0 - f.getD i 0
  let dm := f.getD (i - 1) 0 - f.getD i 0
  if dp * dm > 0 then
    if L.fabs dp > L.fabs dm then
      let e := nl_pick L (w * (1 / 2) * dp) (w * dm)
      let f1 := f.set (i + 1) (f.getD (i + 1) 0 - e)
      f1.set i (f1.getD i 0 + e)
    else
      let e := nl_pick L (w * (1 / 2) * dm) (w * dp)
      let f1 := f.set (i - 1) (f.getD (i - 1) 0 - e)
      f1.set i (f1.getD i 0 + e)
  else f

/-- `nl_filter(rvec &f, real w)` (smoothing.cpp:157); the counter takes the values
`i = j + 1` for `j` from `0` to `size - 3`.  For an empty vector the unsigned
`f.size()-1` wraps around and the loop reads outside the vector: `none`. -/
def nl_filter (L : Libm) (f : rvec) (w : ℚ) : Option rvec :=
  if f.length = 0 then none
  else some (forLoop (f.length - 2) (fun j g => nl_filter_step L w (j + 1) g) f)

/-! ## The sum over y -/

/-- The sum `val` of `ysum_op` (smoothing.cpp:112-116) for the row `x`: the loop
`for(int y=MYG;y<MYG+MYSUB;y++) val += rin[x*ngy + y] + rinout[x*ngy + y];`, the counter
being `y = MYG + j`. -/
def ysum_val (ngy MYG MYSUB : Nat) (rin rinout : Nat → ℚ) (x : Nat) : ℚ :=
  forLoop MYSUB
    (fun j val => val + (rin (x * ngy + (MYG + j)) + rinout (x * ngy + (MYG + j)))) 0

/-- `ysum_op` (smoothing.cpp:106) on the arrays `invec` and `inoutvec`; the result is
the array `inoutvec` at the end.  `MYG` and `MYSUB` are the sizes of globals.h. -/
def ysum_op (G : Globals) (MYG MYSUB : Nat) (rin rinout : Nat → ℚ) : Nat → ℚ :=
  forLoop G.ngx (fun x out =>
    forLoop G.ngy (fun y o =>
      Function.update o (x * G.ngy + y) (ysum_val G.ngy MYG MYSUB rin out x / (MYSUB : ℚ)))
      out) rinout

/-! ## Samples for the stencils in x -/

/-- The sample grid in z with `ShiftXderivs` on and `ShiftOrder = 2`. -/
def shiftedZ (ngx ngy ngz ncz : Nat) : ZGrid :=
  { sampleZ ngx ngy ngz ncz with ShiftXderivs := true, ShiftOrder := 2 }

/-- One field on a grid of five planes in x, with the value `x` at every point of the
plane `x`. -/
def planeState : State :=
  (run (sampleZ 5 1 2 1).toGlobals [Action.construct, Action.allocate 0]
    (State.empty (fun _ x _ _ => (x : ℚ)))).getD (State.empty (fun _ _ _ _ => 0))

/-- The indices of the point `(2, 0, 0)` on a grid of 5 x 1 x 2 points, with zero
offsets in z. -/
def planeBindex : bindex :=
  { jx := 2, jy := 0, jz := 0, jxp := 3, jxm := 1, jx2p := 4, jx2m := 0,
    jyp := 0, jym := 0, jy2p := 0, jy2m := 0, jzp := 1, jzm := 1, jz2p := 0, jz2m := 0,
    xp_offset := 0, xm_offset := 0, x2p_offset := 0, x2m_offset := 0,
    yp_offset := 0, ym_offset := 0,
    yp_shift := false, ym_shift := false, y2p_shift := false, y2m_shift := false }

/-- The stencil with every member zero. -/
def bstencil.zero : bstencil :=
  ⟨0, 0, 0, 0, 0, 0, 0, 0, 0, 0, 0, 0, 0, 0, 0, 0⟩

/-! ## Further samples -/

/-- A sample for `interp_to`: a routine that leaves its result in a block of its own,
as a routine that computes new values does.  The copy of the operand is made unique by
`Allocate()` on the 2 x 2 x 2 grid and carries the requested location. -/
def interp_fresh (rhs : Field3D) (loc : CELL_LOC) (p : Pool) : Option (Field3D × Pool) :=
  match rhs.copy_ctor p with
  | none => none
  | some (tmp, p1) =>
      some (⟨(tmp.Allocate sampleGlobals p1).1.block, loc⟩, (tmp.Allocate sampleGlobals p1).2)

/-- The 2 x 2 x 2 grid with staggering on and `interp_fresh` for `interp_to`. -/
def freshGlobals : Globals :=
  ⟨2, 2, 2, true, interp_fresh, fun l _ => l⟩

theorem forLoop_inv {S : Type} (P : Nat → S → Prop) (body : Nat → S → S) (s : S) (n : Nat)
    (h0 : P 0 s) (hs : ∀ k q, k < n → P k q → P (k + 1) (body k q)) :
    P n (forLoop n body s) := by
  induction n with
  | zero => exact h0
  | succ m ih =>
      have hm : P m (forLoop m body s) :=
        ih (fun k q hk hq => hs k q (Nat.lt_succ_of_lt hk) hq)
      exact hs m _ (Nat.lt_succ_self m) hm

theorem Filled.start (t : Nat) (val : Pool → Nat → Nat → Nat → ℚ) (D : Nat → Nat → Nat → Prop)
    (p : Pool) (hD : ∀ x y z, ¬ D x y z) : Filled t val D p p :=
  ⟨rfl, fun _ _ => rfl, rfl, rfl, fun x y z h => absurd h (hD x y z), fun _ _ _ _ => rfl⟩

theorem Filled.congr_domain {t : Nat} {val : Pool → Nat → Nat → Nat → ℚ}
    {D E : Nat → Nat → Nat → Prop} {p q : Pool} (h : Filled t val D p q)
    (hDE : ∀ x y z, D x y z ↔ E x y z) : Filled t val E p q := by
  obtain ⟨h1, h2, h3, h4, h5, h6⟩ := h
  exact ⟨h1, h2, h3, h4, fun x y z he => h5 x y z ((hDE x y z).2 he),
    fun x y z he => h6 x y z (fun hd => he ((hDE x y z).1 hd))⟩

theorem Filled.write {t : Nat} {val : Pool → Nat → Nat → Nat → ℚ}
    {D : Nat → Nat → Nat → Prop} {p q : Pool} (hval : Pointwise val)
    (h : Filled t val D p q) (jx jy jz : Nat) (hnew : ¬ D jx jy jz) :
    Filled t val (fun x y z => D x y z ∨ (x = jx ∧ y = jy ∧ z = jz)) p
      (q.write t jx jy jz (val q jx jy jz)) := by
  obtain ⟨h1, h2, h3, h4, h5, h6⟩ := h
  have hv : val q jx jy jz = val p jx jy jz := by
    apply hval
    intro i
    by_cases hi : i = t
    · subst hi; exact h6 jx jy jz hnew
    · rw [h2 i hi]
  refine ⟨?_, ?_, ?_, ?_, ?_, ?_⟩
  · rw [h1]; rfl
  · intro i hi
    simp only [Pool.write, Function.update_noteq hi]
    exact h2 i hi
  · simp [Pool.write, h3]
  · simp [Pool.write, h4]
  · intro x y z hd
    simp only [Pool.write, Function.update_same]
    by_cases hpt : x = jx ∧ y = jy ∧ z = jz
    · rw [if_pos hpt, hv]
      obtain ⟨rfl, rfl, rfl⟩ := hpt
      rfl
    · rw [if_neg hpt]
      rcases hd with hd | hd
      · exact h5 x y z hd
      · exact absurd hd hpt
  · intro x y z hd
    simp only [Pool.write, Function.update_same]
    have hpt : ¬ (x = jx ∧ y = jy ∧ z = jz) := fun hh => hd (Or.inr hh)
    rw [if_neg hpt]
    exact h6 x y z (fun hh => hd (Or.inl hh))

/-- The triple loop stores `val` on the whole grid `0 <= x < nx`, `0 <= y < ny`,
`0 <= z < nz` of block `t` and nothing else. -/
theorem loop3_filled (nx ny nz t : Nat) (val : Pool → Nat → Nat → Nat → ℚ)
    (hval : Pointwise val) (p : Pool) :
    Filled t val (fun x y z => x < nx ∧ y < ny ∧ z < nz) p
      (loop3 nx ny nz (fun jx jy jz q => q.write t jx jy jz (val q jx jy jz)) p) := by
  have hx : Filled t val (Visited ny nz nx 0 0) p
      (loop3 nx ny nz (fun jx jy jz q => q.write t jx jy jz (val q jx jy jz)) p) := by
    unfold loop3
    apply forLoop_inv (fun jx q => Filled t val (Visited ny nz jx 0 0) p q)
    · exact Filled.start t val _ p (fun x y z h => by unfold Visited at h; omega)
    · intro jx q _ hq
      have hy : Filled t val (Visited ny nz jx ny 0) p
          (forLoop ny (fun jy sy =>
            forLoop nz (fun jz sz => sz.write t jx jy jz (val sz jx jy jz)) sy) q) := by
        apply forLoop_inv (fun jy q => Filled t val (Visited ny nz jx jy 0) p q)
        · exact hq
        · intro jy q2 hjy hq2
          have hz : Filled t val (Visited ny nz jx jy nz) p
              (forLoop nz (fun jz sz => sz.write t jx jy jz (val sz jx jy jz)) q2) := by
            apply forLoop_inv (fun jz q => Filled t val (Visited ny nz jx jy jz) p q)
            · exact hq2
            · intro jz q3 hjz hq3
              have hw := Filled.write hval hq3 jx jy jz (by unfold Visited; omega)
              exact hw.congr_domain (fun x y z => by unfold Visited; omega)
          exact hz.congr_domain (fun x y z => by unfold Visited; omega)
      exact hy.congr_domain (fun x y z => by unfold Visited; omega)
  exact hx.congr_domain (fun x y z => by unfold Visited; omega)

/-! ## Chains of `next` links -/

theorem IsChain.congr_heap {heap heap2 : Nat → memblock3d} {l : List Nat} :
    ∀ {h : Option Nat}, IsChain heap h l → (∀ i ∈ l, (heap2 i).next = (heap i).next) →
      IsChain heap2 h l := by
  induction l with
  | nil => intro h hc _; exact hc
  | cons a l ih =>
      intro h hc hn
      obtain ⟨h1, h2⟩ := hc
      refine ⟨h1, ?_⟩
      rw [hn a (List.mem_cons_self a l)]
      exact ih h2 (fun i hi => hn i (List.mem_cons_of_mem a hi))

theorem IsChain.unique {heap : Nat → memblock3d} {l : List Nat} :
    ∀ {h : Option Nat} {l2 : List Nat}, IsChain heap h l → IsChain heap h l2 → l = l2 := by
  induction l with
  | nil =>
      intro h l2 hc hc2
      cases l2 with
      | nil => rfl
      | cons b l2 =>
          have h1 : h = none := hc
          have h2 : h = some b := hc2.1
          rw [h1] at h2
          cases h2
  | cons a l ih =>
      intro h l2 hc hc2
      cases l2 with
      | nil =>
          have h1 : h = some a := hc.1
          have h2 : h = none := hc2
          rw [h1] at h2
          cases h2
      | cons b l2 =>
          have h1 : h = some a := hc.1
          have h2 : h = some b := hc2.1
          rw [h1] at h2
          cases h2
          rw [ih hc.2 hc2.2]

theorem Filled.sameShape {t : Nat} {val : Pool → Nat → Nat → Nat → ℚ}
    {D : Nat → Nat → Nat → Prop} {p q : Pool} (h : Filled t val D p q) : SameShape p q := by
  obtain ⟨h1, h2, h3, h4, _, _⟩ := h
  refine ⟨by rw [h1], by rw [h1], by rw [h1], by rw [h1], fun i => ?_⟩
  by_cases hi : i = t
  · subst hi; exact ⟨h3, h4⟩
  · rw [h2 i hi]; exact ⟨rfl, rfl⟩

theorem Filled.data_ne {t : Nat} {val : Pool → Nat → Nat → Nat → ℚ}
    {D : Nat → Nat → Nat → Prop} {p q : Pool} (h : Filled t val D p q) (i : Nat)
    (hi : i ≠ t) : (q.heap i).data = (p.heap i).data := by
  rw [h.2.1 i hi]

theorem PInv.lt_brk {p : Pool} {H : Nat → Int} (h : PInv p H) {b : Nat} (hb : H b ≠ 0) :
    b < p.brk := by
  by_contra hlt
  exact hb (h.out b (Nat.le_of_not_lt hlt))

theorem PInv.shape {p q : Pool} {H : Nat → Int} (h : PInv p H) (hs : SameShape p q) :
    PInv q H := by
  obtain ⟨hb, hf, _, _, hh⟩ := hs
  refine ⟨fun i hi => ?_, fun i hi => ?_, ?_⟩
  · rw [(hh i).1]; exact h.refs i (hb ▸ hi)
  · exact h.out i (hb ▸ hi)
  · obtain ⟨l, hc, hn, hm⟩ := h.free
    refine ⟨l, ?_, hn, fun i => ?_⟩
    · unfold Pool.FreeList
      rw [hf]
      exact IsChain.congr_heap hc (fun i _ => (hh i).2)
    · rw [hm i, hb, (hh i).1]

theorem PInv.congr_holders {p : Pool} {H H2 : Nat → Int} (h : PInv p H) (hH : ∀ i, H2 i = H i) :
    PInv p H2 := by
  have : H2 = H := funext hH
  rw [this]; exact h

theorem PInv.incRefs {p : Pool} {H H2 : Nat → Int} (h : PInv p H) (b : Nat) (hb : 1 ≤ H b)
    (hH : ∀ i, H2 i = H i + (if i = b then 1 else 0)) : PInv (Pool.incRefs b p) H2 := by
  have hbl : b < p.brk := h.lt_brk (by omega)
  have hrb : (p.heap b).refs = H b := h.refs b hbl
  refine ⟨fun i hi => ?_, fun i hi => ?_, ?_⟩
  · have hi2 : i < p.brk := hi
    rw [hH i]
    by_cases hib : i = b
    · subst hib; simp [Pool.incRefs, Pool.setRefs, hrb]
    · simp [Pool.incRefs, Pool.setRefs, Function.update_noteq hib, hib, h.refs i hi2]
  · have hi2 : p.brk ≤ i := hi
    rw [hH i, h.out i hi2]
    have : i ≠ b := by omega
    simp [this]
  · obtain ⟨l, hc, hn, hm⟩ := h.free
    refine ⟨l, ?_, hn, fun i => ?_⟩
    · exact IsChain.congr_heap hc (fun i _ => by
        by_cases hib : i = b
        · subst hib; simp [Pool.incRefs, Pool.setRefs]
        · simp [Pool.incRefs, Pool.setRefs, Function.update_noteq hib])
    · rw [hm i]
      by_cases hib : i = b
      · subst hib
        simp [Pool.incRefs, Pool.setRefs, hrb]
        intro _
        omega
      · simp [Pool.incRefs, Pool.setRefs, Function.update_noteq hib]

theorem free_data_pool (f : Field3D) (b : Nat) (hf : f.block = some b) (p : Pool) :
    (f.free_data p).2 =
      if (p.heap b).refs - 1 = 0 then
        { (Pool.decRefs b p).setNext b p.free_block with free_block := some b }
      else Pool.decRefs b p := by
  unfold Field3D.free_data
  rw [hf]
  simp [Pool.decRefs, Pool.setRefs]

theorem PInv.free_data {p : Pool} {H H2 : Nat → Int} (h : PInv p H) (f : Field3D) (b : Nat)
    (hf : f.block = some b) (hb : 1 ≤ H b)
    (hH : ∀ i, H2 i = H i - (if i = b then 1 else 0)) : PInv (f.free_data p).2 H2 := by
  have hbl : b < p.brk := h.lt_brk (by omega)
  have hrb : (p.heap b).refs = H b := h.refs b hbl
  obtain ⟨l, hc, hn, hm⟩ := h.free
  have hbl2 : b ∉ l := by
    intro hmem
    have := ((hm b).1 hmem).2
    omega
  rw [free_data_pool f b hf p]
  by_cases h0 : (p.heap b).refs - 1 = 0
  · rw [if_pos h0]
    refine ⟨fun i hi => ?_, fun i hi => ?_, ?_⟩
    · have hi2 : i < p.brk := hi
      rw [hH i]
      by_cases hib : i = b
      · subst hib; simp [Pool.decRefs, Pool.setRefs, Pool.setNext, hrb]
      · simp [Pool.decRefs, Pool.setRefs, Pool.setNext, Function.update_noteq hib, hib,
          h.refs i hi2]
    · have hi2 : p.brk ≤ i := hi
      rw [hH i, h.out i hi2]
      have : i ≠ b := by omega
      simp [this]
    · refine ⟨b :: l, ⟨rfl, ?_⟩, List.nodup_cons.2 ⟨hbl2, hn⟩, fun i => ?_⟩
      · have hnx : ((({ (Pool.decRefs b p).setNext b p.free_block with
            free_block := some b } : Pool).heap b).next) = p.free_block := by
          simp [Pool.decRefs, Pool.setRefs, Pool.setNext]
        rw [hnx]
        exact IsChain.congr_heap hc (fun i hi => by
          have hib : i ≠ b := fun e => hbl2 (e ▸ hi)
          simp [Pool.decRefs, Pool.setRefs, Pool.setNext, Function.update_noteq hib])
      · by_cases hib : i = b
        · subst hib
          simp [Pool.decRefs, Pool.setRefs, Pool.setNext, hbl, h0]
        · simp [Pool.decRefs, Pool.setRefs, Pool.setNext, Function.update_noteq hib, hib,
            hm i]
  · rw [if_neg h0]
    refine ⟨fun i hi => ?_, fun i hi => ?_, ?_⟩
    · have hi2 : i < p.brk := hi
      rw [hH i]
      by_cases hib : i = b
      · subst hib; simp [Pool.decRefs, Pool.setRefs, hrb]
      · simp [Pool.decRefs, Pool.setRefs, Function.update_noteq hib, hib, h.refs i hi2]
    · have hi2 : p.brk ≤ i := hi
      rw [hH i, h.out i hi2]
      have : i ≠ b := by omega
      simp [this]
    · refine ⟨l, ?_, hn, fun i => ?_⟩
      · exact IsChain.congr_heap hc (fun i _ => by
          by_cases hib : i = b
          · subst hib; simp [Pool.decRefs, Pool.setRefs]
          · simp [Pool.decRefs, Pool.setRefs, Function.update_noteq hib])
      · rw [hm i]
        by_cases hib : i = b
        · subst hib
          simp [Pool.decRefs, Pool.setRefs, hrb]
          intro _
          omega
        · simp [Pool.decRefs, Pool.setRefs, Function.update_noteq hib]

theorem PInv.decRefs {p : Pool} {H H2 : Nat → Int} (h : PInv p H) (b : Nat) (hb : 2 ≤ H b)
    (hH : ∀ i, H2 i = H i - (if i = b then 1 else 0)) : PInv (Pool.decRefs b p) H2 := by
  have hbl : b < p.brk := h.lt_brk (by omega)
  have hrb : (p.heap b).refs = H b := h.refs b hbl
  have key := h.free_data ⟨some b, CELL_LOC.CELL_CENTRE⟩ b rfl (by omega) hH
  rw [free_data_pool _ b rfl p, if_neg (by omega)] at key
  exact key

theorem new_block_heap_ne (p : Pool) (i : Nat) (hi : i ≠ (new_block p).1) :
    (new_block p).2.heap i = p.heap i := by
  unfold new_block at hi ⊢
  cases hfb : p.free_block with
  | none =>
      rw [hfb] at hi
      simp only at hi ⊢
      exact Function.update_noteq hi _ _
  | some nb =>
      rw [hfb] at hi
      simp only at hi ⊢
      simp [Pool.setRefs, Pool.setNext, Function.update_noteq hi]

theorem new_block_refs (p : Pool) : ((new_block p).2.heap (new_block p).1).refs = 1 := by
  unfold new_block
  cases hfb : p.free_block with
  | none => simp
  | some nb => simp [Pool.setRefs, Pool.setNext]

theorem new_block_data (p : Pool) (i : Nat) (hi : i < p.brk) :
    ((new_block p).2.heap i).data = (p.heap i).data := by
  unfold new_block
  cases hfb : p.free_block with
  | none =>
      have : i ≠ p.brk := by omega
      simp [Function.update_noteq this]
  | some nb =>
      by_cases hib : i = nb
      · subst hib; simp [Pool.setRefs, Pool.setNext]
      · simp [Pool.setRefs, Pool.setNext, Function.update_noteq hib]

theorem PInv.of_new_block {p : Pool} {H : Nat → Int} (h : PInv p H) (H2 : Nat → Int)
    (hH : ∀ i, H2 i = H i + (if i = (new_block p).1 then 1 else 0)) :
    PInv (new_block p).2 H2 ∧ H (new_block p).1 = 0 ∧
      (new_block p).1 < (new_block p).2.brk ∧ p.brk ≤ (new_block p).2.brk := by
  obtain ⟨l, hc, hn, hm⟩ := h.free
  cases hfb : p.free_block with
  | none =>
      have hl : l = [] := by
        cases l with
        | nil => rfl
        | cons a l =>
            have h1 : p.free_block = some a := hc.1
            rw [hfb] at h1
            cases h1
      subst hl
      have hnb : (new_block p).1 = p.brk := by simp [new_block, hfb]
      have hp2 : (new_block p).2 = { p with
          heap := Function.update p.heap p.brk ⟨p.uninit p.brk, 1, p.blocklist⟩,
          brk := p.brk + 1, blocklist := some p.brk, nblocks := p.nblocks + 1 } := by
        simp [new_block, hfb]
      rw [hnb] at hH ⊢
      rw [hp2]
      refine ⟨⟨fun i hi => ?_, fun i hi => ?_, ?_⟩, h.out _ (Nat.le_refl _), ?_, ?_⟩
      · have hi2 : i < p.brk + 1 := hi
        rw [hH i]
        by_cases hib : i = p.brk
        · subst hib; simp [h.out _ (Nat.le_refl _)]
        · have hi3 : i < p.brk := by omega
          simp [Function.update_noteq hib, hib, h.refs i hi3]
      · have hi2 : p.brk + 1 ≤ i := hi
        rw [hH i, h.out i (by omega)]
        have : i ≠ p.brk := by omega
        simp [this]
      · refine ⟨[], hfb, List.nodup_nil, fun i => ?_⟩
        simp only [List.not_mem_nil, false_iff, not_and]
        intro hi
        by_cases hib : i = p.brk
        · subst hib; simp
        · have hi3 : i < p.brk := by omega
          simp only [Function.update_noteq hib]
          intro h0
          exact (List.not_mem_nil i) ((hm i).2 ⟨hi3, h0⟩)
      · show p.brk < p.brk + 1
        omega
      · show p.brk ≤ p.brk + 1
        omega
  | some nb =>
      have hnb : (new_block p).1 = nb := by simp [new_block, hfb]
      have hp2 : (new_block p).2 =
          (({ p with free_block := (p.heap nb).next }).setNext nb none).setRefs nb 1 := by
        simp [new_block, hfb]
      rw [hnb] at hH ⊢
      rw [hp2]
      cases l with
      | nil =>
          have h1 : p.free_block = none := hc
          rw [hfb] at h1
          cases h1
      | cons a l =>
          have h1 : p.free_block = some a := hc.1
          rw [hfb] at h1
          cases h1
          have hc2 : IsChain p.heap (p.heap nb).next l := hc.2
          have hnl : nb ∉ l := (List.nodup_cons.1 hn).1
          have hnb2 := (hm nb).1 (List.mem_cons_self nb l)
          have hH0 : H nb = 0 := by rw [← h.refs nb hnb2.1]; exact hnb2.2
          refine ⟨⟨fun i hi => ?_, fun i hi => ?_, ?_⟩, hH0, hnb2.1, Nat.le_refl _⟩
          · have hi2 : i < p.brk := hi
            rw [hH i]
            by_cases hib : i = nb
            · subst hib; simp [Pool.setRefs, Pool.setNext, hH0]
            · simp [Pool.setRefs, Pool.setNext, Function.update_noteq hib, hib, h.refs i hi2]
          · have hi2 : p.brk ≤ i := hi
            rw [hH i, h.out i hi2]
            have : i ≠ nb := by omega
            simp [this]
          · refine ⟨l, ?_, (List.nodup_cons.1 hn).2, fun i => ?_⟩
            · have hfb2 : ((({ p with free_block := (p.heap nb).next } : Pool).setNext nb
                  none).setRefs nb 1).free_block = (p.heap nb).next := rfl
              unfold Pool.FreeList
              rw [hfb2]
              exact IsChain.congr_heap hc2 (fun i hi => by
                have hib : i ≠ nb := fun e => hnl (e ▸ hi)
                simp [Pool.setRefs, Pool.setNext, Function.update_noteq hib])
            · by_cases hib : i = nb
              · subst hib
                simp [Pool.setRefs, Pool.setNext, hnl]
              · have := hm i
                simp only [List.mem_cons, hib, false_or] at this
                simp [Pool.setRefs, Pool.setNext, Function.update_noteq hib, this]

/-! ## Counting the holders of a block -/

theorem holders_update_ge (F : Nat → Option Field3D) (k : Nat) (v : Option Field3D) (i : Nat) :
    ∀ n, n ≤ k → holders (Function.update F k v) n i = holders F n i := by
  intro n
  induction n with
  | zero => intro _; rfl
  | succ m ih =>
      intro hk
      have hne : m ≠ k := by omega
      simp only [holders, Function.update_noteq hne]
      rw [ih (by omega)]

theorem holders_update (F : Nat → Option Field3D) (k : Nat) (v : Option Field3D) (i : Nat) :
    ∀ n, k < n →
      (holders (Function.update F k v) n i : Int) = holders F n i - ptsTo (F k) i + ptsTo v i := by
  intro n
  induction n with
  | zero => intro hk; omega
  | succ m ih =>
      intro hk
      by_cases hmk : m = k
      · subst hmk
        simp only [holders, Function.update_same]
        rw [holders_update_ge F m v i m (Nat.le_refl m)]
        push_cast
        omega
      · have hk2 : k < m := by omega
        simp only [holders, Function.update_noteq hmk]
        push_cast
        rw [ih hk2]
        omega

theorem holders_congr (F F2 : Nat → Option Field3D) (i : Nat) :
    ∀ n, (∀ j, j < n → (F2 j).bind Field3D.block = (F j).bind Field3D.block) →
      holders F2 n i = holders F n i := by
  intro n
  induction n with
  | zero => intro _; rfl
  | succ m ih =>
      intro hj
      simp only [holders, ptsTo]
      rw [ih (fun j hjm => hj j (by omega)), hj m (by omega)]

theorem holders_pos (F : Nat → Option Field3D) (i j : Nat) :
    ∀ n, j < n → (F j).bind Field3D.block = some i → 1 ≤ holders F n i := by
  intro n
  induction n with
  | zero => intro hj; omega
  | succ m ih =>
      intro hj hb
      by_cases hjm : j = m
      · subst hjm
        simp [holders, ptsTo, hb]
      · have := ih (by omega) hb
        simp only [holders]
        omega

theorem holders_zero (F : Nat → Option Field3D) (i : Nat) :
    ∀ n, (∀ j, j < n → (F j).bind Field3D.block ≠ some i) → holders F n i = 0 := by
  intro n
  induction n with
  | zero => intro _; rfl
  | succ m ih =>
      intro hj
      simp only [holders, ptsTo]
      rw [ih (fun j hjm => hj j (by omega)), if_neg (hj m (by omega))]

/-- When a block has exactly one holder, no other object points to it. -/
theorem holders_one (F : Nat → Option Field3D) (i k n : Nat) (hk : k < n)
    (hb : (F k).bind Field3D.block = some i) (h1 : holders F n i = 1) (j : Nat) (hj : j < n)
    (hjk : j ≠ k) : (F j).bind Field3D.block ≠ some i := by
  intro hji
  have hu := holders_update F k none i n hk
  have hp : ptsTo (F k) i = 1 := by simp [ptsTo, hb]
  have hn : ptsTo (none : Option Field3D) i = 0 := by simp [ptsTo]
  rw [hp, hn, h1] at hu
  have hpos := holders_pos (Function.update F k none) i j n hj
    (by rw [Function.update_noteq hjk]; exact hji)
  omega

theorem inv_iff (s : State) :
    Inv s ↔ PInv s.pool (fun i => (holders s.fields s.nfields i : Int)) := by
  constructor
  · intro h
    refine ⟨h.refs, fun i hi => ?_, h.free⟩
    have : holders s.fields s.nfields i = 0 :=
      holders_zero s.fields i s.nfields (fun j hj hb => by
        have := h.ptr j hj i hb
        omega)
    simp [this]
  · intro h
    refine ⟨fun k hk b hb => ?_, h.refs, h.free⟩
    have hpos := holders_pos s.fields b k s.nfields hk hb
    exact h.lt_brk (by omega)

/-- The counts seen by the invariant. -/
theorem Inv.refs_pos {s : State} (h : Inv s) (k b : Nat) (hk : k < s.nfields)
    (hb : (s.fields k).bind Field3D.block = some b) :
    b < s.pool.brk ∧ 1 ≤ (s.pool.heap b).refs := by
  have hbl := h.ptr k hk b hb
  refine ⟨hbl, ?_⟩
  rw [h.refs b hbl]
  have := holders_pos s.fields b k s.nfields hk hb
  omega

/-- A change of data and of locations keeps the invariant. -/
theorem Inv.of_ptrs {s : State} (h : Inv s) (q : Pool) (F2 : Nat → Option Field3D)
    (hs : SameShape s.pool q)
    (hF : ∀ j, j < s.nfields → (F2 j).bind Field3D.block = (s.fields j).bind Field3D.block) :
    Inv ⟨q, F2, s.nfields⟩ := by
  rw [inv_iff] at h ⊢
  have h2 := h.shape hs
  exact h2.congr_holders (fun i => by simp only; rw [holders_congr s.fields F2 i s.nfields hF])

/-- A new object without data keeps the invariant. -/
theorem Inv.extend {s : State} (h : Inv s) (v : Option Field3D)
    (hv : v.bind Field3D.block = none) :
    Inv ⟨s.pool, Function.update s.fields s.nfields v, s.nfields + 1⟩ := by
  rw [inv_iff] at h ⊢
  exact h.congr_holders (fun i => by
    simp only [holders, Function.update_same]
    rw [holders_update_ge s.fields s.nfields v i s.nfields (Nat.le_refl _)]
    simp [ptsTo, hv])

/-- Dropping the reference of object `k`. -/
theorem Inv.release {s : State} (h : Inv s) (k : Nat) (hk : k < s.nfields) (f : Field3D)
    (b : Nat) (hf : s.fields k = some f) (hb : f.block = some b) (v : Option Field3D)
    (hv : v.bind Field3D.block = none) :
    Inv ⟨(f.free_data s.pool).2, Function.update s.fields k v, s.nfields⟩ := by
  have hkb : (s.fields k).bind Field3D.block = some b := by rw [hf]; exact hb
  have hpos := holders_pos s.fields b k s.nfields hk hkb
  rw [inv_iff] at h ⊢
  refine h.free_data f b hb (by omega) (fun i => ?_)
  try simp only
  rw [holders_update s.fields k v i s.nfields hk]
  have h1 : ptsTo v i = 0 := by simp [ptsTo, hv]
  have h2 : (ptsTo (s.fields k) i : Int) = if i = b then 1 else 0 := by
    simp only [ptsTo, hkb, Option.some.injEq]
    by_cases hib : i = b
    · subst hib; simp
    · have : ¬ b = i := fun e => hib e.symm
      simp [hib, this]
  rw [h1, h2]
  push_cast
  omega

/-- Object `k`, which has no data, takes a reference to the block `rb` of object `j`. -/
theorem Inv.share {s : State} (h : Inv s) (k j rb : Nat) (hk : k < s.nfields)
    (hj : j < s.nfields) (hkb : (s.fields k).bind Field3D.block = none)
    (hjb : (s.fields j).bind Field3D.block = some rb) (loc : CELL_LOC) :
    Inv ⟨Pool.incRefs rb s.pool, Function.update s.fields k (some ⟨some rb, loc⟩),
      s.nfields⟩ := by
  have hpos := holders_pos s.fields rb j s.nfields hj hjb
  rw [inv_iff] at h ⊢
  refine h.incRefs rb (by omega) (fun i => ?_)
  try simp only
  rw [holders_update s.fields k _ i s.nfields hk]
  have h1 : ptsTo (s.fields k) i = 0 := by simp [ptsTo, hkb]
  have h2 : (ptsTo (some (⟨some rb, loc⟩ : Field3D)) i : Int) = if i = rb then 1 else 0 := by
    simp only [ptsTo, Option.some_bind, Option.some.injEq]
    by_cases hib : i = rb
    · subst hib; simp
    · have : ¬ rb = i := fun e => hib e.symm
      simp [hib, this]
  rw [h1, h2]
  push_cast
  omega

/-- Object `k`, which has no data, takes a block from `new_block`. -/
theorem Inv.fresh {s : State} (h : Inv s) (k : Nat) (hk : k < s.nfields)
    (hkb : (s.fields k).bind Field3D.block = none) (q : Pool)
    (hq : SameShape (new_block s.pool).2 q) (loc : CELL_LOC) :
    Inv ⟨q, Function.update s.fields k (some ⟨some (new_block s.pool).1, loc⟩),
      s.nfields⟩ := by
  rw [inv_iff] at h ⊢
  have hn := (h.of_new_block (fun i => (holders s.fields s.nfields i : Int) +
    (if i = (new_block s.pool).1 then 1 else 0)) (fun _ => rfl)).1
  refine (hn.shape hq).congr_holders (fun i => ?_)
  try simp only
  rw [holders_update s.fields k _ i s.nfields hk]
  have h1 : ptsTo (s.fields k) i = 0 := by simp [ptsTo, hkb]
  have h2 : (ptsTo (some (⟨some (new_block s.pool).1, loc⟩ : Field3D)) i : Int) =
      if i = (new_block s.pool).1 then 1 else 0 := by
    simp only [ptsTo, Option.some_bind, Option.some.injEq]
    by_cases hib : i = (new_block s.pool).1
    · rw [if_pos hib, if_pos hib.symm]; rfl
    · have : ¬ (new_block s.pool).1 = i := fun e => hib e.symm
      rw [if_neg hib, if_neg this]; rfl
  rw [h1, h2]
  push_cast
  omega

/-- Object `k` leaves the shared block `b` for a block from `new_block`. -/
theorem Inv.unshare {s : State} (h : Inv s) (k b : Nat) (hk : k < s.nfields)
    (hkb : (s.fields k).bind Field3D.block = some b) (hr : (s.pool.heap b).refs ≠ 1)
    (q : Pool) (hq : SameShape (new_block s.pool).2 q) (loc : CELL_LOC) :
    Inv ⟨Pool.decRefs b q,
      Function.update s.fields k (some ⟨some (new_block s.pool).1, loc⟩), s.nfields⟩ := by
  have hrp := h.refs_pos k b hk hkb
  have href := h.refs b hrp.1
  rw [inv_iff] at h ⊢
  have hn := h.of_new_block (fun i => (holders s.fields s.nfields i : Int) +
    (if i = (new_block s.pool).1 then 1 else 0)) (fun _ => rfl)
  have hnb : b ≠ (new_block s.pool).1 := by
    intro e
    have := hn.2.1
    rw [← e] at this
    try simp only at this
    omega
  refine (hn.1.shape hq).decRefs b (by simp only [if_neg hnb]; omega) (fun i => ?_)
  try simp only
  rw [holders_update s.fields k _ i s.nfields hk]
  have h1 : (ptsTo (s.fields k) i : Int) = if i = b then 1 else 0 := by
    simp only [ptsTo, hkb, Option.some.injEq]
    by_cases hib : i = b
    · subst hib; simp
    · have : ¬ b = i := fun e => hib e.symm
      simp [hib, this]
  have h2 : (ptsTo (some (⟨some (new_block s.pool).1, loc⟩ : Field3D)) i : Int) =
      if i = (new_block s.pool).1 then 1 else 0 := by
    simp only [ptsTo, Option.some_bind, Option.some.injEq]
    by_cases hib : i = (new_block s.pool).1
    · rw [if_pos hib, if_pos hib.symm]; rfl
    · have : ¬ (new_block s.pool).1 = i := fun e => hib e.symm
      rw [if_neg hib, if_neg this]; rfl
  rw [h1, h2]
  omega

/-! ## Effect of a mutating member function -/

theorem PointwiseBelow.pointwise {n : Nat} {val : Pool → Nat → Nat → Nat → ℚ}
    (h : PointwiseBelow n val) : Pointwise val :=
  fun q r x y z hq => h q r x y z (fun i _ => hq i)

theorem PointwiseBelow.combine {n b : Nat} {rhs : Pool → Nat → Nat → Nat → ℚ}
    (h : PointwiseBelow n rhs) (hb : b < n) (op : ℚ → ℚ → ℚ) :
    PointwiseBelow n (fun q x y z => op (q.read b x y z) (rhs q x y z)) := by
  intro q r x y z hq
  simp only [Pool.read]
  rw [hq b hb, h q r x y z hq]

theorem PointwiseBelow.read (n rb : Nat) (hrb : rb < n) :
    PointwiseBelow n (fun q x y z => q.read rb x y z) :=
  fun _ _ _ _ _ hq => hq rb hrb

theorem PointwiseBelow.const (n : Nat) (c : Nat → Nat → Nat → ℚ) :
    PointwiseBelow n (fun _ x y z => c x y z) :=
  fun _ _ _ _ _ _ => rfl

theorem decRefs_data (b : Nat) (q : Pool) (i : Nat) :
    ((Pool.decRefs b q).heap i).data = (q.heap i).data := by
  by_cases hib : i = b
  · subst hib; simp [Pool.decRefs, Pool.setRefs]
  · simp [Pool.decRefs, Pool.setRefs, Function.update_noteq hib]

theorem decRefs_brk (b : Nat) (q : Pool) : (Pool.decRefs b q).brk = q.brk := rfl

/-- The branch `block->refs == 1` of a compound assignment or of `alloc_data`. -/
theorem effect_in_place (G : Globals) (s : State) (k b : Nat) (f : Field3D)
    (hs : Inv s) (hk : k < s.nfields) (hf : s.fields k = some f) (hb : f.block = some b)
    (h1 : (s.pool.heap b).refs = 1) (val : Pool → Nat → Nat → Nat → ℚ)
    (hval : PointwiseBelow s.pool.brk val) :
    Effect G s k f
      (loop3 G.ngx G.ngy G.ngz (fun jx jy jz q => q.write b jx jy jz (val q jx jy jz)) s.pool)
      b (fun x y z => val s.pool x y z) := by
  have hfill := loop3_filled G.ngx G.ngy G.ngz b val hval.pointwise s.pool
  have hkb : (s.fields k).bind Field3D.block = some b := by rw [hf]; exact hb
  have hrp := hs.refs_pos k b hk hkb
  refine ⟨?_, hb, ?_, ?_, ?_, ?_, ?_⟩
  · refine hs.of_ptrs _ _ hfill.sameShape (fun j _ => ?_)
    by_cases hjk : j = k
    · subst hjk; rw [Function.update_same, hf]
    · rw [Function.update_noteq hjk]
  · intro g hg
    rw [hf] at hg
    cases hg
    rfl
  · rw [hfill.sameShape.1]
  · intro i _ hib
    exact hfill.data_ne i hib
  · intro j hj hjk
    refine holders_one s.fields b k s.nfields hk hkb ?_ j hj hjk
    have := hs.refs b hrp.1
    omega
  · intro x y z hx hy hz
    exact hfill.2.2.2.2.1 x y z ⟨hx, hy, hz⟩

/-- The branch that takes a block from `new_block` and leaves the shared one. -/
theorem effect_new_block (G : Globals) (s : State) (k b : Nat) (f : Field3D)
    (hs : Inv s) (hk : k < s.nfields) (hf : s.fields k = some f) (hb : f.block = some b)
    (h1 : (s.pool.heap b).refs ≠ 1) (val : Pool → Nat → Nat → Nat → ℚ)
    (hval : PointwiseBelow s.pool.brk val) :
    Effect G s k ⟨some (new_block s.pool).1, f.location⟩
      (Pool.decRefs b (loop3 G.ngx G.ngy G.ngz
        (fun jx jy jz q => q.write (new_block s.pool).1 jx jy jz (val q jx jy jz))
        (new_block s.pool).2))
      (new_block s.pool).1 (fun x y z => val s.pool x y z) := by
  have hfill := loop3_filled G.ngx G.ngy G.ngz (new_block s.pool).1 val hval.pointwise
    (new_block s.pool).2
  have hkb : (s.fields k).bind Field3D.block = some b := by rw [hf]; exact hb
  have hrp := hs.refs_pos k b hk hkb
  have hP := (inv_iff s).1 hs
  have hn := hP.of_new_block (fun i => (holders s.fields s.nfields i : Int) +
    (if i = (new_block s.pool).1 then 1 else 0)) (fun _ => rfl)
  refine ⟨?_, rfl, ?_, ?_, ?_, ?_, ?_⟩
  · exact hs.unshare k b hk hkb h1 _ hfill.sameShape f.location
  · intro g hg
    rw [hf] at hg
    cases hg
    rfl
  · rw [decRefs_brk, hfill.sameShape.1]
    exact hn.2.2.2
  · intro i hi hib
    rw [decRefs_data, hfill.data_ne i hib, new_block_data s.pool i hi]
  · intro j hj _ hjb
    have hpos := holders_pos s.fields _ j s.nfields hj hjb
    have h0 := hn.2.1
    simp only at h0
    omega
  · intro x y z hx hy hz
    simp only [Pool.read]
    rw [decRefs_data, hfill.2.2.2.2.1 x y z ⟨hx, hy, hz⟩]
    exact hval _ _ x y z (fun i hi => by rw [new_block_data s.pool i hi])

theorem combine_effect (G : Globals) (s : State) (k b : Nat) (f : Field3D)
    (hs : Inv s) (hk : k < s.nfields) (hf : s.fields k = some f) (hb : f.block = some b)
    (op : ℚ → ℚ → ℚ) (rhs : Pool → Nat → Nat → Nat → ℚ)
    (hr : PointwiseBelow s.pool.brk rhs) :
    ∃ f2 p2 b2, f.combine G op rhs s.pool = some (f2, p2) ∧
      Effect G s k f2 p2 b2 (fun x y z => op (s.pool.read b x y z) (rhs s.pool x y z)) := by
  have hkb : (s.fields k).bind Field3D.block = some b := by rw [hf]; exact hb
  have hbl := (hs.refs_pos k b hk hkb).1
  have hval := hr.combine hbl op
  unfold Field3D.combine
  rw [hb]
  by_cases h1 : (s.pool.heap b).refs = 1
  · simp only [if_pos h1]
    exact ⟨_, _, _, rfl, effect_in_place G s k b f hs hk hf hb h1 _ hval⟩
  · simp only [if_neg h1]
    exact ⟨_, _, _, rfl, effect_new_block G s k b f hs hk hf hb h1 _ hval⟩

theorem withInterp_same (G : Globals)
    (core : Field3D → Field3D → Pool → Option (Field3D × Pool)) (fuel : Nat)
    (f rhs : Field3D) (p : Pool)
    (h : G.StaggerGrids = false ∨ rhs.location = f.location) :
    Field3D.withInterp G core fuel f rhs p = core f rhs p := by
  have hc : (G.StaggerGrids && decide (rhs.location ≠ f.location)) = false := by
    rcases h with h | h
    · simp [h]
    · simp [h]
  cases fuel with
  | zero => simp only [Field3D.withInterp, hc]; rfl
  | succ n => simp only [Field3D.withInterp, hc]; rfl

theorem Operand.get_below (r : Operand) (n : Nat)
    (h : ∀ rhs, r = Operand.field3d rhs → ∃ rb, rhs.block = some rb ∧ rb < n) :
    PointwiseBelow n (fun q x y z => r.get q x y z) := by
  cases r with
  | field3d rhs =>
      obtain ⟨rb, hrb, hlt⟩ := h rhs rfl
      intro q r x y z hq
      simp only [Operand.get, Operand.value, hrb, Option.map_some', Option.getD_some, Pool.read]
      exact hq rb hlt
  | field2d d => intro q r x y z _; rfl
  | real v => intro q r x y z _; rfl

/-- Without interpolation every compound assignment is `combine` applied to an
expression that computes the mathematical operation. -/
theorem compound_eq_combine (G : Globals) (o : CompoundOp) (fuel : Nat) (f : Field3D)
    (r : Operand) (p : Pool) (brk : Nat) (hr : r.ready G f brk) :
    ∃ op : ℚ → ℚ → ℚ, (∀ l v, op l v = o.eval G l v) ∧
      f.compound G o fuel r p = f.combine G op (fun q x y z => r.get q x y z) p := by
  cases r with
  | field3d rhs =>
      obtain ⟨⟨rb, hrb, _⟩, hst⟩ := hr
      have hget : (fun (q : Pool) x y z => (Operand.field3d rhs).get q x y z) =
          (fun q x y z => q.read rb x y z) := by
        funext q x y z
        simp [Operand.get, Operand.value, hrb]
      rw [hget]
      cases o
      · exact ⟨fun l v => l + v, fun _ _ => rfl, by
          simp only [Field3D.compound, Field3D.operator_plus_eq]
          rw [withInterp_same G _ fuel f rhs p hst]
          simp only [Field3D.combine3D, hrb]⟩
      · exact ⟨fun l v => l - v, fun _ _ => rfl, by
          simp only [Field3D.compound, Field3D.operator_minus_eq]
          rw [withInterp_same G _ fuel f rhs p hst]
          simp only [Field3D.combine3D, hrb]⟩
      · exact ⟨fun l v => l * v, fun _ _ => rfl, by
          simp only [Field3D.compound, Field3D.operator_times_eq]
          rw [withInterp_same G _ fuel f rhs p hst]
          simp only [Field3D.combine3D, hrb]⟩
      · exact ⟨fun l v => l / v, fun _ _ => rfl, by
          simp only [Field3D.compound, Field3D.operator_div_eq]
          rw [withInterp_same G _ fuel f rhs p hst]
          simp only [Field3D.combine3D, hrb]⟩
      · exact ⟨fun l v => G.pow l v, fun _ _ => rfl, by
          simp only [Field3D.compound, Field3D.operator_pow_eq]
          rw [withInterp_same G _ fuel f rhs p hst]
          simp only [Field3D.combine3D, hrb]⟩
  | field2d d =>
      cases o
      · exact ⟨_, fun _ _ => rfl, rfl⟩
      · exact ⟨_, fun _ _ => rfl, rfl⟩
      · exact ⟨_, fun _ _ => rfl, rfl⟩
      · exact ⟨fun l v => l * (1 / v), fun l v => mul_one_div l v, rfl⟩
      · exact ⟨_, fun _ _ => rfl, rfl⟩
  | real w =>
      cases o
      · exact ⟨_, fun _ _ => rfl, rfl⟩
      · exact ⟨_, fun _ _ => rfl, rfl⟩
      · exact ⟨_, fun _ _ => rfl, rfl⟩
      · exact ⟨fun l v => l * (1 / v), fun l v => mul_one_div l v, rfl⟩
      · exact ⟨_, fun _ _ => rfl, rfl⟩

/-- Effect of a compound assignment that needs no interpolation. -/
theorem compound_effect (G : Globals) (s : State) (k b : Nat) (f : Field3D)
    (hs : Inv s) (hk : k < s.nfields) (hf : s.fields k = some f) (hb : f.block = some b)
    (o : CompoundOp) (fuel : Nat) (r : Operand) (hr : r.ready G f s.pool.brk) :
    ∃ f2 p2 b2, f.compound G o fuel r s.pool = some (f2, p2) ∧
      Effect G s k f2 p2 b2
        (fun x y z => o.eval G (s.pool.read b x y z) (r.get s.pool x y z)) := by
  obtain ⟨op, hop, heq⟩ := compound_eq_combine G o fuel f r s.pool s.pool.brk hr
  have hbelow : PointwiseBelow s.pool.brk (fun q x y z => r.get q x y z) := by
    apply Operand.get_below
    intro rhs hrhs
    subst hrhs
    exact hr.1
  obtain ⟨f2, p2, b2, hc, he⟩ := combine_effect G s k b f hs hk hf hb op _ hbelow
  refine ⟨f2, p2, b2, heq.trans hc, ?_⟩
  have hv : (fun x y z => op (s.pool.read b x y z) (r.get s.pool x y z)) =
      (fun x y z => o.eval G (s.pool.read b x y z) (r.get s.pool x y z)) := by
    funext x y z
    exact hop _ _
  rw [← hv]
  exact he

theorem holders_eq_one (F : Nat → Option Field3D) (i k n : Nat) (hk : k < n)
    (hb : (F k).bind Field3D.block = some i)
    (ho : ∀ j, j < n → j ≠ k → (F j).bind Field3D.block ≠ some i) : holders F n i = 1 := by
  have hu := holders_update F k none i n hk
  have hp : ptsTo (F k) i = 1 := by simp [ptsTo, hb]
  have hn : ptsTo (none : Option Field3D) i = 0 := by simp [ptsTo]
  have h0 : holders (Function.update F k none) n i = 0 :=
    holders_zero _ i n (fun j hj => by
      by_cases hjk : j = k
      · subst hjk; simp
      · rw [Function.update_noteq hjk]; exact ho j hj hjk)
  rw [hp, hn, h0] at hu
  omega

/-- After a mutating member function the object is the only holder of its block. -/
theorem Effect.refs_one {G : Globals} {s : State} {k : Nat} {f2 : Field3D} {p2 : Pool}
    {b2 : Nat} {v : Nat → Nat → Nat → ℚ} (h : Effect G s k f2 p2 b2 v) (hk : k < s.nfields) :
    b2 < p2.brk ∧ (p2.heap b2).refs = 1 := by
  have hkb : ((s.put k f2 p2).fields k).bind Field3D.block = some b2 := by
    simp [State.put, h.block]
  have hlt : b2 < p2.brk := h.inv.ptr k hk b2 hkb
  refine ⟨hlt, ?_⟩
  have hr := h.inv.refs b2 hlt
  have h1 : holders (s.put k f2 p2).fields s.nfields b2 = 1 :=
    holders_eq_one _ b2 k s.nfields hk hkb (fun j hj hjk => by
      simp only [State.put, Function.update_noteq hjk]
      exact h.alone j hj hjk)
  simp only [State.put] at hr h1
  rw [hr, h1]
  rfl

/-- What the other objects read is not changed by a mutating member function. -/
theorem Effect.value_other {G : Globals} {s : State} {k : Nat} {f2 : Field3D} {p2 : Pool}
    {b2 : Nat} {v : Nat → Nat → Nat → ℚ} (h : Effect G s k f2 p2 b2 v) (hs : Inv s) (j : Nat)
    (hjk : j ≠ k) (x y z : Nat) : (s.put k f2 p2).value j x y z = s.value j x y z := by
  unfold State.value State.field
  simp only [State.put]
  by_cases hj : j < s.nfields
  · simp only [if_pos hj, Function.update_noteq hjk]
    cases hfj : s.fields j with
    | none => rfl
    | some g =>
        simp only
        cases hgb : g.block with
        | none => rfl
        | some bj =>
            have hjb : (s.fields j).bind Field3D.block = some bj := by rw [hfj]; exact hgb
            have hlt := hs.ptr j hj bj hjb
            have hne : bj ≠ b2 := fun e => h.alone j hj hjk (e ▸ hjb)
            simp only [Option.map_some', Pool.read, h.frame bj hlt hne]
  · simp only [if_neg hj]

/-- What the object itself reads after a mutating member function. -/
theorem Effect.value_self {G : Globals} {s : State} {k : Nat} {f2 : Field3D} {p2 : Pool}
    {b2 : Nat} {v : Nat → Nat → Nat → ℚ} (h : Effect G s k f2 p2 b2 v) (hk : k < s.nfields)
    (x y z : Nat) (hx : x < G.ngx) (hy : y < G.ngy) (hz : z < G.ngz) :
    (s.put k f2 p2).value k x y z = some (v x y z) := by
  unfold State.value State.field
  simp only [State.put, if_pos hk, Function.update_same, h.block, Option.map_some']
  rw [h.vals x y z hx hy hz]

/-- A member function that changes nothing, called on the sole holder of a block. -/
theorem effect_none (G : Globals) (s : State) (k b : Nat) (f : Field3D)
    (hs : Inv s) (hk : k < s.nfields) (hf : s.fields k = some f) (hb : f.block = some b)
    (h1 : (s.pool.heap b).refs = 1) :
    Effect G s k f s.pool b (fun x y z => s.pool.read b x y z) := by
  have hkb : (s.fields k).bind Field3D.block = some b := by rw [hf]; exact hb
  have hrp := hs.refs_pos k b hk hkb
  refine ⟨?_, hb, ?_, Nat.le_refl _, fun _ _ _ => rfl, ?_, fun _ _ _ _ _ _ => rfl⟩
  · refine hs.of_ptrs _ _ ⟨rfl, rfl, rfl, rfl, fun _ => ⟨rfl, rfl⟩⟩ (fun j _ => ?_)
    by_cases hjk : j = k
    · subst hjk; rw [Function.update_same, hf]
    · rw [Function.update_noteq hjk]
  · intro g hg
    rw [hf] at hg
    cases hg
    rfl
  · intro j hj hjk
    refine holders_one s.fields b k s.nfields hk hkb ?_ j hj hjk
    have := hs.refs b hrp.1
    omega

/-- Effect of `Allocate` on an object that has data: the values are kept. -/
theorem alloc_effect (G : Globals) (s : State) (k b : Nat) (f : Field3D)
    (hs : Inv s) (hk : k < s.nfields) (hf : s.fields k = some f) (hb : f.block = some b) :
    ∃ b2, Effect G s k (f.alloc_data G s.pool).1 (f.alloc_data G s.pool).2 b2
      (fun x y z => s.pool.read b x y z) := by
  have hkb : (s.fields k).bind Field3D.block = some b := by rw [hf]; exact hb
  have hrp := hs.refs_pos k b hk hkb
  unfold Field3D.alloc_data
  rw [hb]
  by_cases h1 : (s.pool.heap b).refs > 1
  · simp only [if_pos h1]
    exact ⟨_, effect_new_block G s k b f hs hk hf hb (by omega)
      (fun q x y z => q.read b x y z) (PointwiseBelow.read _ b hrp.1)⟩
  · simp only [if_neg h1]
    exact ⟨b, effect_none G s k b f hs hk hf hb (by omega)⟩

/-- Effect of `Allocate` on an object without data: it gets a block of its own. -/
theorem alloc_effect_empty (G : Globals) (s : State) (k : Nat) (f : Field3D)
    (hs : Inv s) (hk : k < s.nfields) (hf : s.fields k = some f) (hb : f.block = none) :
    Effect G s k (f.alloc_data G s.pool).1 (f.alloc_data G s.pool).2 (new_block s.pool).1
      (fun x y z => (new_block s.pool).2.read (new_block s.pool).1 x y z) := by
  have hkb : (s.fields k).bind Field3D.block = none := by rw [hf]; exact hb
  have hP := (inv_iff s).1 hs
  have hn := hP.of_new_block (fun i => (holders s.fields s.nfields i : Int) +
    (if i = (new_block s.pool).1 then 1 else 0)) (fun _ => rfl)
  unfold Field3D.alloc_data
  rw [hb]
  simp only
  refine ⟨?_, rfl, ?_, hn.2.2.2, ?_, ?_, fun _ _ _ _ _ _ => rfl⟩
  · exact hs.fresh k hk hkb _ ⟨rfl, rfl, rfl, rfl, fun _ => ⟨rfl, rfl⟩⟩ f.location
  · intro g hg
    rw [hf] at hg
    cases hg
    rfl
  · intro i _ hib
    rw [new_block_heap_ne s.pool i hib]
  · intro j hj _ hjb
    have hpos := holders_pos s.fields _ j s.nfields hj hjb
    have h0 := hn.2.1
    simp only at h0
    omega

theorem put_put (s : State) (k : Nat) (f1 f2 : Field3D) (p1 p2 : Pool) :
    (s.put k f1 p1).put k f2 p2 = s.put k f2 p2 := by
  simp [State.put]

/-- A member function that first makes the object the sole holder of a block and
then overwrites that block in place. -/
theorem Effect.then_in_place {G : Globals} {s : State} {k : Nat} {f1 : Field3D} {p1 : Pool}
    {b1 : Nat} {v : Nat → Nat → Nat → ℚ} (h : Effect G s k f1 p1 b1 v) (hk : k < s.nfields)
    (val : Pool → Nat → Nat → Nat → ℚ) (hval : PointwiseBelow p1.brk val) :
    Effect G s k f1
      (loop3 G.ngx G.ngy G.ngz (fun jx jy jz q => q.write b1 jx jy jz (val q jx jy jz)) p1)
      b1 (fun x y z => val p1 x y z) := by
  have h2 := effect_in_place G (s.put k f1 p1) k b1 f1 h.inv hk (by simp [State.put]) h.block
    (h.refs_one hk).2 val hval
  refine ⟨?_, h.block, h.loc, ?_, ?_, h.alone, ?_⟩
  · have := h2.inv
    rw [put_put] at this
    exact this
  · exact Nat.le_trans h.brk h2.brk
  · intro i hi hib
    exact (h2.frame i (Nat.lt_of_lt_of_le hi h.brk) hib).trans (h.frame i hi hib)
  · exact h2.vals

/-! ## Every statement keeps the invariant and the values of the other objects -/

theorem incRefs_data (b : Nat) (q : Pool) (i : Nat) :
    ((Pool.incRefs b q).heap i).data = (q.heap i).data := by
  by_cases hib : i = b
  · subst hib; simp [Pool.incRefs, Pool.setRefs]
  · simp [Pool.incRefs, Pool.setRefs, Function.update_noteq hib]

theorem free_data_data (f : Field3D) (q : Pool) (i : Nat) :
    ((f.free_data q).2.heap i).data = (q.heap i).data := by
  cases hb : f.block with
  | none => simp [Field3D.free_data, hb]
  | some b =>
      rw [free_data_pool f b hb q]
      by_cases hib : i = b
      · subst hib
        split <;> simp [Pool.decRefs, Pool.setRefs, Pool.setNext]
      · split <;> simp [Pool.decRefs, Pool.setRefs, Pool.setNext, Function.update_noteq hib]

theorem value_congr (s t : State) (j : Nat) (hf : t.field j = s.field j)
    (hd : ∀ i, (t.pool.heap i).data = (s.pool.heap i).data) (x y z : Nat) :
    t.value j x y z = s.value j x y z := by
  unfold State.value
  rw [hf]
  cases s.field j with
  | none => rfl
  | some g =>
      simp only [Pool.read]
      cases g.block with
      | none => rfl
      | some b => simp only [Option.map_some', hd b]

theorem field_put_ne (s : State) (k j : Nat) (f : Field3D) (p : Pool) (hjk : j ≠ k) :
    (s.put k f p).field j = s.field j := by
  simp [State.field, State.put, Function.update_noteq hjk]

theorem field_push_lt (s : State) (j : Nat) (f : Field3D) (p : Pool) (hj : j < s.nfields) :
    (s.push f p).field j = s.field j := by
  have hne : j ≠ s.nfields := by omega
  have hlt : j < s.nfields + 1 := by omega
  simp [State.field, State.push, Function.update_noteq hne, hj, hlt]

theorem field_lt {s : State} {k : Nat} {f : Field3D} (h : s.field k = some f) :
    k < s.nfields ∧ s.fields k = some f := by
  unfold State.field at h
  by_cases hk : k < s.nfields
  · rw [if_pos hk] at h; exact ⟨hk, h⟩
  · rw [if_neg hk] at h; cases h

theorem Effect.kept {G : Globals} {s : State} {k : Nat} {f2 : Field3D} {p2 : Pool}
    {b2 : Nat} {v : Nat → Nat → Nat → ℚ} (h : Effect G s k f2 p2 b2 v) (hs : Inv s) :
    Kept s k (s.put k f2 p2) :=
  ⟨h.inv, fun j x y z _ hjk => h.value_other hs j hjk x y z, Nat.le_refl _⟩

/-- Forgetting a dead object at the end of the object table. -/
theorem Inv.shrink {p : Pool} {F F2 : Nat → Option Field3D} {n : Nat}
    (h : Inv ⟨p, F, n + 1⟩) (hn : (F n).bind Field3D.block = none)
    (hF : ∀ j, j < n → (F2 j).bind Field3D.block = (F j).bind Field3D.block) :
    Inv ⟨p, F2, n⟩ := by
  rw [inv_iff] at h ⊢
  refine h.congr_holders (fun i => ?_)
  simp only [holders]
  rw [holders_congr F F2 i n hF]
  simp [ptsTo, hn]

theorem copy_kept (s : State) (hs : Inv s) (src b : Nat) (f : Field3D)
    (hf : s.field src = some f) (hb : f.block = some b) (loc : CELL_LOC) :
    Kept s s.nfields (s.push ⟨some b, loc⟩ (Pool.incRefs b s.pool)) := by
  obtain ⟨hsrc, hfs⟩ := field_lt hf
  refine ⟨?_, fun j x y z hj _ => ?_, Nat.le_succ _⟩
  · have h1 := hs.extend (some ⟨none, loc⟩) rfl
    have hne : src ≠ s.nfields := by omega
    have h2 := h1.share s.nfields src b (Nat.lt_succ_self _) (by simp; omega)
      (by simp) (by simp [Function.update_noteq hne, hfs, hb]) loc
    simp only [Function.update_idem] at h2
    exact h2
  · exact value_congr s _ j (field_push_lt s j _ _ hj) (fun i => incRefs_data b s.pool i) x y z

theorem construct_kept (s : State) (hs : Inv s) :
    Kept s s.nfields (s.push Field3D.ctor s.pool) :=
  ⟨hs.extend (some Field3D.ctor) rfl,
    fun j x y z hj _ => value_congr s _ j (field_push_lt s j _ _ hj) (fun _ => rfl) x y z,
    Nat.le_succ _⟩

theorem destroy_kept (s : State) (hs : Inv s) (k : Nat) (f : Field3D)
    (hf : s.field k = some f) :
    Kept s k ⟨f.dtor s.pool, Function.update s.fields k none, s.nfields⟩ := by
  obtain ⟨hk, hfs⟩ := field_lt hf
  refine ⟨?_, fun j x y z hj hjk => ?_, Nat.le_refl _⟩
  · cases hb : f.block with
    | none =>
        have hp : f.dtor s.pool = s.pool := by simp [Field3D.dtor, Field3D.free_data, hb]
        rw [hp]
        refine hs.of_ptrs s.pool _ ⟨rfl, rfl, rfl, rfl, fun _ => ⟨rfl, rfl⟩⟩ (fun j _ => ?_)
        by_cases hjk : j = k
        · subst hjk; simp [hfs, hb]
        · rw [Function.update_noteq hjk]
    | some b => exact hs.release k hk f b hfs hb none rfl
  · refine value_congr s _ j ?_ (fun i => free_data_data f s.pool i) x y z
    simp [State.field, Function.update_noteq hjk]

theorem assign_kept (s : State) (hs : Inv s) (dst src : Nat) (f rhs f2 : Field3D) (p2 : Pool)
    (hf : s.field dst = some f) (hr : s.field src = some rhs)
    (h : f.operator_assign rhs (decide (dst = src)) s.pool = some (f2, p2)) :
    Kept s dst (s.put dst f2 p2) := by
  obtain ⟨hk, hfs⟩ := field_lt hf
  obtain ⟨hj, hrs⟩ := field_lt hr
  unfold Field3D.operator_assign at h
  by_cases hds : dst = src
  · simp only [hds, decide_True, if_true, Option.some.injEq, Prod.mk.injEq] at h
    obtain ⟨rfl, rfl⟩ := h
    refine ⟨?_, fun j x y z _ hjk =>
      value_congr s _ j (field_put_ne s dst j _ _ hjk) (fun _ => rfl) x y z, Nat.le_refl _⟩
    refine hs.of_ptrs s.pool _ ⟨rfl, rfl, rfl, rfl, fun _ => ⟨rfl, rfl⟩⟩ (fun j _ => ?_)
    by_cases hjk : j = dst
    · subst hjk; simp [hfs]
    · rw [Function.update_noteq hjk]
  · simp only [hds, decide_False, Bool.false_eq_true, if_false] at h
    cases hrb : rhs.block with
    | none => rw [hrb] at h; cases h
    | some rb =>
        rw [hrb] at h
        simp only [Option.some.injEq, Prod.mk.injEq] at h
        obtain ⟨rfl, rfl⟩ := h
        have hne : src ≠ dst := fun e => hds e.symm
        refine ⟨?_, fun j x y z _ hjk => ?_, Nat.le_refl _⟩
        · cases hb : f.block with
          | none =>
              simp only [hb, ne_eq, not_true_eq_false, if_false]
              exact hs.share dst src rb hk hj (by simp [hfs, hb]) (by simp [hrs, hrb]) _
          | some b =>
              simp only [hb, ne_eq, Option.some_ne_none, not_false_eq_true, if_true]
              have h1 := hs.release dst hk f b hfs hb (some ⟨none, f.location⟩) rfl
              have h2 := h1.share dst src rb hk hj (by simp)
                (by simp [Function.update_noteq hne, hrs, hrb]) rhs.location
              simp only [Function.update_idem] at h2
              exact h2
        · refine value_congr s _ j (field_put_ne s dst j _ _ hjk) (fun i => ?_) x y z
          simp only [State.put]
          rw [incRefs_data]
          split
          · exact free_data_data f s.pool i
          · rfl

theorem allocate_kept (G : Globals) (s : State) (hs : Inv s) (k : Nat) (f : Field3D)
    (hf : s.field k = some f) :
    Kept s k (s.put k (f.Allocate G s.pool).1 (f.Allocate G s.pool).2) := by
  obtain ⟨hk, hfs⟩ := field_lt hf
  unfold Field3D.Allocate
  cases hb : f.block with
  | none => exact (alloc_effect_empty G s k f hs hk hfs hb).kept hs
  | some b =>
      obtain ⟨b2, he⟩ := alloc_effect G s k b f hs hk hfs hb
      exact he.kept hs

theorem alloc_effect_any (G : Globals) (s : State) (hs : Inv s) (k : Nat) (f : Field3D)
    (hk : k < s.nfields) (hfs : s.fields k = some f) :
    ∃ b2 v, Effect G s k (f.alloc_data G s.pool).1 (f.alloc_data G s.pool).2 b2 v := by
  cases hb : f.block with
  | none => exact ⟨_, _, alloc_effect_empty G s k f hs hk hfs hb⟩
  | some b =>
      obtain ⟨b2, he⟩ := alloc_effect G s k b f hs hk hfs hb
      exact ⟨b2, _, he⟩

/-- Effect of `operator=(const real)`: the object ends as the sole holder of a
block that carries `val` on the whole grid. -/
theorem assign_real_effect (G : Globals) (s : State) (hs : Inv s) (k : Nat) (f : Field3D)
    (hk : k < s.nfields) (hfs : s.fields k = some f) (val : ℚ) :
    ∃ f2 p2 b2, f.operator_assign_real G val s.pool = some (f2, p2) ∧
      Effect G s k f2 p2 b2 (fun _ _ _ => val) := by
  obtain ⟨b1, v, he⟩ := alloc_effect_any G s hs k f hk hfs
  have h2 := he.then_in_place hk (fun _ _ _ _ => val) (PointwiseBelow.const _ (fun _ _ _ => val))
  refine ⟨_, _, b1, ?_, h2⟩
  unfold Field3D.operator_assign_real Field3D.Allocate
  rw [he.block]

theorem withInterp_stag (G : Globals)
    (core : Field3D → Field3D → Pool → Option (Field3D × Pool)) (fuel : Nat)
    (f rhs : Field3D) (p : Pool) (hst : G.StaggerGrids = true)
    (hloc : rhs.location ≠ f.location) :
    Field3D.withInterp G core (fuel + 1) f rhs p =
      match G.interp_to rhs f.location p with
      | none => none
      | some (tmp, p1) =>
          match Field3D.withInterp G core fuel f tmp p1 with
          | none => none
          | some (f2, p2) => some (f2, tmp.dtor p2) := by
  have hc : (G.StaggerGrids && decide (rhs.location ≠ f.location)) = true := by
    simp [hst, hloc]
  simp only [Field3D.withInterp, hc, if_true]

theorem withInterp_stag_zero (G : Globals)
    (core : Field3D → Field3D → Pool → Option (Field3D × Pool))
    (f rhs : Field3D) (p : Pool) (hst : G.StaggerGrids = true)
    (hloc : rhs.location ≠ f.location) :
    Field3D.withInterp G core 0 f rhs p = none := by
  have hc : (G.StaggerGrids && decide (rhs.location ≠ f.location)) = true := by
    simp [hst, hloc]
  simp only [Field3D.withInterp, hc, if_true]

theorem compound_field3d (G : Globals) (o : CompoundOp) :
    ∃ op : ℚ → ℚ → ℚ, (∀ l v, op l v = o.eval G l v) ∧
      ∀ (fuel : Nat) (f rhs : Field3D) (p : Pool),
        f.compound G o fuel (Operand.field3d rhs) p =
          Field3D.withInterp G (Field3D.combine3D G op) fuel f rhs p := by
  cases o
  · exact ⟨fun l v => l + v, fun _ _ => rfl, fun _ _ _ _ => rfl⟩
  · exact ⟨fun l v => l - v, fun _ _ => rfl, fun _ _ _ _ => rfl⟩
  · exact ⟨fun l v => l * v, fun _ _ => rfl, fun _ _ _ _ => rfl⟩
  · exact ⟨fun l v => l / v, fun _ _ => rfl, fun _ _ _ _ => rfl⟩
  · exact ⟨fun l v => G.pow l v, fun _ _ => rfl, fun _ _ _ _ => rfl⟩

theorem combine_some {G : Globals} {f : Field3D} {op : ℚ → ℚ → ℚ}
    {rhs : Pool → Nat → Nat → Nat → ℚ} {p : Pool} {x : Field3D × Pool}
    (h : f.combine G op rhs p = some x) : ∃ b, f.block = some b := by
  cases hb : f.block with
  | none => simp [Field3D.combine, hb] at h
  | some b => exact ⟨b, rfl⟩

theorem combine3D_some {G : Globals} {f rhs : Field3D} {op : ℚ → ℚ → ℚ} {p : Pool}
    {x : Field3D × Pool} (h : Field3D.combine3D G op f rhs p = some x) :
    ∃ b rb, f.block = some b ∧ rhs.block = some rb ∧
      f.combine G op (fun q jx jy jz => q.read rb jx jy jz) p = some x := by
  cases hrb : rhs.block with
  | none => simp [Field3D.combine3D, hrb] at h
  | some rb =>
      simp only [Field3D.combine3D, hrb] at h
      obtain ⟨b, hb⟩ := combine_some h
      exact ⟨b, rb, hb, rfl, h⟩

/-- A compound assignment on a live object, with or without interpolation, keeps
the invariant and what the other objects read. -/
theorem compound_kept (G : Globals) (hG : InterpOK G) (s : State) (hs : Inv s) (k : Nat)
    (f : Field3D) (hf : s.field k = some f) (o : CompoundOp) (fuel : Nat) (r : Operand)
    (hr : ∀ rhs, r = Operand.field3d rhs → ∃ j, s.field j = some rhs)
    (f2 : Field3D) (p2 : Pool) (h : f.compound G o fuel r s.pool = some (f2, p2)) :
    Kept s k (s.put k f2 p2) ∧ f2.block ≠ none ∧ f2.location = f.location := by
  obtain ⟨hk, hfs⟩ := field_lt hf
  have finish : ∀ (b : Nat), f.block = some b → r.ready G f s.pool.brk →
      Kept s k (s.put k f2 p2) ∧ f2.block ≠ none ∧ f2.location = f.location := by
    intro b hb hready
    obtain ⟨g2, q2, b2, hc, he⟩ := compound_effect G s k b f hs hk hfs hb o fuel r hready
    rw [hc] at h
    simp only [Option.some.injEq, Prod.mk.injEq] at h
    obtain ⟨rfl, rfl⟩ := h
    exact ⟨he.kept hs, by rw [he.block]; simp, he.loc f hfs⟩
  cases r with
  | field2d d =>
      obtain ⟨op, _, heq⟩ := compound_eq_combine G o fuel f (Operand.field2d d) s.pool
        s.pool.brk trivial
      obtain ⟨b, hb⟩ := combine_some (heq ▸ h)
      exact finish b hb trivial
  | real w =>
      obtain ⟨op, _, heq⟩ := compound_eq_combine G o fuel f (Operand.real w) s.pool
        s.pool.brk trivial
      obtain ⟨b, hb⟩ := combine_some (heq ▸ h)
      exact finish b hb trivial
  | field3d rhs =>
      obtain ⟨j, hj⟩ := hr rhs rfl
      obtain ⟨hjn, hjs⟩ := field_lt hj
      obtain ⟨op, hop, heq⟩ := compound_field3d G o
      by_cases hst : G.StaggerGrids = false ∨ rhs.location = f.location
      · rw [heq, withInterp_same G _ fuel f rhs s.pool hst] at h
        obtain ⟨b, rb, hb, hrb, _⟩ := combine3D_some h
        have hlt : rb < s.pool.brk := hs.ptr j hjn rb (by rw [hjs]; exact hrb)
        have h0 : f.compound G o fuel (Operand.field3d rhs) s.pool = some (f2, p2) := by
          rw [heq, withInterp_same G _ fuel f rhs s.pool hst]; exact h
        clear h
        have h := h0
        exact finish b hb ⟨⟨rb, hrb, hlt⟩, hst⟩
      · have hst1 : G.StaggerGrids = true := by
          cases hsg : G.StaggerGrids with
          | false => exact absurd (Or.inl hsg) hst
          | true => rfl
        have hloc : rhs.location ≠ f.location := fun e => hst (Or.inr e)
        rw [heq] at h
        cases fuel with
        | zero =>
            rw [withInterp_stag_zero G _ f rhs s.pool hst1 hloc] at h
            cases h
        | succ n =>
            rw [withInterp_stag G _ n f rhs s.pool hst1 hloc] at h
            cases hi : G.interp_to rhs f.location s.pool with
            | none => rw [hi] at h; cases h
            | some tp =>
                obtain ⟨tmp, p1⟩ := tp
                rw [hi] at h
                simp only at h
                obtain ⟨htl, hinv1, hval1⟩ := hG.safe s j rhs f.location tmp p1 hs hj hi
                rw [withInterp_same G _ n f tmp p1 (Or.inr htl)] at h
                cases hc : Field3D.combine3D G op f tmp p1 with
                | none => rw [hc] at h; cases h
                | some x =>
                    obtain ⟨g2, q2⟩ := x
                    rw [hc] at h
                    simp only [Option.some.injEq, Prod.mk.injEq] at h
                    obtain ⟨rfl, rfl⟩ := h
                    obtain ⟨b, tb, hb, htb, hcomb⟩ := combine3D_some hc
                    have hkn : k ≠ s.nfields := by omega
                    have hk1 : k < (s.push tmp p1).nfields := by
                      show k < s.nfields + 1
                      omega
                    have hf1 : (s.push tmp p1).fields k = some f := by
                      simp [State.push, Function.update_noteq hkn, hfs]
                    have htlt : tb < p1.brk :=
                      hinv1.ptr s.nfields (Nat.lt_succ_self _) tb (by simp [State.push, htb])
                    obtain ⟨g3, q3, b2, hc3, he⟩ := combine_effect G (s.push tmp p1) k b f
                      hinv1 hk1 hf1 hb op (fun q x y z => q.read tb x y z)
                      (PointwiseBelow.read _ tb htlt)
                    have hc4 : f.combine G op (fun q x y z => q.read tb x y z) p1
                        = some (g3, q3) := hc3
                    rw [hcomb] at hc4
                    simp only [Option.some.injEq, Prod.mk.injEq] at hc4
                    obtain ⟨rfl, rfl⟩ := hc4
                    have hne : s.nfields ≠ k := fun e => hkn e.symm
                    have hrel := he.inv.release s.nfields (Nat.lt_succ_self _) tmp tb
                      (by simp [State.put, State.push, Function.update_noteq hne]) htb none rfl
                    refine ⟨⟨?_, fun i x y z hi2 hik => ?_, Nat.le_refl _⟩,
                      by rw [he.block]; simp, he.loc f hf1⟩
                    · refine hrel.shrink (by simp) (fun i hi2 => ?_)
                      have hin : i ≠ s.nfields := by omega
                      by_cases hik : i = k
                      · subst hik
                        simp [State.put, State.push, Function.update_noteq hin]
                      · simp [State.put, State.push, Function.update_noteq hin,
                          Function.update_noteq hik]
                    · have e1 : (s.put k g2 (tmp.dtor q2)).value i x y z =
                          ((s.push tmp p1).put k g2 q2).value i x y z := by
                        refine value_congr _ _ i ?_ (fun b => free_data_data tmp q2 b) x y z
                        rw [field_put_ne _ k i _ _ hik, field_put_ne _ k i _ _ hik,
                          field_push_lt s i _ _ hi2]
                      rw [e1, he.value_other hinv1 i hik x y z]
                      exact hval1 i x y z hi2

theorem push_put (s : State) (f1 f2 : Field3D) (p1 p2 : Pool) :
    (s.push f1 p1).put s.nfields f2 p2 = s.push f2 p2 := by
  simp [State.put, State.push]

theorem binary_kept (G : Globals) (hG : InterpOK G) (s : State) (hs : Inv s) (k : Nat)
    (f : Field3D) (hf : s.field k = some f) (o : CompoundOp) (fuel : Nat) (r : Operand)
    (hr : ∀ rhs, r = Operand.field3d rhs → ∃ j, s.field j = some rhs)
    (f2 : Field3D) (p2 : Pool) (h : f.binary G o fuel r s.pool = some (f2, p2)) :
    Kept s s.nfields (s.push f2 p2) ∧ f2.block ≠ none ∧ f2.location = f.location := by
  unfold Field3D.binary Field3D.copy_ctor at h
  cases hb : f.block with
  | none => rw [hb] at h; cases h
  | some b =>
      rw [hb] at h
      simp only at h
      have hc := copy_kept s hs k b f hf hb f.location
      have hfn : (s.push ⟨some b, f.location⟩ (Pool.incRefs b s.pool)).field s.nfields =
          some ⟨some b, f.location⟩ := by
        simp [State.field, State.push]
      have hr1 : ∀ rhs, r = Operand.field3d rhs →
          ∃ j, (s.push ⟨some b, f.location⟩ (Pool.incRefs b s.pool)).field j = some rhs := by
        intro rhs e
        obtain ⟨j, hj⟩ := hr rhs e
        exact ⟨j, by rw [field_push_lt s j _ _ (field_lt hj).1]; exact hj⟩
      obtain ⟨hkept, hblk, hloc⟩ := compound_kept G hG _ hc.inv s.nfields _ hfn o fuel r hr1
        f2 p2 h
      rw [push_put] at hkept
      refine ⟨⟨hkept.inv, fun j x y z hj hjn => ?_, Nat.le_succ _⟩, hblk, hloc⟩
      rw [hkept.others j x y z (by show j < s.nfields + 1; omega) hjn]
      exact hc.others j x y z hj hjn

theorem operand_live {s : State} {a : Arg} {r : Operand} (h : s.operand a = some r) :
    ∀ rhs, r = Operand.field3d rhs → ∃ j, s.field j = some rhs := by
  intro rhs e
  subst e
  cases a with
  | field3d j =>
      simp only [State.operand, Option.map_eq_some'] at h
      obtain ⟨g, hg, hge⟩ := h
      cases hge
      exact ⟨j, hg⟩
  | field2d d => simp [State.operand] at h
  | real v => simp [State.operand] at h

/-- Every statement keeps the pool invariant and what the objects it does not
write to read. -/
theorem step_kept (G : Globals) (hG : InterpOK G) (s : State) (hs : Inv s) (a : Action)
    (t : State) (h : step G s a = some t) : Kept s (a.target s.nfields) t := by
  cases a with
  | construct =>
      simp only [step, Option.some.injEq] at h
      subst h
      exact construct_kept s hs
  | copy src =>
      simp only [step] at h
      cases hf : s.field src with
      | none => rw [hf] at h; cases h
      | some f =>
          rw [hf] at h
          cases hb : f.block with
          | none => simp [Field3D.copy_ctor, hb] at h
          | some b =>
              simp only [Field3D.copy_ctor, hb, Option.map_some', Option.some.injEq] at h
              subst h
              exact copy_kept s hs src b f hf hb f.location
  | assign dst src =>
      simp only [step] at h
      cases hf : s.field dst with
      | none => rw [hf] at h; cases h
      | some f =>
          cases hr : s.field src with
          | none => rw [hf, hr] at h; cases h
          | some rhs =>
              rw [hf, hr] at h
              simp only [Option.map_eq_some'] at h
              obtain ⟨x, hx, hxt⟩ := h
              subst hxt
              exact assign_kept s hs dst src f rhs x.1 x.2 hf hr hx
  | assignReal k val =>
      simp only [step] at h
      cases hf : s.field k with
      | none => rw [hf] at h; cases h
      | some f =>
          rw [hf] at h
          obtain ⟨hk, hfs⟩ := field_lt hf
          obtain ⟨f2, p2, b2, he, heff⟩ := assign_real_effect G s hs k f hk hfs val
          simp only [he, Option.map_some', Option.some.injEq] at h
          subst h
          exact heff.kept hs
  | allocate k =>
      simp only [step] at h
      cases hf : s.field k with
      | none => rw [hf] at h; cases h
      | some f =>
          rw [hf] at h
          simp only [Option.some.injEq] at h
          subst h
          exact allocate_kept G s hs k f hf
  | compound k o a fuel =>
      simp only [step] at h
      cases hf : s.field k with
      | none => rw [hf] at h; cases h
      | some f =>
          cases hr : s.operand a with
          | none => rw [hf, hr] at h; cases h
          | some r =>
              rw [hf, hr] at h
              simp only [Option.map_eq_some'] at h
              obtain ⟨x, hx, hxt⟩ := h
              subst hxt
              exact (compound_kept G hG s hs k f hf o fuel r (operand_live hr) x.1 x.2 hx).1
  | binary k o a fuel =>
      simp only [step] at h
      cases hf : s.field k with
      | none => rw [hf] at h; cases h
      | some f =>
          cases hr : s.operand a with
          | none => rw [hf, hr] at h; cases h
          | some r =>
              rw [hf, hr] at h
              simp only [Option.map_eq_some'] at h
              obtain ⟨x, hx, hxt⟩ := h
              subst hxt
              exact (binary_kept G hG s hs k f hf o fuel r (operand_live hr) x.1 x.2 hx).1
  | destroy k =>
      simp only [step] at h
      cases hf : s.field k with
      | none => rw [hf] at h; cases h
      | some f =>
          rw [hf] at h
          simp only [Option.some.injEq] at h
          subst h
          exact destroy_kept s hs k f hf

theorem inv_empty (uninit : Nat → Nat → Nat → Nat → ℚ) : Inv (State.empty uninit) := by
  refine ⟨fun k hk => ?_, fun i hi => ?_, ⟨[], rfl, List.nodup_nil, fun i => ?_⟩⟩
  · exact absurd hk (Nat.not_lt_zero k)
  · exact absurd hi (Nat.not_lt_zero i)
  · simp [State.empty, Pool.empty]

theorem reachable_inv (G : Globals) (hG : InterpOK G) (uninit : Nat → Nat → Nat → Nat → ℚ)
    (s : State) (h : Reachable G uninit s) : Inv s := by
  induction h with
  | start => exact inv_empty uninit
  | next s t a _ hstep ih => exact (step_kept G hG s ih a t hstep).inv

theorem run_inv (G : Globals) (hG : InterpOK G) :
    ∀ (as : List Action) (s t : State), Inv s → run G as s = some t → Inv t := by
  intro as
  induction as with
  | nil =>
      intro s t hs h
      simp only [run, Option.some.injEq] at h
      subst h
      exact hs
  | cons a as ih =>
      intro s t hs h
      simp only [run] at h
      cases hst : step G s a with
      | none => rw [hst] at h; cases h
      | some s1 =>
          rw [hst] at h
          exact ih s1 t (step_kept G hG s hs a s1 hst).inv h

/-! ## The pool operations on a well-formed free list -/

theorem new_block_pop (p : Pool) (i : Nat) (l : List Nat) (h : p.FreeList (i :: l))
    (hi : i ∉ l) :
    (new_block p).1 = i ∧ (new_block p).2.FreeList l ∧
      (new_block p).2.nblocks = p.nblocks ∧ (new_block p).2.brk = p.brk ∧
      (new_block p).2.blocklist = p.blocklist ∧
      ((new_block p).2.heap i).data = (p.heap i).data := by
  have hfb : p.free_block = some i := h.1
  have hc : IsChain p.heap (p.heap i).next l := h.2
  have hp2 : (new_block p) =
      (i, (({ p with free_block := (p.heap i).next }).setNext i none).setRefs i 1) := by
    simp [new_block, hfb]
  rw [hp2]
  refine ⟨rfl, ?_, rfl, rfl, rfl, by simp [Pool.setRefs, Pool.setNext]⟩
  have hfb2 : ((({ p with free_block := (p.heap i).next } : Pool).setNext i
      none).setRefs i 1).free_block = (p.heap i).next := rfl
  unfold Pool.FreeList
  simp only [hfb2]
  exact IsChain.congr_heap hc (fun j hj => by
    have hji : j ≠ i := fun e => hi (e ▸ hj)
    simp [Pool.setRefs, Pool.setNext, Function.update_noteq hji])

theorem new_block_fresh (p : Pool) (h : p.FreeList []) :
    (new_block p).1 = p.brk ∧ (new_block p).2.FreeList [] ∧
      (new_block p).2.nblocks = p.nblocks + 1 ∧ (new_block p).2.brk = p.brk + 1 ∧
      (new_block p).2.blocklist = some p.brk ∧
      ((new_block p).2.heap p.brk).next = p.blocklist := by
  have hfb : p.free_block = none := h
  have hp2 : (new_block p) = (p.brk, { p with
      heap := Function.update p.heap p.brk ⟨p.uninit p.brk, 1, p.blocklist⟩,
      brk := p.brk + 1, blocklist := some p.brk, nblocks := p.nblocks + 1 }) := by
    simp [new_block, hfb]
  rw [hp2]
  exact ⟨rfl, hfb, rfl, rfl, rfl, by simp⟩

theorem free_data_push (f : Field3D) (b : Nat) (hb : f.block = some b) (p : Pool)
    (l : List Nat) (hl : p.FreeList l) (hbl : b ∉ l) (h0 : (p.heap b).refs - 1 = 0) :
    (f.free_data p).2.FreeList (b :: l) := by
  rw [free_data_pool f b hb p, if_pos h0]
  refine ⟨rfl, ?_⟩
  have hnx : ((({ (Pool.decRefs b p).setNext b p.free_block with
      free_block := some b } : Pool).heap b).next) = p.free_block := by
    simp [Pool.decRefs, Pool.setRefs, Pool.setNext]
  rw [hnx]
  exact IsChain.congr_heap hl (fun i hi => by
    have hib : i ≠ b := fun e => hbl (e ▸ hi)
    simp [Pool.decRefs, Pool.setRefs, Pool.setNext, Function.update_noteq hib])

theorem decRefs_next (b : Nat) (q : Pool) (i : Nat) :
    ((Pool.decRefs b q).heap i).next = (q.heap i).next := by
  by_cases hib : i = b
  · subst hib; simp [Pool.decRefs, Pool.setRefs]
  · simp [Pool.decRefs, Pool.setRefs, Function.update_noteq hib]

theorem decRefs_freeList (b : Nat) (q : Pool) (l : List Nat) (hl : q.FreeList l) :
    (Pool.decRefs b q).FreeList l :=
  IsChain.congr_heap hl (fun i _ => decRefs_next b q i)

theorem decRefs_refs (b : Nat) (q : Pool) :
    ((Pool.decRefs b q).heap b).refs = (q.heap b).refs - 1 := by
  simp [Pool.decRefs, Pool.setRefs]

/-- C9: `new_block` returns a block whose count is 1.  When the free list is
`i :: l2` it returns the head `i`, the free list becomes `l2` and `nblocks`, the
allocation list and the heap size are unchanged; when the free list is empty it
creates a block at the next address, adds one to `nblocks` and links the block at
the head of the allocation list.  The head of the free list is the block released
last: `new_block` right after a `free_data` that took a count to zero returns the
released block. -/
theorem new_block_acquires (p : Pool) (l : List Nat) (hl : p.FreeList l) (hn : l.Nodup) :
    ((new_block p).2.heap (new_block p).1).refs = 1 ∧
    (∀ i l2, l = i :: l2 →
      (new_block p).1 = i ∧ (new_block p).2.FreeList l2 ∧
        (new_block p).2.nblocks = p.nblocks ∧ (new_block p).2.blocklist = p.blocklist ∧
        (new_block p).2.brk = p.brk) ∧
    (l = [] →
      (new_block p).1 = p.brk ∧ (new_block p).2.brk = p.brk + 1 ∧
        (new_block p).2.nblocks = p.nblocks + 1 ∧
        (new_block p).2.blocklist = some (new_block p).1 ∧
        ((new_block p).2.heap (new_block p).1).next = p.blocklist ∧
        (new_block p).2.FreeList []) ∧
    (∀ (f : Field3D) (b : Nat), f.block = some b → (p.heap b).refs = 1 →
      (new_block (f.free_data p).2).1 = b) := by
  refine ⟨new_block_refs p, ?_, ?_, ?_⟩
  · intro i l2 e
    subst e
    obtain ⟨h1, h2, h3, h4, h5, _⟩ := new_block_pop p i l2 hl (List.nodup_cons.1 hn).1
    exact ⟨h1, h2, h3, h5, h4⟩
  · intro e
    subst e
    obtain ⟨h1, h2, h3, h4, h5, h6⟩ := new_block_fresh p hl
    rw [h1]
    exact ⟨rfl, h4, h3, h5, h6, h2⟩
  · intro f b hb h1
    rw [free_data_pool f b hb p, if_pos (by omega)]
    simp [new_block]

/-- C10: on an object without data `free_data` does nothing.  On an object whose
block `b` is not on the free list `l` it takes one from the count of `b`, leaves
every other block as it was and the object without data; if the count reached
zero the free list becomes `b :: l`, otherwise the free list and its head are
unchanged. -/
theorem free_data_releases (f : Field3D) (p : Pool) (l : List Nat) (hl : p.FreeList l) :
    (f.block = none → f.free_data p = (f, p)) ∧
    ∀ b, f.block = some b → b ∉ l →
      (f.free_data p).1.block = none ∧
      ((f.free_data p).2.heap b).refs = (p.heap b).refs - 1 ∧
      (∀ i, i ≠ b → (f.free_data p).2.heap i = p.heap i) ∧
      ((p.heap b).refs - 1 = 0 → (f.free_data p).2.FreeList (b :: l)) ∧
      ((p.heap b).refs - 1 ≠ 0 →
        (f.free_data p).2.FreeList l ∧ (f.free_data p).2.free_block = p.free_block) := by
  refine ⟨fun hb => by simp [Field3D.free_data, hb], fun b hb hbl => ⟨?_, ?_, ?_, ?_, ?_⟩⟩
  · simp [Field3D.free_data, hb]
  · rw [free_data_pool f b hb p]
    split <;> simp [Pool.decRefs, Pool.setRefs, Pool.setNext]
  · intro i hib
    rw [free_data_pool f b hb p]
    split <;> simp [Pool.decRefs, Pool.setRefs, Pool.setNext, Function.update_noteq hib]
  · exact fun h0 => free_data_push f b hb p l hl hbl h0
  · intro h0
    rw [free_data_pool f b hb p, if_neg h0]
    exact ⟨decRefs_freeList b p l hl, rfl⟩

/-- C3: with staggering off or equal locations, every compound assignment with
every kind of right operand succeeds and leaves at every point of the local grid,
guard cells included, the old left value combined with the right operand, whatever
the count of the left block. -/
theorem compound_elementwise (G : Globals) (s : State) (hs : Inv s) (k b : Nat)
    (f : Field3D) (hf : s.field k = some f) (hb : f.block = some b) (o : CompoundOp)
    (fuel : Nat) (r : Operand) (hr : r.ready G f s.pool.brk) :
    ∃ f2 p2 b2, f.compound G o fuel r s.pool = some (f2, p2) ∧ f2.block = some b2 ∧
      ∀ x y z, x < G.ngx → y < G.ngy → z < G.ngz →
        ∃ w, r.value s.pool x y z = some w ∧
          p2.read b2 x y z = o.eval G (s.pool.read b x y z) w := by
  obtain ⟨hk, hfs⟩ := field_lt hf
  obtain ⟨f2, p2, b2, hc, he⟩ := compound_effect G s k b f hs hk hfs hb o fuel r hr
  refine ⟨f2, p2, b2, hc, he.block, fun x y z hx hy hz => ?_⟩
  refine ⟨r.get s.pool x y z, ?_, he.vals x y z hx hy hz⟩
  cases r with
  | field3d rhs =>
      obtain ⟨⟨rb, hrb, _⟩, _⟩ := hr
      simp [Operand.get, Operand.value, hrb]
  | field2d d => rfl
  | real w => rfl

/-- C8: from any state of a live object, `Allocate` leaves it with a block of count
1; an object that had data reads the same value as before at every grid point, and
what every other object reads is unchanged.  With count 1 before the call nothing
changes, with a larger count the block comes from `new_block`, differs from the old
one and the old count drops by one.  A second call returns the object and the pool
as the first call left them. -/
theorem allocate_idempotent (G : Globals) (s : State) (hs : Inv s) (k : Nat) (f : Field3D)
    (hf : s.field k = some f) :
    (∃ b2, (f.Allocate G s.pool).1.block = some b2 ∧
      ((f.Allocate G s.pool).2.heap b2).refs = 1 ∧
      ∀ b, f.block = some b →
        (∀ x y z, x < G.ngx → y < G.ngy → z < G.ngz →
          (f.Allocate G s.pool).2.read b2 x y z = s.pool.read b x y z) ∧
        ((s.pool.heap b).refs = 1 → f.Allocate G s.pool = (f, s.pool)) ∧
        (1 < (s.pool.heap b).refs →
          b2 = (new_block s.pool).1 ∧ b2 ≠ b ∧
            ((f.Allocate G s.pool).2.heap b).refs = (s.pool.heap b).refs - 1)) ∧
    (∀ j x y z, j ≠ k →
      (s.put k (f.Allocate G s.pool).1 (f.Allocate G s.pool).2).value j x y z =
        s.value j x y z) ∧
    (f.Allocate G s.pool).1.Allocate G (f.Allocate G s.pool).2 = f.Allocate G s.pool := by
  obtain ⟨hk, hfs⟩ := field_lt hf
  obtain ⟨b2, v, he⟩ := alloc_effect_any G s hs k f hk hfs
  have hone := he.refs_one hk
  refine ⟨⟨b2, he.block, hone.2, fun b hb => ⟨?_, ?_, ?_⟩⟩, ?_, ?_⟩
  · obtain ⟨b3, he3⟩ := alloc_effect G s k b f hs hk hfs hb
    have e : b3 = b2 := by
      have h1 := he3.block
      rw [he.block] at h1
      cases h1
      rfl
    subst e
    exact he3.vals
  · intro h1
    simp [Field3D.Allocate, Field3D.alloc_data, hb, h1]
  · intro h1
    have hkb : (s.fields k).bind Field3D.block = some b := by rw [hfs]; exact hb
    have hP := (inv_iff s).1 hs
    have hn := hP.of_new_block (fun i => (holders s.fields s.nfields i : Int) +
      (if i = (new_block s.pool).1 then 1 else 0)) (fun _ => rfl)
    have hpos := holders_pos s.fields b k s.nfields hk hkb
    have hne : (new_block s.pool).1 ≠ b := by
      intro e
      have h0 := hn.2.1
      rw [e] at h0
      omega
    have hblk : (f.alloc_data G s.pool).1.block = some (new_block s.pool).1 := by
      simp [Field3D.alloc_data, hb, h1]
    have e : b2 = (new_block s.pool).1 := by
      have h2 := he.block
      rw [hblk] at h2
      cases h2
      rfl
    refine ⟨e, by rw [e]; exact hne, ?_⟩
    have hfill := loop3_filled G.ngx G.ngy G.ngz (new_block s.pool).1
      (fun q x y z => q.read b x y z)
      (PointwiseBelow.read s.pool.brk b (hs.refs_pos k b hk hkb).1).pointwise
      (new_block s.pool).2
    simp only [Field3D.Allocate, Field3D.alloc_data, hb, h1, if_true]
    rw [decRefs_refs, (hfill.sameShape.2.2.2.2 _).1,
      new_block_heap_ne s.pool b (fun e => hne e.symm)]
  · intro j x y z hjk
    exact he.value_other hs j hjk x y z
  · have hb2 := he.block
    unfold Field3D.Allocate at hb2 hone ⊢
    generalize f.alloc_data G s.pool = res at hb2 hone ⊢
    obtain ⟨g, q⟩ := res
    simp only at hb2 hone
    have : ¬ (q.heap b2).refs > 1 := by omega
    simp [Field3D.alloc_data, hb2, this]

/-! ## Claims about programs -/

theorem run_size (G : Globals) (hG : InterpOK G) :
    ∀ (as : List Action) (s t : State), Inv s → run G as s = some t →
      s.nfields ≤ t.nfields := by
  intro as
  induction as with
  | nil =>
      intro s t _ h
      simp only [run, Option.some.injEq] at h
      subst h
      exact Nat.le_refl _
  | cons a as ih =>
      intro s t hs h
      simp only [run] at h
      cases hst : step G s a with
      | none => rw [hst] at h; cases h
      | some s1 =>
          rw [hst] at h
          have hk := step_kept G hG s hs a s1 hst
          exact Nat.le_trans hk.size (ih s1 t hk.inv h)

theorem combine_total (G : Globals) (f : Field3D) (b : Nat) (hb : f.block = some b)
    (op : ℚ → ℚ → ℚ) (rhs : Pool → Nat → Nat → Nat → ℚ) (p : Pool) :
    ∃ x, f.combine G op rhs p = some x := by
  unfold Field3D.combine
  rw [hb]
  by_cases h1 : (p.heap b).refs = 1
  · simp only [if_pos h1]; exact ⟨_, rfl⟩
  · simp only [if_neg h1]; exact ⟨_, rfl⟩

/-- A compound assignment on an object with data, with an operand that is a live
object with data, a `Field2D` or a `real`, returns. -/
theorem compound_total (G : Globals) (hG : InterpOK G) (s : State) (hs : Inv s) (k b : Nat)
    (f : Field3D) (hf : s.field k = some f) (hb : f.block = some b) (o : CompoundOp)
    (fuel : Nat) (hfuel : 1 ≤ fuel) (r : Operand)
    (hr : ∀ rhs, r = Operand.field3d rhs → (∃ j, s.field j = some rhs) ∧ rhs.block ≠ none) :
    ∃ f2 p2, f.compound G o fuel r s.pool = some (f2, p2) := by
  obtain ⟨hk, hfs⟩ := field_lt hf
  cases r with
  | field2d d =>
      obtain ⟨f2, p2, _, hc, _⟩ :=
        compound_effect G s k b f hs hk hfs hb o fuel (Operand.field2d d) trivial
      exact ⟨f2, p2, hc⟩
  | real w =>
      obtain ⟨f2, p2, _, hc, _⟩ :=
        compound_effect G s k b f hs hk hfs hb o fuel (Operand.real w) trivial
      exact ⟨f2, p2, hc⟩
  | field3d rhs =>
      obtain ⟨⟨j, hj⟩, hne⟩ := hr rhs rfl
      obtain ⟨hjn, hjs⟩ := field_lt hj
      cases hrb : rhs.block with
      | none => exact absurd hrb hne
      | some rb =>
          have hlt : rb < s.pool.brk := hs.ptr j hjn rb (by rw [hjs]; exact hrb)
          by_cases hst : G.StaggerGrids = false ∨ rhs.location = f.location
          · obtain ⟨f2, p2, _, hc, _⟩ := compound_effect G s k b f hs hk hfs hb o fuel
              (Operand.field3d rhs) ⟨⟨rb, hrb, hlt⟩, hst⟩
            exact ⟨f2, p2, hc⟩
          · have hst1 : G.StaggerGrids = true := by
              cases hsg : G.StaggerGrids with
              | false => exact absurd (Or.inl hsg) hst
              | true => rfl
            have hloc : rhs.location ≠ f.location := fun e => hst (Or.inr e)
            obtain ⟨op, _, heq⟩ := compound_field3d G o
            obtain ⟨n, rfl⟩ : ∃ n, fuel = n + 1 := ⟨fuel - 1, by omega⟩
            obtain ⟨tmp, p1, hi, htb⟩ := hG.live s j rhs f.location hs hj hne
            obtain ⟨htl, _, _⟩ := hG.safe s j rhs f.location tmp p1 hs hj hi
            rw [heq, withInterp_stag G _ n f rhs s.pool hst1 hloc, hi]
            simp only
            rw [withInterp_same G _ n f tmp p1 (Or.inr htl)]
            cases htb2 : tmp.block with
            | none => exact absurd htb2 htb
            | some tb =>
                obtain ⟨x, hx⟩ := combine_total G f b hb op (fun q jx jy jz => q.read tb jx jy jz) p1
                simp only [Field3D.combine3D, htb2, hx]
                exact ⟨_, _, rfl⟩

/-- The statement `c = a op b` for two live objects with data and no interpolation:
the copy of `a` followed by the compound assignment on the copy. -/
theorem binary_step (G : Globals) (s : State) (hs : Inv s) (ka kb ba bb : Nat)
    (fa fb : Field3D) (hfa : s.field ka = some fa) (hfb : s.field kb = some fb)
    (hba : fa.block = some ba) (hbb : fb.block = some bb)
    (hloc : G.StaggerGrids = false ∨ fb.location = fa.location) (o : CompoundOp)
    (fuel : Nat) :
    ∃ f2 p2 b2,
      step G s (Action.binary ka o (Arg.field3d kb) fuel) = some (s.push f2 p2) ∧
      run G [Action.copy ka, Action.compound s.nfields o (Arg.field3d kb) fuel] s =
        some (s.push f2 p2) ∧
      Inv (s.push ⟨some ba, fa.location⟩ (Pool.incRefs ba s.pool)) ∧
      Effect G (s.push ⟨some ba, fa.location⟩ (Pool.incRefs ba s.pool)) s.nfields f2 p2 b2
        (fun x y z => o.eval G (s.pool.read ba x y z) (s.pool.read bb x y z)) := by
  obtain ⟨hka, hfas⟩ := field_lt hfa
  obtain ⟨hkb, hfbs⟩ := field_lt hfb
  have hc := copy_kept s hs ka ba fa hfa hba fa.location
  have hbbl : bb < s.pool.brk := hs.ptr kb hkb bb (by rw [hfbs]; exact hbb)
  have hready : (Operand.field3d fb).ready G ⟨some ba, fa.location⟩
      (s.push ⟨some ba, fa.location⟩ (Pool.incRefs ba s.pool)).pool.brk :=
    ⟨⟨bb, hbb, hbbl⟩, hloc⟩
  obtain ⟨f2, p2, b2, hcomp, he⟩ := compound_effect G
    (s.push ⟨some ba, fa.location⟩ (Pool.incRefs ba s.pool)) s.nfields ba
    ⟨some ba, fa.location⟩ hc.inv (Nat.lt_succ_self _) (by simp [State.push]) rfl o fuel
    (Operand.field3d fb) hready
  have hop : s.operand (Arg.field3d kb) = some (Operand.field3d fb) := by
    simp [State.operand, hfb]
  have hop1 : (s.push ⟨some ba, fa.location⟩ (Pool.incRefs ba s.pool)).operand
      (Arg.field3d kb) = some (Operand.field3d fb) := by
    simp [State.operand, field_push_lt s kb _ _ hkb, hfb]
  have hcomp2 : Field3D.compound G o fuel ⟨some ba, fa.location⟩ (Operand.field3d fb)
      (Pool.incRefs ba s.pool) = some (f2, p2) := hcomp
  refine ⟨f2, p2, b2, ?_, ?_, hc.inv, ?_⟩
  · simp only [step, hfa, hop, Field3D.binary, Field3D.copy_ctor, hba, hcomp2,
      Option.map_some']
  · have hfn : (s.push ⟨some ba, fa.location⟩ (Pool.incRefs ba s.pool)).field s.nfields =
        some ⟨some ba, fa.location⟩ := by
      simp [State.field, State.push]
    simp only [run, step, hfa, Field3D.copy_ctor, hba, Option.map_some', hfn, hop1, hcomp,
      push_put]
  · have hv : (fun x y z => o.eval G
          ((s.push ⟨some ba, fa.location⟩ (Pool.incRefs ba s.pool)).pool.read ba x y z)
          ((Operand.field3d fb).get
            (s.push ⟨some ba, fa.location⟩ (Pool.incRefs ba s.pool)).pool x y z)) =
        (fun x y z => o.eval G (s.pool.read ba x y z) (s.pool.read bb x y z)) := by
      funext x y z
      simp [State.push, Operand.get, Operand.value, hbb, Pool.read, incRefs_data]
    rw [← hv]
    exact he

theorem value_eq_read (s : State) (k b : Nat) (f : Field3D) (hf : s.field k = some f)
    (hb : f.block = some b) (x y z : Nat) : s.value k x y z = some (s.pool.read b x y z) := by
  simp [State.value, hf, hb]

/-- C5: for live objects `a` and `b` with data and no interpolation needed, the
statement `c = a op b` is the copy of `a` followed by the compound assignment on the
copy; the new object `c` reads `a(x,y,z) op b(x,y,z)` at every grid point, and every
object that existed before, `a` and `b` included, reads what it read before. -/
theorem binary_is_copy_then_compound (G : Globals) (s : State) (hs : Inv s)
    (ka kb ba bb : Nat) (fa fb : Field3D) (hfa : s.field ka = some fa)
    (hfb : s.field kb = some fb) (hba : fa.block = some ba) (hbb : fb.block = some bb)
    (hloc : G.StaggerGrids = false ∨ fb.location = fa.location) (o : CompoundOp)
    (fuel : Nat) :
    ∃ t, step G s (Action.binary ka o (Arg.field3d kb) fuel) = some t ∧
      run G [Action.copy ka, Action.compound s.nfields o (Arg.field3d kb) fuel] s = some t ∧
      (∀ x y z, x < G.ngx → y < G.ngy → z < G.ngz →
        t.value s.nfields x y z =
          some (o.eval G (s.pool.read ba x y z) (s.pool.read bb x y z))) ∧
      (∀ j x y z, j < s.nfields → t.value j x y z = s.value j x y z) := by
  obtain ⟨f2, p2, b2, hstep, hrun, hinv1, he⟩ :=
    binary_step G s hs ka kb ba bb fa fb hfa hfb hba hbb hloc o fuel
  have hc := copy_kept s hs ka ba fa hfa hba fa.location
  refine ⟨s.push f2 p2, hstep, hrun, fun x y z hx hy hz => ?_, fun j x y z hj => ?_⟩
  · have := he.value_self (Nat.lt_succ_self _) x y z hx hy hz
    rw [push_put] at this
    exact this
  · have hjn : j ≠ s.nfields := by omega
    have := he.value_other hinv1 j hjn x y z
    rw [push_put] at this
    rw [this]
    exact hc.others j x y z hj hjn

/-- C2: for live objects `a` and `b` with data and no interpolation needed, after
`c = a + b` followed by `a += v` the object `c` still reads `a_old + b` at every
grid point, `a` reads `a_old + v`, and `b` (when it is not the object `a` itself)
reads what it read before. -/
theorem sum_survives_update (G : Globals) (s : State) (hs : Inv s)
    (ka kb ba bb : Nat) (fa fb : Field3D) (hfa : s.field ka = some fa)
    (hfb : s.field kb = some fb) (hba : fa.block = some ba) (hbb : fb.block = some bb)
    (hloc : G.StaggerGrids = false ∨ fb.location = fa.location) (v : ℚ)
    (fuel fuel2 : Nat) :
    ∃ t1 t2, step G s (Action.binary ka CompoundOp.plus (Arg.field3d kb) fuel) = some t1 ∧
      step G t1 (Action.compound ka CompoundOp.plus (Arg.real v) fuel2) = some t2 ∧
      (∀ x y z, x < G.ngx → y < G.ngy → z < G.ngz →
        t2.value s.nfields x y z = some (s.pool.read ba x y z + s.pool.read bb x y z)) ∧
      (∀ x y z, x < G.ngx → y < G.ngy → z < G.ngz →
        t2.value ka x y z = some (s.pool.read ba x y z + v)) ∧
      (ka ≠ kb → ∀ x y z, t2.value kb x y z = s.value kb x y z) := by
  obtain ⟨f2, p2, b2, hstep, _, hinv1, he⟩ :=
    binary_step G s hs ka kb ba bb fa fb hfa hfb hba hbb hloc CompoundOp.plus fuel
  obtain ⟨hka, hfas⟩ := field_lt hfa
  obtain ⟨hkb, _⟩ := field_lt hfb
  have hc := copy_kept s hs ka ba fa hfa hba fa.location
  have hkn : ka ≠ s.nfields := by omega
  have hbn : kb ≠ s.nfields := by omega
  have hinv2 : Inv (s.push f2 p2) := by
    have := he.inv
    rw [push_put] at this
    exact this
  have hfa2 : (s.push f2 p2).field ka = some fa := by
    rw [field_push_lt s ka _ _ hka]; exact hfa
  obtain ⟨hka2, hfas2⟩ := field_lt hfa2
  obtain ⟨f3, p3, b3, hcomp, he3⟩ := compound_effect G (s.push f2 p2) ka ba fa hinv2 hka2
    hfas2 hba CompoundOp.plus fuel2 (Operand.real v) trivial
  have hold : ∀ j x y z, j < s.nfields → (s.push f2 p2).value j x y z = s.value j x y z := by
    intro j x y z hj
    have hjn : j ≠ s.nfields := by omega
    have := he.value_other hinv1 j hjn x y z
    rw [push_put] at this
    rw [this]
    exact hc.others j x y z hj hjn
  refine ⟨s.push f2 p2, (s.push f2 p2).put ka f3 p3, hstep, ?_, ?_, ?_, ?_⟩
  · simp only [step, hfa2, State.operand, hcomp, Option.map_some']
  · intro x y z hx hy hz
    rw [he3.value_other hinv2 s.nfields (fun e => hkn e.symm) x y z]
    have := he.value_self (Nat.lt_succ_self _) x y z hx hy hz
    rw [push_put] at this
    exact this
  · intro x y z hx hy hz
    rw [he3.value_self hka2 x y z hx hy hz]
    have h1 := hold ka x y z hka
    rw [value_eq_read _ ka ba fa hfa2 hba, value_eq_read s ka ba fa hfa hba] at h1
    simp only [Option.some.injEq] at h1
    simp only [CompoundOp.eval, Operand.get, Operand.value, Option.getD_some, h1]
  · intro hab x y z
    rw [he3.value_other hinv2 kb (fun e => hab e.symm) x y z]
    exact hold kb x y z hkb

/-- Copy-on-write for the statements of `Action`: for distinct live objects `a` (with
data) and `b`, the statements `b = a` and then any compound assignment on `b` (any
operator, operand a live object with data, a `Field2D` or a `real`) both return; after
the first `b` reads what `a` reads, after the second `a` reads at every point what it
read at the start.  From then on, in every state a program of such statements reaches,
a statement of `Action` that writes to one of the two objects leaves every value read
by the other unchanged.  The writes to single elements are not statements of `Action`;
the one through `operator[](bindex&)` does not have this property. -/
theorem copy_on_write_isolation (G : Globals) (hG : InterpOK G) (s : State) (hs : Inv s)
    (ka kb : Nat) (hab : ka ≠ kb) (fa fb : Field3D) (hfa : s.field ka = some fa)
    (hfb : s.field kb = some fb) (ha : fa.block ≠ none) (o : CompoundOp) (a : Arg)
    (fuel : Nat) (hfuel : 1 ≤ fuel)
    (harg : ∀ j, a = Arg.field3d j → ∃ g, s.field j = some g ∧ g.block ≠ none) :
    ∃ s1 s2, step G s (Action.assign kb ka) = some s1 ∧
      step G s1 (Action.compound kb o a fuel) = some s2 ∧
      (∀ x y z, s1.value kb x y z = s.value ka x y z) ∧
      (∀ x y z, s2.value ka x y z = s.value ka x y z) ∧
      ∀ (prog : List Action) (s3 : State), run G prog s2 = some s3 →
        ∀ (m : Action) (s4 : State), step G s3 m = some s4 →
          (m.target s3.nfields = ka → ∀ x y z, s4.value kb x y z = s3.value kb x y z) ∧
          (m.target s3.nfields = kb → ∀ x y z, s4.value ka x y z = s3.value ka x y z) := by
  obtain ⟨hka, hfas⟩ := field_lt hfa
  obtain ⟨hkb, hfbs⟩ := field_lt hfb
  obtain ⟨ba, hba⟩ : ∃ ba, fa.block = some ba := by
    cases h : fa.block with
    | none => exact absurd h ha
    | some ba => exact ⟨ba, rfl⟩
  have hba2 := hba
  -- the assignment `b = a`
  have hassign : fb.operator_assign fa (decide (kb = ka)) s.pool =
      some (⟨some ba, fa.location⟩,
        Pool.incRefs ba (if fb.block ≠ none then (fb.free_data s.pool).2 else s.pool)) := by
    have : ¬ kb = ka := fun e => hab e.symm
    simp [Field3D.operator_assign, this, hba]
  have hk1 := assign_kept s hs kb ka fb fa _ _ hfb hfa hassign
  have hdata : ∀ i, ((Pool.incRefs ba
      (if fb.block ≠ none then (fb.free_data s.pool).2 else s.pool)).heap i).data =
      (s.pool.heap i).data := by
    intro i
    rw [incRefs_data]
    split
    · rw [free_data_data]
    · rfl
  generalize Pool.incRefs ba (if fb.block ≠ none then (fb.free_data s.pool).2 else s.pool)
    = p1 at hassign hk1 hdata
  have hfb1 : (s.put kb ⟨some ba, fa.location⟩ p1).field kb = some ⟨some ba, fa.location⟩ := by
    simp [State.field, State.put, hkb]
  -- the operand is still a live object with data
  have hop : ∃ r, (s.put kb ⟨some ba, fa.location⟩ p1).operand a = some r ∧
      ∀ rhs, r = Operand.field3d rhs →
        (∃ j, (s.put kb ⟨some ba, fa.location⟩ p1).field j = some rhs) ∧
          rhs.block ≠ none := by
    cases a with
    | field2d d => exact ⟨_, rfl, fun rhs e => by cases e⟩
    | real w => exact ⟨_, rfl, fun rhs e => by cases e⟩
    | field3d j =>
        by_cases hj : j = kb
        · subst hj
          refine ⟨Operand.field3d ⟨some ba, fa.location⟩, ?_, ?_⟩
          · simp only [State.operand, hfb1, Option.map_some']
          · intro rhs e
            cases e
            exact ⟨⟨j, hfb1⟩, by simp⟩
        · obtain ⟨g, hg, hgb⟩ := harg j rfl
          have hg1 := field_put_ne s kb j ⟨some ba, fa.location⟩ p1 hj
          refine ⟨Operand.field3d g, ?_, ?_⟩
          · simp only [State.operand, hg1, hg, Option.map_some']
          · intro rhs e
            cases e
            exact ⟨⟨j, by rw [hg1]; exact hg⟩, hgb⟩
  obtain ⟨r, hr, hlive⟩ := hop
  obtain ⟨f2, p2, hcomp⟩ := compound_total G hG _ hk1.inv kb ba _ hfb1 rfl o fuel hfuel r hlive
  have hk2 := (compound_kept G hG _ hk1.inv kb _ hfb1 o fuel r
    (fun rhs e => (hlive rhs e).1) f2 p2 hcomp).1
  refine ⟨s.put kb ⟨some ba, fa.location⟩ p1,
    (s.put kb ⟨some ba, fa.location⟩ p1).put kb f2 p2, ?_, ?_, ?_, ?_, ?_⟩
  · simp only [step, hfb, hfa, hassign, Option.map_some']
  · simp only [step, hfb1, hr, hcomp, Option.map_some']
  · intro x y z
    rw [value_eq_read _ kb ba _ hfb1 rfl, value_eq_read s ka ba fa hfa hba]
    simp only [State.put, Pool.read, hdata]
  · intro x y z
    rw [hk2.others ka x y z hka hab, hk1.others ka x y z hka hab]
  · intro prog s3 hrun m s4 hm
    have hinv3 := run_inv G hG prog _ s3 hk2.inv hrun
    have hsz := run_size G hG prog _ s3 hk2.inv hrun
    have hsz2 : s.nfields ≤ s3.nfields := hsz
    have hk4 := step_kept G hG s3 hinv3 m s4 hm
    refine ⟨fun e x y z => ?_, fun e x y z => ?_⟩
    · exact hk4.others kb x y z (by omega) (by rw [e]; exact fun h => hab h.symm)
    · exact hk4.others ka x y z (by omega) (by rw [e]; exact hab)

theorem run_append (G : Globals) :
    ∀ (as bs : List Action) (s t : State), run G as s = some t →
      run G (as ++ bs) s = run G bs t := by
  intro as
  induction as with
  | nil =>
      intro bs s t h
      simp only [run, Option.some.injEq] at h
      subst h
      rfl
  | cons a as ih =>
      intro bs s t h
      simp only [run, List.cons_append] at h ⊢
      cases hst : step G s a with
      | none => rw [hst] at h; cases h
      | some s1 =>
          rw [hst] at h
          simp only
          exact ih bs s1 t h

/-- Copy-constructing `n` objects from the live object `k0`, which holds block `b`. -/
theorem copies_run (G : Globals) (k0 b : Nat) (f0 : Field3D) (hb : f0.block = some b) :
    ∀ (n : Nat) (s : State), Inv s → s.field k0 = some f0 →
      ∃ t, run G (List.replicate n (Action.copy k0)) s = some t ∧ Inv t ∧
        t.nfields = s.nfields + n ∧
        (∀ j, j < s.nfields → t.fields j = s.fields j) ∧
        (∀ j, s.nfields ≤ j → j < s.nfields + n → t.fields j = some ⟨some b, f0.location⟩) ∧
        (∀ i, (t.pool.heap i).data = (s.pool.heap i).data) ∧
        (t.pool.heap b).refs = (s.pool.heap b).refs + n := by
  intro n
  induction n with
  | zero =>
      intro s hs _
      exact ⟨s, rfl, hs, rfl, fun _ _ => rfl, fun j h1 h2 => by omega, fun _ => rfl, by simp⟩
  | succ n ih =>
      intro s hs hf
      have hc := copy_kept s hs k0 b f0 hf hb f0.location
      have hk0 := (field_lt hf).1
      have hf1 : (s.push ⟨some b, f0.location⟩ (Pool.incRefs b s.pool)).field k0 = some f0 := by
        rw [field_push_lt s k0 _ _ hk0]; exact hf
      obtain ⟨t, hrun, hinv, hn, hold, hnew, hdata, hrefs⟩ := ih _ hc.inv hf1
      refine ⟨t, ?_, hinv, ?_, ?_, ?_, ?_, ?_⟩
      · simp only [List.replicate_succ, run, step, hf, Field3D.copy_ctor, hb, Option.map_some']
        exact hrun
      · rw [hn]; simp only [State.push]; omega
      · intro j hj
        rw [hold j (by simp only [State.push]; omega)]
        have : j ≠ s.nfields := by omega
        simp [State.push, Function.update_noteq this]
      · intro j h1 h2
        by_cases hj : j = s.nfields
        · subst hj
          rw [hold _ (by simp only [State.push]; omega)]
          simp [State.push]
        · exact hnew j (by simp only [State.push]; omega) (by simp only [State.push]; omega)
      · intro i
        rw [hdata i]
        exact incRefs_data b s.pool i
      · rw [hrefs]
        simp only [State.push, Pool.incRefs, Pool.setRefs, Function.update_same]
        push_cast
        omega

theorem free_data_refs (f : Field3D) (b : Nat) (hb : f.block = some b) (p : Pool) :
    ((f.free_data p).2.heap b).refs = (p.heap b).refs - 1 := by
  rw [free_data_pool f b hb p]
  split <;> simp [Pool.decRefs, Pool.setRefs, Pool.setNext]

/-- Destroying, in the order of the list, distinct live holders of block `b`. -/
theorem destroys_run (G : Globals) (b : Nat) :
    ∀ (ds : List Nat) (t : State), Inv t → ds.Nodup →
      (∀ d, d ∈ ds → ∃ g, t.field d = some g ∧ g.block = some b) →
      ∃ u, run G (ds.map Action.destroy) t = some u ∧ Inv u ∧ u.nfields = t.nfields ∧
        (∀ j, j ∉ ds → u.fields j = t.fields j) ∧
        (∀ i, (u.pool.heap i).data = (t.pool.heap i).data) ∧
        (u.pool.heap b).refs = (t.pool.heap b).refs - ds.length := by
  intro ds
  induction ds with
  | nil =>
      intro t ht _ _
      exact ⟨t, rfl, ht, rfl, fun _ _ => rfl, fun _ => rfl, by simp⟩
  | cons d ds ih =>
      intro t ht hnd hall
      obtain ⟨g, hg, hgb⟩ := hall d (List.mem_cons_self d ds)
      have hk := destroy_kept t ht d g hg
      have hdn : d ∉ ds := (List.nodup_cons.1 hnd).1
      have hall1 : ∀ e, e ∈ ds → ∃ g2,
          (⟨g.dtor t.pool, Function.update t.fields d none, t.nfields⟩ : State).field e
            = some g2 ∧ g2.block = some b := by
        intro e he
        obtain ⟨g2, hg2, hg2b⟩ := hall e (List.mem_cons_of_mem d he)
        have hed : e ≠ d := fun h => hdn (h ▸ he)
        refine ⟨g2, ?_, hg2b⟩
        have := hg2
        simp only [State.field] at this ⊢
        rw [Function.update_noteq hed]
        exact this
      obtain ⟨u, hrun, hinv, hn, hold, hdata, hrefs⟩ := ih _ hk.inv (List.nodup_cons.1 hnd).2 hall1
      refine ⟨u, ?_, hinv, hn, ?_, ?_, ?_⟩
      · simp only [List.map_cons, run, step, hg]
        exact hrun
      · intro j hj
        have hjd : j ≠ d := fun h => hj (h ▸ List.mem_cons_self d ds)
        rw [hold j (fun h => hj (List.mem_cons_of_mem d h))]
        simp [Function.update_noteq hjd]
      · intro i
        rw [hdata i]
        exact free_data_data g t.pool i
      · rw [hrefs]
        simp only [Field3D.dtor, free_data_refs g b hgb, List.length_cons]
        push_cast
        omega

/-- C6: from a live object `k0` with block `b`, `n` objects are copy-constructed and
then any `n` of the `n + 1` holders (the source and its copies) are destroyed in any
order, the list `ds`.  The program returns; the remaining holder `r` reads at every
point the value the source read at the start and still points to `b`; the count of
`b` is again what it was before the copies, so it is 1 when the source held `b`
alone and the `n + 1` holders are all the holders; `b` is not on the free list. -/
theorem last_holder_keeps_block (G : Globals) (s : State) (hs : Inv s) (k0 b : Nat)
    (f0 : Field3D) (hf : s.field k0 = some f0) (hb : f0.block = some b) (n : Nat)
    (ds : List Nat) (hnd : ds.Nodup) (hlen : ds.length = n)
    (hds : ∀ d, d ∈ ds → d = k0 ∨ (s.nfields ≤ d ∧ d < s.nfields + n)) (r : Nat)
    (hr : r = k0 ∨ (s.nfields ≤ r ∧ r < s.nfields + n)) (hrd : r ∉ ds) :
    ∃ t, run G (List.replicate n (Action.copy k0) ++ ds.map Action.destroy) s = some t ∧
      (∀ x y z, t.value r x y z = s.value k0 x y z) ∧
      (∃ g, t.field r = some g ∧ g.block = some b) ∧
      (t.pool.heap b).refs = (s.pool.heap b).refs ∧
      ((s.pool.heap b).refs = 1 → (t.pool.heap b).refs = 1) ∧
      ∀ l, t.pool.FreeList l → b ∉ l := by
  obtain ⟨hk0, hfs⟩ := field_lt hf
  obtain ⟨t, hrun, hinv, hn, hold, hnew, hdata, hrefs⟩ := copies_run G k0 b f0 hb n s hs hf
  have hholder : ∀ d, d = k0 ∨ (s.nfields ≤ d ∧ d < s.nfields + n) →
      ∃ g, t.field d = some g ∧ g.block = some b := by
    intro d hd
    rcases hd with hd | hd
    · subst hd
      exact ⟨f0, by simp [State.field, hn, hold d hk0, hfs]; omega, hb⟩
    · exact ⟨⟨some b, f0.location⟩, by
        simp only [State.field, hn, hnew d hd.1 hd.2]
        rw [if_pos hd.2], rfl⟩
  obtain ⟨u, hrun2, hinv2, hn2, hold2, hdata2, hrefs2⟩ :=
    destroys_run G b ds t hinv hnd (fun d hd => hholder d (hds d hd))
  obtain ⟨g, hg, hgb⟩ := hholder r hr
  have hgu : u.field r = some g := by
    have := hg
    simp only [State.field, hn2, hold2 r hrd] at this ⊢
    exact this
  have hrefsu : (u.pool.heap b).refs = (s.pool.heap b).refs := by
    rw [hrefs2, hrefs, hlen]
    omega
  have hpos := (hinv2.refs_pos r b (field_lt hgu).1 (by rw [(field_lt hgu).2]; exact hgb)).2
  refine ⟨u, ?_, fun x y z => ?_, ⟨g, hgu, hgb⟩, hrefsu, fun h1 => by rw [hrefsu]; exact h1,
    fun l hl hbl => ?_⟩
  · rw [run_append G _ _ s t hrun]
    exact hrun2
  · rw [value_eq_read u r b g hgu hgb, value_eq_read s k0 b f0 hf hb]
    simp only [Pool.read, hdata2, hdata]
  · obtain ⟨l0, hl0, _, hm⟩ := hinv2.free
    have e : l = l0 := IsChain.unique hl hl0
    subst e
    have := ((hm b).1 hbl).2
    omega

/-- C7: in every state reachable from the start by constructing, copying,
assigning, allocating, compound-assigning, combining and destroying objects, the
count of every block is non-negative and is the number of live objects that point
to it, every block pointer is a block of the heap, and the free list is a chain
without repetition that holds exactly the blocks whose count is zero. -/
theorem pool_invariant (G : Globals) (hG : InterpOK G) (uninit : Nat → Nat → Nat → Nat → ℚ)
    (s : State) (h : Reachable G uninit s) :
    (∀ i, i < s.pool.brk →
      0 ≤ (s.pool.heap i).refs ∧
        (s.pool.heap i).refs = (holders s.fields s.nfields i : Int)) ∧
    (∀ k, k < s.nfields → ∀ b, (s.fields k).bind Field3D.block = some b → b < s.pool.brk) ∧
    ∃ l, s.pool.FreeList l ∧ l.Nodup ∧
      ∀ i, i ∈ l ↔ (i < s.pool.brk ∧ (s.pool.heap i).refs = 0) := by
  have hinv := reachable_inv G hG uninit s h
  refine ⟨fun i hi => ⟨?_, hinv.refs i hi⟩, hinv.ptr, hinv.free⟩
  rw [hinv.refs i hi]
  exact Int.natCast_nonneg _

/-! ## The sample configuration -/

theorem sampleGlobals_ok : InterpOK sampleGlobals := by
  refine ⟨?_, ?_⟩
  · intro s j rhs loc tmp p1 hs hj hi
    have hi2 : interp_share rhs loc s.pool = some (tmp, p1) := hi
    unfold interp_share at hi2
    cases hb : rhs.block with
    | none => rw [hb] at hi2; cases hi2
    | some b =>
        rw [hb] at hi2
        simp only [Option.some.injEq, Prod.mk.injEq] at hi2
        obtain ⟨rfl, rfl⟩ := hi2
        have hc := copy_kept s hs j b rhs hj hb loc
        exact ⟨rfl, hc.inv, fun i x y z hi3 => hc.others i x y z hi3 (by omega)⟩
  · intro s j rhs loc _ _ hne
    cases hb : rhs.block with
    | none => exact absurd hb hne
    | some b =>
        refine ⟨⟨some b, loc⟩, Pool.incRefs b s.pool, ?_, by simp⟩
        show interp_share rhs loc s.pool = _
        simp [interp_share, hb]

theorem reachable_of_run (G : Globals) (uninit : Nat → Nat → Nat → Nat → ℚ) :
    ∀ (as : List Action) (s t : State), Reachable G uninit s → run G as s = some t →
      Reachable G uninit t := by
  intro as
  induction as with
  | nil =>
      intro s t hs h
      simp only [run, Option.some.injEq] at h
      subst h
      exact hs
  | cons a as ih =>
      intro s t hs h
      simp only [run] at h
      cases hst : step G s a with
      | none => rw [hst] at h; cases h
      | some s1 =>
          rw [hst] at h
          exact ih s1 t (Reachable.next s s1 a hs hst) h

theorem sampleState_run :
    run sampleGlobals sampleProgram (State.empty (fun _ _ _ _ => 0)) = some sampleState := by
  rfl

theorem sampleState_reachable : Reachable sampleGlobals (fun _ _ _ _ => 0) sampleState :=
  reachable_of_run sampleGlobals _ sampleProgram _ _ Reachable.start sampleState_run

theorem sampleState_inv : Inv sampleState :=
  reachable_inv sampleGlobals sampleGlobals_ok _ _ sampleState_reachable

theorem sampleState_a (x y z : Nat) (hx : x < 2) (hy : y < 2) (hz : z < 2) :
    sampleState.pool.read 0 x y z = 2 := by
  interval_cases x <;> interval_cases y <;> interval_cases z <;> rfl

theorem sampleState_b (x y z : Nat) (hx : x < 2) (hy : y < 2) (hz : z < 2) :
    sampleState.pool.read 1 x y z = 3 := by
  interval_cases x <;> interval_cases y <;> interval_cases z <;> rfl

/-! ## The claims at the sample programs -/

theorem new_block_acquires_witness :
    (new_block sampleFreed).1 = 0 ∧ (new_block sampleFreed).2.FreeList [] ∧
      (new_block sampleFreed).2.nblocks = sampleFreed.nblocks :=
  ⟨((new_block_acquires sampleFreed [0] ⟨rfl, rfl⟩ (by decide)).2.1 0 [] rfl).1,
    ((new_block_acquires sampleFreed [0] ⟨rfl, rfl⟩ (by decide)).2.1 0 [] rfl).2.1,
    ((new_block_acquires sampleFreed [0] ⟨rfl, rfl⟩ (by decide)).2.1 0 [] rfl).2.2.1⟩

theorem free_data_releases_witness :
    (Field3D.free_data ⟨some 0, CELL_LOC.CELL_CENTRE⟩ sampleOneBlock).2.FreeList [0] :=
  ((free_data_releases ⟨some 0, CELL_LOC.CELL_CENTRE⟩ sampleOneBlock [] rfl).2 0 rfl
    (List.not_mem_nil 0)).2.2.2.1 (by decide)

theorem compound_elementwise_witness :
    ∃ f2 p2 b2, Field3D.compound sampleGlobals CompoundOp.times 0
        ⟨some 0, CELL_LOC.CELL_CENTRE⟩ (Operand.field3d ⟨some 1, CELL_LOC.CELL_CENTRE⟩)
        sampleState.pool = some (f2, p2) ∧ f2.block = some b2 ∧
      ∀ x y z, x < 2 → y < 2 → z < 2 → p2.read b2 x y z = 6 := by
  obtain ⟨f2, p2, b2, h, hb, hv⟩ := compound_elementwise sampleGlobals sampleState
    sampleState_inv 0 0 ⟨some 0, CELL_LOC.CELL_CENTRE⟩ rfl rfl CompoundOp.times 0
    (Operand.field3d ⟨some 1, CELL_LOC.CELL_CENTRE⟩) ⟨⟨1, rfl, by decide⟩, Or.inr rfl⟩
  refine ⟨f2, p2, b2, h, hb, fun x y z hx hy hz => ?_⟩
  obtain ⟨w, hw, he⟩ := hv x y z hx hy hz
  have hw2 : w = 3 := by
    have : some (sampleState.pool.read 1 x y z) = some w := hw
    rw [sampleState_b x y z hx hy hz] at this
    exact (Option.some.inj this).symm
  rw [he, hw2, sampleState_a x y z hx hy hz]
  show (2 : ℚ) * 3 = 6
  norm_num

theorem allocate_idempotent_witness :
    (Field3D.Allocate sampleGlobals ⟨some 0, CELL_LOC.CELL_CENTRE⟩ sampleState.pool).1.Allocate
        sampleGlobals
        (Field3D.Allocate sampleGlobals ⟨some 0, CELL_LOC.CELL_CENTRE⟩ sampleState.pool).2 =
      Field3D.Allocate sampleGlobals ⟨some 0, CELL_LOC.CELL_CENTRE⟩ sampleState.pool :=
  (allocate_idempotent sampleGlobals sampleState sampleState_inv 0
    ⟨some 0, CELL_LOC.CELL_CENTRE⟩ rfl).2.2

theorem binary_is_copy_then_compound_witness :
    ∃ t, step sampleGlobals sampleState
        (Action.binary 0 CompoundOp.times (Arg.field3d 1) 0) = some t ∧
      ∀ x y z, x < 2 → y < 2 → z < 2 → t.value 2 x y z = some 6 := by
  obtain ⟨t, h, _, hv, _⟩ := binary_is_copy_then_compound sampleGlobals sampleState
    sampleState_inv 0 1 0 1 ⟨some 0, CELL_LOC.CELL_CENTRE⟩ ⟨some 1, CELL_LOC.CELL_CENTRE⟩
    rfl rfl rfl rfl (Or.inr rfl) CompoundOp.times 0
  refine ⟨t, h, fun x y z hx hy hz => ?_⟩
  have := hv x y z hx hy hz
  rw [sampleState_a x y z hx hy hz, sampleState_b x y z hx hy hz] at this
  rw [show sampleState.nfields = 2 from rfl] at this
  rw [this]
  show some ((2 : ℚ) * 3) = some 6
  norm_num

theorem sum_survives_update_witness :
    ∃ t1 t2, step sampleGlobals sampleState
        (Action.binary 0 CompoundOp.plus (Arg.field3d 1) 0) = some t1 ∧
      step sampleGlobals t1 (Action.compound 0 CompoundOp.plus (Arg.real 1) 0) = some t2 ∧
      ∀ x y z, x < 2 → y < 2 → z < 2 → t2.value 2 x y z = some 5 := by
  obtain ⟨t1, t2, h1, h2, hv, _, _⟩ := sum_survives_update sampleGlobals sampleState
    sampleState_inv 0 1 0 1 ⟨some 0, CELL_LOC.CELL_CENTRE⟩ ⟨some 1, CELL_LOC.CELL_CENTRE⟩
    rfl rfl rfl rfl (Or.inr rfl) 1 0 0
  refine ⟨t1, t2, h1, h2, fun x y z hx hy hz => ?_⟩
  have := hv x y z hx hy hz
  rw [sampleState_a x y z hx hy hz, sampleState_b x y z hx hy hz] at this
  rw [show sampleState.nfields = 2 from rfl] at this
  rw [this]
  norm_num

theorem copy_on_write_isolation_witness :
    ∃ s1 s2, step sampleGlobals sampleState (Action.assign 1 0) = some s1 ∧
      step sampleGlobals s1 (Action.compound 1 CompoundOp.plus (Arg.real 1) 1) = some s2 ∧
      ∀ x y z, s2.value 0 x y z = sampleState.value 0 x y z := by
  obtain ⟨s1, s2, h1, h2, _, hv, _⟩ := copy_on_write_isolation sampleGlobals sampleGlobals_ok
    sampleState sampleState_inv 0 1 (by decide) ⟨some 0, CELL_LOC.CELL_CENTRE⟩
    ⟨some 1, CELL_LOC.CELL_CENTRE⟩ rfl rfl (by simp) CompoundOp.plus (Arg.real 1) 1
    (Nat.le_refl 1) (fun j e => by cases e)
  exact ⟨s1, s2, h1, h2, hv⟩

theorem last_holder_keeps_block_witness :
    ∃ t, run sampleGlobals
        (List.replicate 2 (Action.copy 0) ++ [2, 0].map Action.destroy) sampleState = some t ∧
      (∀ x y z, t.value 3 x y z = sampleState.value 0 x y z) ∧
      (t.pool.heap 0).refs = 1 ∧ ∀ l, t.pool.FreeList l → 0 ∉ l := by
  obtain ⟨t, h, hv, _, _, h1, hfree⟩ := last_holder_keeps_block sampleGlobals sampleState
    sampleState_inv 0 0 ⟨some 0, CELL_LOC.CELL_CENTRE⟩ rfl rfl 2 [2, 0] (by decide) rfl
    (fun d hd => by
      simp only [List.mem_cons, List.mem_singleton, List.not_mem_nil, or_false] at hd
      rcases hd with rfl | rfl
      · exact Or.inr ⟨Nat.le_refl 2, by decide⟩
      · exact Or.inl rfl)
    3 (Or.inr ⟨by decide, by decide⟩) (by decide)
  exact ⟨t, h, hv, h1 (by decide), hfree⟩

theorem pool_invariant_witness :
    ∃ l, sampleState.pool.FreeList l ∧ l.Nodup ∧
      ∀ i, i ∈ l ↔ (i < sampleState.pool.brk ∧ (sampleState.pool.heap i).refs = 0) :=
  (pool_invariant sampleGlobals sampleGlobals_ok (fun _ _ _ _ => 0) sampleState
    sampleState_reachable).2.2

/-! ## Element access -/

/-- A store to one element of the block the object is the sole holder of. -/
theorem Effect.then_write {G : Globals} {s : State} {k : Nat} {f2 : Field3D} {p2 : Pool}
    {b2 : Nat} {v : Nat → Nat → Nat → ℚ} (h : Effect G s k f2 p2 b2 v) (x y z : Nat) (c : ℚ) :
    Effect G s k f2 (p2.write b2 x y z c) b2
      (fun x' y' z' => if x' = x ∧ y' = y ∧ z' = z then c else v x' y' z') := by
  have hfill : Filled b2 (fun _ _ _ _ => c) (fun x' y' z' => x' = x ∧ y' = y ∧ z' = z) p2
      (p2.write b2 x y z c) :=
    (Filled.write (show Pointwise (fun _ _ _ _ => c) from fun _ _ _ _ _ _ => rfl)
      (Filled.start b2 (fun _ _ _ _ => c) (fun _ _ _ => False) p2 (fun _ _ _ h => h))
      x y z (fun h => h)).congr_domain (fun _ _ _ => by simp)
  refine ⟨?_, h.block, h.loc, ?_, ?_, h.alone, ?_⟩
  · have := h.inv.of_ptrs (p2.write b2 x y z c) (s.put k f2 p2).fields hfill.sameShape
      (fun _ _ => rfl)
    exact this
  · rw [hfill.sameShape.1]; exact h.brk
  · intro i hi hib
    rw [hfill.data_ne i hib]
    exact h.frame i hi hib
  · intro x' y' z' hx hy hz
    by_cases hp : x' = x ∧ y' = y ∧ z' = z
    · rw [if_pos hp]
      exact hfill.2.2.2.2.1 x' y' z' hp
    · rw [if_neg hp]
      have := hfill.2.2.2.2.2 x' y' z' hp
      simp only [Pool.read] at this ⊢
      rw [this]
      exact h.vals x' y' z' hx hy hz

theorem getData_eq (G : Globals) (check : Bool) (f : Field3D) (p : Pool) (b : Nat)
    (hc : check = false ∨ f.block ≠ none) (hb : (f.alloc_data G p).1.block = some b) :
    f.getData G check p = some (b, (f.alloc_data G p).1, (f.alloc_data G p).2) := by
  have h1 : (check && f.block.isNone) = false := by
    rcases hc with hc | hc
    · simp [hc]
    · cases hfb : f.block with
      | none => exact absurd hfb hc
      | some _ => simp
  unfold Field3D.getData Field3D.Allocate
  simp only [h1, hb]
  simp

theorem operator_index_eq (G : Globals) (check : Bool) (f : Field3D) (p : Pool) (b : Nat)
    (jx : Int) (h0 : 0 ≤ jx) (hx : jx < G.ngx)
    (hc : check = false ∨ f.block ≠ none) (hb : (f.alloc_data G p).1.block = some b) :
    f.operator_index G check jx p =
      some ((b, jx.toNat), (f.alloc_data G p).1, (f.alloc_data G p).2) := by
  have h1 : (check && f.block.isNone) = false := by
    rcases hc with hc | hc
    · simp [hc]
    · cases hfb : f.block with
      | none => exact absurd hfb hc
      | some _ => simp
  have h2 : ¬ (jx < 0 ∨ jx ≥ G.ngx) := by omega
  unfold Field3D.operator_index Field3D.Allocate
  simp only [h1, hb, if_neg h2]
  simp

/-- C11: element access through `getData()` and through `operator[](int jx)` on a
live object (with data, or in a build without `CHECK`) allocates: both calls return,
and afterwards the object has a block with reference count 1 that carries on the
grid the values the object had before; a store of any value through the returned
pointer leaves what every other object reads unchanged. -/
theorem access_allocates (G : Globals) (s : State) (hs : Inv s) (k : Nat) (f : Field3D)
    (hf : s.field k = some f) (check : Bool) (hc : check = false ∨ f.block ≠ none)
    (jx : Int) (h0 : 0 ≤ jx) (hx : jx < G.ngx) :
    ∃ b f2 p2, f.getData G check s.pool = some (b, f2, p2) ∧
      f.operator_index G check jx s.pool = some ((b, jx.toNat), f2, p2) ∧
      f2.block = some b ∧ (p2.heap b).refs = 1 ∧
      (∀ b0, f.block = some b0 → ∀ x y z, x < G.ngx → y < G.ngy → z < G.ngz →
        p2.read b x y z = s.pool.read b0 x y z) ∧
      ∀ (x y z : Nat) (v : ℚ) (j : Nat), j ≠ k → ∀ x' y' z',
        (s.put k f2 (p2.write b x y z v)).value j x' y' z' = s.value j x' y' z' := by
  obtain ⟨hk, hfs⟩ := field_lt hf
  cases hfb : f.block with
  | none =>
      have he := alloc_effect_empty G s k f hs hk hfs hfb
      refine ⟨_, _, _, getData_eq G check f s.pool _ hc he.block,
        operator_index_eq G check f s.pool _ jx h0 hx hc he.block, he.block,
        (he.refs_one hk).2, (fun b0 h => by cases h), ?_⟩
      intro x y z v j hjk x' y' z'
      exact (he.then_write x y z v).value_other hs j hjk x' y' z'
  | some b0 =>
      obtain ⟨b2, he⟩ := alloc_effect G s k b0 f hs hk hfs hfb
      refine ⟨b2, _, _, getData_eq G check f s.pool _ hc he.block,
        operator_index_eq G check f s.pool _ jx h0 hx hc he.block, he.block,
        (he.refs_one hk).2, ?_, ?_⟩
      · intro b1 hb1 x y z hx hy hz
        cases hb1
        exact he.vals x y z hx hy hz
      · intro x y z v j hjk x' y' z'
        exact (he.then_write x y z v).value_other hs j hjk x' y' z'

theorem sampleShared_run :
    run sampleGlobals [Action.construct, Action.assignReal 0 2, Action.construct,
      Action.assign 1 0] (State.empty (fun _ _ _ _ => 0)) = some sampleShared := by
  rfl

theorem sampleShared_inv : Inv sampleShared :=
  reachable_inv sampleGlobals sampleGlobals_ok _ _
    (reachable_of_run sampleGlobals _ _ _ _ Reachable.start sampleShared_run)

theorem access_allocates_witness :
    ∃ b f2 p2, Field3D.operator_index sampleGlobals true ⟨some 0, CELL_LOC.CELL_CENTRE⟩ 1
        sampleShared.pool = some ((b, 1), f2, p2) ∧ (p2.heap b).refs = 1 ∧
      ∀ x' y' z', (sampleShared.put 1 f2 (p2.write b 1 0 0 7)).value 0 x' y' z' =
        sampleShared.value 0 x' y' z' := by
  obtain ⟨b, f2, p2, _, h2, _, h4, _, h6⟩ := access_allocates sampleGlobals sampleShared
    sampleShared_inv 1 ⟨some 0, CELL_LOC.CELL_CENTRE⟩ rfl true (Or.inr (by simp)) 1
    (by decide) (by decide)
  exact ⟨b, f2, p2, h2, h4, fun x' y' z' => h6 1 0 0 7 0 (by decide) x' y' z'⟩

/-- C12 (evaluation of the code): after `a = 2.0; b = a` the statement `b[bx] = 7.0`
with `bx = (1,0,0)` runs, leaves the shared block shared (count 2), and `a` reads
`7.0` at `(1,0,0)` where it read `2.0` before. -/
theorem bindex_write_changes_sharer :
    ∃ t, sampleShared.setBindex sampleGlobals 1 1 0 0 7 = some t ∧
      sampleShared.value 0 1 0 0 = some 2 ∧ t.value 0 1 0 0 = some 7 ∧
      (sampleShared.pool.heap 0).refs = 2 ∧ (t.pool.heap 0).refs = 2 :=
  ⟨_, rfl, rfl, rfl, rfl, rfl⟩

/-! ## Loops of the boundary code -/

theorem mem_upTo (a b j : Int) : j ∈ upTo a b ↔ a ≤ j ∧ j < b := by
  unfold upTo
  simp only [List.mem_map, List.mem_range]
  constructor
  · rintro ⟨i, hi, rfl⟩
    omega
  · rintro ⟨h1, h2⟩
    exact ⟨(j - a).toNat, by omega, by omega⟩

theorem mem_downTo (a b j : Int) : j ∈ downTo a b ↔ b < j ∧ j ≤ a := by
  unfold downTo
  simp only [List.mem_map, List.mem_range]
  constructor
  · rintro ⟨i, hi, rfl⟩
    omega
  · rintro ⟨h1, h2⟩
    exact ⟨(a - j).toNat, by omega, by omega⟩

theorem Changed.refl (G : Globals) (s : State) (hs : Inv s) (k : Nat)
    (w : Nat → Nat → Nat → ℚ) : Changed G s k (fun _ _ _ => False) w s :=
  ⟨hs, rfl, fun _ _ => rfl, fun _ _ => rfl, fun _ _ _ _ _ _ h => h.elim,
    fun _ _ _ _ _ _ _ _ _ => rfl⟩

theorem Changed.congr_set {G : Globals} {s t : State} {k : Nat}
    {D E : Nat → Nat → Nat → Prop} {w : Nat → Nat → Nat → ℚ} (h : Changed G s k D w t)
    (hDE : ∀ x y z, D x y z ↔ E x y z) : Changed G s k E w t :=
  ⟨h.inv, h.size, h.live, h.data,
    fun x y z hx hy hz he => h.here x y z hx hy hz ((hDE x y z).2 he),
    fun j x y z hj hx hy hz hne => h.rest j x y z hj hx hy hz
      (hne.imp id (fun hn hd => hn ((hDE x y z).1 hd)))⟩

/-- Two pieces of code in sequence that write to the same object. -/
theorem Changed.trans {G : Globals} {s t u : State} {k : Nat}
    {D E : Nat → Nat → Nat → Prop} {w v : Nat → Nat → Nat → ℚ} (h1 : Changed G s k D w t)
    (h2 : Changed G t k E v u)
    (hv : ∀ x y z, x < G.ngx → y < G.ngy → z < G.ngz → E x y z → v x y z = w x y z) :
    Changed G s k (fun x y z => D x y z ∨ E x y z) w u := by
  refine ⟨h2.inv, h2.size.trans h1.size, ?_, ?_, ?_, ?_⟩
  · intro j hj
    rw [h2.live j (h1.size ▸ hj), h1.live j hj]
  · intro j hj
    rw [h2.data j (h1.size ▸ hj), h1.data j hj]
  · intro x y z hx hy hz hde
    by_cases he : E x y z
    · rw [h2.here x y z hx hy hz he, hv x y z hx hy hz he]
    · have hd : D x y z := hde.resolve_right he
      have hk : k < s.nfields := by
        by_contra hk
        have := h1.here x y z hx hy hz hd
        simp [State.value, State.field, h1.size, hk] at this
      rw [h2.rest k x y z (h1.size ▸ hk) hx hy hz (Or.inr he)]
      exact h1.here x y z hx hy hz hd
  · intro j x y z hj hx hy hz hne
    rw [h2.rest j x y z (h1.size ▸ hj) hx hy hz (hne.imp id (fun hn he => hn (Or.inr he)))]
    exact h1.rest j x y z hj hx hy hz (hne.imp id (fun hn hd => hn (Or.inl hd)))

/-- A piece of code followed by one that changes no value. -/
theorem Changed.then_same {G : Globals} {s t u : State} {k j : Nat}
    {D : Nat → Nat → Nat → Prop} {w v : Nat → Nat → Nat → ℚ} (h1 : Changed G s k D w t)
    (h2 : Changed G t j (fun _ _ _ => False) v u) : Changed G s k D w u := by
  refine ⟨h2.inv, h2.size.trans h1.size, ?_, ?_, ?_, ?_⟩
  · intro i hi
    rw [h2.live i (h1.size ▸ hi), h1.live i hi]
  · intro i hi
    rw [h2.data i (h1.size ▸ hi), h1.data i hi]
  · intro x y z hx hy hz hd
    have hk : k < s.nfields := by
      by_contra hk
      have := h1.here x y z hx hy hz hd
      simp [State.value, State.field, h1.size, hk] at this
    rw [h2.rest k x y z (h1.size ▸ hk) hx hy hz (Or.inr id)]
    exact h1.here x y z hx hy hz hd
  · intro i x y z hi hx hy hz hne
    rw [h2.rest i x y z (h1.size ▸ hi) hx hy hz (Or.inr id)]
    exact h1.rest i x y z hi hx hy hz hne

/-- A piece of code that changes no value, followed by another piece of code. -/
theorem Changed.after_same {G : Globals} {s t u : State} {k j : Nat}
    {D : Nat → Nat → Nat → Prop} {w v : Nat → Nat → Nat → ℚ}
    (h1 : Changed G s j (fun _ _ _ => False) v t) (h2 : Changed G t k D w u) :
    Changed G s k D w u := by
  refine ⟨h2.inv, h2.size.trans h1.size, ?_, ?_, ?_, ?_⟩
  · intro i hi
    rw [h2.live i (h1.size ▸ hi), h1.live i hi]
  · intro i hi
    rw [h2.data i (h1.size ▸ hi), h1.data i hi]
  · intro x y z hx hy hz hd
    exact h2.here x y z hx hy hz hd
  · intro i x y z hi hx hy hz hne
    rw [h2.rest i x y z (h1.size ▸ hi) hx hy hz hne]
    exact h1.rest i x y z hi hx hy hz (Or.inr id)

theorem hasData_iff (s : State) (k : Nat) :
    s.hasData k ↔ k < s.nfields ∧ ((s.fields k).bind Field3D.block).isSome = true := by
  unfold State.hasData State.field
  constructor
  · rintro ⟨f, b, hf, hb⟩
    by_cases hk : k < s.nfields
    · rw [if_pos hk] at hf
      exact ⟨hk, by simp [hf, hb]⟩
    · rw [if_neg hk] at hf
      cases hf
  · rintro ⟨hk, h⟩
    rw [if_pos hk]
    cases hf : s.fields k with
    | none => simp [hf] at h
    | some f =>
        cases hb : f.block with
        | none => simp [hf, hb] at h
        | some b => exact ⟨f, b, rfl, hb⟩

theorem Changed.hasData {G : Globals} {s t : State} {k : Nat}
    {D : Nat → Nat → Nat → Prop} {w : Nat → Nat → Nat → ℚ} (h : Changed G s k D w t)
    (j : Nat) (hj : s.hasData j) : t.hasData j := by
  rw [hasData_iff] at hj ⊢
  exact ⟨h.size ▸ hj.1, by rw [h.data j hj.1]; exact hj.2⟩

/-- A member function with the summary `Effect`, seen from the values. -/
theorem Effect.changed {G : Globals} {s : State} {k : Nat} {f2 : Field3D} {p2 : Pool}
    {b2 : Nat} {v : Nat → Nat → Nat → ℚ} (h : Effect G s k f2 p2 b2 v) (hs : Inv s)
    (f : Field3D) (b0 : Nat) (hf : s.field k = some f) (hb : f.block = some b0)
    (D : Nat → Nat → Nat → Prop) (w : Nat → Nat → Nat → ℚ)
    (hD : ∀ x y z, x < G.ngx → y < G.ngy → z < G.ngz → D x y z → v x y z = w x y z)
    (hr : ∀ x y z, x < G.ngx → y < G.ngy → z < G.ngz → ¬ D x y z →
      v x y z = s.pool.read b0 x y z) :
    Changed G s k D w (s.put k f2 p2) := by
  obtain ⟨hk, hfs⟩ := field_lt hf
  refine ⟨h.inv, rfl, ?_, ?_, ?_, ?_⟩
  · intro j _
    by_cases hjk : j = k
    · subst hjk
      simp [State.put, hfs]
    · simp [State.put, Function.update_noteq hjk]
  · intro j _
    by_cases hjk : j = k
    · subst hjk
      simp [State.put, hfs, hb, h.block]
    · simp [State.put, Function.update_noteq hjk]
  · intro x y z hx hy hz hd
    rw [h.value_self hk x y z hx hy hz, hD x y z hx hy hz hd]
  · intro j x y z _ hx hy hz hne
    by_cases hjk : j = k
    · subst hjk
      have hnd : ¬ D x y z := hne.resolve_left (fun h => h rfl)
      rw [h.value_self hk x y z hx hy hz, hr x y z hx hy hz hnd,
        value_eq_read s j b0 f hf hb]
    · exact h.value_other hs j hjk x y z

theorem index_effect (M : Mesh) (s : State) (hs : Inv s) (k : Nat) (f : Field3D) (b0 : Nat)
    (hf : s.field k = some f) (hb : f.block = some b0) (jx : Int) (h0 : 0 ≤ jx)
    (hx : jx < M.ngx) :
    ∃ b2 f2 p2, s.index M k jx = some ((b2, jx.toNat), s.put k f2 p2) ∧
      Effect M.toGlobals s k f2 p2 b2 (fun x y z => s.pool.read b0 x y z) := by
  obtain ⟨hk, hfs⟩ := field_lt hf
  obtain ⟨b2, he⟩ := alloc_effect M.toGlobals s k b0 f hs hk hfs hb
  refine ⟨b2, _, _, ?_, he⟩
  unfold State.index
  rw [hf]
  simp only
  rw [operator_index_eq M.toGlobals M.CHECK f s.pool b2 jx h0 hx
    (Or.inr (by rw [hb]; simp)) he.block]

/-- Reading an element changes no value. -/
theorem getElem_same (M : Mesh) (s : State) (hs : Inv s) (k : Nat) (f : Field3D) (b0 : Nat)
    (hf : s.field k = some f) (hb : f.block = some b0) (jx jy jz : Int)
    (hx : 0 ≤ jx ∧ jx < M.ngx) (hy : 0 ≤ jy ∧ jy < M.ngy) (hz : 0 ≤ jz ∧ jz < M.ngz) :
    ∃ t, s.getElem M k jx jy jz = some (s.pool.read b0 jx.toNat jy.toNat jz.toNat, t) ∧
      ∀ w, Changed M.toGlobals s k (fun _ _ _ => False) w t := by
  obtain ⟨b2, f2, p2, hi, he⟩ := index_effect M s hs k f b0 hf hb jx hx.1 hx.2
  refine ⟨s.put k f2 p2, ?_, fun w => ?_⟩
  · unfold State.getElem
    rw [hi]
    simp only
    rw [if_pos ⟨hy.1, hy.2, hz.1, hz.2⟩]
    have := he.vals jx.toNat jy.toNat jz.toNat (by omega) (by omega) (by omega)
    simp only [State.put]
    rw [this]
  · exact he.changed hs f b0 hf hb _ w (fun _ _ _ _ _ _ h => h.elim)
      (fun _ _ _ _ _ _ _ => rfl)

/-- Storing to an element changes that element of that object only. -/
theorem setElem_changed (M : Mesh) (s : State) (hs : Inv s) (k : Nat) (f : Field3D)
    (b0 : Nat) (hf : s.field k = some f) (hb : f.block = some b0) (jx jy jz : Int)
    (hx : 0 ≤ jx ∧ jx < M.ngx) (hy : 0 ≤ jy ∧ jy < M.ngy) (hz : 0 ≤ jz ∧ jz < M.ngz)
    (c : ℚ) :
    ∃ t, s.setElem M k jx jy jz c = some t ∧
      Changed M.toGlobals s k (fun x y z => (x : Int) = jx ∧ (y : Int) = jy ∧ (z : Int) = jz)
        (fun _ _ _ => c) t := by
  obtain ⟨b2, f2, p2, hi, he⟩ := index_effect M s hs k f b0 hf hb jx hx.1 hx.2
  refine ⟨s.put k f2 (p2.write b2 jx.toNat jy.toNat jz.toNat c), ?_, ?_⟩
  · unfold State.setElem
    rw [hi]
    simp only
    rw [if_pos ⟨hy.1, hy.2, hz.1, hz.2⟩]
    rfl
  · refine (he.then_write jx.toNat jy.toNat jz.toNat c).changed hs f b0 hf hb _ _ ?_ ?_
    · intro x y z _ _ _ hd
      have hp : x = jx.toNat ∧ y = jy.toNat ∧ z = jz.toNat := by omega
      simp only [if_pos hp]
    · intro x y z _ _ _ hd
      have hp : ¬ (x = jx.toNat ∧ y = jy.toNat ∧ z = jz.toNat) := by
        intro hp
        apply hd
        omega
      simp only [if_neg hp]

/-- A loop whose body adds the points `R j` to the points written so far. -/
theorem forEachM_changed (G : Globals) (s0 : State) (k : Nat) (w : Nat → Nat → Nat → ℚ)
    (R : Int → Nat → Nat → Nat → Prop) (body : Int → State → Option State) :
    ∀ (l : List Int),
      (∀ j, j ∈ l → ∀ (D : Nat → Nat → Nat → Prop) (s : State), Changed G s0 k D w s →
        ∃ t, body j s = some t ∧ Changed G s0 k (fun x y z => D x y z ∨ R j x y z) w t) →
      ∀ (D : Nat → Nat → Nat → Prop) (s : State), Changed G s0 k D w s →
        ∃ t, forEachM l body s = some t ∧
          Changed G s0 k (fun x y z => D x y z ∨ ∃ j, j ∈ l ∧ R j x y z) w t := by
  intro l
  induction l with
  | nil =>
      intro _ D s h
      exact ⟨s, rfl, h.congr_set (fun x y z => by simp)⟩
  | cons i l ih =>
      intro hbody D s h
      obtain ⟨t, ht, hc⟩ := hbody i (List.mem_cons_self i l) D s h
      obtain ⟨u, hu, hcu⟩ := ih (fun j hj => hbody j (List.mem_cons_of_mem i hj)) _ t hc
      refine ⟨u, ?_, hcu.congr_set (fun x y z => ?_)⟩
      · simp only [forEachM, ht]
        exact hu
      · simp only [List.mem_cons]
        constructor
        · rintro ((hd | hr) | ⟨j, hj, hr⟩)
          · exact Or.inl hd
          · exact Or.inr ⟨i, Or.inl rfl, hr⟩
          · exact Or.inr ⟨j, Or.inr hj, hr⟩
        · rintro (hd | ⟨j, rfl | hj, hr⟩)
          · exact Or.inl (Or.inl hd)
          · exact Or.inl (Or.inr hr)
          · exact Or.inr ⟨j, hj, hr⟩

/-- Three nested loops whose body writes the point its counters name. -/
theorem loops_changed (G : Globals) (s0 : State) (k : Nat) (w : Nat → Nat → Nat → ℚ)
    (xs ys zs : List Int) (body : Int → Int → Int → State → Option State)
    (hbody : ∀ jx, jx ∈ xs → ∀ jy, jy ∈ ys → ∀ jz, jz ∈ zs →
      ∀ (D : Nat → Nat → Nat → Prop) (s : State), Changed G s0 k D w s →
        ∃ t, body jx jy jz s = some t ∧
          Changed G s0 k
            (fun x y z => D x y z ∨ ((x : Int) = jx ∧ (y : Int) = jy ∧ (z : Int) = jz)) w t)
    (D : Nat → Nat → Nat → Prop) (s : State) (h : Changed G s0 k D w s) :
    ∃ t, forEachM xs (fun jx => forEachM ys (fun jy => forEachM zs (fun jz =>
        body jx jy jz))) s = some t ∧
      Changed G s0 k
        (fun x y z => D x y z ∨ ((x : Int) ∈ xs ∧ (y : Int) ∈ ys ∧ (z : Int) ∈ zs)) w t := by
  obtain ⟨t, ht, hc⟩ := forEachM_changed G s0 k w
    (fun jx x y z => (x : Int) = jx ∧ (y : Int) ∈ ys ∧ (z : Int) ∈ zs) _ xs
    (fun jx hjx D1 s1 h1 => by
      obtain ⟨t1, ht1, hc1⟩ := forEachM_changed G s0 k w
        (fun jy x y z => (x : Int) = jx ∧ (y : Int) = jy ∧ (z : Int) ∈ zs) _ ys
        (fun jy hjy D2 s2 h2 => by
          obtain ⟨t2, ht2, hc2⟩ := forEachM_changed G s0 k w
            (fun jz x y z => (x : Int) = jx ∧ (y : Int) = jy ∧ (z : Int) = jz) _ zs
            (fun jz hjz D3 s3 h3 => hbody jx hjx jy hjy jz hjz D3 s3 h3) D2 s2 h2
          refine ⟨t2, ht2, hc2.congr_set (fun x y z => ?_)⟩
          constructor
          · rintro (hd | ⟨j, hj, hx, hy, rfl⟩)
            · exact Or.inl hd
            · exact Or.inr ⟨hx, hy, hj⟩
          · rintro (hd | ⟨hx, hy, hz⟩)
            · exact Or.inl hd
            · exact Or.inr ⟨_, hz, hx, hy, rfl⟩) D1 s1 h1
      refine ⟨t1, ht1, hc1.congr_set (fun x y z => ?_)⟩
      constructor
      · rintro (hd | ⟨j, hj, hx, rfl, hz⟩)
        · exact Or.inl hd
        · exact Or.inr ⟨hx, hj, hz⟩
      · rintro (hd | ⟨hx, hy, hz⟩)
        · exact Or.inl hd
        · exact Or.inr ⟨_, hy, hx, rfl, hz⟩) D s h
  refine ⟨t, ht, hc.congr_set (fun x y z => ?_)⟩
  constructor
  · rintro (hd | ⟨j, hj, rfl, hy, hz⟩)
    · exact Or.inl hd
    · exact Or.inr ⟨hj, hy, hz⟩
  · rintro (hd | ⟨hx, hy, hz⟩)
    · exact Or.inl hd
    · exact Or.inr ⟨_, hx, rfl, hy, hz⟩

/-- Three nested loops that store the same value `c` at every point they visit. -/
theorem zero_loops (M : Mesh) (c : ℚ) (s0 : State) (k : Nat) (hd0 : s0.hasData k)
    (xs ys zs : List Int)
    (hxs : ∀ j, j ∈ xs → 0 ≤ j ∧ j < M.ngx) (hys : ∀ j, j ∈ ys → 0 ≤ j ∧ j < M.ngy)
    (hzs : ∀ j, j ∈ zs → 0 ≤ j ∧ j < M.ngz)
    (D : Nat → Nat → Nat → Prop) (s : State)
    (h : Changed M.toGlobals s0 k D (fun _ _ _ => c) s) :
    ∃ t, forEachM xs (fun jx => forEachM ys (fun jy => forEachM zs (fun jz =>
        State.setElem M k jx jy jz c))) s = some t ∧
      Changed M.toGlobals s0 k
        (fun x y z => D x y z ∨ ((x : Int) ∈ xs ∧ (y : Int) ∈ ys ∧ (z : Int) ∈ zs))
        (fun _ _ _ => c) t := by
  refine loops_changed M.toGlobals s0 k _ xs ys zs _ ?_ D s h
  intro jx hjx jy hjy jz hjz D1 s1 h1
  obtain ⟨f, b, hf, hb⟩ := h1.hasData k hd0
  obtain ⟨t, ht, hc⟩ := setElem_changed M s1 h1.inv k f b hf hb jx jy jz (hxs jx hjx)
    (hys jy hjy) (hzs jz hjz) c
  exact ⟨t, ht, h1.trans hc (fun _ _ _ _ _ _ _ => rfl)⟩

/-- C13: on the rank with `PE_XIND = 0`, for a 3D field with data and `MXG <= ngx`,
`bndry_inner_zero` returns; afterwards the field reads 0 at every grid point with
`x < MXG` and what it read before at every grid point with `x >= MXG`, and every
other object reads what it read before. -/
theorem inner_zero_planes (M : Mesh) (hpe : M.PE_XIND = 0) (hm : M.MXG ≤ M.ngx)
    (s : State) (hs : Inv s) (k : Nat) (hd : s.hasData k) :
    ∃ t, bndry_inner_zero M k s = some t ∧ Inv t ∧
      (∀ x y z, x < M.ngx → y < M.ngy → z < M.ngz → (x : Int) < M.MXG →
        t.value k x y z = some 0) ∧
      (∀ x y z, x < M.ngx → y < M.ngy → z < M.ngz → M.MXG ≤ (x : Int) →
        t.value k x y z = s.value k x y z) ∧
      ∀ j x y z, j ≠ k → j < s.nfields → x < M.ngx → y < M.ngy → z < M.ngz →
        t.value j x y z = s.value j x y z := by
  obtain ⟨t, ht, hc⟩ := zero_loops M 0 s k hd (upTo 0 M.MXG) (upTo 0 M.ngy) (upTo 0 M.ngz)
    (fun j hj => by rw [mem_upTo] at hj; omega) (fun j hj => by rw [mem_upTo] at hj; omega)
    (fun j hj => by rw [mem_upTo] at hj; omega) _ s (Changed.refl M.toGlobals s hs k _)
  have hk : k < s.nfields := ((hasData_iff s k).1 hd).1
  refine ⟨t, ?_, hc.inv, ?_, ?_, ?_⟩
  · unfold bndry_inner_zero
    rw [if_neg (by rw [hpe]; simp)]
    exact ht
  · intro x y z hx hy hz hlt
    refine hc.here x y z hx hy hz (Or.inr ?_)
    simp only [mem_upTo]
    omega
  · intro x y z hx hy hz hge
    refine hc.rest k x y z hk hx hy hz (Or.inr ?_)
    simp only [mem_upTo]
    rintro (h | h)
    · exact h
    · omega
  · intro j x y z hjk hj hx hy hz
    exact hc.rest j x y z hj hx hy hz (Or.inl hjk)

theorem assignReal_value (G : Globals) (s : State) (hs : Inv s) (k : Nat) (f : Field3D)
    (hf : s.field k = some f) (val : ℚ) :
    ∃ t, step G s (Action.assignReal k val) = some t ∧ Inv t ∧ t.hasData k ∧
      ∀ x y z, x < G.ngx → y < G.ngy → z < G.ngz → t.value k x y z = some val := by
  obtain ⟨hk, hfs⟩ := field_lt hf
  obtain ⟨f2, p2, b2, h, he⟩ := assign_real_effect G s hs k f hk hfs val
  refine ⟨s.put k f2 p2, ?_, he.inv, ?_, fun x y z hx hy hz => he.value_self hk x y z hx hy hz⟩
  · simp only [step, hf, h, Option.map_some']
  · exact ⟨f2, b2, by simp [State.field, State.put, hk], he.block⟩

theorem boxState_ok :
    Inv boxState ∧ boxState.hasData 0 ∧
      ∀ x y z, x < 6 → y < 6 → z < 5 → boxState.value 0 x y z = some 1 := by
  have h1 := construct_kept (State.empty (fun _ _ _ _ => 0)) (inv_empty _)
  obtain ⟨t, ht, hi, hd, hv⟩ := assignReal_value boxMesh.toGlobals _ h1.inv 0 Field3D.ctor
    rfl 1
  have he : step boxMesh.toGlobals ((State.empty (fun _ _ _ _ => 0)).push Field3D.ctor
      (State.empty (fun _ _ _ _ => 0)).pool) (Action.assignReal 0 1) = some boxState := rfl
  rw [he] at ht
  cases ht
  exact ⟨hi, hd, hv⟩

theorem inner_zero_planes_witness :
    ∃ t, bndry_inner_zero boxMesh 0 boxState = some t ∧
      ∀ x y z, x < 6 → y < 6 → z < 5 →
        t.value 0 x y z = some (if x < 2 then 0 else 1) := by
  obtain ⟨t, ht, _, h0, h1, _⟩ := inner_zero_planes boxMesh rfl (by decide) boxState
    boxState_ok.1 0 boxState_ok.2.1
  refine ⟨t, ht, fun x y z hx hy hz => ?_⟩
  by_cases h : x < 2
  · rw [if_pos h]
    exact h0 x y z hx hy hz (by show (x : Int) < 2; omega)
  · rw [if_neg h, h1 x y z hx hy hz (by show (2 : Int) ≤ x; omega)]
    exact boxState_ok.2.2 x y z hx hy hz

/-! ## Relaxing boundary conditions -/

theorem hasData_lt {s : State} {k : Nat} (h : s.hasData k) : k < s.nfields :=
  ((hasData_iff s k).1 h).1

theorem relaxPoint_changed (M : Mesh) (s0 : State) (kv kF kt : Nat) (tconst : ℚ)
    (hv : s0.hasData kv) (hF : s0.hasData kF) (ht : s0.hasData kt) (hvF : kv ≠ kF)
    (htF : kt ≠ kF) (jx jy jz : Int) (hx : 0 ≤ jx ∧ jx < M.ngx) (hy : 0 ≤ jy ∧ jy < M.ngy)
    (hz : 0 ≤ jz ∧ jz < M.ngz) (D : Nat → Nat → Nat → Prop) (s : State)
    (h : Changed M.toGlobals s0 kF D (relaxRate s0 kv kt tconst) s) :
    ∃ t, relaxPoint M kv kF kt tconst jx jy jz s = some t ∧
      Changed M.toGlobals s0 kF
        (fun x y z => D x y z ∨ ((x : Int) = jx ∧ (y : Int) = jy ∧ (z : Int) = jz))
        (relaxRate s0 kv kt tconst) t := by
  obtain ⟨ft, bt, hft, hbt⟩ := h.hasData kt ht
  obtain ⟨s1, hg1, hc1⟩ := getElem_same M s h.inv kt ft bt hft hbt jx jy jz hx hy hz
  have h1 := h.then_same (hc1 (fun _ _ _ => 0))
  obtain ⟨fv, bv, hfv, hbv⟩ := h1.hasData kv hv
  obtain ⟨s2, hg2, hc2⟩ := getElem_same M s1 h1.inv kv fv bv hfv hbv jx jy jz hx hy hz
  have h2 := h1.then_same (hc2 (fun _ _ _ => 0))
  obtain ⟨fF, bF, hfF, hbF⟩ := h2.hasData kF hF
  obtain ⟨t, hset, hc3⟩ := setElem_changed M s2 h2.inv kF fF bF hfF hbF jx jy jz hx hy hz
    ((s.pool.read bt jx.toNat jy.toNat jz.toNat - s1.pool.read bv jx.toNat jy.toNat jz.toNat)
      / tconst)
  refine ⟨t, ?_, h2.trans hc3 ?_⟩
  · unfold relaxPoint
    rw [hg1]
    simp only
    rw [hg2]
    simp only
    exact hset
  · intro x y z hx' hy' hz' hp
    have e1 : jx.toNat = x := by omega
    have e2 : jy.toNat = y := by omega
    have e3 : jz.toNat = z := by omega
    rw [e1, e2, e3]
    unfold relaxRate
    have ha := h.rest kt x y z (hasData_lt ht) hx' hy' hz' (Or.inl htF)
    rw [value_eq_read s kt bt ft hft hbt] at ha
    have hb := h1.rest kv x y z (hasData_lt hv) hx' hy' hz' (Or.inl hvF)
    rw [value_eq_read s1 kv bv fv hfv hbv] at hb
    rw [← ha, ← hb]
    rfl

theorem relaxLoops_changed (M : Mesh) (s0 : State) (kv kF kt : Nat) (tconst : ℚ)
    (hv : s0.hasData kv) (hF : s0.hasData kF) (ht : s0.hasData kt) (hvF : kv ≠ kF)
    (htF : kt ≠ kF) (xs ys : List Int) (hxs : ∀ j, j ∈ xs → 0 ≤ j ∧ j < M.ngx)
    (hys : ∀ j, j ∈ ys → 0 ≤ j ∧ j < M.ngy) (D : Nat → Nat → Nat → Prop) (s : State)
    (h : Changed M.toGlobals s0 kF D (relaxRate s0 kv kt tconst) s) :
    ∃ t, relaxLoops M kv kF kt tconst xs ys s = some t ∧
      Changed M.toGlobals s0 kF
        (fun x y z => D x y z ∨
          ((x : Int) ∈ xs ∧ (y : Int) ∈ ys ∧ (z : Int) ∈ upTo 0 M.ngz))
        (relaxRate s0 kv kt tconst) t := by
  refine loops_changed M.toGlobals s0 kF _ xs ys (upTo 0 M.ngz) _ ?_ D s h
  intro jx hjx jy hjy jz hjz D1 s1 h1
  exact relaxPoint_changed M s0 kv kF kt tconst hv hF ht hvF htF jx jy jz (hxs jx hjx)
    (hys jy hjy) (by rw [mem_upTo] at hjz; omega) D1 s1 h1

theorem relaxUpper_changed (M : Mesh) (hfit : M.fits) (s0 : State) (kv kF kt : Nat)
    (tconst : ℚ) (hv : s0.hasData kv) (hF : s0.hasData kF) (ht : s0.hasData kt)
    (hvF : kv ≠ kF) (htF : kt ≠ kF) (D : Nat → Nat → Nat → Prop) (s : State)
    (h : Changed M.toGlobals s0 kF D (relaxRate s0 kv kt tconst) s) :
    ∃ t, relaxUpper M kv kF kt tconst s = some t ∧
      Changed M.toGlobals s0 kF (fun x y z => D x y z ∨ M.upperSet x y z)
        (relaxRate s0 kv kt tconst) t := by
  have hys : ∀ j, j ∈ downTo ((M.ngy : Int) - 1) (M.ngy - 1 - M.MYG) →
      0 ≤ j ∧ j < M.ngy := by
    intro j hj
    rw [mem_downTo] at hj
    have := hfit.myg
    omega
  unfold relaxUpper
  by_cases h1 : M.UDATA_INDEST < 0
  · obtain ⟨s1, hs1, hc1⟩ := relaxLoops_changed M s0 kv kF kt tconst hv hF ht hvF htF
      (upTo 0 M.UDATA_XSPLIT) _ (fun j hj => by
        rw [mem_upTo] at hj
        have := hfit.usplit
        omega) hys D s h
    rw [if_pos h1, hs1]
    simp only
    by_cases h2 : M.UDATA_OUTDEST < 0
    · obtain ⟨s2, hs2, hc2⟩ := relaxLoops_changed M s0 kv kF kt tconst hv hF ht hvF htF
        (upTo (if M.UDATA_XSPLIT < 0 then 0 else M.UDATA_XSPLIT) M.ngx) _ (fun j hj => by
          rw [mem_upTo] at hj
          split_ifs at hj <;> omega) hys _ s1 hc1
      rw [if_pos h2]
      refine ⟨s2, hs2, hc2.congr_set (fun x y z => ?_)⟩
      unfold Mesh.upperSet
      tauto
    · rw [if_neg h2]
      refine ⟨s1, rfl, hc1.congr_set (fun x y z => ?_)⟩
      unfold Mesh.upperSet
      tauto
  · rw [if_neg h1]
    simp only
    by_cases h2 : M.UDATA_OUTDEST < 0
    · obtain ⟨s2, hs2, hc2⟩ := relaxLoops_changed M s0 kv kF kt tconst hv hF ht hvF htF
        (upTo (if M.UDATA_XSPLIT < 0 then 0 else M.UDATA_XSPLIT) M.ngx) _ (fun j hj => by
          rw [mem_upTo] at hj
          split_ifs at hj <;> omega) hys D s h
      rw [if_pos h2]
      refine ⟨s2, hs2, hc2.congr_set (fun x y z => ?_)⟩
      unfold Mesh.upperSet
      tauto
    · rw [if_neg h2]
      refine ⟨s, rfl, h.congr_set (fun x y z => ?_)⟩
      unfold Mesh.upperSet
      tauto

theorem relaxLower_changed (M : Mesh) (hfit : M.fits) (s0 : State) (kv kF kt : Nat)
    (tconst : ℚ) (hv : s0.hasData kv) (hF : s0.hasData kF) (ht : s0.hasData kt)
    (hvF : kv ≠ kF) (htF : kt ≠ kF) (D : Nat → Nat → Nat → Prop) (s : State)
    (h : Changed M.toGlobals s0 kF D (relaxRate s0 kv kt tconst) s) :
    ∃ t, relaxLower M kv kF kt tconst s = some t ∧
      Changed M.toGlobals s0 kF (fun x y z => D x y z ∨ M.lowerSet x y z)
        (relaxRate s0 kv kt tconst) t := by
  have hys : ∀ j, j ∈ upTo 0 M.MYG → 0 ≤ j ∧ j < M.ngy := by
    intro j hj
    rw [mem_upTo] at hj
    have := hfit.myg
    omega
  unfold relaxLower
  by_cases h1 : M.DDATA_INDEST < 0
  · obtain ⟨s1, hs1, hc1⟩ := relaxLoops_changed M s0 kv kF kt tconst hv hF ht hvF htF
      (upTo 0 M.DDATA_XSPLIT) _ (fun j hj => by
        rw [mem_upTo] at hj
        have := hfit.dsplit
        omega) hys D s h
    rw [if_pos h1, hs1]
    simp only
    by_cases h2 : M.DDATA_OUTDEST < 0
    · obtain ⟨s2, hs2, hc2⟩ := relaxLoops_changed M s0 kv kF kt tconst hv hF ht hvF htF
        (upTo (if M.DDATA_XSPLIT < 0 then 0 else M.DDATA_XSPLIT) M.ngx) _ (fun j hj => by
          rw [mem_upTo] at hj
          split_ifs at hj <;> omega) hys _ s1 hc1
      rw [if_pos h2]
      refine ⟨s2, hs2, hc2.congr_set (fun x y z => ?_)⟩
      unfold Mesh.lowerSet
      tauto
    · rw [if_neg h2]
      refine ⟨s1, rfl, hc1.congr_set (fun x y z => ?_)⟩
      unfold Mesh.lowerSet
      tauto
  · rw [if_neg h1]
    simp only
    by_cases h2 : M.DDATA_OUTDEST < 0
    · obtain ⟨s2, hs2, hc2⟩ := relaxLoops_changed M s0 kv kF kt tconst hv hF ht hvF htF
        (upTo (if M.DDATA_XSPLIT < 0 then 0 else M.DDATA_XSPLIT) M.ngx) _ (fun j hj => by
          rw [mem_upTo] at hj
          split_ifs at hj <;> omega) hys D s h
      rw [if_pos h2]
      refine ⟨s2, hs2, hc2.congr_set (fun x y z => ?_)⟩
      unfold Mesh.lowerSet
      tauto
    · rw [if_neg h2]
      refine ⟨s, rfl, h.congr_set (fun x y z => ?_)⟩
      unfold Mesh.lowerSet
      tauto

/-- The `switch(loc)` of `BndryRelax` stores the rate at the points of
`Mesh.written` and changes nothing else. -/
theorem relaxSwitch_changed (M : Mesh) (hfit : M.fits) (s0 : State) (kv kF kt : Nat)
    (tconst : ℚ) (hv : s0.hasData kv) (hF : s0.hasData kF) (ht : s0.hasData kt)
    (hvF : kv ≠ kF) (htF : kt ≠ kF) (loc : Nat) (hs0 : Inv s0) :
    ∃ t, relaxSwitch M kv kF kt tconst loc s0 = some t ∧
      Changed M.toGlobals s0 kF (M.written loc) (relaxRate s0 kv kt tconst) t := by
  have h := Changed.refl M.toGlobals s0 hs0 kF (relaxRate s0 kv kt tconst)
  have hall : ∀ j, j ∈ upTo 0 M.ngy → 0 ≤ j ∧ j < M.ngy := by
    intro j hj
    rw [mem_upTo] at hj
    omega
  unfold relaxSwitch
  by_cases hi : loc = INNER_X
  · obtain ⟨t, ht1, hc⟩ := relaxLoops_changed M s0 kv kF kt tconst hv hF ht hvF htF
      (upTo 0 M.MXG) (upTo 0 M.ngy) (fun j hj => by
        rw [mem_upTo] at hj
        have := hfit.mxg
        omega) hall _ s0 h
    rw [if_pos hi]
    refine ⟨t, ht1, hc.congr_set (fun x y z => ?_)⟩
    subst hi
    simp [Mesh.written, INNER_X, OUTER_X, UPPER_Y, LOWER_Y]
  · rw [if_neg hi]
    by_cases ho : loc = OUTER_X
    · obtain ⟨s1, hs1, hc1⟩ := relaxLoops_changed M s0 kv kF kt tconst hv hF ht hvF htF
        (downTo M.ncx (M.ncx - M.MXG)) (upTo 0 M.ngy) (fun j hj => by
          rw [mem_downTo] at hj
          have := hfit.ncx_lt
          have := hfit.ncx_ge
          omega) hall _ s0 h
      obtain ⟨t, ht1, hc⟩ := relaxUpper_changed M hfit s0 kv kF kt tconst hv hF ht hvF htF
        _ s1 hc1
      rw [if_pos ho, hs1]
      refine ⟨t, ht1, hc.congr_set (fun x y z => ?_)⟩
      subst ho
      simp [Mesh.written, INNER_X, OUTER_X, UPPER_Y, LOWER_Y]
    · rw [if_neg ho]
      by_cases hu : loc = UPPER_Y
      · obtain ⟨t, ht1, hc⟩ := relaxUpper_changed M hfit s0 kv kF kt tconst hv hF ht hvF
          htF _ s0 h
        rw [if_pos hu]
        refine ⟨t, ht1, hc.congr_set (fun x y z => ?_)⟩
        subst hu
        simp [Mesh.written, INNER_X, OUTER_X, UPPER_Y, LOWER_Y]
      · rw [if_neg hu]
        by_cases hl : loc = LOWER_Y
        · obtain ⟨t, ht1, hc⟩ := relaxLower_changed M hfit s0 kv kF kt tconst hv hF ht hvF
            htF _ s0 h
          rw [if_pos hl]
          refine ⟨t, ht1, hc.congr_set (fun x y z => ?_)⟩
          subst hl
          simp [Mesh.written, INNER_X, OUTER_X, UPPER_Y, LOWER_Y]
        · rw [if_neg hl]
          refine ⟨s0, rfl, h.congr_set (fun x y z => ?_)⟩
          simp [Mesh.written, hi, ho, hu, hl]

theorem region_written (M : Mesh) (loc x y z : Nat) (h : M.region loc x y z) :
    M.written loc x y z := by
  obtain ⟨hx, hy, hz, h⟩ := h
  unfold Mesh.written Mesh.upperSet Mesh.lowerSet
  simp only [mem_upTo, mem_downTo]
  rcases h with ⟨hl, h1⟩ | ⟨hl, h1, h2⟩ | ⟨hl, h1, h2⟩ | ⟨hl, h1, h2⟩
  · refine Or.inl ⟨hl, ?_⟩
    omega
  · refine Or.inr (Or.inl ⟨hl, Or.inl ?_⟩)
    omega
  · refine Or.inr (Or.inr (Or.inl ⟨hl, ?_⟩))
    rcases h2 with ⟨h3, h4⟩ | ⟨h3, h4⟩
    · refine Or.inl ⟨h3, ?_⟩
      omega
    · refine Or.inr ⟨h3, ?_⟩
      split_ifs <;> omega
  · refine Or.inr (Or.inr (Or.inr ⟨hl, ?_⟩))
    rcases h2 with ⟨h3, h4⟩ | ⟨h3, h4⟩
    · refine Or.inl ⟨h3, ?_⟩
      omega
    · refine Or.inr ⟨h3, ?_⟩
      split_ifs <;> omega

/-- The local `tmpvar` of `BndryRelax` after `tmpvar = var`: a new object that reads
what `var` reads; nothing else has changed. -/
theorem tmp_copy (G : Globals) (s : State) (hs : Inv s) (var : Nat) (hv : s.hasData var) :
    ∃ s1, step G (s.push Field3D.ctor s.pool) (Action.assign s.nfields var) = some s1 ∧
      Inv s1 ∧ s1.nfields = s.nfields + 1 ∧ s1.hasData s.nfields ∧
      (∀ j, j < s.nfields → s.hasData j → s1.hasData j) ∧
      (∀ j x y z, j < s.nfields → s1.value j x y z = s.value j x y z) ∧
      ∀ x y z, s1.value s.nfields x y z = s.value var x y z := by
  obtain ⟨fv, bv, hfv, hbv⟩ := hv
  obtain ⟨hvlt, _⟩ := field_lt hfv
  have hk0 := construct_kept s hs
  have hf0 : (s.push Field3D.ctor s.pool).field s.nfields = some Field3D.ctor := by
    simp [State.field, State.push]
  have hr0 : (s.push Field3D.ctor s.pool).field var = some fv := by
    rw [field_push_lt s var _ _ hvlt]; exact hfv
  have hne : s.nfields ≠ var := by omega
  have ha : Field3D.ctor.operator_assign fv (decide (s.nfields = var))
      (s.push Field3D.ctor s.pool).pool =
      some (⟨some bv, fv.location⟩, Pool.incRefs bv s.pool) := by
    simp [Field3D.operator_assign, hne, hbv, Field3D.ctor, State.push]
  have hk1 := assign_kept _ hk0.inv s.nfields var Field3D.ctor fv _ _ hf0 hr0 ha
  refine ⟨_, ?_, hk1.inv, rfl, ?_, ?_, ?_, ?_⟩
  · simp only [step, hf0, hr0, ha, Option.map_some']
  · exact ⟨⟨some bv, fv.location⟩, bv, by simp [State.field, State.put, State.push], rfl⟩
  · rintro j hj ⟨f, b, hf, hb⟩
    refine ⟨f, b, ?_, hb⟩
    rw [field_put_ne _ _ j _ _ (by omega), field_push_lt s j _ _ hj]
    exact hf
  · intro j x y z hj
    rw [hk1.others j x y z (by simp [State.push]; omega) (by omega)]
    exact hk0.others j x y z hj (by omega)
  · intro x y z
    rw [value_eq_read _ s.nfields bv ⟨some bv, fv.location⟩
      (by simp [State.field, State.put, State.push]) rfl, value_eq_read s var bv fv hfv hbv]
    simp only [State.put, Pool.read, incRefs_data]

/-- C14: for `tconst > 0`, distinct objects `var` and `F_var` with data, a mesh
whose loops stay on the grid and a boundary function that returns and writes to its
argument only, `BndryRelax(var, F_var, tconst, func, loc)` returns; with `target`
the value of `func` applied to the copy `tmpvar` of `var`, afterwards
`F_var(p) = (target(p) - var(p)) / tconst` at every grid point `p` of the boundary
region of the single edge `loc`, and every object other than `F_var`, `var`
included, reads what it read before. -/
theorem relax_sets_rate (M : Mesh) (hfit : M.fits) (func : Nat → State → Option State)
    (hfunc : BndryOK M.toGlobals func) (s : State) (hs : Inv s) (var F_var : Nat)
    (hv : s.hasData var) (hF : s.hasData F_var) (hne : var ≠ F_var) (tconst : ℚ)
    (htc : 0 < tconst) (loc : Nat) :
    ∃ s1 s2 t, run M.toGlobals [Action.construct, Action.assign s.nfields var] s = some s1 ∧
      func s.nfields s1 = some s2 ∧
      BndryRelax M var F_var tconst func loc s = some t ∧ Inv t ∧
      (∀ x y z, M.region loc x y z → ∃ a v, s2.value s.nfields x y z = some a ∧
        s.value var x y z = some v ∧ t.value F_var x y z = some ((a - v) / tconst)) ∧
      ∀ j x y z, j < s.nfields → j ≠ F_var → x < M.ngx → y < M.ngy → z < M.ngz →
        t.value j x y z = s.value j x y z := by
  have hvlt := hasData_lt hv
  have hFlt := hasData_lt hF
  obtain ⟨s1, hs1, hi1, hn1, hd1, hk1, hv1, ht1⟩ := tmp_copy M.toGlobals s hs var hv
  obtain ⟨s2, w, hs2, hc2⟩ := hfunc s1 s.nfields hi1 hd1
  have hv2 : s2.hasData var := hc2.hasData var (hk1 var hvlt hv)
  have hF2 : s2.hasData F_var := hc2.hasData F_var (hk1 F_var hFlt hF)
  have ht2 : s2.hasData s.nfields := hc2.hasData s.nfields hd1
  obtain ⟨s3, hs3, hc3⟩ := relaxSwitch_changed M hfit s2 var F_var s.nfields tconst hv2 hF2
    ht2 hne (by omega) loc hc2.inv
  obtain ⟨ft, bt, hft, hbt⟩ := hc3.hasData s.nfields ht2
  have hk4 := destroy_kept s3 hc3.inv s.nfields ft hft
  have hn3 : s3.nfields = s.nfields + 1 := by rw [hc3.size, hc2.size, hn1]
  have hn2 : s2.nfields = s.nfields + 1 := by rw [hc2.size, hn1]
  have hval2 : ∀ j x y z, j < s.nfields → x < M.ngx → y < M.ngy → z < M.ngz →
      s2.value j x y z = s.value j x y z := by
    intro j x y z hj hx hy hz
    rw [hc2.rest j x y z (by omega) hx hy hz (Or.inl (by omega))]
    exact hv1 j x y z hj
  refine ⟨s1, s2, _, ?_, hs2, ?_, hk4.inv, ?_, ?_⟩
  · simp only [run, step, Option.some.injEq]
    have := hs1
    simp only [step] at this
    rw [this]
  · unfold BndryRelax
    rw [if_neg (by exact not_le.2 htc), hs1]
    simp only
    rw [hs2]
    simp only
    rw [hs3]
    simp only [step, hft]
  · intro x y z hreg
    have hgrid := hreg
    obtain ⟨hx, hy, hz, _⟩ := hgrid
    have hw := region_written M loc x y z hreg
    obtain ⟨f2t, b2t, hf2t, hb2t⟩ := ht2
    obtain ⟨fv, bv, hfv, hbv⟩ := hv
    have ea : s2.value s.nfields x y z = some (s2.pool.read b2t x y z) :=
      value_eq_read s2 _ b2t f2t hf2t hb2t x y z
    have ev : s.value var x y z = some (s.pool.read bv x y z) :=
      value_eq_read s var bv fv hfv hbv x y z
    refine ⟨_, _, ea, ev, ?_⟩
    rw [hk4.others F_var x y z (by omega) (by omega), hc3.here x y z hx hy hz hw]
    unfold relaxRate
    rw [ea, hval2 var x y z hvlt hx hy hz, ev]
    rfl
  · intro j x y z hj hjF hx hy hz
    rw [hk4.others j x y z (by omega) (by omega),
      hc3.rest j x y z (by omega) hx hy hz (Or.inl hjF)]
    exact hval2 j x y z hj hx hy hz

theorem value_of_hasData {s : State} {k : Nat} (h : s.hasData k) (x y z : Nat) :
    s.value k x y z = some ((s.value k x y z).getD 0) := by
  obtain ⟨f, b, hf, hb⟩ := h
  rw [value_eq_read s k b f hf hb]
  rfl

/-- Code that writes to object `k` only, summarised by the values `k` ends with. -/
theorem Changed.to_all {G : Globals} {s t : State} {k : Nat}
    {D : Nat → Nat → Nat → Prop} {w : Nat → Nat → Nat → ℚ} (h : Changed G s k D w t)
    (hd : s.hasData k) :
    Changed G s k (fun _ _ _ => True) (fun x y z => (t.value k x y z).getD 0) t :=
  ⟨h.inv, h.size, h.live, h.data,
    fun x y z _ _ _ _ => value_of_hasData (h.hasData k hd) x y z,
    fun j x y z hj hx hy hz hne =>
      h.rest j x y z hj hx hy hz (Or.inl (hne.resolve_right (fun hn => hn trivial)))⟩

theorem inner_zero_ok (M : Mesh) (hm : M.MXG ≤ M.ngx) :
    BndryOK M.toGlobals (bndry_inner_zero M) := by
  intro s k hs hd
  unfold bndry_inner_zero
  by_cases hpe : M.PE_XIND ≠ 0
  · rw [if_pos hpe]
    exact ⟨s, _, rfl, (Changed.refl M.toGlobals s hs k (fun _ _ _ => 0)).to_all hd⟩
  · rw [if_neg hpe]
    obtain ⟨t, ht, hc⟩ := zero_loops M 0 s k hd (upTo 0 M.MXG) (upTo 0 M.ngy)
      (upTo 0 M.ngz) (fun j hj => by rw [mem_upTo] at hj; omega)
      (fun j hj => by rw [mem_upTo] at hj; omega)
      (fun j hj => by rw [mem_upTo] at hj; omega) _ s (Changed.refl M.toGlobals s hs k _)
    exact ⟨t, _, ht, hc.to_all hd⟩

theorem relaxMesh_fits : relaxMesh.fits :=
  ⟨by decide, by decide, by decide, by decide, by decide, by decide⟩

theorem relax_sets_rate_witness :
    ∃ s1 s2 t, run relaxMesh.toGlobals [Action.construct, Action.assign 2 0] sampleState =
        some s1 ∧
      bndry_inner_zero relaxMesh 2 s1 = some s2 ∧
      BndryRelax relaxMesh 0 1 2 (bndry_inner_zero relaxMesh) INNER_X sampleState = some t ∧
      ∀ y z, y < 2 → z < 2 → ∃ a, s2.value 2 0 y z = some a ∧
        t.value 1 0 y z = some ((a - 2) / 2) := by
  obtain ⟨s1, s2, t, h1, h2, h3, _, h5, _⟩ := relax_sets_rate relaxMesh relaxMesh_fits
    (bndry_inner_zero relaxMesh) (inner_zero_ok relaxMesh (by decide)) sampleState
    sampleState_inv 0 1 ⟨⟨some 0, CELL_LOC.CELL_CENTRE⟩, 0, rfl, rfl⟩
    ⟨⟨some 1, CELL_LOC.CELL_CENTRE⟩, 1, rfl, rfl⟩ (by decide) 2 (by norm_num) INNER_X
  refine ⟨s1, s2, t, h1, h2, h3, fun y z hy hz => ?_⟩
  obtain ⟨a, v, ha, hv, ht⟩ := h5 0 y z ⟨by decide, hy, hz, Or.inl ⟨rfl, by decide⟩⟩
  have hv2 : sampleState.value 0 0 y z = some 2 := by
    rw [value_eq_read sampleState 0 0 ⟨some 0, CELL_LOC.CELL_CENTRE⟩ rfl rfl,
      sampleState_a 0 y z (by decide) hy hz]
  rw [hv2] at hv
  cases hv
  exact ⟨a, ha, ht⟩

/-! ## The lookup tables and the options -/

theorem lookupFrom_eq (sel : BndryLookup → Option BndryFn) (first : Option BndryFn)
    (type : BNDRY_TYPE) (z : BndryLookup) (post : List BndryLookup)
    (hz : z.type = BNDRY_TYPE.BNDRY_NULL) :
    ∀ (mid : List BndryLookup) (e : BndryLookup),
      (∀ x, x ∈ mid → x.type ≠ BNDRY_TYPE.BNDRY_NULL) →
      lookupFrom sel first type (e :: mid ++ z :: post) =
        some (lookupSpec sel first type (e :: mid)) := by
  intro mid
  induction mid with
  | nil =>
      intro e _
      by_cases he : e.type = type
      · by_cases hn : sel e = none <;> simp [lookupFrom, lookupSpec, List.find?, he, hn]
      · simp [lookupFrom, lookupSpec, List.find?, he, hz]
  | cons m mid ih =>
      intro e hmid
      by_cases he : e.type = type
      · by_cases hn : sel e = none <;> simp [lookupFrom, lookupSpec, List.find?, he, hn]
      · have hm : m.type ≠ BNDRY_TYPE.BNDRY_NULL := hmid m (List.mem_cons_self m mid)
        have := ih m (fun x hx => hmid x (List.mem_cons_of_mem m hx))
        simp only [List.cons_append] at this ⊢
        rw [lookupFrom]
        simp only [he, if_false, hm, ne_eq, not_false_eq_true, if_true]
        rw [this]
        simp [lookupSpec, List.find?, he]

/-- C20 (as stated, refuted): `OuterBndryTable` has no entry of type
`BNDRY_ZERO_GRAD`, yet both lookups return for that type a function, the one
registered for `BNDRY_Z`. -/
theorem lookup_fallback_counterexample :
    (∀ e, e ∈ OuterBndryTable → e.type ≠ BNDRY_TYPE.BNDRY_ZERO_GRAD) ∧
      BndryLookup3D OuterBndryTable BNDRY_TYPE.BNDRY_ZERO_GRAD =
        some (some BndryFn.bndry_inner_zero) ∧
      BndryLookup2D OuterBndryTable BNDRY_TYPE.BNDRY_ZERO_GRAD =
        some (some BndryFn.bndry_inner_zero) ∧
      OuterBndryTable.head? = some ⟨BNDRY_TYPE.BNDRY_Z, some BndryFn.bndry_inner_zero,
        some BndryFn.bndry_inner_zero⟩ := by
  decide

/-- C20 (amended): for a table whose first entry of type `BNDRY_NULL` after
`table[0]` is `z`, and a type other than `BNDRY_NULL`, `BndryLookup3D` and
`BndryLookup2D` return the function of the first entry of exactly that type when
that entry has one, and otherwise fall back to the function of `table[0]`. -/
theorem lookup_first_match_or_first_entry (e0 z : BndryLookup)
    (mid post : List BndryLookup) (hmid : ∀ x, x ∈ mid → x.type ≠ BNDRY_TYPE.BNDRY_NULL)
    (hz : z.type = BNDRY_TYPE.BNDRY_NULL) (type : BNDRY_TYPE)
    (ht : type ≠ BNDRY_TYPE.BNDRY_NULL) :
    BndryLookup3D (e0 :: mid ++ z :: post) type =
        some (lookupSpec BndryLookup.func3d e0.func3d type (e0 :: mid)) ∧
      BndryLookup2D (e0 :: mid ++ z :: post) type =
        some (lookupSpec BndryLookup.func2d e0.func2d type (e0 :: mid)) := by
  constructor
  · have := lookupFrom_eq BndryLookup.func3d e0.func3d type z post hz mid e0 hmid
    simp only [List.cons_append] at this ⊢
    simp only [BndryLookup3D, if_neg ht]
    exact this
  · have := lookupFrom_eq BndryLookup.func2d e0.func2d type z post hz mid e0 hmid
    simp only [List.cons_append] at this ⊢
    simp only [BndryLookup2D, if_neg ht]
    exact this

theorem lookup_first_match_or_first_entry_witness :
    BndryLookup3D InnerBndryTable BNDRY_TYPE.BNDRY_ZERO_GRAD =
        some (some BndryFn.bndry_inner_flat) ∧
      BndryLookup2D InnerBndryTable BNDRY_TYPE.BNDRY_ZERO_GRAD =
        some (some BndryFn.bndry_inner_flat) :=
  lookup_first_match_or_first_entry
    ⟨.BNDRY_Z, some .bndry_inner_zero, some .bndry_inner_zero⟩ ⟨.BNDRY_NULL, none, none⟩
    [⟨.BNDRY_ZERO_GRAD, some .bndry_inner_flat, some .bndry_inner_flat⟩] []
    (by decide) rfl BNDRY_TYPE.BNDRY_ZERO_GRAD (by decide)

/-- C17: `getBndryString` returns the first setting that is present in the order
name/code, name/general, altname/code, altname/general, All/code, All/general, and
null when none is. -/
theorem bndry_string_precedence
    (getString : Option String → Option String → Option String)
    (name altname : Option String) (bndry : BndryDesc) :
    getBndryString getString name altname bndry =
      firstSet getString [(name, bndry.code), (name, bndry.general), (altname, bndry.code),
        (altname, bndry.general), (some "All", bndry.code), (some "All", bndry.general)] := by
  unfold getBndryString firstSet
  simp only [List.findSome?]
  cases getString name bndry.code <;> simp only
  cases getString name bndry.general <;> simp only
  cases getString altname bndry.code <;> simp only
  cases getString altname bndry.general <;> simp only
  cases getString (some "All") bndry.code <;> simp only
  cases getString (some "All") bndry.general <;> simp only

theorem bndry_string_precedence_witness :
    getBndryString sampleOptions (some "P") (some "V") InnerBndry = some "ZERO" ∧
      getBndryString sampleOptions (some "Q") (some "V") InnerBndry = some "FLAT" ∧
      getBndryString sampleOptions (some "Q") (some "W") InnerBndry = some "ZERO_GRAD" ∧
      getBndryString sampleOptions (some "Q") (some "W")
        ⟨InnerBndryTable, INNER_X, some "inner", none, none⟩ = none := by
  refine ⟨?_, ?_, ?_, ?_⟩ <;> rw [bndry_string_precedence] <;> decide

/-! ## `BndryRelax` with a time constant that is not positive -/

/-- A loop whose body returns and keeps `P` returns and keeps `P`. -/
theorem forEachM_some {S : Type} (P : S → Prop) (body : Int → S → Option S) :
    ∀ (l : List Int), (∀ j, j ∈ l → ∀ s, P s → ∃ t, body j s = some t ∧ P t) →
      ∀ s, P s → ∃ t, forEachM l body s = some t ∧ P t := by
  intro l
  induction l with
  | nil => exact fun _ s hs => ⟨s, rfl, hs⟩
  | cons i l ih =>
      intro h s hs
      obtain ⟨t, ht, hp⟩ := h i (List.mem_cons_self i l) s hs
      obtain ⟨u, hu, hq⟩ := ih (fun j hj => h j (List.mem_cons_of_mem i hj)) t hp
      exact ⟨u, by simp only [forEachM, ht]; exact hu, hq⟩

theorem Field2D.get_some (G : Globals) (var : Field2D) (hv : var.data.isSome = true)
    (jx jy : Int) (hx : 0 ≤ jx ∧ jx < G.ngx) (hy : 0 ≤ jy ∧ jy < G.ngy) :
    ∃ a, var.get G jx jy = some a := by
  unfold Field2D.get
  cases hd : var.data with
  | none => rw [hd] at hv; cases hv
  | some d => exact ⟨d jx.toNat jy.toNat, by simp only [if_pos (⟨hx.1, hx.2, hy.1, hy.2⟩ :
      0 ≤ jx ∧ jx < G.ngx ∧ 0 ≤ jy ∧ jy < G.ngy)]⟩

theorem Field2D.set_some (G : Globals) (var : Field2D) (hv : var.data.isSome = true)
    (jx jy : Int) (hx : 0 ≤ jx ∧ jx < G.ngx) (hy : 0 ≤ jy ∧ jy < G.ngy) (v : ℚ) :
    ∃ t, var.set G jx jy v = some t ∧ t.data.isSome = true := by
  unfold Field2D.set
  cases hd : var.data with
  | none => rw [hd] at hv; cases hv
  | some d =>
      exact ⟨⟨some (fun x y => if x = jx.toNat ∧ y = jy.toNat then v else d x y)⟩,
        by simp only [if_pos (⟨hx.1, hx.2, hy.1, hy.2⟩ :
          0 ≤ jx ∧ jx < G.ngx ∧ 0 ≤ jy ∧ jy < G.ngy)], rfl⟩

theorem relaxLoops_2d_some (M : Mesh) (var tmpvar : Field2D) (tconst : ℚ)
    (hv : var.data.isSome = true) (ht : tmpvar.data.isSome = true) (xs ys : List Int)
    (hxs : ∀ j, j ∈ xs → 0 ≤ j ∧ j < M.ngx) (hys : ∀ j, j ∈ ys → 0 ≤ j ∧ j < M.ngy)
    (F : Field2D) (hF : F.data.isSome = true) :
    ∃ F1, relaxLoops_2d M var tmpvar tconst xs ys F = some F1 ∧ F1.data.isSome = true := by
  unfold relaxLoops_2d
  refine forEachM_some (fun F => F.data.isSome = true) _ xs (fun jx hjx F1 hF1 => ?_) F hF
  refine forEachM_some (fun F => F.data.isSome = true) _ ys (fun jy hjy F2 hF2 => ?_) F1 hF1
  obtain ⟨a, ha⟩ := Field2D.get_some M.toGlobals tmpvar ht jx jy (hxs jx hjx) (hys jy hjy)
  obtain ⟨b, hb⟩ := Field2D.get_some M.toGlobals var hv jx jy (hxs jx hjx) (hys jy hjy)
  unfold relaxPoint_2d
  rw [ha, hb]
  exact Field2D.set_some M.toGlobals F2 hF2 jx jy (hxs jx hjx) (hys jy hjy) _

theorem relaxSwitch_2d_some (M : Mesh) (hfit : M.fits) (var tmpvar : Field2D) (tconst : ℚ)
    (hv : var.data.isSome = true) (ht : tmpvar.data.isSome = true) (loc : Nat)
    (F : Field2D) (hF : F.data.isSome = true) :
    ∃ F1, relaxSwitch_2d M var tmpvar tconst loc F = some F1 ∧ F1.data.isSome = true := by
  have hall : ∀ j, j ∈ upTo 0 M.ngy → 0 ≤ j ∧ j < M.ngy := by
    intro j hj
    rw [mem_upTo] at hj
    omega
  have hup : ∀ j, j ∈ downTo ((M.ngy : Int) - 1) (M.ngy - 1 - M.MYG) →
      0 ≤ j ∧ j < M.ngy := by
    intro j hj
    rw [mem_downTo] at hj
    have := hfit.myg
    omega
  have hlow : ∀ j, j ∈ upTo 0 M.MYG → 0 ≤ j ∧ j < M.ngy := by
    intro j hj
    rw [mem_upTo] at hj
    have := hfit.myg
    omega
  have hxu : ∀ j, j ∈ upTo 0 M.UDATA_XSPLIT → 0 ≤ j ∧ j < M.ngx := by
    intro j hj
    rw [mem_upTo] at hj
    have := hfit.usplit
    omega
  have hxd : ∀ j, j ∈ upTo 0 M.DDATA_XSPLIT → 0 ≤ j ∧ j < M.ngx := by
    intro j hj
    rw [mem_upTo] at hj
    have := hfit.dsplit
    omega
  have hxr : ∀ a : Int, ∀ j, j ∈ upTo (if a < 0 then 0 else a) M.ngx → 0 ≤ j ∧ j < M.ngx := by
    intro a j hj
    rw [mem_upTo] at hj
    split_ifs at hj <;> omega
  have upper : ∀ F0 : Field2D, F0.data.isSome = true →
      ∃ F1, relaxUpper_2d M var tmpvar tconst F0 = some F1 ∧ F1.data.isSome = true := by
    intro F0 hF0
    unfold relaxUpper_2d
    have h1 : ∃ F1, (if M.UDATA_INDEST < 0 then
        relaxLoops_2d M var tmpvar tconst (upTo 0 M.UDATA_XSPLIT)
          (downTo (M.ngy - 1) (M.ngy - 1 - M.MYG)) F0
        else some F0) = some F1 ∧ F1.data.isSome = true := by
      split_ifs
      · exact relaxLoops_2d_some M var tmpvar tconst hv ht _ _ hxu hup F0 hF0
      · exact ⟨F0, rfl, hF0⟩
    obtain ⟨F1, e1, hF1⟩ := h1
    rw [e1]
    simp only
    by_cases h2 : M.UDATA_OUTDEST < 0
    · rw [if_pos h2]
      exact relaxLoops_2d_some M var tmpvar tconst hv ht _ _ (hxr _) hup F1 hF1
    · rw [if_neg h2]
      exact ⟨F1, rfl, hF1⟩
  have lower : ∀ F0 : Field2D, F0.data.isSome = true →
      ∃ F1, relaxLower_2d M var tmpvar tconst F0 = some F1 ∧ F1.data.isSome = true := by
    intro F0 hF0
    unfold relaxLower_2d
    have h1 : ∃ F1, (if M.DDATA_INDEST < 0 then
        relaxLoops_2d M var tmpvar tconst (upTo 0 M.DDATA_XSPLIT) (upTo 0 M.MYG) F0
        else some F0) = some F1 ∧ F1.data.isSome = true := by
      split_ifs
      · exact relaxLoops_2d_some M var tmpvar tconst hv ht _ _ hxd hlow F0 hF0
      · exact ⟨F0, rfl, hF0⟩
    obtain ⟨F1, e1, hF1⟩ := h1
    rw [e1]
    simp only
    by_cases h2 : M.DDATA_OUTDEST < 0
    · rw [if_pos h2]
      exact relaxLoops_2d_some M var tmpvar tconst hv ht _ _ (hxr _) hlow F1 hF1
    · rw [if_neg h2]
      exact ⟨F1, rfl, hF1⟩
  unfold relaxSwitch_2d
  by_cases hi : loc = INNER_X
  · rw [if_pos hi]
    exact relaxLoops_2d_some M var tmpvar tconst hv ht _ _ (fun j hj => by
      rw [mem_upTo] at hj
      have := hfit.mxg
      omega) hall F hF
  · rw [if_neg hi]
    by_cases ho : loc = OUTER_X
    · rw [if_pos ho]
      obtain ⟨F1, e1, hF1⟩ := relaxLoops_2d_some M var tmpvar tconst hv ht
        (downTo M.ncx (M.ncx - M.MXG)) (upTo 0 M.ngy) (fun j hj => by
          rw [mem_downTo] at hj
          have := hfit.ncx_lt
          have := hfit.ncx_ge
          omega) hall F hF
      rw [e1]
      exact upper F1 hF1
    · rw [if_neg ho]
      by_cases hu : loc = UPPER_Y
      · rw [if_pos hu]
        exact upper F hF
      · rw [if_neg hu]
        by_cases hl : loc = LOWER_Y
        · rw [if_pos hl]
          exact lower F hF
        · rw [if_neg hl]
          exact ⟨F, rfl, hF⟩

/-- C15 (as stated, refuted): `BndryRelax` on `Field3D` with `tconst = 0`,
`func = bndry_inner_zero`, `var = 2.0` and `F_var = 3.0` on a 2 x 2 x 2 grid with
`MXG = 1`: applied to `var` the function gives 0 at `(0,0,0)`, but after the call
`var` still reads 2 there, and `F_var`, which read 3, reads 0. -/
theorem relax_direct_counterexample :
    ∃ t u, BndryRelax relaxMesh 0 1 0 (bndry_inner_zero relaxMesh) INNER_X sampleState =
        some t ∧
      bndry_inner_zero relaxMesh 0 sampleState = some u ∧
      u.value 0 0 0 0 = some 0 ∧ t.value 0 0 0 0 = some 2 ∧
      sampleState.value 1 0 0 0 = some 3 ∧ t.value 1 0 0 0 = some 0 :=
  ⟨_, _, rfl, rfl, rfl, rfl, rfl, rfl⟩

/-- C15 (amended): for `tconst <= 0` the `Field3D` overload of `BndryRelax` applies
the boundary function to `F_var`: it returns, every object that existed before reads
what it read right after `func(F_var)`, and every object other than `F_var`, `var`
included, reads what it read before the call.  The `Field2D` overload applies the
boundary function to `var`: it returns with `var` holding the result of `func(var)`. -/
theorem relax_direct (M : Mesh) (tconst : ℚ) (htc : tconst ≤ 0) (loc : Nat) :
    (∀ func, BndryOK M.toGlobals func → ∀ s, Inv s → ∀ var F_var, s.hasData F_var →
      ∃ s1 t, func F_var (s.push Field3D.ctor s.pool) = some s1 ∧
        BndryRelax M var F_var tconst func loc s = some t ∧ Inv t ∧
        (∀ j x y z, j < s.nfields → t.value j x y z = s1.value j x y z) ∧
        ∀ j x y z, j < s.nfields → j ≠ F_var → x < M.ngx → y < M.ngy → z < M.ngz →
          t.value j x y z = s.value j x y z) ∧
      (M.fits → ∀ (func : Field2D → Option Field2D) (var F_var v1 tmp : Field2D),
        func var = some v1 → func v1 = some tmp → v1.data.isSome = true →
        tmp.data.isSome = true → F_var.data.isSome = true →
        ∃ F1, BndryRelax_2d M var F_var tconst func loc = some (v1, F1)) := by
  constructor
  · intro func hfunc s hs var F_var hF
    have hk0 := construct_kept s hs
    have hFlt := hasData_lt hF
    have hF0 : (s.push Field3D.ctor s.pool).hasData F_var := by
      obtain ⟨f, b, hf, hb⟩ := hF
      exact ⟨f, b, by rw [field_push_lt s F_var _ _ hFlt]; exact hf, hb⟩
    obtain ⟨s1, w, hs1, hc⟩ := hfunc _ F_var hk0.inv hF0
    have hn1 : s1.nfields = s.nfields + 1 := hc.size
    have hlive := hc.live s.nfields (by simp [State.push])
    have hft : ∃ ft, s1.field s.nfields = some ft := by
      have h0 : ((s.push Field3D.ctor s.pool).fields s.nfields).isSome = true := by
        simp [State.push]
      rw [h0] at hlive
      cases hf : s1.fields s.nfields with
      | none => rw [hf] at hlive; cases hlive
      | some ft => exact ⟨ft, by simp [State.field, hn1, hf]⟩
    obtain ⟨ft, hft⟩ := hft
    have hk4 := destroy_kept s1 hc.inv s.nfields ft hft
    refine ⟨s1, _, hs1, ?_, hk4.inv, ?_, ?_⟩
    · unfold BndryRelax
      rw [if_pos htc, hs1]
      simp only [step, hft]
    · intro j x y z hj
      exact hk4.others j x y z (by omega) (by omega)
    · intro j x y z hj hjF hx hy hz
      rw [hk4.others j x y z (by omega) (by omega),
        hc.rest j x y z (by simp [State.push]; omega) hx hy hz (Or.inl hjF)]
      exact hk0.others j x y z hj (by omega)
  · intro hfit func var F_var v1 tmp h1 h2 hv1 htmp hF
    obtain ⟨F1, e1, _⟩ := relaxSwitch_2d_some M hfit v1 tmp tconst hv1 htmp loc F_var hF
    refine ⟨F1, ?_⟩
    unfold BndryRelax_2d
    rw [if_pos htc, h1]
    simp only
    rw [h2]
    simp only
    rw [e1]

theorem relax_direct_witness :
    (∃ s1 t, bndry_inner_zero relaxMesh 1 (sampleState.push Field3D.ctor sampleState.pool) =
        some s1 ∧
      BndryRelax relaxMesh 0 1 0 (bndry_inner_zero relaxMesh) INNER_X sampleState = some t ∧
      (∀ x y z, t.value 1 x y z = s1.value 1 x y z) ∧
      ∀ x y z, x < 2 → y < 2 → z < 2 → t.value 0 x y z = sampleState.value 0 x y z) ∧
      ∃ v1 F1, bndry_inner_zero_2d relaxMesh (Field2D.const 2) = some v1 ∧
        BndryRelax_2d relaxMesh (Field2D.const 2) (Field2D.const 3) 0
          (bndry_inner_zero_2d relaxMesh) INNER_X = some (v1, F1) ∧
        v1.get relaxMesh.toGlobals 0 0 = some 0 := by
  constructor
  · obtain ⟨s1, t, h1, h2, _, h4, h5⟩ := (relax_direct relaxMesh 0 (le_refl 0) INNER_X).1
      (bndry_inner_zero relaxMesh) (inner_zero_ok relaxMesh (by decide)) sampleState
      sampleState_inv 0 1 ⟨⟨some 1, CELL_LOC.CELL_CENTRE⟩, 1, rfl, rfl⟩
    exact ⟨s1, t, h1, h2, fun x y z => h4 1 x y z (by decide),
      fun x y z hx hy hz => h5 0 x y z (by decide) (by decide) hx hy hz⟩
  · have h : ∃ v1 tmp, bndry_inner_zero_2d relaxMesh (Field2D.const 2) = some v1 ∧
        bndry_inner_zero_2d relaxMesh v1 = some tmp ∧ v1.data.isSome = true ∧
        tmp.data.isSome = true ∧ v1.get relaxMesh.toGlobals 0 0 = some 0 :=
      ⟨_, _, rfl, rfl, rfl, rfl, rfl⟩
    obtain ⟨v1, tmp, e1, e2, d1, d2, g⟩ := h
    obtain ⟨F1, hF1⟩ := (relax_direct relaxMesh 0 (le_refl 0) INNER_X).2 relaxMesh_fits
      (bndry_inner_zero_2d relaxMesh) (Field2D.const 2) (Field2D.const 3) v1 tmp e1 e2 d1 d2
      rfl
    exact ⟨v1, F1, e1, hF1, g⟩

/-! ## The code at the inputs where it leaves its specification -/

/-- C16 (evaluation of the code): on the rank with `PE_XIND = 1`, with `var = 2.0`
and `F_var = 3.0` on a 2 x 2 x 2 grid and `MXG = 1`, the call
`apply_boundary(var, F_var, INNER_X, BNDRY_Z, 1.0)` returns and `F_var`, which read
3 at `(0,0,0)`, reads 0 there; `var` is unchanged. -/
theorem inner_relax_on_interior_rank :
    outerMesh.PE_XIND = 1 ∧
      ∃ t, apply_boundary outerMesh 0 0 1 INNER_X BNDRY_TYPE.BNDRY_Z 1 sampleState = some t ∧
        sampleState.value 1 0 0 0 = some 3 ∧ t.value 1 0 0 0 = some 0 ∧
        t.value 0 0 0 0 = some 2 := by
  refine ⟨rfl, _, rfl, rfl, ?_, rfl⟩
  show some (((2 : ℚ) - 2) / 1) = some 0
  norm_num

/-- C18 (evaluation of the code): with `loc = INNER_X | LOWER_Y = 9`, type
`BNDRY_Z` and `tconst = 0`, `apply_boundary` leaves `F_var = 3.0` at 3 in the point
`(1,0,0)` of the lower boundary, where the call for `INNER_X` followed by the call
for `LOWER_Y` stores 0; the same holds for the `Field2D` overload at `(1,0)`. -/
theorem composite_skips_lower :
    INNER_X ||| LOWER_Y = 9 ∧
      (∃ t u1 u2, apply_boundary outerMesh 1 0 1 9 BNDRY_TYPE.BNDRY_Z 0 sampleState = some t ∧
        apply_boundary outerMesh 0 0 1 INNER_X BNDRY_TYPE.BNDRY_Z 0 sampleState = some u1 ∧
        apply_boundary outerMesh 0 0 1 LOWER_Y BNDRY_TYPE.BNDRY_Z 0 u1 = some u2 ∧
        t.value 1 1 0 0 = some 3 ∧ u2.value 1 1 0 0 = some 0) ∧
      ∃ t u1 u2, apply_boundary_2d outerMesh 1 9 BNDRY_TYPE.BNDRY_Z 0
          (Field2D.const 2, Field2D.const 3) = some t ∧
        apply_boundary_2d outerMesh 0 INNER_X BNDRY_TYPE.BNDRY_Z 0
          (Field2D.const 2, Field2D.const 3) = some u1 ∧
        apply_boundary_2d outerMesh 0 LOWER_Y BNDRY_TYPE.BNDRY_Z 0 u1 = some u2 ∧
        t.2.get outerMesh.toGlobals 1 0 = some 3 ∧
        u2.1.get outerMesh.toGlobals 1 0 = some 0 :=
  ⟨rfl, ⟨_, _, _, rfl, rfl, rfl, rfl, rfl⟩, ⟨_, _, _, rfl, rfl, rfl, rfl, rfl⟩⟩

/-- C19 (evaluation of the code): both lookups in `OuterBndryTable` give for
`BNDRY_Z` the function `bndry_inner_zero`; on the rank with
`PE_XIND = NXPE - 1 = 1` it leaves a field of 2.0 at 2 in the last x-plane, where
`bndry_outer_zero` stores 0. -/
theorem outer_table_inner_function :
    outerMesh.PE_XIND = outerMesh.NXPE - 1 ∧
      BndryLookup3D OuterBndryTable BNDRY_TYPE.BNDRY_Z =
        some (some BndryFn.bndry_inner_zero) ∧
      BndryLookup2D OuterBndryTable BNDRY_TYPE.BNDRY_Z =
        some (some BndryFn.bndry_inner_zero) ∧
      (∃ t u, BndryFn.bndry_inner_zero.call3d outerMesh 0 sampleState = some t ∧
        bndry_outer_zero outerMesh 0 sampleState = some u ∧
        t.value 0 1 0 0 = some 2 ∧ u.value 0 1 0 0 = some 0) ∧
      ∃ t u, BndryFn.bndry_inner_zero.call2d outerMesh (Field2D.const 2) = some t ∧
        bndry_outer_zero_2d outerMesh (Field2D.const 2) = some u ∧
        t.get outerMesh.toGlobals 1 0 = some 2 ∧ u.get outerMesh.toGlobals 1 0 = some 0 :=
  ⟨rfl, rfl, rfl, ⟨_, _, rfl, rfl, rfl, rfl⟩, ⟨_, _, rfl, rfl, rfl, rfl⟩⟩

/-! ## Interpolation in z -/

theorem neg_lt_tmod (a n : Int) (hn : 0 < n) : -n < a.tmod n := by
  obtain ⟨m, rfl⟩ := Int.eq_ofNat_of_zero_le (le_of_lt hn)
  cases a with
  | ofNat k =>
      have : 0 ≤ (Int.ofNat k).tmod (m : Int) := Int.tmod_nonneg (m : Int) (Int.ofNat_nonneg k)
      omega
  | negSucc k =>
      have h : (Int.negSucc k).tmod (m : Int) = -((k.succ % m : Nat) : Int) := rfl
      rw [h]
      have hm : 0 < m := by exact_mod_cast hn
      have := Nat.mod_lt k.succ hm
      omega

/-- The idiom `((a % n) + n) % n` of C gives the remainder of the floor division. -/
theorem tmod_add_tmod (a n : Int) (hn : 0 < n) : ((a.tmod n) + n).tmod n = a % n := by
  have h1 : a.tmod n = a - n * a.tdiv n := by
    have := Int.tmod_add_tdiv a n
    omega
  have hlt : -n < a.tmod n ∧ a.tmod n < n := by
    constructor
    · exact neg_lt_tmod a n hn
    · exact Int.tmod_lt_of_pos a hn
  rw [Int.tmod_eq_emod (by omega) (by omega), h1]
  have : a - n * a.tdiv n + n = a + n * (1 - a.tdiv n) := by ring
  rw [this, Int.add_mul_emod_self_left]

theorem tmod_of_nonneg (a n : Int) (ha : 0 ≤ a) (hn : 0 < n) : a.tmod n = a % n :=
  Int.tmod_eq_emod ha (by omega)

theorem toInt32_range (a : Int) : -2147483648 ≤ toInt32 a ∧ toInt32 a ≤ 2147483647 := by
  unfold toInt32
  omega

/-- The index arithmetic of `interp_z`, with the remainder of C replaced by the
one of the floor division. -/
theorem interp_z_eq (Z : ZGrid) (hn : 0 < Z.ncz) (f : Field3D) (p : Pool) (b : Nat)
    (hb : f.block = some b) (jx jy jz0 : Int) (zoffset : ℚ) (order : Int) :
    f.interp_z Z p jx jy jz0 zoffset order =
      interp_z_switch Z.toGlobals p b jx jy
        (toInt32 (jz0 + (interp_z_split Z.ROUND zoffset order).1) % Z.ncz)
        ((toInt32 (jz0 + (interp_z_split Z.ROUND zoffset order).1) % Z.ncz + 1) % Z.ncz)
        ((toInt32 (jz0 + (interp_z_split Z.ROUND zoffset order).1) % Z.ncz + 2) % Z.ncz)
        ((toInt32 (jz0 + (interp_z_split Z.ROUND zoffset order).1) % Z.ncz - 1) % Z.ncz)
        (interp_z_split Z.ROUND zoffset order).2 order := by
  have hn2 : (0 : Int) < Z.ncz := by exact_mod_cast hn
  have h0 : Z.ncz ≠ 0 := by omega
  have hb0 := tmod_add_tmod (toInt32 (jz0 + (interp_z_split Z.ROUND zoffset order).1))
    Z.ncz hn2
  have hge : 0 ≤ toInt32 (jz0 + (interp_z_split Z.ROUND zoffset order).1) % (Z.ncz : Int) :=
    Int.emod_nonneg _ (by omega)
  have hlt : toInt32 (jz0 + (interp_z_split Z.ROUND zoffset order).1) % (Z.ncz : Int) <
      Z.ncz := Int.emod_lt_of_pos _ hn2
  unfold Field3D.interp_z
  rw [hb]
  simp only [if_neg h0]
  rw [hb0, tmod_of_nonneg _ _ (by omega) hn2, tmod_of_nonneg _ _ (by omega) hn2,
    tmod_of_nonneg _ _ (by omega) hn2, Int.add_emod_self]

theorem recentre_default (G : Globals) (location low : CELL_LOC) (u : stencil) :
    u.recentre G location CELL_LOC.CELL_DEFAULT low = u := by
  simp [stencil.recentre]

theorem readAt_some (G : Globals) (p : Pool) (b : Nat) (jx jy jz : Int)
    (hx : 0 ≤ jx ∧ jx < G.ngx) (hy : 0 ≤ jy ∧ jy < G.ngy) (hz : 0 ≤ jz ∧ jz < G.ngz) :
    p.readAt G b jx jy jz = some (p.read b jx.toNat jy.toNat jz.toNat) := by
  unfold Pool.readAt
  rw [if_pos ⟨hx.1, hx.2, hy.1, hy.2, hz.1, hz.2⟩]

theorem interp_z_switch_some (G : Globals) (p : Pool) (b : Nat)
    (jx jy jz0 jzp jz2p jzm : Int) (zoffset : ℚ) (order : Int)
    (hx : 0 ≤ jx ∧ jx < G.ngx) (hy : 0 ≤ jy ∧ jy < G.ngy) (h0 : 0 ≤ jz0 ∧ jz0 < G.ngz)
    (hp : 0 ≤ jzp ∧ jzp < G.ngz) (h2p : 0 ≤ jz2p ∧ jz2p < G.ngz)
    (hm : 0 ≤ jzm ∧ jzm < G.ngz) :
    ∃ v, interp_z_switch G p b jx jy jz0 jzp jz2p jzm zoffset order = some v := by
  unfold interp_z_switch
  rw [readAt_some G p b jx jy jz0 hx hy h0, readAt_some G p b jx jy jzp hx hy hp,
    readAt_some G p b jx jy jz2p hx hy h2p, readAt_some G p b jx jy jzm hx hy hm]
  split_ifs <;> exact ⟨_, rfl⟩

/-- `interp_z` returns for a field with data, a line inside the grid and
`0 < ncz <= ngz`. -/
theorem interp_z_some (Z : ZGrid) (hn : 0 < Z.ncz) (hnz : Z.ncz ≤ Z.ngz) (f : Field3D)
    (p : Pool) (b : Nat) (hb : f.block = some b) (jx jy jz0 : Int) (zoffset : ℚ)
    (order : Int) (hx : 0 ≤ jx ∧ jx < Z.ngx) (hy : 0 ≤ jy ∧ jy < Z.ngy) :
    ∃ v, f.interp_z Z p jx jy jz0 zoffset order = some v := by
  rw [interp_z_eq Z hn f p b hb jx jy jz0 zoffset order]
  have hn2 : (0 : Int) < Z.ncz := by exact_mod_cast hn
  have hle : (Z.ncz : Int) ≤ Z.ngz := by exact_mod_cast hnz
  have hr : ∀ a : Int, 0 ≤ a % (Z.ncz : Int) ∧ a % (Z.ncz : Int) < Z.ngz := fun a =>
    ⟨Int.emod_nonneg _ (by omega), lt_of_lt_of_le (Int.emod_lt_of_pos _ hn2) hle⟩
  exact interp_z_switch_some Z.toGlobals p b jx jy _ _ _ _ _ order hx hy (hr _) (hr _)
    (hr _) (hr _)

theorem bind_some_map {α β : Type} (o : Option α) (g : α → β) :
    (o.bind fun x => some (g x)) = (o.bind fun x => some x).map g := by
  cases o <;> rfl

theorem SetXStencil_eq (Z : ZGrid) (f : Field3D) (p : Pool) (bx : bindex) (loc : CELL_LOC) :
    f.SetXStencil Z p bx loc = (f.SetXStencil Z p bx CELL_LOC.CELL_DEFAULT).map
      (fun u => u.recentre Z.toGlobals f.location loc CELL_LOC.CELL_XLOW) := by
  unfold Field3D.SetXStencil
  cases f.block with
  | none => rfl
  | some b =>
      simp only [recentre_default, Option.bind_eq_bind, Option.pure_def]
      cases Pool.readAt Z.toGlobals p b bx.jx bx.jy bx.jz with
      | none => rfl
      | some c =>
          simp only [Option.some_bind]
          exact bind_some_map _ _

theorem SetYStencil_eq (Z : ZGrid) (f : Field3D) (p : Pool) (bx : bindex) (loc : CELL_LOC) :
    f.SetYStencil Z p bx loc = (f.SetYStencil Z p bx CELL_LOC.CELL_DEFAULT).map
      (fun u => u.recentre Z.toGlobals f.location loc CELL_LOC.CELL_YLOW) := by
  unfold Field3D.SetYStencil
  cases f.block with
  | none => rfl
  | some b =>
      simp only [recentre_default, Option.bind_eq_bind, Option.pure_def]
      cases Pool.readAt Z.toGlobals p b bx.jx bx.jy bx.jz with
      | none => rfl
      | some c =>
          simp only [Option.some_bind]
          exact bind_some_map _ _

theorem SetZStencil_eq (Z : ZGrid) (f : Field3D) (p : Pool) (bx : bindex) (loc : CELL_LOC) :
    f.SetZStencil Z p bx loc = (f.SetZStencil Z p bx CELL_LOC.CELL_DEFAULT).map
      (fun u => u.recentre Z.toGlobals f.location loc CELL_LOC.CELL_ZLOW) := by
  unfold Field3D.SetZStencil
  cases f.block with
  | none => rfl
  | some b =>
      simp only [recentre_default, Option.bind_eq_bind, Option.pure_def]
      cases Pool.readAt Z.toGlobals p b bx.jx bx.jy bx.jz <;>
      cases Pool.readAt Z.toGlobals p b bx.jx bx.jy bx.jzp <;>
      cases Pool.readAt Z.toGlobals p b bx.jx bx.jy bx.jzm <;>
      cases Pool.readAt Z.toGlobals p b bx.jx bx.jy bx.jz2p <;>
      cases Pool.readAt Z.toGlobals p b bx.jx bx.jy bx.jz2m <;> rfl

theorem SetXStencil_some (Z : ZGrid) (hn : 0 < Z.ncz) (hnz : Z.ncz ≤ Z.ngz) (f : Field3D)
    (p : Pool) (b : Nat) (hb : f.block = some b) (bx : bindex)
    (hg : bx.inGrid Z.toGlobals) (loc : CELL_LOC) :
    ∃ u, f.SetXStencil Z p bx loc = some u := by
  obtain ⟨hx, hxp, hxm, hx2p, hx2m, hy, _, _, _, _, hz, _, _, _, _⟩ := hg
  unfold Field3D.SetXStencil
  rw [hb]
  simp only [Option.bind_eq_bind, Option.pure_def]
  rw [readAt_some Z.toGlobals p b _ _ _ hx hy hz]
  simp only [Option.some_bind]
  by_cases hs : (Z.ShiftXderivs && decide (Z.ShiftOrder ≠ 0)) = true
  · obtain ⟨v1, h1⟩ := interp_z_some Z hn hnz f p b hb bx.jxp bx.jy bx.jz bx.xp_offset
      Z.ShiftOrder hxp hy
    obtain ⟨v2, h2⟩ := interp_z_some Z hn hnz f p b hb bx.jxm bx.jy bx.jz bx.xm_offset
      Z.ShiftOrder hxm hy
    obtain ⟨v3, h3⟩ := interp_z_some Z hn hnz f p b hb bx.jxp bx.jy bx.jz bx.x2p_offset
      Z.ShiftOrder hxp hy
    obtain ⟨v4, h4⟩ := interp_z_some Z hn hnz f p b hb bx.jxm bx.jy bx.jz bx.x2m_offset
      Z.ShiftOrder hxm hy
    rw [if_pos hs, h1, h2, h3, h4]
    exact ⟨_, rfl⟩
  · rw [if_neg hs, readAt_some Z.toGlobals p b _ _ _ hxp hy hz,
      readAt_some Z.toGlobals p b _ _ _ hxm hy hz,
      readAt_some Z.toGlobals p b _ _ _ hx2p hy hz,
      readAt_some Z.toGlobals p b _ _ _ hx2m hy hz]
    exact ⟨_, rfl⟩

theorem yNeighbour_some (Z : ZGrid) (hn : 0 < Z.ncz) (hnz : Z.ncz ≤ Z.ngz) (f : Field3D)
    (p : Pool) (b : Nat) (hb : f.block = some b) (shift : Bool) (jx jy jz : Int)
    (offset : ℚ) (hx : 0 ≤ jx ∧ jx < Z.ngx) (hy : 0 ≤ jy ∧ jy < Z.ngy)
    (hz : 0 ≤ jz ∧ jz < Z.ngz) :
    ∃ v, f.yNeighbour Z p b shift jx jy jz offset = some v := by
  unfold Field3D.yNeighbour
  cases shift with
  | true => exact interp_z_some Z hn hnz f p b hb jx jy jz offset Z.TwistOrder hx hy
  | false => exact ⟨_, readAt_some Z.toGlobals p b jx jy jz hx hy hz⟩

theorem SetYStencil_some (Z : ZGrid) (hn : 0 < Z.ncz) (hnz : Z.ncz ≤ Z.ngz) (f : Field3D)
    (p : Pool) (b : Nat) (hb : f.block = some b) (bx : bindex)
    (hg : bx.inGrid Z.toGlobals) (loc : CELL_LOC) :
    ∃ u, f.SetYStencil Z p bx loc = some u := by
  obtain ⟨hx, _, _, _, _, hy, hyp, hym, hy2p, hy2m, hz, _, _, _, _⟩ := hg
  unfold Field3D.SetYStencil
  rw [hb]
  simp only [Option.bind_eq_bind, Option.pure_def]
  rw [readAt_some Z.toGlobals p b _ _ _ hx hy hz]
  simp only [Option.some_bind]
  by_cases hs : (!Z.TwistShift || decide (Z.TwistOrder = 0)) = true
  · rw [if_pos hs, readAt_some Z.toGlobals p b _ _ _ hx hyp hz,
      readAt_some Z.toGlobals p b _ _ _ hx hym hz,
      readAt_some Z.toGlobals p b _ _ _ hx hy2p hz,
      readAt_some Z.toGlobals p b _ _ _ hx hy2m hz]
    exact ⟨_, rfl⟩
  · obtain ⟨v1, h1⟩ := yNeighbour_some Z hn hnz f p b hb bx.yp_shift bx.jx bx.jyp bx.jz
      bx.yp_offset hx hyp hz
    obtain ⟨v2, h2⟩ := yNeighbour_some Z hn hnz f p b hb bx.ym_shift bx.jx bx.jym bx.jz
      bx.ym_offset hx hym hz
    obtain ⟨v3, h3⟩ := yNeighbour_some Z hn hnz f p b hb bx.y2p_shift bx.jx bx.jy2p bx.jz
      bx.yp_offset hx hy2p hz
    obtain ⟨v4, h4⟩ := yNeighbour_some Z hn hnz f p b hb bx.y2m_shift bx.jx bx.jy2m bx.jz
      bx.ym_offset hx hy2m hz
    rw [if_neg hs, h1, h2, h3, h4]
    exact ⟨_, rfl⟩

theorem SetZStencil_some (Z : ZGrid) (f : Field3D) (p : Pool) (b : Nat)
    (hb : f.block = some b) (bx : bindex) (hg : bx.inGrid Z.toGlobals) (loc : CELL_LOC) :
    ∃ u, f.SetZStencil Z p bx loc = some u := by
  obtain ⟨hx, _, _, _, _, hy, _, _, _, _, hz, hzp, hzm, hz2p, hz2m⟩ := hg
  unfold Field3D.SetZStencil
  rw [hb]
  simp only [Option.bind_eq_bind, Option.pure_def]
  rw [readAt_some Z.toGlobals p b _ _ _ hx hy hz, readAt_some Z.toGlobals p b _ _ _ hx hy hzp,
    readAt_some Z.toGlobals p b _ _ _ hx hy hzm, readAt_some Z.toGlobals p b _ _ _ hx hy hz2p,
    readAt_some Z.toGlobals p b _ _ _ hx hy hz2m]
  exact ⟨_, rfl⟩

/-- C28: `SetXStencil`, `SetYStencil` and `SetZStencil` give for a location `loc`
the stencil they give for `CELL_DEFAULT` (the uncentred one), re-centred; they
return for a field with data and indices inside the grid.  With `StaggerGrids` set,
a field at `CELL_CENTRE` and `loc` the matching low location, the re-centred stencil
has `p = c` and `pp` the uncentred `p`, the rest unchanged; with the field at the
matching low location and `loc` another location that is not `CELL_DEFAULT`, it has
`m = c` and `mm` the uncentred `m`, the rest unchanged; with `loc = CELL_DEFAULT`,
`loc` the location of the field, or `StaggerGrids` off, it is the uncentred stencil. -/
theorem stencil_recentring (Z : ZGrid) (f : Field3D) (p : Pool) (bx : bindex)
    (loc : CELL_LOC) :
    (f.SetXStencil Z p bx loc = (f.SetXStencil Z p bx CELL_LOC.CELL_DEFAULT).map
        (fun u => u.recentre Z.toGlobals f.location loc CELL_LOC.CELL_XLOW)) ∧
      (f.SetYStencil Z p bx loc = (f.SetYStencil Z p bx CELL_LOC.CELL_DEFAULT).map
        (fun u => u.recentre Z.toGlobals f.location loc CELL_LOC.CELL_YLOW)) ∧
      (f.SetZStencil Z p bx loc = (f.SetZStencil Z p bx CELL_LOC.CELL_DEFAULT).map
        (fun u => u.recentre Z.toGlobals f.location loc CELL_LOC.CELL_ZLOW)) ∧
      (∀ (low : CELL_LOC) (u : stencil),
        low = CELL_LOC.CELL_XLOW ∨ low = CELL_LOC.CELL_YLOW ∨ low = CELL_LOC.CELL_ZLOW →
        (Z.StaggerGrids = true → f.location = CELL_LOC.CELL_CENTRE → loc = low →
          u.recentre Z.toGlobals f.location loc low =
            ⟨u.jx, u.jy, u.jz, u.c, u.c, u.m, u.p, u.mm⟩) ∧
        (Z.StaggerGrids = true → f.location = low → loc ≠ CELL_LOC.CELL_DEFAULT →
          loc ≠ low → u.recentre Z.toGlobals f.location loc low =
            ⟨u.jx, u.jy, u.jz, u.c, u.p, u.c, u.pp, u.m⟩) ∧
        (loc = CELL_LOC.CELL_DEFAULT ∨ loc = f.location ∨ Z.StaggerGrids = false →
          u.recentre Z.toGlobals f.location loc low = u)) ∧
      ∀ b, f.block = some b → 0 < Z.ncz → Z.ncz ≤ Z.ngz → bx.inGrid Z.toGlobals →
        ∃ ux uy uz, f.SetXStencil Z p bx CELL_LOC.CELL_DEFAULT = some ux ∧
          f.SetYStencil Z p bx CELL_LOC.CELL_DEFAULT = some uy ∧
          f.SetZStencil Z p bx CELL_LOC.CELL_DEFAULT = some uz := by
  refine ⟨SetXStencil_eq Z f p bx loc, SetYStencil_eq Z f p bx loc,
    SetZStencil_eq Z f p bx loc, ?_, ?_⟩
  · intro low u hlow
    refine ⟨?_, ?_, ?_⟩
    · intro hst hc hl
      have h1 : loc ≠ CELL_LOC.CELL_DEFAULT := by
        rw [hl]; rcases hlow with h | h | h <;> rw [h] <;> decide
      have h2 : loc ≠ f.location := by
        rw [hl, hc]; rcases hlow with h | h | h <;> rw [h] <;> decide
      simp only [stencil.recentre, hst, h1, h2, ne_eq, not_false_eq_true, decide_True,
        Bool.and_self, if_true, if_pos (And.intro hc hl)]
    · intro hst hlo h1 h2
      have h3 : loc ≠ f.location := by rw [hlo]; exact h2
      have h4 : ¬ (f.location = CELL_LOC.CELL_CENTRE ∧ loc = low) := fun h => h2 h.2
      simp only [stencil.recentre, hst, h1, h3, ne_eq, not_false_eq_true, decide_True,
        Bool.and_self, if_true, if_neg h4, if_pos hlo]
    · rintro (h | h | h)
      · simp [stencil.recentre, h]
      · simp [stencil.recentre, h]
      · simp [stencil.recentre, h]
  · intro b hb hn hnz hg
    obtain ⟨ux, hx⟩ := SetXStencil_some Z hn hnz f p b hb bx hg CELL_LOC.CELL_DEFAULT
    obtain ⟨uy, hy⟩ := SetYStencil_some Z hn hnz f p b hb bx hg CELL_LOC.CELL_DEFAULT
    obtain ⟨uz, hz⟩ := SetZStencil_some Z f p b hb bx hg CELL_LOC.CELL_DEFAULT
    exact ⟨ux, uy, uz, hx, hy, hz⟩

/-! ## Loops over the grid with an accumulator -/

theorem loop3_inv {S : Type} (nx ny nz : Nat) (body : Nat → Nat → Nat → S → S) (s : S)
    (Q : Nat → Nat → Nat → S → Prop) (h0 : Q 0 0 0 s)
    (hz : ∀ jx jy jz q, jx < nx → jy < ny → jz < nz → Q jx jy jz q →
      Q jx jy (jz + 1) (body jx jy jz q))
    (hy : ∀ jx jy q, Q jx jy nz q → Q jx (jy + 1) 0 q)
    (hx : ∀ jx q, Q jx ny 0 q → Q (jx + 1) 0 0 q) :
    Q nx 0 0 (loop3 nx ny nz body s) := by
  unfold loop3
  apply forLoop_inv (fun jx q => Q jx 0 0 q)
  · exact h0
  · intro jx q hjx hq
    apply hx
    apply forLoop_inv (fun jy q => Q jx jy 0 q)
    · exact hq
    · intro jy q2 hjy hq2
      apply hy
      apply forLoop_inv (fun jz q => Q jx jy jz q)
      · exact hq2
      · intro jz q3 hjz hq3
        exact hz jx jy jz q3 hjx hjy hjz hq3

/-- The scan of `Min` and `Max` for an order `le`: the result is below every grid
value and is one of them. -/
theorem scan_extremum (nx ny nz : Nat) (v : Nat → Nat → Nat → ℚ) (lt le : ℚ → ℚ → Prop)
    [DecidableRel lt] (hle : ∀ a, le a a) (htr : ∀ a b c, le a b → le b c → le a c)
    (hlt : ∀ a b, lt a b → le a b) (hnl : ∀ a b, ¬ lt a b → le b a)
    (hx : 0 < nx) (hy : 0 < ny) (hz : 0 < nz) :
    (∀ x y z, x < nx → y < ny → z < nz →
      le (loop3 nx ny nz (fun jx jy jz r => if lt (v jx jy jz) r then v jx jy jz else r)
        (v 0 0 0)) (v x y z)) ∧
    ∃ x y z, x < nx ∧ y < ny ∧ z < nz ∧
      loop3 nx ny nz (fun jx jy jz r => if lt (v jx jy jz) r then v jx jy jz else r)
        (v 0 0 0) = v x y z := by
  have h := loop3_inv nx ny nz
    (fun jx jy jz r => if lt (v jx jy jz) r then v jx jy jz else r) (v 0 0 0)
    (fun jx jy jz r => (∀ x y z, Visited ny nz jx jy jz x y z → le r (v x y z)) ∧
      ∃ x y z, x < nx ∧ y < ny ∧ z < nz ∧ r = v x y z)
    ⟨fun x y z h => by unfold Visited at h; omega, 0, 0, 0, hx, hy, hz, rfl⟩
    (fun jx jy jz q hjx hjy hjz hq => by
      obtain ⟨h1, x0, y0, z0, hx0, hy0, hz0, e⟩ := hq
      by_cases hc : lt (v jx jy jz) q
      · simp only [if_pos hc]
        refine ⟨fun x y z hv => ?_, jx, jy, jz, hjx, hjy, hjz, rfl⟩
        by_cases hp : x = jx ∧ y = jy ∧ z = jz
        · obtain ⟨rfl, rfl, rfl⟩ := hp
          exact hle _
        · exact htr _ _ _ (hlt _ _ hc) (h1 x y z (by unfold Visited at hv ⊢; omega))
      · simp only [if_neg hc]
        refine ⟨fun x y z hv => ?_, x0, y0, z0, hx0, hy0, hz0, e⟩
        by_cases hp : x = jx ∧ y = jy ∧ z = jz
        · obtain ⟨rfl, rfl, rfl⟩ := hp
          exact hnl _ _ hc
        · exact h1 x y z (by unfold Visited at hv ⊢; omega))
    (fun jx jy q hq => ⟨fun x y z hv => hq.1 x y z (by unfold Visited at hv ⊢; omega), hq.2⟩)
    (fun jx q hq => ⟨fun x y z hv => hq.1 x y z (by unfold Visited at hv ⊢; omega), hq.2⟩)
  exact ⟨fun x y z hx1 hy1 hz1 => h.1 x y z (by unfold Visited; omega), h.2⟩

/-- C30: for a field with data on a non-empty grid, `Min(false)` returns a value that
is at most the value at every point of the local grid and is the value at some grid
point, and `Max(false)` returns a value that is at least every grid value and is the
value at some grid point. -/
theorem min_max_are_extrema (G : Globals) (allreduce : ℚ → ℚ) (f : Field3D) (p : Pool)
    (b : Nat) (hb : f.block = some b) (hx : 0 < G.ngx) (hy : 0 < G.ngy) (hz : 0 < G.ngz) :
    (∃ lo, f.Min G allreduce p false = some lo ∧
      (∀ x y z, x < G.ngx → y < G.ngy → z < G.ngz → lo ≤ p.read b x y z) ∧
      ∃ x y z, x < G.ngx ∧ y < G.ngy ∧ z < G.ngz ∧ lo = p.read b x y z) ∧
    ∃ hi, f.Max G allreduce p false = some hi ∧
      (∀ x y z, x < G.ngx → y < G.ngy → z < G.ngz → p.read b x y z ≤ hi) ∧
      ∃ x y z, x < G.ngx ∧ y < G.ngy ∧ z < G.ngz ∧ hi = p.read b x y z := by
  constructor
  · refine ⟨Field3D.minScan G p b, ?_, ?_⟩
    · simp [Field3D.Min, hb, hx, hy, hz]
    · exact scan_extremum G.ngx G.ngy G.ngz (fun x y z => p.read b x y z)
        (fun a c => a < c) (fun a c => a ≤ c) (fun a => le_refl a)
        (fun a c d h1 h2 => le_trans h1 h2) (fun a c h => le_of_lt h)
        (fun a c h => not_lt.1 h) hx hy hz
  · refine ⟨Field3D.maxScan G p b, ?_, ?_⟩
    · simp [Field3D.Max, hb, hx, hy, hz]
    · exact scan_extremum G.ngx G.ngy G.ngz (fun x y z => p.read b x y z)
        (fun a c => a > c) (fun a c => c ≤ a) (fun a => le_refl a)
        (fun a c d h1 h2 => le_trans h2 h1) (fun a c h => le_of_lt h)
        (fun a c h => not_lt.1 h) hx hy hz

theorem min_max_are_extrema_witness :
    ∃ lo, Field3D.Min sampleGlobals (fun r => r) ⟨some 0, CELL_LOC.CELL_CENTRE⟩
        sampleState.pool false = some lo ∧ lo ≤ 2 := by
  obtain ⟨⟨lo, h1, h2, _⟩, _⟩ := min_max_are_extrema sampleGlobals (fun r => r)
    ⟨some 0, CELL_LOC.CELL_CENTRE⟩ sampleState.pool 0 rfl (by decide) (by decide) (by decide)
  refine ⟨lo, h1, ?_⟩
  have := h2 0 0 0 (by decide) (by decide) (by decide)
  rw [sampleState_a 0 0 0 (by decide) (by decide) (by decide)] at this
  exact this

/-! ## The test `finite` -/

/-- The test returns `true` exactly when every value with `z < ncz` passes the test of
the C library. -/
theorem finite_iff (Z : ZGrid) (f : Field3D) (p : Pool) (b : Nat) (hb : f.block = some b) :
    finite Z f p = true ↔
      ∀ x y z, x < Z.ngx → y < Z.ngy → z < Z.ncz → Z.libm.finite (p.read b x y z) = true := by
  have h := loop3_inv Z.ngx Z.ngy Z.ncz
    (fun jx jy jz r => if r = false then false else Z.libm.finite (p.read b jx jy jz)) true
    (fun jx jy jz r => r = true ↔
      ∀ x y z, Visited Z.ngy Z.ncz jx jy jz x y z → Z.libm.finite (p.read b x y z) = true)
    ⟨fun _ x y z h => by unfold Visited at h; omega, fun _ => rfl⟩
    (fun jx jy jz q hjx hjy hjz hq => by
      cases q with
      | false =>
          simp only [if_true]
          constructor
          · intro h; cases h
          · intro h
            exact hq.2 (fun x y z hv => h x y z (by unfold Visited at hv ⊢; omega))
      | true =>
          simp only [Bool.true_eq_false, if_false]
          constructor
          · intro h x y z hv
            by_cases hp : x = jx ∧ y = jy ∧ z = jz
            · obtain ⟨rfl, rfl, rfl⟩ := hp
              exact h
            · exact hq.1 rfl x y z (by unfold Visited at hv ⊢; omega)
          · intro h
            exact h jx jy jz (by unfold Visited; omega))
    (fun jx jy q hq => hq.trans
      ⟨fun h x y z hv => h x y z (by unfold Visited at hv ⊢; omega),
        fun h x y z hv => h x y z (by unfold Visited at hv ⊢; omega)⟩)
    (fun jx q hq => hq.trans
      ⟨fun h x y z hv => h x y z (by unfold Visited at hv ⊢; omega),
        fun h x y z hv => h x y z (by unfold Visited at hv ⊢; omega)⟩)
  unfold finite
  simp only [hb]
  exact h.trans
    ⟨fun h x y z hx hy hz => h x y z (by unfold Visited; omega),
      fun h x y z hv => h x y z (by unfold Visited at hv; omega) (by unfold Visited at hv; omega)
        (by unfold Visited at hv; omega)⟩

/-- C24 (amended): `finite(f)` returns `false` when `f` has no data; otherwise it
returns `true` if and only if the value at every point with `x < ngx`, `y < ngy` and
`z < ncz` passes the test `finite` of the C library.  The points with `z = ncz` are
not looked at. -/
theorem finite_checks_period (Z : ZGrid) (f : Field3D) (p : Pool) :
    (f.block = none → finite Z f p = false) ∧
    ∀ b, f.block = some b →
      (finite Z f p = true ↔
        ∀ x y z, x < Z.ngx → y < Z.ngy → z < Z.ncz →
          Z.libm.finite (p.read b x y z) = true) :=
  ⟨fun h => by simp [finite, h], fun b hb => finite_iff Z f p b hb⟩

theorem read_write (p : Pool) (b x y z : Nat) (c : ℚ) (b2 x2 y2 z2 : Nat) :
    (p.write b x y z c).read b2 x2 y2 z2 =
      if b2 = b ∧ x2 = x ∧ y2 = y ∧ z2 = z then c else p.read b2 x2 y2 z2 := by
  unfold Pool.write Pool.read
  by_cases hb : b2 = b
  · subst hb
    simp only [Function.update_same, true_and]
  · simp only [Function.update_noteq hb, hb, false_and, if_false]

theorem sampleLibm_finite (q : ℚ) : sampleLibm.finite q = decide (|q| ≤ 10 ^ 308) := by
  simp only [sampleLibm]

theorem finite_checks_period_witness :
    finite (sampleZ 2 2 2 1) ⟨some 0, CELL_LOC.CELL_CENTRE⟩ sampleState.pool = true := by
  refine ((finite_checks_period (sampleZ 2 2 2 1) ⟨some 0, CELL_LOC.CELL_CENTRE⟩
    sampleState.pool).2 0 rfl).2 (fun x y z hx hy hz => ?_)
  rw [sampleState_a x y z hx hy (Nat.lt_succ_of_lt hz)]
  show sampleLibm.finite 2 = true
  rw [sampleLibm_finite, decide_eq_true_eq, abs_of_nonneg (by norm_num)]
  norm_num

/-- C24 (as stated) fails: on the grid of 2 x 2 x 2 points with `ncz = 1`, so that
`ngz = ncz + 1`, the field that holds `2` everywhere except for a value above
`10 ^ 308` at the point `(0, 0, 1)` passes `finite`, although that value does not pass
the test of the library. -/
theorem finite_skips_last_plane_counterexample :
    (sampleZ 2 2 2 1).ngz = (sampleZ 2 2 2 1).ncz + 1 ∧
    ¬ (finite (sampleZ 2 2 2 1) ⟨some 0, CELL_LOC.CELL_CENTRE⟩
          (sampleState.pool.write 0 0 0 1 (10 ^ 309)) = true ↔
        ∀ x y z, x < (sampleZ 2 2 2 1).ngx → y < (sampleZ 2 2 2 1).ngy →
          z < (sampleZ 2 2 2 1).ngz →
            (sampleZ 2 2 2 1).libm.finite
              ((sampleState.pool.write 0 0 0 1 (10 ^ 309)).read 0 x y z) = true) := by
  refine ⟨rfl, fun h => ?_⟩
  have h1 : finite (sampleZ 2 2 2 1) ⟨some 0, CELL_LOC.CELL_CENTRE⟩
      (sampleState.pool.write 0 0 0 1 (10 ^ 309)) = true := by
    refine (finite_iff (sampleZ 2 2 2 1) ⟨some 0, CELL_LOC.CELL_CENTRE⟩ _ 0 rfl).2
      (fun x y z hx hy hz => ?_)
    have hz0 : z = 0 := by
      have : z < 1 := hz
      omega
    subst hz0
    rw [read_write, if_neg (by omega), sampleState_a x y 0 hx hy (by decide)]
    show sampleLibm.finite 2 = true
    rw [sampleLibm_finite, decide_eq_true_eq, abs_of_nonneg (by norm_num)]
    norm_num
  have h2 := h.1 h1 0 0 1 (by decide) (by decide) (by decide)
  rw [read_write, if_pos ⟨rfl, rfl, rfl, rfl⟩] at h2
  change sampleLibm.finite (10 ^ 309) = true at h2
  rw [sampleLibm_finite, decide_eq_true_eq, abs_of_nonneg (by positivity)] at h2
  norm_num at h2

/-! ## The claims about interpolation in z and stencils at sample inputs -/

theorem sampleBindex_inGrid : sampleBindex.inGrid (sampleZ 2 2 2 2).toGlobals := by
  unfold bindex.inGrid sampleBindex sampleZ
  simp

theorem stencil_recentring_witness :
    ∃ u, Field3D.SetXStencil (sampleZ 2 2 2 2) ⟨some 0, CELL_LOC.CELL_CENTRE⟩
        sampleState.pool sampleBindex CELL_LOC.CELL_DEFAULT = some u ∧
      Field3D.SetXStencil (sampleZ 2 2 2 2) ⟨some 0, CELL_LOC.CELL_CENTRE⟩
        sampleState.pool sampleBindex CELL_LOC.CELL_XLOW =
          some ⟨u.jx, u.jy, u.jz, u.c, u.c, u.m, u.p, u.mm⟩ := by
  obtain ⟨hx, _, _, hre, htot⟩ := stencil_recentring (sampleZ 2 2 2 2)
    ⟨some 0, CELL_LOC.CELL_CENTRE⟩ sampleState.pool sampleBindex CELL_LOC.CELL_XLOW
  obtain ⟨ux, _, _, hux, _, _⟩ := htot 0 rfl (by decide) (by decide) sampleBindex_inGrid
  refine ⟨ux, hux, ?_⟩
  rw [hx, hux, Option.map_some', (hre CELL_LOC.CELL_XLOW ux (Or.inl rfl)).1 rfl rfl rfl]

/-! ## Compound assignment across locations -/

/-- The staggered branch of a compound assignment with a `Field3D` operand. -/
theorem compound_stag (G : Globals) (o : CompoundOp) (fuel : Nat) (f rhs : Field3D) (p : Pool)
    (hst : G.StaggerGrids = true) (hloc : rhs.location ≠ f.location) :
    f.compound G o (fuel + 1) (Operand.field3d rhs) p =
      (G.interp_to rhs f.location p).bind (fun r =>
        (f.compound G o fuel (Operand.field3d r.1) r.2).map
          (fun r2 => (r2.1, r.1.dtor r2.2))) := by
  obtain ⟨op, _, heq⟩ := compound_field3d G o
  rw [heq, withInterp_stag G _ fuel f rhs p hst hloc]
  cases G.interp_to rhs f.location p with
  | none => rfl
  | some r =>
      obtain ⟨tmp, p1⟩ := r
      simp only [Option.some_bind]
      rw [heq]
      cases Field3D.withInterp G (Field3D.combine3D G op) fuel f tmp p1 with
      | none => rfl
      | some r2 => rfl

/-- C27: with `StaggerGrids` set, a left operand `f` with data and a right operand
`rhs` with data at another location, each of `+=`, `-=`, `*=`, `/=`, `^=` calls
`interp_to(rhs, f.location)`, applies the same operator to `f` and the temporary that
call returned, and destroys the temporary.  The temporary is at the location of `f`;
the result keeps the location of `f` and holds at every grid point the old value of
`f` combined with the value of the temporary, and destroying the temporary changes no
value. -/
theorem staggered_compound_interpolates_rhs (G : Globals) (hG : InterpOK G)
    (hst : G.StaggerGrids = true) (s : State) (hs : Inv s) (k j b : Nat) (f rhs : Field3D)
    (hf : s.field k = some f) (hb : f.block = some b) (hr : s.field j = some rhs)
    (hrb : rhs.block ≠ none) (hloc : rhs.location ≠ f.location) (o : CompoundOp)
    (fuel : Nat) :
    ∃ tmp p1 tb f2 p2 b2,
      G.interp_to rhs f.location s.pool = some (tmp, p1) ∧ tmp.location = f.location ∧
      tmp.block = some tb ∧
      f.compound G o fuel (Operand.field3d tmp) p1 = some (f2, p2) ∧
      f.compound G o (fuel + 1) (Operand.field3d rhs) s.pool = some (f2, tmp.dtor p2) ∧
      f2.location = f.location ∧ f2.block = some b2 ∧
      (∀ i x y z, (tmp.dtor p2).read i x y z = p2.read i x y z) ∧
      ∀ x y z, x < G.ngx → y < G.ngy → z < G.ngz →
        p2.read b2 x y z = o.eval G (s.pool.read b x y z) (p1.read tb x y z) := by
  obtain ⟨hk, hfs⟩ := field_lt hf
  obtain ⟨tmp, p1, hi, htb⟩ := hG.live s j rhs f.location hs hr hrb
  obtain ⟨hl, hinv, hval⟩ := hG.safe s j rhs f.location tmp p1 hs hr hi
  obtain ⟨tb, htb2⟩ : ∃ tb, tmp.block = some tb := by
    cases h : tmp.block with
    | none => exact absurd h htb
    | some tb => exact ⟨tb, rfl⟩
  have hk1 : k < (s.push tmp p1).nfields := Nat.lt_succ_of_lt hk
  have hne : k ≠ s.nfields := by omega
  have hfk : (s.push tmp p1).fields k = some f := by
    simp [State.push, Function.update_noteq hne, hfs]
  have htbk : tb < p1.brk :=
    hinv.ptr s.nfields (Nat.lt_succ_self _) tb (by simp [State.push, htb2])
  obtain ⟨f2, p2, b2, hc, he⟩ := compound_effect G (s.push tmp p1) k b f hinv hk1 hfk hb o fuel
    (Operand.field3d tmp) ⟨⟨tb, htb2, htbk⟩, Or.inr hl⟩
  refine ⟨tmp, p1, tb, f2, p2, b2, hi, hl, htb2, hc, ?_, he.loc f hfk, he.block, ?_, ?_⟩
  · have hc2 : f.compound G o fuel (Operand.field3d tmp) p1 = some (f2, p2) := hc
    rw [compound_stag G o fuel f rhs s.pool hst hloc, hi]
    simp only [Option.some_bind, hc2, Option.map_some']
  · intro i x y z
    unfold Field3D.dtor Pool.read
    rw [free_data_data]
  · intro x y z hx hy hz
    have h1 := he.vals x y z hx hy hz
    have h2 := hval k x y z hk
    rw [value_eq_read s k b f hf hb, value_eq_read (s.push tmp p1) k b f
      (by rw [field_push_lt s k tmp p1 hk]; exact hf) hb] at h2
    have h3 : (s.push tmp p1).pool.read b x y z = s.pool.read b x y z := Option.some.inj h2
    rw [h1, h3]
    simp [Operand.get, Operand.value, htb2, State.push]

theorem stagState_inv : Inv stagState := by
  refine sampleState_inv.of_ptrs sampleState.pool _ ⟨rfl, rfl, rfl, rfl, fun _ => ⟨rfl, rfl⟩⟩
    (fun j hj => ?_)
  have hj2 : j < 2 := hj
  interval_cases j <;> rfl

theorem staggered_compound_interpolates_rhs_witness :
    ∃ f2 p2, Field3D.compound sampleGlobals CompoundOp.plus 1 ⟨some 0, CELL_LOC.CELL_CENTRE⟩
        (Operand.field3d ⟨some 1, CELL_LOC.CELL_XLOW⟩) stagState.pool = some (f2, p2) ∧
      f2.location = CELL_LOC.CELL_CENTRE := by
  obtain ⟨tmp, p1, tb, f2, p2, b2, _, _, _, _, h, hl, _⟩ :=
    staggered_compound_interpolates_rhs sampleGlobals sampleGlobals_ok rfl stagState
      stagState_inv 0 1 0 ⟨some 0, CELL_LOC.CELL_CENTRE⟩ ⟨some 1, CELL_LOC.CELL_XLOW⟩ rfl rfl
      rfl (by simp) (by decide) CompoundOp.plus 0
  exact ⟨f2, tmp.dtor p2, h, hl⟩

/-! ## Pointwise functions -/

/-- What `Sqrt`, `Abs` and the functions `sin` to `tanh` do: the result is a new
object on the block `new_block` hands out, with `fn` of the values of `f`. -/
theorem mapValues_effect (G : Globals) (fn : ℚ → ℚ) (s : State) (hs : Inv s) (k b : Nat)
    (f : Field3D) (hf : s.field k = some f) (hb : f.block = some b) :
    ∃ q, f.mapValues G fn s.pool = some (⟨some (new_block s.pool).1, f.location⟩, q) ∧
      Effect G (s.push Field3D.ctor s.pool) s.nfields
        ⟨some (new_block s.pool).1, CELL_LOC.CELL_CENTRE⟩ q (new_block s.pool).1
        (fun x y z => fn (s.pool.read b x y z)) ∧
      Inv (s.push ⟨some (new_block s.pool).1, f.location⟩ q) ∧
      (new_block s.pool).1 ≠ b := by
  obtain ⟨hk, hfs⟩ := field_lt hf
  have hc := construct_kept s hs
  have hbl : b < s.pool.brk := hs.ptr k hk b (by rw [hfs]; exact hb)
  have he0 : Effect G (s.push Field3D.ctor s.pool) s.nfields
      ⟨some (new_block s.pool).1, CELL_LOC.CELL_CENTRE⟩ (Field3D.ctor.alloc_data G s.pool).2
      (new_block s.pool).1
      (fun x y z => (new_block s.pool).2.read (new_block s.pool).1 x y z) :=
    alloc_effect_empty G (s.push Field3D.ctor s.pool) s.nfields Field3D.ctor hc.inv
      (Nat.lt_succ_self _) (by simp [State.push]) rfl
  have hne : k ≠ s.nfields := by omega
  have hnb : (new_block s.pool).1 ≠ b := by
    intro e
    refine he0.alone k (Nat.lt_succ_of_lt hk) hne ?_
    simp only [State.push, Function.update_noteq hne, hfs, Option.some_bind, hb]
    exact congrArg some e.symm
  have he1 := he0.then_in_place (Nat.lt_succ_self _) (fun q x y z => fn (q.read b x y z))
    ((PointwiseBelow.const _ (fun _ _ _ => (0 : ℚ))).combine
      (Nat.lt_of_lt_of_le hbl he0.brk) (fun l _ => fn l))
  have hblk : (Field3D.ctor.alloc_data G s.pool).1 =
      ⟨some (new_block s.pool).1, CELL_LOC.CELL_CENTRE⟩ := rfl
  have hfr : ∀ x y z, (Field3D.ctor.alloc_data G s.pool).2.read b x y z = s.pool.read b x y z := by
    intro x y z
    have := he0.frame b hbl (fun e => hnb e.symm)
    exact congrFun (congrFun (congrFun this x) y) z
  refine ⟨loop3 G.ngx G.ngy G.ngz
    (fun jx jy jz q => q.write (new_block s.pool).1 jx jy jz (fn (q.read b jx jy jz)))
    (Field3D.ctor.alloc_data G s.pool).2, ?_, ?_, ?_, hnb⟩
  · unfold Field3D.mapValues Field3D.Allocate
    rw [hb]
    simp only [hblk]
  · have hv : (fun x y z => fn ((Field3D.ctor.alloc_data G s.pool).2.read b x y z)) =
        (fun x y z => fn (s.pool.read b x y z)) := by
      funext x y z
      rw [hfr]
    rw [← hv]
    exact he1
  · have := he1.inv.of_ptrs _
      (Function.update s.fields s.nfields (some ⟨some (new_block s.pool).1, f.location⟩))
      ⟨rfl, rfl, rfl, rfl, fun _ => ⟨rfl, rfl⟩⟩ (fun j hj => by
        by_cases hjn : j = s.nfields
        · subst hjn
          simp [State.put, State.push]
        · simp [State.put, State.push, Function.update_noteq hjn])
    exact this

/-- The objects of the program after a function that returned a new object. -/
theorem pushed_result_frame (G : Globals) (s : State) (hs : Inv s) (r1 r : Field3D) (q : Pool)
    (rb : Nat) (v : Nat → Nat → Nat → ℚ)
    (he : Effect G (s.push Field3D.ctor s.pool) s.nfields r1 q rb v)
    (hr : r.block = some rb) (hinv : Inv (s.push r q)) :
    (∀ j, j < s.nfields → (s.fields j).bind Field3D.block ≠ some rb) ∧
    (q.heap rb).refs = 1 ∧
    (∀ j x y z, j < s.nfields → (s.push r q).value j x y z = s.value j x y z) ∧
    ∀ b, b < s.pool.brk → b ≠ rb → (q.heap b).refs = (s.pool.heap b).refs := by
  have hc := construct_kept s hs
  refine ⟨fun j hj => ?_, (he.refs_one (Nat.lt_succ_self _)).2, fun j x y z hj => ?_,
    fun b hbl hbr => ?_⟩
  · have hne : j ≠ s.nfields := by omega
    have := he.alone j (Nat.lt_succ_of_lt hj) hne
    simpa [State.push, Function.update_noteq hne] using this
  · have hne : j ≠ s.nfields := by omega
    have h1 := he.value_other hc.inv j hne x y z
    have h2 := hc.others j x y z hj hne
    rw [← h2, ← h1]
    refine value_congr ((s.push Field3D.ctor s.pool).put s.nfields r1 q) (s.push r q) j ?_
      (fun _ => rfl) x y z
    simp [State.field, State.push, State.put, Function.update_noteq hne]
  · have h1 := hinv.refs b (Nat.lt_of_lt_of_le hbl he.brk)
    have h2 := hs.refs b hbl
    have h3 : holders (s.push r q).fields (s.push r q).nfields b =
        holders s.fields s.nfields b := by
      show holders (Function.update s.fields s.nfields (some r)) (s.nfields + 1) b = _
      simp only [holders]
      rw [holders_update_ge s.fields s.nfields (some r) b s.nfields (Nat.le_refl _)]
      have : ptsTo (Function.update s.fields s.nfields (some r) s.nfields) b = 0 := by
        simp only [Function.update_same, ptsTo, Option.some_bind, hr]
        rw [if_neg]
        intro e
        exact hbr (Option.some.inj e).symm
      rw [this]
      rfl
    have h4 : (s.push r q).pool = q := rfl
    rw [h4] at h1
    rw [h1, h2, h3]

theorem MathFn.call_eq (G : Globals) (L : Libm) (fn : MathFn) (f : Field3D) (p : Pool) :
    fn.call G L f p = f.mapValues G (fn.value L) p := by
  cases fn <;> rfl

/-- C25: each of `sqrt`, `abs`, `sin`, `cos`, `tan`, `sinh`, `cosh`, `tanh` applied to
an object `f` with data returns a new object on the block that `new_block` hands
out.  That block is not the block of `f`, no object held it, and its count is 1; the
result is at the location of `f` and holds the function of the value of `f` at every
grid point.  Every object that existed, `f` included, keeps its block, its location
and its values, and the count of the block of `f` is unchanged. -/
theorem math_maps_fresh_result (G : Globals) (L : Libm) (s : State) (hs : Inv s) (k b : Nat)
    (f : Field3D) (hf : s.field k = some f) (hb : f.block = some b) (fn : MathFn) :
    ∃ r q rb, fn.call G L f s.pool = some (r, q) ∧ r.block = some rb ∧
      rb = (new_block s.pool).1 ∧ rb ≠ b ∧
      (∀ j, j < s.nfields → (s.fields j).bind Field3D.block ≠ some rb) ∧
      (q.heap rb).refs = 1 ∧ r.location = f.location ∧
      (∀ x y z, x < G.ngx → y < G.ngy → z < G.ngz →
        q.read rb x y z = fn.value L (s.pool.read b x y z)) ∧
      Inv (s.push r q) ∧
      (∀ j, j < s.nfields → (s.push r q).field j = s.field j) ∧
      (∀ j x y z, j < s.nfields → (s.push r q).value j x y z = s.value j x y z) ∧
      (q.heap b).refs = (s.pool.heap b).refs := by
  obtain ⟨hk, hfs⟩ := field_lt hf
  obtain ⟨q, hm, he, hinv, hnb⟩ := mapValues_effect G (fn.value L) s hs k b f hf hb
  obtain ⟨h1, h2, h3, h4⟩ := pushed_result_frame G s hs _
    ⟨some (new_block s.pool).1, f.location⟩ q _ _ he rfl hinv
  have hbl : b < s.pool.brk := hs.ptr k hk b (by rw [hfs]; exact hb)
  refine ⟨⟨some (new_block s.pool).1, f.location⟩, q, (new_block s.pool).1, ?_, rfl, rfl, hnb,
    h1, h2, rfl, he.vals, hinv,
    fun j hj => field_push_lt s j _ q hj, h3, h4 b hbl (fun e => hnb e.symm)⟩
  rw [MathFn.call_eq]
  exact hm

theorem math_maps_fresh_result_witness :
    ∃ r q rb, MathFn.call sampleGlobals sampleLibm MathFn.cosh ⟨some 0, CELL_LOC.CELL_CENTRE⟩
        sampleState.pool = some (r, q) ∧ r.block = some rb ∧ rb ≠ 0 ∧
      ∀ x y z, x < 2 → y < 2 → z < 2 → q.read rb x y z = 1 := by
  obtain ⟨r, q, rb, h1, h2, _, h3, _, _, _, h4, _⟩ := math_maps_fresh_result sampleGlobals
    sampleLibm sampleState sampleState_inv 0 0 ⟨some 0, CELL_LOC.CELL_CENTRE⟩ rfl rfl
    MathFn.cosh
  exact ⟨r, q, rb, h1, h2, h3, fun x y z hx hy hz => h4 x y z hx hy hz⟩

/-- C26: with a square root and an absolute value that are exact (`sqrt(x * x) = |x|`
and `fabs(x) = |x|` for every value `x`), for an object `f` with data the fields
`sqrt(f*f)` and `abs(f)` both hold `|f(x,y,z)|` at every grid point, and both are at
the location of `f`. -/
theorem sqrt_of_square_is_abs (G : Globals) (L : Libm) (hsq : ∀ x : ℚ, L.sqrt (x * x) = |x|)
    (hab : ∀ x : ℚ, L.fabs x = |x|) (s : State) (hs : Inv s) (k b : Nat) (f : Field3D)
    (hf : s.field k = some f) (hb : f.block = some b) (fuel : Nat) :
    ∃ sq p1 r1 q1 b1 r2 q2 b2,
      f.binary G CompoundOp.times fuel (Operand.field3d f) s.pool = some (sq, p1) ∧
      sq.Sqrt G L p1 = some (r1, q1) ∧ r1.block = some b1 ∧
      f.Abs G L s.pool = some (r2, q2) ∧ r2.block = some b2 ∧
      r1.location = f.location ∧ r2.location = f.location ∧
      ∀ x y z, x < G.ngx → y < G.ngy → z < G.ngz →
        q1.read b1 x y z = |s.pool.read b x y z| ∧
          q2.read b2 x y z = |s.pool.read b x y z| := by
  obtain ⟨hk, hfs⟩ := field_lt hf
  have hc := copy_kept s hs k b f hf hb f.location
  have hbl : b < s.pool.brk := hs.ptr k hk b (by rw [hfs]; exact hb)
  obtain ⟨f2, p2, b2, hcomp, he⟩ := compound_effect G
    (s.push ⟨some b, f.location⟩ (Pool.incRefs b s.pool)) s.nfields b
    ⟨some b, f.location⟩ hc.inv (Nat.lt_succ_self _) (by simp [State.push]) rfl
    CompoundOp.times fuel (Operand.field3d f) ⟨⟨b, hb, hbl⟩, Or.inr rfl⟩
  have hcomp2 : Field3D.compound G CompoundOp.times fuel ⟨some b, f.location⟩
      (Operand.field3d f) (Pool.incRefs b s.pool) = some (f2, p2) := hcomp
  have hinv : Inv (s.push f2 p2) := by
    have := he.inv
    rw [push_put] at this
    exact this
  have hf2 : (s.push f2 p2).field s.nfields = some f2 := by
    simp [State.field, State.push]
  obtain ⟨q1, hm1, he1, _, _⟩ := mapValues_effect G L.sqrt (s.push f2 p2) hinv s.nfields b2 f2
    hf2 he.block
  obtain ⟨q2, hm2, he2, _, _⟩ := mapValues_effect G L.fabs s hs k b f hf hb
  have hl2 : f2.location = f.location :=
    he.loc ⟨some b, f.location⟩ (by simp [State.push])
  refine ⟨f2, p2, _, q1, _, _, q2, _, ?_, hm1, rfl, hm2, rfl, hl2, rfl,
    fun x y z hx hy hz => ⟨?_, ?_⟩⟩
  · simp only [Field3D.binary, Field3D.copy_ctor, hb, hcomp2]
  · have h1 := he1.vals x y z hx hy hz
    have h2 := he.vals x y z hx hy hz
    have h3 : (s.push f2 p2).pool.read b2 x y z = p2.read b2 x y z := rfl
    rw [h1, h3, h2]
    have h4 : (s.push ⟨some b, f.location⟩ (Pool.incRefs b s.pool)).pool.read b x y z =
        s.pool.read b x y z := by
      simp [State.push, Pool.read, incRefs_data]
    have h5 : (Operand.field3d f).get
        (s.push ⟨some b, f.location⟩ (Pool.incRefs b s.pool)).pool x y z =
        s.pool.read b x y z := by
      simp [State.push, Operand.get, Operand.value, hb, Pool.read, incRefs_data]
    rw [h4, h5]
    exact hsq _
  · rw [he2.vals x y z hx hy hz]
    exact hab _

theorem sampleSqrt_sq (x : ℚ) : sampleSqrt (x * x) = |x| := by
  unfold sampleSqrt
  rw [Rat.mul_self_num, Rat.mul_self_den, Int.natAbs_mul, Nat.sqrt_eq, Nat.sqrt_eq,
    Rat.abs_def, Rat.divInt_eq_div]
  simp [Nat.cast_natAbs, Int.cast_abs]

theorem sqrt_of_square_is_abs_witness :
    ∃ sq p1 r1 q1 b1,
      Field3D.binary sampleGlobals CompoundOp.times 0 ⟨some 0, CELL_LOC.CELL_CENTRE⟩
        (Operand.field3d ⟨some 0, CELL_LOC.CELL_CENTRE⟩) sampleState.pool = some (sq, p1) ∧
      sq.Sqrt sampleGlobals sampleLibm p1 = some (r1, q1) ∧ r1.block = some b1 ∧
      ∀ x y z, x < 2 → y < 2 → z < 2 → q1.read b1 x y z = 2 := by
  obtain ⟨sq, p1, r1, q1, b1, _, _, _, h1, h2, h3, _, _, _, _, h4⟩ :=
    sqrt_of_square_is_abs sampleGlobals sampleLibm sampleSqrt_sq (fun _ => rfl) sampleState
      sampleState_inv 0 0 ⟨some 0, CELL_LOC.CELL_CENTRE⟩ rfl rfl 0
  refine ⟨sq, p1, r1, q1, b1, h1, h2, h3, fun x y z hx hy hz => ?_⟩
  rw [(h4 x y z hx hy hz).1, sampleState_a x y z hx hy hz]
  norm_num

/-! ## Lines in z -/

theorem Effect.congr_vals {G : Globals} {s : State} {k : Nat} {f2 : Field3D} {p2 : Pool}
    {b2 : Nat} {v w : Nat → Nat → Nat → ℚ} (h : Effect G s k f2 p2 b2 v)
    (hv : ∀ x y z, x < G.ngx → y < G.ngy → z < G.ngz → v x y z = w x y z) :
    Effect G s k f2 p2 b2 w :=
  ⟨h.inv, h.block, h.loc, h.brk, h.frame, h.alone,
    fun x y z hx hy hz => (h.vals x y z hx hy hz).trans (hv x y z hx hy hz)⟩

/-- The first `n` values of a line are stored. -/
theorem Effect.then_fill {G : Globals} {s : State} {k : Nat} {f2 : Field3D} {p2 : Pool}
    {b2 : Nat} {v : Nat → Nat → Nat → ℚ} (h : Effect G s k f2 p2 b2 v) (jx jy : Nat)
    (out : Nat → ℚ) (n : Nat) :
    Effect G s k f2 (forLoop n (fun jz q => q.write b2 jx jy jz (out jz)) p2) b2
      (fun x y z => if x = jx ∧ y = jy ∧ z < n then out z else v x y z) := by
  induction n with
  | zero => exact h.congr_vals (fun x y z _ _ _ => by simp)
  | succ m ih =>
      have h1 := ih.then_write jx jy m (out m)
      refine h1.congr_vals (fun x y z _ _ _ => ?_)
      by_cases hp : x = jx ∧ y = jy ∧ z = m
      · obtain ⟨rfl, rfl, rfl⟩ := hp
        simp
      · rw [if_neg hp]
        by_cases hq : x = jx ∧ y = jy ∧ z < m
        · rw [if_pos hq, if_pos ⟨hq.1, hq.2.1, by omega⟩]
        · rw [if_neg hq, if_neg (fun hc => by
            obtain ⟨h1, h2, h3⟩ := hc
            by_cases hzm : z = m
            · exact hp ⟨h1, h2, hzm⟩
            · exact hq ⟨h1, h2, by omega⟩)]

/-- The line `(jx, jy)` is replaced by the values `out` and the point `z = ncz` by the
first of them. -/
theorem Effect.then_storeLine {G : Globals} {s : State} {k : Nat} {f2 : Field3D} {p2 : Pool}
    {b2 : Nat} {v : Nat → Nat → Nat → ℚ} (h : Effect G s k f2 p2 b2 v) (jx jy ncz : Nat)
    (out : Nat → ℚ) (hx : jx < G.ngx) (hy : jy < G.ngy) (hn : 0 < ncz) (hz : 0 < G.ngz) :
    Effect G s k f2 (p2.storeLine b2 jx jy ncz out) b2
      (fun x y z => if x = jx ∧ y = jy ∧ z ≤ ncz then (if z < ncz then out z else out 0)
        else v x y z) := by
  have hfill := h.then_fill jx jy out ncz
  have h0 : (forLoop ncz (fun jz q => q.write b2 jx jy jz (out jz)) p2).read b2 jx jy 0 =
      out 0 := by
    rw [hfill.vals jx jy 0 hx hy hz, if_pos ⟨rfl, rfl, hn⟩]
  have h1 := hfill.then_write jx jy ncz
    ((forLoop ncz (fun jz q => q.write b2 jx jy jz (out jz)) p2).read b2 jx jy 0)
  unfold Pool.storeLine
  refine h1.congr_vals (fun x y z _ _ _ => ?_)
  rw [h0]
  by_cases hp : x = jx ∧ y = jy ∧ z = ncz
  · obtain ⟨rfl, rfl, rfl⟩ := hp
    simp
  · rw [if_neg hp]
    by_cases hq : x = jx ∧ y = jy ∧ z < ncz
    · rw [if_pos hq, if_pos ⟨hq.1, hq.2.1, by omega⟩, if_pos hq.2.2]
    · rw [if_neg hq, if_neg (fun hc => by
        obtain ⟨h1, h2, h3⟩ := hc
        by_cases hzm : z = ncz
        · exact hp ⟨h1, h2, hzm⟩
        · exact hq ⟨h1, h2, by omega⟩)]

theorem decRefs_incRefs (b : Nat) (q : Pool) : Pool.decRefs b (Pool.incRefs b q) = q := by
  cases q with
  | mk heap brk uninit nblocks blocklist free_block =>
      simp only [Pool.decRefs, Pool.incRefs, Pool.setRefs, Function.update_same,
        Function.update_idem, add_sub_cancel_right]
      congr 1
      exact Function.update_eq_self b heap

/-- Returning a local with data: the copy and the destructor of the local undo each
other. -/
theorem returnLocal_data (elide : Bool) (r : Field3D) (q : Pool) (rb : Nat)
    (hr : r.block = some rb) (h1 : (q.heap rb).refs ≠ 0) :
    returnLocal elide r q = some (r, q) := by
  cases elide with
  | true => rfl
  | false =>
      have h2 : ¬ ((Pool.incRefs rb q).heap rb).refs - 1 = 0 := by
        simp only [Pool.incRefs, Pool.setRefs, Function.update_same]
        omega
      have hre : (⟨some rb, r.location⟩ : Field3D) = r := by
        cases r with
        | mk blk loc =>
            simp only at hr
            rw [hr]
      simp only [returnLocal, Field3D.copy_ctor, hr, Field3D.dtor, Bool.false_eq_true,
        if_false]
      rw [free_data_pool r rb hr, if_neg h2, decRefs_incRefs, hre]

/-- Two nested loops with an accumulator. -/
theorem loop2_inv {S : Type} (nx ny : Nat) (body : Nat → Nat → S → S) (s : S)
    (Q : Nat → Nat → S → Prop) (h0 : Q 0 0 s)
    (hy : ∀ jx jy q, jx < nx → jy < ny → Q jx jy q → Q jx (jy + 1) (body jx jy q))
    (hx : ∀ jx q, Q jx ny q → Q (jx + 1) 0 q) :
    Q nx 0 (forLoop nx (fun jx px => forLoop ny (fun jy q => body jx jy q) px) s) := by
  apply forLoop_inv (fun jx q => Q jx 0 q)
  · exact h0
  · intro jx q hjx hq
    apply hx
    apply forLoop_inv (fun jy q => Q jx jy q)
    · exact hq
    · intro jy q2 hjy hq2
      exact hy jx jy q2 hjx hjy hq2

theorem forLoopM_inv {S : Type} (P : Nat → S → Prop) (body : Nat → S → Option S) (s : S)
    (n : Nat) (h0 : P 0 s)
    (hs : ∀ k q, k < n → P k q → ∃ t, body k q = some t ∧ P (k + 1) t) :
    ∃ t, forLoopM n body s = some t ∧ P n t := by
  induction n with
  | zero => exact ⟨s, rfl, h0⟩
  | succ m ih =>
      obtain ⟨t, ht, hp⟩ := ih (fun k q hk hq => hs k q (Nat.lt_succ_of_lt hk) hq)
      obtain ⟨u, hu, hq⟩ := hs m t (Nat.lt_succ_self m) hp
      exact ⟨u, by simp only [forLoopM, ht, hu], hq⟩

/-- Two nested loops whose body can stop the program. -/
theorem loop2M_inv {S : Type} (nx ny : Nat) (body : Nat → Nat → S → Option S) (s : S)
    (Q : Nat → Nat → S → Prop) (h0 : Q 0 0 s)
    (hy : ∀ jx jy q, jx < nx → jy < ny → Q jx jy q →
      ∃ t, body jx jy q = some t ∧ Q jx (jy + 1) t)
    (hx : ∀ jx q, Q jx ny q → Q (jx + 1) 0 q) :
    ∃ t, forLoopM nx (fun jx px => forLoopM ny (fun jy q => body jx jy q) px) s = some t ∧
      Q nx 0 t := by
  apply forLoopM_inv (fun jx q => Q jx 0 q)
  · exact h0
  · intro jx q hjx hq
    obtain ⟨t, ht, hp⟩ := forLoopM_inv (fun jy q => Q jx jy q) (fun jy q => body jx jy q) q ny
      hq (fun jy q2 hjy hq2 => hy jx jy q2 hjx hjy hq2)
    exact ⟨t, ht, hx jx t hp⟩

/-! ## The loops over the modes -/

theorem phaseShift_apply (Z : ZGrid) (zangle : ℚ) (v : Nat → dcomplex) (k : Nat) :
    phaseShift Z zangle v k =
      if 1 ≤ k ∧ k ≤ Z.ncz / 2 then
        (v k).mul ⟨Z.libm.cos ((k : ℚ) * 2 * Z.PI / Z.zlength * zangle),
          -Z.libm.sin ((k : ℚ) * 2 * Z.PI / Z.zlength * zangle)⟩
      else v k := by
  unfold phaseShift
  refine forLoop_inv (fun j w => w k =
      if 1 ≤ k ∧ k ≤ j then
        (v k).mul ⟨Z.libm.cos ((k : ℚ) * 2 * Z.PI / Z.zlength * zangle),
          -Z.libm.sin ((k : ℚ) * 2 * Z.PI / Z.zlength * zangle)⟩
      else v k) _ v (Z.ncz / 2) ?_ ?_
  · beta_reduce
    rw [if_neg (by omega)]
  · intro j w _ hw
    beta_reduce at hw ⊢
    by_cases hk : k = j + 1
    · subst hk
      rw [Function.update_same, if_pos ⟨by omega, Nat.le_refl _⟩]
      rw [if_neg (by omega)] at hw
      rw [hw]
    · rw [Function.update_noteq hk, hw]
      by_cases hc : 1 ≤ k ∧ k ≤ j
      · rw [if_pos hc, if_pos ⟨hc.1, by omega⟩]
      · rw [if_neg hc, if_neg (by omega)]

theorem zeroModes_apply (ncz : Nat) (zmax : Int) (h0 : 0 ≤ zmax) (v : Nat → dcomplex)
    (k : Nat) :
    zeroModes ncz zmax v k = if zmax < k ∧ k ≤ ncz / 2 then ⟨0, 0⟩ else v k := by
  unfold zeroModes
  have h := forLoop_inv (fun j w => w k =
      if zmax < k ∧ (k : Int) < zmax + 1 + j then (⟨0, 0⟩ : dcomplex) else v k)
    (fun i w => Function.update w (zmax + 1 + (i : Int)).toNat ⟨0, 0⟩) v
    (((ncz / 2 : Nat) : Int) - zmax).toNat (by beta_reduce; rw [if_neg (by omega)])
    (fun j w _ hw => by
      beta_reduce at hw ⊢
      by_cases hk : k = (zmax + 1 + (j : Int)).toNat
      · rw [hk, Function.update_same, if_pos (by omega)]
      · rw [Function.update_noteq hk, hw]
        by_cases hc : zmax < k ∧ (k : Int) < zmax + 1 + j
        · rw [if_pos hc, if_pos (by omega)]
        · rw [if_neg hc, if_neg (by omega)])
  beta_reduce at h
  rw [h]
  by_cases hc : zmax < k ∧ k ≤ ncz / 2
  · rw [if_pos hc, if_pos (by omega)]
  · rw [if_neg hc, if_neg (by omega)]

/-! ## The filter `low_pass` -/

/-- The branch "removing nothing" of the two overloads: the first returns a copy of its
argument, the second its local `result`, which has no data. -/
theorem low_pass_nothing_removed (Z : ZGrid) (elide : Bool) (var : Field3D) (b : Nat)
    (hb : var.block = some b) (zmax zmin : Int) (p : Pool)
    (h : zmax ≥ ((Z.ncz / 2 : Nat) : Int) ∨ zmax < 0) :
    low_pass Z elide var zmax p = some (⟨some b, var.location⟩, Pool.incRefs b p) ∧
    low_pass_zmin Z elide var zmax zmin p =
      if elide then some (Field3D.ctor, p) else none := by
  constructor
  · simp only [low_pass, hb, if_pos h, Field3D.copy_ctor]
  · simp only [low_pass_zmin, hb, if_pos h, returnLocal]
    cases elide <;> rfl

/-- C21 (the code at a failing input): on the grid of 2 x 2 x 2 points with `ncz = 1`
and the field `a = 2.0`, the call `low_pass(a, 0, 0)`, where `zmax = 0` covers the whole
spectrum, returns a field without data when the compiler elides the copy of the
returned local, and stops at the null pointer in the copy constructor otherwise; the
call `low_pass(a, 0)` returns a field that shares the block of `a`. -/
theorem low_pass_zmin_returns_empty :
    low_pass_zmin (sampleZ 2 2 2 1) true ⟨some 0, CELL_LOC.CELL_CENTRE⟩ 0 0 sampleState.pool =
        some (⟨none, CELL_LOC.CELL_CENTRE⟩, sampleState.pool) ∧
      low_pass_zmin (sampleZ 2 2 2 1) false ⟨some 0, CELL_LOC.CELL_CENTRE⟩ 0 0
        sampleState.pool = none ∧
      low_pass (sampleZ 2 2 2 1) true ⟨some 0, CELL_LOC.CELL_CENTRE⟩ 0 sampleState.pool =
        some (⟨some 0, CELL_LOC.CELL_CENTRE⟩, Pool.incRefs 0 sampleState.pool) :=
  ⟨(low_pass_nothing_removed (sampleZ 2 2 2 1) true ⟨some 0, CELL_LOC.CELL_CENTRE⟩ 0 rfl 0 0
      sampleState.pool (Or.inl (by decide))).2,
    (low_pass_nothing_removed (sampleZ 2 2 2 1) false ⟨some 0, CELL_LOC.CELL_CENTRE⟩ 0 rfl 0 0
      sampleState.pool (Or.inl (by decide))).2,
    (low_pass_nothing_removed (sampleZ 2 2 2 1) true ⟨some 0, CELL_LOC.CELL_CENTRE⟩ 0 rfl 0 0
      sampleState.pool (Or.inl (by decide))).1⟩

/-- The loops of `low_pass` store the filtered lines in the block of the result. -/
theorem lowPassLines_effect (Z : ZGrid) (filter : (Nat → dcomplex) → Nat → dcomplex)
    (s : State) (k : Nat) (r1 : Field3D) (p1 : Pool) (rb b : Nat) (v0 : Nat → Nat → Nat → ℚ)
    (h : Effect Z.toGlobals s k r1 p1 rb v0) (hb : b < s.pool.brk) (hne : b ≠ rb)
    (hn : 0 < Z.ncz) (hz : 0 < Z.ngz) :
    Effect Z.toGlobals s k r1 (lowPassLines Z filter b rb p1) rb
      (fun x y z => if z ≤ Z.ncz then Z.filterLine filter (s.pool.line b x y) z
        else v0 x y z) := by
  have hq := loop2_inv Z.ngx Z.ngy
    (fun jx jy q => q.storeLine rb jx jy Z.ncz
      (Z.irfft (filter (Z.rfft (q.line b jx jy) Z.ncz)) Z.ncz)) p1
    (fun jx jy q => Effect Z.toGlobals s k r1 q rb
      (fun x y z => if (x < jx ∨ (x = jx ∧ y < jy)) ∧ z ≤ Z.ncz then
          Z.filterLine filter (s.pool.line b x y) z
        else v0 x y z))
    (h.congr_vals (fun x y z _ _ _ => by rw [if_neg (by omega)]))
    (fun jx jy q hjx hjy hq => by
      have hl : q.line b jx jy = s.pool.line b jx jy := by
        funext z
        exact congrFun (congrFun (congrFun (hq.frame b hb hne) jx) jy) z
      beta_reduce
      rw [hl]
      refine (hq.then_storeLine jx jy Z.ncz _ hjx hjy hn hz).congr_vals
        (fun x y z _ _ _ => ?_)
      by_cases hp : x = jx ∧ y = jy ∧ z ≤ Z.ncz
      · obtain ⟨rfl, rfl, hzn⟩ := hp
        rw [if_pos (show x = x ∧ y = y ∧ z ≤ Z.ncz from ⟨rfl, rfl, hzn⟩),
          if_pos (show (x < x ∨ x = x ∧ y < y + 1) ∧ z ≤ Z.ncz from
            ⟨Or.inr ⟨rfl, Nat.lt_succ_self _⟩, hzn⟩)]
        rfl
      · rw [if_neg hp]
        by_cases hc : (x < jx ∨ (x = jx ∧ y < jy)) ∧ z ≤ Z.ncz
        · rw [if_pos hc, if_pos ⟨by omega, hc.2⟩]
        · rw [if_neg hc, if_neg (fun hd => by
            obtain ⟨hd1, hd2⟩ := hd
            apply hc
            refine ⟨?_, hd2⟩
            rcases hd1 with hd1 | ⟨hd1, hd3⟩
            · exact Or.inl hd1
            · by_cases hy : y = jy
              · exact absurd ⟨hd1, hy, hd2⟩ hp
              · exact Or.inr ⟨hd1, by omega⟩)])
    (fun jx q hq => hq.congr_vals (fun x y z _ hy _ => by
      by_cases hc : (x < jx ∨ (x = jx ∧ y < Z.ngy)) ∧ z ≤ Z.ncz
      · rw [if_pos hc, if_pos ⟨by omega, hc.2⟩]
      · rw [if_neg hc, if_neg (fun hd => hc ⟨by omega, hd.2⟩)]))
  exact hq.congr_vals (fun x y z hx _ _ => by
    by_cases hc : z ≤ Z.ncz
    · rw [if_pos ⟨Or.inl hx, hc⟩, if_pos hc]
    · rw [if_neg (fun hd => hc hd.2), if_neg hc])

/-- The result of `low_pass` when something is removed. -/
theorem low_pass_effect (Z : ZGrid) (elide : Bool) (s : State) (hs : Inv s) (k b : Nat)
    (f : Field3D) (hf : s.field k = some f) (hb : f.block = some b) (zmax : Int)
    (h0 : 0 ≤ zmax) (h1 : zmax < ((Z.ncz / 2 : Nat) : Int)) (hz : 0 < Z.ngz) :
    ∃ q, low_pass Z elide f zmax s.pool =
        some (⟨some (new_block s.pool).1, f.location⟩, q) ∧
      Inv (s.push ⟨some (new_block s.pool).1, f.location⟩ q) ∧
      (∀ j x y z, j < s.nfields →
        (s.push ⟨some (new_block s.pool).1, f.location⟩ q).value j x y z = s.value j x y z) ∧
      ∀ x y z, x < Z.ngx → y < Z.ngy → z < Z.ngz → z ≤ Z.ncz →
        q.read (new_block s.pool).1 x y z =
          Z.filterLine (zeroModes Z.ncz zmax) (s.pool.line b x y) z := by
  obtain ⟨hk, hfs⟩ := field_lt hf
  have hc := construct_kept s hs
  have hbl : b < s.pool.brk := hs.ptr k hk b (by rw [hfs]; exact hb)
  have hn : 0 < Z.ncz := by omega
  have he0 : Effect Z.toGlobals (s.push Field3D.ctor s.pool) s.nfields
      ⟨some (new_block s.pool).1, CELL_LOC.CELL_CENTRE⟩
      (Field3D.ctor.alloc_data Z.toGlobals s.pool).2 (new_block s.pool).1
      (fun x y z => (new_block s.pool).2.read (new_block s.pool).1 x y z) :=
    alloc_effect_empty Z.toGlobals (s.push Field3D.ctor s.pool) s.nfields Field3D.ctor hc.inv
      (Nat.lt_succ_self _) (by simp [State.push]) rfl
  have hne : k ≠ s.nfields := by omega
  have hnb : b ≠ (new_block s.pool).1 := by
    intro e
    refine he0.alone k (Nat.lt_succ_of_lt hk) hne ?_
    simp only [State.push, Function.update_noteq hne, hfs, Option.some_bind, hb]
    exact congrArg some e
  have he1 := lowPassLines_effect Z (zeroModes Z.ncz zmax) (s.push Field3D.ctor s.pool)
    s.nfields _ _ _ b _ he0 hbl hnb hn hz
  have hinv : Inv (s.push ⟨some (new_block s.pool).1, f.location⟩
      (lowPassLines Z (zeroModes Z.ncz zmax) b (new_block s.pool).1
        (Field3D.ctor.alloc_data Z.toGlobals s.pool).2)) := by
    have := he1.inv.of_ptrs _
      (Function.update s.fields s.nfields (some ⟨some (new_block s.pool).1, f.location⟩))
      ⟨rfl, rfl, rfl, rfl, fun _ => ⟨rfl, rfl⟩⟩ (fun j hj => by
        by_cases hjn : j = s.nfields
        · subst hjn
          simp [State.put, State.push]
        · simp [State.put, State.push, Function.update_noteq hjn])
    exact this
  obtain ⟨_, h2, h3, _⟩ := pushed_result_frame Z.toGlobals s hs _
    ⟨some (new_block s.pool).1, f.location⟩ _ _ _ he1 rfl hinv
  refine ⟨_, ?_, hinv, h3, fun x y z hx hy hz1 hz2 => ?_⟩
  · have hblk : (Field3D.ctor.Allocate Z.toGlobals s.pool).1.block =
        some (new_block s.pool).1 := rfl
    simp only [low_pass, hb, hblk]
    rw [if_neg (by omega)]
    exact returnLocal_data elide _ _ _ rfl (ne_of_eq_of_ne h2 one_ne_zero)
  · have := he1.vals x y z hx hy hz1
    rw [this, if_pos hz2]
    rfl

/-- C23: with `rfft` and `irfft` the exact transform pair, for an object `f` with data
and `0 <= zmax < ncz/2`, `low_pass(f, zmax)` returns a field whose line at every
`(x, y)` has the Fourier coefficient zero for every mode `k` with `zmax < k <= ncz/2`
and the coefficient of the line of `f` for every mode `k <= zmax`. -/
theorem low_pass_spectrum (Z : ZGrid) (hZ : Z.ExactDFT) (elide : Bool) (s : State)
    (hs : Inv s) (k b : Nat) (f : Field3D) (hf : s.field k = some f) (hb : f.block = some b)
    (zmax : Int) (h0 : 0 ≤ zmax) (h1 : zmax < ((Z.ncz / 2 : Nat) : Int))
    (hz : Z.ncz < Z.ngz) :
    ∃ r q rb, low_pass Z elide f zmax s.pool = some (r, q) ∧ r.block = some rb ∧
      r.location = f.location ∧
      ∀ x y, x < Z.ngx → y < Z.ngy →
        (∀ m : Nat, zmax < m → m ≤ Z.ncz / 2 → Z.rfft (q.line rb x y) Z.ncz m = ⟨0, 0⟩) ∧
        ∀ m : Nat, (m : Int) ≤ zmax →
          Z.rfft (q.line rb x y) Z.ncz m = Z.rfft (s.pool.line b x y) Z.ncz m := by
  obtain ⟨q, hq, _, _, hv⟩ := low_pass_effect Z elide s hs k b f hf hb zmax h0 h1 (by omega)
  refine ⟨_, q, _, hq, rfl, rfl, fun x y hx hy => ?_⟩
  have hline : ∀ z, z < Z.ncz → q.line (new_block s.pool).1 x y z =
      Z.irfft (zeroModes Z.ncz zmax (Z.rfft (s.pool.line b x y) Z.ncz)) Z.ncz z := by
    intro z hzn
    have := hv x y z hx hy (by omega) (by omega)
    show q.read (new_block s.pool).1 x y z = _
    rw [this, ZGrid.filterLine, if_pos hzn]
  have hspec : ∀ m, m ≤ Z.ncz / 2 → Z.rfft (q.line (new_block s.pool).1 x y) Z.ncz m =
      zeroModes Z.ncz zmax (Z.rfft (s.pool.line b x y) Z.ncz) m := by
    intro m hm
    rw [hZ.rfft_reads _ _ hline m hm]
    refine hZ.fwd_inv _ ?_ ?_ m hm
    · rw [zeroModes_apply Z.ncz zmax h0, if_neg (by omega)]
      exact hZ.dc_real _
    · intro _
      rw [zeroModes_apply Z.ncz zmax h0, if_pos ⟨by omega, Nat.le_refl _⟩]
  constructor
  · intro m hm1 hm2
    rw [hspec m hm2, zeroModes_apply Z.ncz zmax h0, if_pos ⟨hm1, hm2⟩]
  · intro m hm
    rw [hspec m (by omega), zeroModes_apply Z.ncz zmax h0, if_neg (by omega)]

/-! ## The sample grids in z -/

theorem lineState_ok (ngz ncz : Nat) :
    Inv (lineState ngz ncz) ∧
      (lineState ngz ncz).field 0 = some ⟨some 0, CELL_LOC.CELL_CENTRE⟩ ∧
      ∀ z : Nat, (lineState ngz ncz).pool.read 0 0 0 z = 2 * (z : ℚ) + 1 := by
  have h1 := construct_kept (State.empty (fun _ _ _ z => 2 * (z : ℚ) + 1)) (inv_empty _)
  have he := alloc_effect_empty (sampleZ 1 1 ngz ncz).toGlobals _ 0 Field3D.ctor h1.inv
    (Nat.lt_succ_self 0) rfl rfl
  exact ⟨he.inv, rfl, fun _ => rfl⟩

theorem dcomplex.eq_of (a b : dcomplex) (h1 : a.re = b.re) (h2 : a.im = b.im) : a = b := by
  cases a
  cases b
  simp only at h1 h2
  rw [h1, h2]

theorem exactDFT_two (Z : ZGrid) (hn : Z.ncz = 2) (hr : Z.rfft = sampleRfft)
    (hi : Z.irfft = sampleIrfft) : Z.ExactDFT := by
  refine ⟨fun x y h k hk => ?_, fun v w h z hz => ?_, fun x => ?_, fun x _ => ?_,
    fun x z hz => ?_, fun v h0 h1 k hk => ?_⟩
  · rw [hn] at h hk ⊢
    rw [hr]
    have hk2 : k ≤ 1 := hk
    have e0 := h 0 (by decide)
    have e1 := h 1 (by decide)
    interval_cases k <;> simp [sampleRfft, e0, e1]
  · rw [hn] at h hz ⊢
    rw [hi]
    have e0 := h 0 (by decide)
    have e1 := h 1 (by decide)
    interval_cases z <;> simp [sampleIrfft, e0, e1]
  · rw [hn, hr]
    rfl
  · rw [hn, hr]
    rfl
  · rw [hn] at hz ⊢
    rw [hr, hi]
    interval_cases z <;> simp [sampleIrfft, sampleRfft]
  · rw [hn] at hk h1 ⊢
    rw [hr, hi]
    have hk2 : k ≤ 1 := hk
    have h1' : (v 1).im = 0 := h1 rfl
    interval_cases k
    · refine dcomplex.eq_of _ _ ?_ h0.symm
      simp [sampleIrfft, sampleRfft]
      ring
    · refine dcomplex.eq_of _ _ ?_ h1'.symm
      simp [sampleIrfft, sampleRfft]
      ring

theorem exactDFT_three (Z : ZGrid) (hn : Z.ncz = 3) (hr : Z.rfft = sampleRfft)
    (hi : Z.irfft = sampleIrfft) : Z.ExactDFT := by
  refine ⟨fun x y h k hk => ?_, fun v w h z hz => ?_, fun x => ?_, fun x h => ?_,
    fun x z hz => ?_, fun v h0 _ k hk => ?_⟩
  · rw [hn] at h hk ⊢
    rw [hr]
    have hk2 : k ≤ 1 := hk
    have e0 := h 0 (by decide)
    have e1 := h 1 (by decide)
    have e2 := h 2 (by decide)
    interval_cases k <;> simp [sampleRfft, e0, e1, e2]
  · rw [hn] at h hz ⊢
    rw [hi]
    have e0 := h 0 (by decide)
    have e1 := h 1 (by decide)
    interval_cases z <;> simp [sampleIrfft, e0, e1]
  · rw [hn, hr]
    rfl
  · rw [hn] at h
    exact absurd h (by decide)
  · rw [hn] at hz ⊢
    rw [hr, hi]
    interval_cases z <;> simp [sampleIrfft, sampleRfft] <;> ring
  · rw [hn] at hk ⊢
    rw [hr, hi]
    have hk2 : k ≤ 1 := hk
    interval_cases k
    · refine dcomplex.eq_of _ _ ?_ h0.symm
      simp [sampleIrfft, sampleRfft]
      ring
    · refine dcomplex.eq_of _ _ ?_ ?_
      · simp [sampleIrfft, sampleRfft]
        ring
      · simp [sampleIrfft, sampleRfft]

theorem sampleZ_exact2 (ngx ngy ngz : Nat) : (sampleZ ngx ngy ngz 2).ExactDFT :=
  exactDFT_two _ rfl rfl rfl

theorem sampleZ_exact3 (ngx ngy ngz : Nat) : (sampleZ ngx ngy ngz 3).ExactDFT :=
  exactDFT_three _ rfl rfl rfl

theorem sampleLibm_circular : sampleLibm.Circular := by
  refine ⟨fun t => ?_, fun t => ?_, fun t => ?_⟩
  · simp only [sampleLibm]
    ring
  · simp only [sampleLibm]
    ring
  · simp only [sampleLibm]
    have h : (1 : ℚ) + t / 2 * (t / 2) ≠ 0 := by
      have := mul_self_nonneg (t / 2)
      linarith
    obtain ⟨u, hu⟩ : ∃ u, u = t / 2 * (t / 2) := ⟨_, rfl⟩
    have ht : t * t = 4 * u := by rw [hu]; ring
    rw [← hu] at h ⊢
    rw [div_mul_div_comm, div_mul_div_comm, ← add_div, div_eq_one_iff_eq (mul_ne_zero h h),
      ht]
    ring

theorem low_pass_spectrum_witness :
    ∃ r q rb, low_pass (sampleZ 1 1 3 2) true ⟨some 0, CELL_LOC.CELL_CENTRE⟩ 0
        (lineState 3 2).pool = some (r, q) ∧ r.block = some rb ∧
      (sampleZ 1 1 3 2).rfft (q.line rb 0 0) 2 1 = ⟨0, 0⟩ := by
  obtain ⟨r, q, rb, h1, h2, _, h3⟩ := low_pass_spectrum (sampleZ 1 1 3 2)
    (sampleZ_exact2 1 1 3) true (lineState 3 2) (lineState_ok 3 2).1 0 0
    ⟨some 0, CELL_LOC.CELL_CENTRE⟩ (lineState_ok 3 2).2.1 rfl 0 (by decide) (by decide)
    (by decide)
  exact ⟨r, q, rb, h1, h2, (h3 0 0 (by decide) (by decide)).1 1 (by decide) (by decide)⟩

/-! ## The shift in z -/

theorem phaseShift_congr (Z : ZGrid) (zangle : ℚ) (v w : Nat → dcomplex) (k : Nat)
    (h : v k = w k) : phaseShift Z zangle v k = phaseShift Z zangle w k := by
  rw [phaseShift_apply, phaseShift_apply, h]

/-- The shifted line depends on the `ncz` values of the period only. -/
theorem shiftLine_congr (Z : ZGrid) (hZ : Z.ExactDFT) (hn : 0 < Z.ncz) (zangle : ℚ)
    (x y : Nat → ℚ) (h : ∀ z, z < Z.ncz → x z = y z) (z : Nat) :
    Z.shiftLine zangle x z = Z.shiftLine zangle y z := by
  have hm : ∀ k, k ≤ Z.ncz / 2 →
      phaseShift Z zangle (Z.rfft x Z.ncz) k = phaseShift Z zangle (Z.rfft y Z.ncz) k :=
    fun k hk => phaseShift_congr Z zangle _ _ k (hZ.rfft_reads x y h k hk)
  unfold ZGrid.shiftLine
  by_cases hz : z < Z.ncz
  · rw [if_pos hz, if_pos hz]
    exact hZ.irfft_reads _ _ hm z hz
  · rw [if_neg hz, if_neg hz]
    exact hZ.irfft_reads _ _ hm 0 hn

theorem put_self (t : State) (k : Nat) (r : Field3D) (h : t.fields k = some r) :
    t.put k r t.pool = t := by
  cases t with
  | mk pool fields nfields =>
      simp only [State.put] at h ⊢
      rw [← h, Function.update_eq_self]

/-- One call of `ShiftZ(jx, jy, zangle)` on an object with data. -/
theorem ShiftZ_line_changed (Z : ZGrid) (hZ : Z.ExactDFT) (zangle : ℚ) (t : State)
    (ht : Inv t) (k b : Nat) (r : Field3D) (hr : t.field k = some r) (hb : r.block = some b)
    (jx jy : Nat) (hjx : jx < Z.ngx) (hjy : jy < Z.ngy) (hn1 : Z.ncz ≠ 1) (hn : 0 < Z.ncz)
    (hz : Z.ncz < Z.ngz) :
    ∃ r2 q2, r.ShiftZ_line Z jx jy zangle t.pool = some (r2, q2) ∧
      Changed Z.toGlobals t k (fun x y z => x = jx ∧ y = jy ∧ z ≤ Z.ncz)
        (fun x y z => Z.shiftLine zangle (t.pool.line b x y) z) (t.put k r2 q2) := by
  obtain ⟨hk, hfs⟩ := field_lt hr
  obtain ⟨b2, he⟩ := alloc_effect Z.toGlobals t k b r ht hk hfs hb
  have hs := he.then_storeLine jx jy Z.ncz
    (Z.irfft (phaseShift Z zangle
      (Z.rfft ((r.alloc_data Z.toGlobals t.pool).2.line b2 jx jy) Z.ncz)) Z.ncz)
    hjx hjy hn (by omega)
  have hline : ∀ z, z < Z.ncz →
      (r.alloc_data Z.toGlobals t.pool).2.line b2 jx jy z = t.pool.line b jx jy z :=
    fun z hzn => he.vals jx jy z hjx hjy (by omega)
  refine ⟨_, _, ?_, hs.changed ht r b hr hb _ _ ?_ ?_⟩
  · have hc : (Z.CHECK && r.block.isNone) = false := by simp [hb]
    have hblk : (r.Allocate Z.toGlobals t.pool).1.block = some b2 := he.block
    simp only [Field3D.ShiftZ_line, hc, Bool.false_eq_true, if_false, if_neg hn1, hblk,
      if_pos (And.intro hjx hjy)]
    rfl
  · intro x y z _ _ _ hd
    obtain ⟨rfl, rfl, hzn⟩ := hd
    rw [if_pos (show x = x ∧ y = y ∧ z ≤ Z.ncz from ⟨rfl, rfl, hzn⟩)]
    rw [← shiftLine_congr Z hZ hn zangle _ _ hline z]
    rfl
  · intro x y z _ _ _ hd
    rw [if_neg hd]

/-- The two loops of `ShiftZ(zangle)` shift every line of the object. -/
theorem ShiftZ_lines_changed (Z : ZGrid) (hZ : Z.ExactDFT) (zangle : ℚ) (t0 : State)
    (h0 : Inv t0) (k b0 : Nat) (r0 : Field3D) (hr0 : t0.field k = some r0)
    (hb0 : r0.block = some b0) (hn1 : Z.ncz ≠ 1) (hn : 0 < Z.ncz) (hz : Z.ncz < Z.ngz) :
    ∃ r, forLoopM Z.ngx (fun jx rx =>
          forLoopM Z.ngy (fun jy r => Field3D.ShiftZ_line Z r.1 jx jy zangle r.2) rx)
          (r0, t0.pool) = some r ∧
      Changed Z.toGlobals t0 k (fun _ _ z => z ≤ Z.ncz)
        (fun x y z => Z.shiftLine zangle (t0.pool.line b0 x y) z) (t0.put k r.1 r.2) := by
  obtain ⟨hk, hfs⟩ := field_lt hr0
  obtain ⟨r, hr, hq⟩ := loop2M_inv Z.ngx Z.ngy
    (fun jx jy (r : Field3D × Pool) => Field3D.ShiftZ_line Z r.1 jx jy zangle r.2)
    (r0, t0.pool)
    (fun jx jy r => Changed Z.toGlobals t0 k
      (fun x y z => (x < jx ∨ (x = jx ∧ y < jy)) ∧ z ≤ Z.ncz)
      (fun x y z => Z.shiftLine zangle (t0.pool.line b0 x y) z) (t0.put k r.1 r.2))
    (by
      beta_reduce
      rw [put_self t0 k r0 hfs]
      exact (Changed.refl Z.toGlobals t0 h0 k _).congr_set
        (fun x y z => ⟨False.elim, fun h => by have := h.1; omega⟩))
    (fun jx jy r hjx hjy hc => by
      beta_reduce at hc ⊢
      have hd := hc.hasData k ⟨r0, b0, hr0, hb0⟩
      obtain ⟨f1, b1, hf1, hb1⟩ := hd
      have hf1' : f1 = r.1 := by
        have : (t0.put k r.1 r.2).field k = some r.1 := by
          simp [State.field, State.put, hk]
        rw [this] at hf1
        exact (Option.some.inj hf1).symm
      subst hf1'
      obtain ⟨r2, q2, hs, hch⟩ := ShiftZ_line_changed Z hZ zangle (t0.put k r.1 r.2) hc.inv k
        b1 r.1 hf1 hb1 jx jy hjx hjy hn1 hn hz
      rw [put_put] at hch
      refine ⟨(r2, q2), hs, ?_⟩
      have hline : ∀ z, z < Z.ncz → (t0.put k r.1 r.2).pool.line b1 jx jy z =
          t0.pool.line b0 jx jy z := by
        intro z hzn
        have h1 := hc.rest k jx jy z hk hjx hjy (by omega) (Or.inr (by omega))
        rw [value_eq_read _ k b1 r.1 hf1 hb1, value_eq_read t0 k b0 r0 hr0 hb0] at h1
        exact Option.some.inj h1
      refine (hc.trans hch (fun x y z _ _ _ he => ?_)).congr_set (fun x y z => ?_)
      · obtain ⟨rfl, rfl, _⟩ := he
        exact shiftLine_congr Z hZ hn zangle _ _ hline z
      · constructor
        · rintro (⟨h1, h2⟩ | ⟨h1, h2, h3⟩)
          · exact ⟨by omega, h2⟩
          · exact ⟨by omega, h3⟩
        · rintro ⟨h1, h2⟩
          by_cases he : x = jx ∧ y = jy
          · exact Or.inr ⟨he.1, he.2, h2⟩
          · exact Or.inl ⟨by omega, h2⟩)
    (fun jx r hc => by
      beta_reduce at hc ⊢
      refine ⟨hc.inv, hc.size, hc.live, hc.data, fun x y z hx hy hz hd => ?_,
        fun j x y z hj hx hy hz hne => ?_⟩
      · exact hc.here x y z hx hy hz ⟨by omega, hd.2⟩
      · refine hc.rest j x y z hj hx hy hz (hne.imp id (fun hnd hd => hnd ⟨?_, hd.2⟩))
        have := hd.1
        omega)
  refine ⟨r, hr, ?_⟩
  refine ⟨hq.inv, hq.size, hq.live, hq.data, fun x y z hx hy hz hd => ?_,
    fun j x y z hj hx hy hz hne => ?_⟩
  · exact hq.here x y z hx hy hz ⟨Or.inl hx, hd⟩
  · exact hq.rest j x y z hj hx hy hz (hne.imp id (fun hnd hd => hnd hd.2))

theorem line_incRefs (b : Nat) (p : Pool) (i x y : Nat) :
    (Pool.incRefs b p).line i x y = p.line i x y := by
  funext z
  simp [Pool.line, Pool.read, incRefs_data]

/-- What `ShiftZ(zangle)` returns for an object with data: a new object that holds
the shifted lines up to `z = ncz` and the values of the object beyond; for `ncz = 1`
it holds the values of the object. -/
theorem ShiftZ_values (Z : ZGrid) (hZ : Z.ExactDFT) (elide : Bool) (zangle : ℚ) (s : State)
    (hs : Inv s) (k b : Nat) (f : Field3D) (hf : s.field k = some f) (hb : f.block = some b)
    (hn : 0 < Z.ncz) (hz : Z.ncz < Z.ngz) :
    ∃ r q rb, f.ShiftZ Z elide zangle s.pool = some (r, q) ∧ r.block = some rb ∧
      Inv (s.push r q) ∧
      (∀ j x y z, j < s.nfields → x < Z.ngx → y < Z.ngy → z < Z.ngz →
        (s.push r q).value j x y z = s.value j x y z) ∧
      ∀ x y z, x < Z.ngx → y < Z.ngy → z < Z.ngz →
        q.read rb x y z =
          if Z.ncz = 1 ∨ Z.ncz < z then s.pool.read b x y z
          else Z.shiftLine zangle (s.pool.line b x y) z := by
  obtain ⟨hk, hfs⟩ := field_lt hf
  have hc := copy_kept s hs k b f hf hb f.location
  have hassign : Field3D.ctor.operator_assign f false s.pool =
      some (⟨some b, f.location⟩, Pool.incRefs b s.pool) := by
    simp [Field3D.operator_assign, hb, Field3D.ctor]
  have hfn : (s.push ⟨some b, f.location⟩ (Pool.incRefs b s.pool)).field s.nfields =
      some ⟨some b, f.location⟩ := by
    simp [State.field, State.push]
  by_cases hn1 : Z.ncz = 1
  · obtain ⟨r, hr, hq⟩ := loop2M_inv Z.ngx Z.ngy
      (fun jx jy (r : Field3D × Pool) => Field3D.ShiftZ_line Z r.1 jx jy zangle r.2)
      ((⟨some b, f.location⟩ : Field3D), Pool.incRefs b s.pool)
      (fun _ _ r => r = ((⟨some b, f.location⟩ : Field3D), Pool.incRefs b s.pool)) rfl
      (fun jx jy r _ _ hr => by
        beta_reduce at hr ⊢
        subst hr
        exact ⟨_, by simp [Field3D.ShiftZ_line, hn1], rfl⟩)
      (fun _ _ h => h)
    subst hq
    have h1 := hc.inv.refs_pos s.nfields b (Nat.lt_succ_self _) (by simp [State.push])
    refine ⟨⟨some b, f.location⟩, Pool.incRefs b s.pool, b, ?_, rfl, hc.inv,
      fun j x y z hj _ _ _ => hc.others j x y z hj (by omega), fun x y z _ _ _ => ?_⟩
    · simp only [Field3D.ShiftZ, hassign, hr]
      exact returnLocal_data elide _ _ b rfl (by
        have := h1.2
        simp only [State.push] at this
        omega)
    · rw [if_pos (Or.inl hn1)]
      simp [Pool.read, incRefs_data]
  · obtain ⟨r, hr, hch⟩ := ShiftZ_lines_changed Z hZ zangle
      (s.push ⟨some b, f.location⟩ (Pool.incRefs b s.pool)) hc.inv s.nfields b
      ⟨some b, f.location⟩ hfn rfl hn1 hn hz
    rw [push_put] at hch
    obtain ⟨f1, rb, hf1, hrb⟩ := hch.hasData s.nfields ⟨_, b, hfn, rfl⟩
    have hf1' : f1 = r.1 := by
      have : (s.push r.1 r.2).field s.nfields = some r.1 := by
        simp [State.field, State.push]
      rw [this] at hf1
      exact (Option.some.inj hf1).symm
    subst hf1'
    have h1 := hch.inv.refs_pos s.nfields rb (Nat.lt_succ_self _)
      (by simp [State.push, hrb])
    refine ⟨r.1, r.2, rb, ?_, hrb, hch.inv, fun j x y z hj hx hy hz1 => ?_,
      fun x y z hx hy hz1 => ?_⟩
    · have hr2 : forLoopM Z.ngx (fun jx rx =>
          forLoopM Z.ngy (fun jy r => Field3D.ShiftZ_line Z r.1 jx jy zangle r.2) rx)
          ((⟨some b, f.location⟩ : Field3D), Pool.incRefs b s.pool) = some r := hr
      simp only [Field3D.ShiftZ, hassign, hr2]
      exact returnLocal_data elide _ _ rb hrb (by
        have := h1.2
        simp only [State.push] at this
        omega)
    · have := hch.rest j x y z (Nat.lt_succ_of_lt hj) hx hy hz1 (Or.inl (by omega))
      rw [this]
      exact hc.others j x y z hj (by omega)
    · have hval := value_eq_read (s.push r.1 r.2) s.nfields rb r.1 hf1 hrb x y z
      have hp : (s.push r.1 r.2).pool.read rb x y z = r.2.read rb x y z := rfl
      by_cases hzn : z ≤ Z.ncz
      · have := hch.here x y z hx hy hz1 hzn
        rw [hval, hp] at this
        rw [Option.some.inj this, if_neg (by omega)]
        show Z.shiftLine zangle ((Pool.incRefs b s.pool).line b x y) z = _
        rw [line_incRefs]
      · have := hch.rest s.nfields x y z (Nat.lt_succ_self _) hx hy hz1 (Or.inr hzn)
        rw [hval, hp, value_eq_read _ s.nfields b _ hfn rfl] at this
        rw [Option.some.inj this, if_pos (Or.inr (by omega))]
        simp [State.push, Pool.read, incRefs_data]

/-! ## The shift in z there and back -/

theorem dcomplex.mul_back (v : dcomplex) (c s : ℚ) (h : c * c + s * s = 1) :
    (v.mul ⟨c, -s⟩).mul ⟨c, s⟩ = v := by
  refine dcomplex.eq_of _ _ ?_ ?_
  · show (v.re * c - v.im * -s) * c - (v.re * -s + v.im * c) * s = v.re
    have : (v.re * c - v.im * -s) * c - (v.re * -s + v.im * c) * s =
        v.re * (c * c + s * s) := by ring
    rw [this, h, mul_one]
  · show (v.re * c - v.im * -s) * s + (v.re * -s + v.im * c) * c = v.im
    have : (v.re * c - v.im * -s) * s + (v.re * -s + v.im * c) * c =
        v.im * (c * c + s * s) := by ring
    rw [this, h, mul_one]

/-- The shift by `-zangle` undoes the shift by `zangle` on the period, when `ncz` is odd
or the line has no component of the highest mode `ncz/2`. -/
theorem shiftLine_round_trip (Z : ZGrid) (hZ : Z.ExactDFT) (hL : Z.libm.Circular)
    (zangle : ℚ) (x : Nat → ℚ)
    (hny : Z.ncz % 2 = 0 → Z.rfft x Z.ncz (Z.ncz / 2) = ⟨0, 0⟩) (z : Nat) (hz : z < Z.ncz) :
    Z.shiftLine (-zangle) (Z.shiftLine zangle x) z = x z := by
  have hv0 : (phaseShift Z zangle (Z.rfft x Z.ncz) 0).im = 0 := by
    rw [phaseShift_apply, if_neg (by omega)]
    exact hZ.dc_real x
  have hspec : ∀ k, k ≤ Z.ncz / 2 →
      Z.rfft (Z.shiftLine zangle x) Z.ncz k = phaseShift Z zangle (Z.rfft x Z.ncz) k := by
    intro k hk
    have h1 : ∀ z, z < Z.ncz → Z.shiftLine zangle x z =
        Z.irfft (phaseShift Z zangle (Z.rfft x Z.ncz)) Z.ncz z := by
      intro z hz
      rw [ZGrid.shiftLine, if_pos hz]
    rw [hZ.rfft_reads _ _ h1 k hk]
    refine hZ.fwd_inv _ hv0 (fun h => ?_) k hk
    rw [phaseShift_apply, hny h]
    by_cases hc : 1 ≤ Z.ncz / 2 ∧ Z.ncz / 2 ≤ Z.ncz / 2
    · rw [if_pos hc]
      simp [dcomplex.mul]
    · rw [if_neg hc]
  have hback : ∀ k, k ≤ Z.ncz / 2 →
      phaseShift Z (-zangle) (Z.rfft (Z.shiftLine zangle x) Z.ncz) k = Z.rfft x Z.ncz k := by
    intro k hk
    rw [phaseShift_apply, hspec k hk, phaseShift_apply]
    by_cases hc : 1 ≤ k ∧ k ≤ Z.ncz / 2
    · rw [if_pos hc, if_pos hc]
      have ha : (k : ℚ) * 2 * Z.PI / Z.zlength * -zangle =
          -((k : ℚ) * 2 * Z.PI / Z.zlength * zangle) := by ring
      rw [ha, hL.cos_neg, hL.sin_neg, neg_neg]
      exact dcomplex.mul_back _ _ _ (hL.unit _)
    · rw [if_neg hc, if_neg hc]
  rw [ZGrid.shiftLine, if_pos hz, hZ.irfft_reads _ _ hback z hz]
  exact hZ.inv_fwd x z hz

/-- Two calls of `ShiftZ` in a row, the second on the result of the first. -/
theorem ShiftZ_twice (Z : ZGrid) (hZ : Z.ExactDFT) (elide : Bool) (a1 a2 : ℚ) (s : State)
    (hs : Inv s) (k b : Nat) (f : Field3D) (hf : s.field k = some f) (hb : f.block = some b)
    (hn : 0 < Z.ncz) (hz : Z.ncz < Z.ngz) :
    ∃ r1 q1 r2 q2 rb2, f.ShiftZ Z elide a1 s.pool = some (r1, q1) ∧
      r1.ShiftZ Z elide a2 q1 = some (r2, q2) ∧ r2.block = some rb2 ∧
      ∀ x y z, x < Z.ngx → y < Z.ngy → z < Z.ngz →
        q2.read rb2 x y z =
          if Z.ncz = 1 ∨ Z.ncz < z then s.pool.read b x y z
          else Z.shiftLine a2 (Z.shiftLine a1 (s.pool.line b x y)) z := by
  obtain ⟨r1, q1, rb1, h1, hb1, hinv1, _, hv1⟩ :=
    ShiftZ_values Z hZ elide a1 s hs k b f hf hb hn hz
  have hf1 : (s.push r1 q1).field s.nfields = some r1 := by
    simp [State.field, State.push]
  obtain ⟨r2, q2, rb2, h2, hb2, _, _, hv2⟩ :=
    ShiftZ_values Z hZ elide a2 (s.push r1 q1) hinv1 s.nfields rb1 r1 hf1 hb1 hn hz
  refine ⟨r1, q1, r2, q2, rb2, h1, h2, hb2, fun x y z hx hy hz1 => ?_⟩
  have hp : ∀ z, (s.push r1 q1).pool.read rb1 x y z = q1.read rb1 x y z := fun _ => rfl
  rw [hv2 x y z hx hy hz1]
  by_cases hc : Z.ncz = 1 ∨ Z.ncz < z
  · rw [if_pos hc, if_pos hc, hp, hv1 x y z hx hy hz1, if_pos hc]
  · rw [if_neg hc, if_neg hc]
    refine shiftLine_congr Z hZ hn a2 _ _ (fun z2 hz2 => ?_) z
    show q1.read rb1 x y z2 = _
    rw [hv1 x y z2 hx hy (by omega), if_neg (by omega)]

/-- C22 (amended): with `rfft` and `irfft` the exact transform pair, `cos` even, `sin`
odd and `cos^2 + sin^2 = 1`, for an object `f` with data and every angle `a`, when the
number `ncz` of points in the period is odd, or is even and no line of `f` has a
component of the highest mode `ncz/2`, `f.ShiftZ(a).ShiftZ(-a)` holds the value of `f`
at every grid point with `z < ncz`; at the point `z = ncz` it holds the value of `f` at
`z = 0` when `ncz` is not 1. -/
theorem shiftz_round_trip_period (Z : ZGrid) (hZ : Z.ExactDFT) (hL : Z.libm.Circular)
    (hn : 0 < Z.ncz) (hz : Z.ncz < Z.ngz) (elide : Bool) (zangle : ℚ) (s : State)
    (hs : Inv s) (k b : Nat) (f : Field3D) (hf : s.field k = some f)
    (hb : f.block = some b)
    (hny : Z.ncz % 2 = 0 → ∀ x y, x < Z.ngx → y < Z.ngy →
      Z.rfft (s.pool.line b x y) Z.ncz (Z.ncz / 2) = ⟨0, 0⟩) :
    ∃ r1 q1 r2 q2 rb2, f.ShiftZ Z elide zangle s.pool = some (r1, q1) ∧
      r1.ShiftZ Z elide (-zangle) q1 = some (r2, q2) ∧ r2.block = some rb2 ∧
      ∀ x y, x < Z.ngx → y < Z.ngy →
        (∀ z, z < Z.ncz → q2.read rb2 x y z = s.pool.read b x y z) ∧
        (Z.ncz ≠ 1 → q2.read rb2 x y Z.ncz = s.pool.read b x y 0) := by
  obtain ⟨r1, q1, r2, q2, rb2, h1, h2, hb2, hv⟩ :=
    ShiftZ_twice Z hZ elide zangle (-zangle) s hs k b f hf hb hn hz
  refine ⟨r1, q1, r2, q2, rb2, h1, h2, hb2, fun x y hx hy => ⟨fun z hzn => ?_, fun hn1 => ?_⟩⟩
  · rw [hv x y z hx hy (by omega)]
    by_cases hc : Z.ncz = 1 ∨ Z.ncz < z
    · rw [if_pos hc]
    · rw [if_neg hc,
        shiftLine_round_trip Z hZ hL zangle _ (fun h => hny h x y hx hy) z hzn]
      rfl
  · rw [hv x y Z.ncz hx hy hz, if_neg (by omega)]
    have h0 := shiftLine_round_trip Z hZ hL zangle (s.pool.line b x y)
      (fun h => hny h x y hx hy) 0 hn
    rw [ZGrid.shiftLine, if_pos hn] at h0
    rw [ZGrid.shiftLine, if_neg (by omega), h0]
    rfl

theorem shiftz_round_trip_period_witness :
    ∃ r1 q1 r2 q2 rb2,
      Field3D.ShiftZ (sampleZ 1 1 4 3) true ⟨some 0, CELL_LOC.CELL_CENTRE⟩ 2
        (lineState 4 3).pool = some (r1, q1) ∧
      r1.ShiftZ (sampleZ 1 1 4 3) true (-2) q1 = some (r2, q2) ∧ r2.block = some rb2 ∧
      q2.read rb2 0 0 1 = 3 := by
  obtain ⟨r1, q1, r2, q2, rb2, h1, h2, h3, h4⟩ := shiftz_round_trip_period (sampleZ 1 1 4 3)
    (sampleZ_exact3 1 1 4) sampleLibm_circular (by decide) (by decide) true 2 (lineState 4 3)
    (lineState_ok 4 3).1 0 0 ⟨some 0, CELL_LOC.CELL_CENTRE⟩ (lineState_ok 4 3).2.1 rfl
    (fun h => absurd h (by decide))
  refine ⟨r1, q1, r2, q2, rb2, h1, h2, h3, ?_⟩
  rw [(h4 0 0 (by decide) (by decide)).1 1 (by decide), (lineState_ok 4 3).2.2 1]
  norm_num

/-- The shifted line on the sample grid with two points in the period: the mode 1 is
the highest mode, and the inverse transform keeps the real part of its coefficient. -/
theorem shiftLine_two (ngx ngy ngz : Nat) (zangle : ℚ) (x : Nat → ℚ) (z : Nat) :
    (sampleZ ngx ngy ngz 2).shiftLine zangle x z =
      if z = 1 then (x 0 + x 1 - (x 0 - x 1) * sampleLibm.cos zangle) / 2
      else (x 0 + x 1 + (x 0 - x 1) * sampleLibm.cos zangle) / 2 := by
  have hk : ((1 : Nat) : ℚ) * 2 * (sampleZ ngx ngy ngz 2).PI / (sampleZ ngx ngy ngz 2).zlength *
      zangle = zangle := by
    show ((1 : Nat) : ℚ) * 2 * (355 / 113) / (2 * (355 / 113)) * zangle = zangle
    norm_num
  have h0 : phaseShift (sampleZ ngx ngy ngz 2) zangle
      ((sampleZ ngx ngy ngz 2).rfft x (sampleZ ngx ngy ngz 2).ncz) 0 = ⟨x 0 + x 1, 0⟩ := by
    rw [phaseShift_apply, if_neg (by omega)]
    rfl
  have h1 : (phaseShift (sampleZ ngx ngy ngz 2) zangle
      ((sampleZ ngx ngy ngz 2).rfft x (sampleZ ngx ngy ngz 2).ncz) 1).re =
        (x 0 - x 1) * sampleLibm.cos zangle := by
    rw [phaseShift_apply,
      if_pos (show 1 ≤ 1 ∧ 1 ≤ (sampleZ ngx ngy ngz 2).ncz / 2 from
        ⟨Nat.le_refl 1, by show 1 ≤ 2 / 2; decide⟩), hk]
    show (x 0 - x 1) * sampleLibm.cos zangle - 0 * -sampleLibm.sin zangle = _
    ring
  unfold ZGrid.shiftLine
  by_cases hz : z < (sampleZ ngx ngy ngz 2).ncz
  · rw [if_pos hz]
    have hz2 : z < 2 := hz
    interval_cases z
    · show ((phaseShift _ zangle _ 0).re + (phaseShift _ zangle _ 1).re) / 2 = _
      rw [h0, h1, if_neg (by decide)]
    · show ((phaseShift _ zangle _ 0).re - (phaseShift _ zangle _ 1).re) / 2 = _
      rw [h0, h1, if_pos rfl]
  · rw [if_neg hz]
    have hz2 : ¬ z < 2 := hz
    show ((phaseShift _ zangle _ 0).re + (phaseShift _ zangle _ 1).re) / 2 = _
    rw [h0, h1, if_neg (by omega)]

/-- C22 (as stated) fails.  On the grid of one line of 3 points in z with `ncz = 2` and
the exact transform pair of length 2, for the field with the values 1, 3, 5 along z:
with the angle 0 the point `z = 2 = ncz` ends with 1, the value at `z = 0`, and not
with 5; with the angle 2, a quarter turn of mode 1, the coefficient of the highest mode
is turned onto the imaginary axis, which the inverse transform of a real line does not
read, and the point `z = 0` ends with 2 and not with 1. -/
theorem shiftz_round_trip_counterexample :
    (sampleZ 1 1 3 2).ExactDFT ∧ sampleLibm.Circular ∧
    (sampleZ 1 1 3 2).ngz = (sampleZ 1 1 3 2).ncz + 1 ∧
    (∃ r1 q1 r2 q2 rb2,
      Field3D.ShiftZ (sampleZ 1 1 3 2) true ⟨some 0, CELL_LOC.CELL_CENTRE⟩ 0
        (lineState 3 2).pool = some (r1, q1) ∧
      r1.ShiftZ (sampleZ 1 1 3 2) true (-0) q1 = some (r2, q2) ∧ r2.block = some rb2 ∧
      q2.read rb2 0 0 2 = 1 ∧ (lineState 3 2).pool.read 0 0 0 2 = 5) ∧
    ∃ r1 q1 r2 q2 rb2,
      Field3D.ShiftZ (sampleZ 1 1 3 2) true ⟨some 0, CELL_LOC.CELL_CENTRE⟩ 2
        (lineState 3 2).pool = some (r1, q1) ∧
      r1.ShiftZ (sampleZ 1 1 3 2) true (-2) q1 = some (r2, q2) ∧ r2.block = some rb2 ∧
      q2.read rb2 0 0 0 = 2 ∧ (lineState 3 2).pool.read 0 0 0 0 = 1 := by
  have hx : ∀ z : Nat, (lineState 3 2).pool.line 0 0 0 z = 2 * (z : ℚ) + 1 :=
    (lineState_ok 3 2).2.2
  have hcos0 : sampleLibm.cos 0 = 1 := by simp [sampleLibm]
  have hcos2 : sampleLibm.cos 2 = 0 := by simp [sampleLibm]
  have hcosm : sampleLibm.cos (-2) = 0 := by
    rw [sampleLibm_circular.cos_neg]; exact hcos2
  refine ⟨sampleZ_exact2 1 1 3, sampleLibm_circular, rfl, ?_, ?_⟩
  · obtain ⟨r1, q1, r2, q2, rb2, h1, h2, h3, hv⟩ := ShiftZ_twice (sampleZ 1 1 3 2)
      (sampleZ_exact2 1 1 3) true 0 (-0) (lineState 3 2) (lineState_ok 3 2).1 0 0
      ⟨some 0, CELL_LOC.CELL_CENTRE⟩ (lineState_ok 3 2).2.1 rfl (by decide) (by decide)
    refine ⟨r1, q1, r2, q2, rb2, h1, h2, h3, ?_, ?_⟩
    · have hc : ¬ ((sampleZ 1 1 3 2).ncz = 1 ∨ (sampleZ 1 1 3 2).ncz < 2) := by decide
      rw [hv 0 0 2 (by decide) (by decide) (by decide), if_neg hc, shiftLine_two,
        if_neg (by decide), shiftLine_two, if_neg (by decide), shiftLine_two, if_pos rfl,
        neg_zero, hcos0, hx 0, hx 1]
      norm_num
    · rw [(lineState_ok 3 2).2.2 2]
      norm_num
  · obtain ⟨r1, q1, r2, q2, rb2, h1, h2, h3, hv⟩ := ShiftZ_twice (sampleZ 1 1 3 2)
      (sampleZ_exact2 1 1 3) true 2 (-2) (lineState 3 2) (lineState_ok 3 2).1 0 0
      ⟨some 0, CELL_LOC.CELL_CENTRE⟩ (lineState_ok 3 2).2.1 rfl (by decide) (by decide)
    refine ⟨r1, q1, r2, q2, rb2, h1, h2, h3, ?_, ?_⟩
    · have hc : ¬ ((sampleZ 1 1 3 2).ncz = 1 ∨ (sampleZ 1 1 3 2).ncz < 0) := by decide
      rw [hv 0 0 0 (by decide) (by decide) (by decide), if_neg hc, shiftLine_two,
        if_neg (by decide), shiftLine_two, if_neg (by decide), shiftLine_two, if_pos rfl,
        hcosm, hcos2, hx 0, hx 1]
      norm_num
    · rw [(lineState_ok 3 2).2.2 0]
      norm_num

/-! ## The lookups by label -/

/-- The loop over `BndryNameTable` does not end: its first entry is not `BNDRY_NULL`
and the counter stays at 0. -/
theorem nameLoop_none : ∀ fuel : Nat, nameLoop fuel 0 = none := by
  intro fuel
  induction fuel with
  | zero => rfl
  | succ n ih =>
      show (if BNDRY_TYPE.BNDRY_Z ≠ BNDRY_TYPE.BNDRY_NULL then nameLoop n 0
        else some BNDRY_TYPE.BNDRY_NULL) = none
      rw [if_pos (by decide)]
      exact ih

/-- A label that is not empty sends `BndryLookup3D` into the loop that does not
end. -/
theorem BndryLookup3D_label_none (fuel : Nat) (table : List BndryLookup) (label : String)
    (h : label ≠ "") : BndryLookup3D_label fuel table (some label) false = none := by
  unfold BndryLookup3D_label
  simp only [if_neg h]
  exact nameLoop_none fuel

/-- C31 (evaluation of the code): `BndryNameTable` pairs the label `"ZERO"` with
`BNDRY_Z` and `"ZERO_GRAD"` with `BNDRY_ZERO_GRAD`, but
`BndryLookup2D(table, label)` returns `BNDRY_NULL` for every table and every label. -/
theorem label_lookup_2d_returns_null :
    BndryNameTable.typeOf "ZERO" = some BNDRY_TYPE.BNDRY_Z ∧
      BndryNameTable.typeOf "ZERO_GRAD" = some BNDRY_TYPE.BNDRY_ZERO_GRAD ∧
      BndryLookup2D_label InnerBndryTable (some "ZERO") false = BNDRY_TYPE.BNDRY_NULL ∧
      BndryLookup2D_label InnerBndryTable (some "ZERO_GRAD") false = BNDRY_TYPE.BNDRY_NULL ∧
      ∀ table label dummy, BndryLookup2D_label table label dummy = BNDRY_TYPE.BNDRY_NULL :=
  ⟨by decide, by decide, rfl, rfl, fun _ _ _ => rfl⟩

/-- C32 (evaluation of the code): for the labels `"ZERO"` and `"ZERO_GRAD"`, which are
not empty, `BndryLookup3D(table, label)` has not returned after any number of rounds of
its loop; for a null and for an empty label it returns the type of the first entry of
the table. -/
theorem label_lookup_3d_never_returns :
    (∀ fuel, BndryLookup3D_label fuel InnerBndryTable (some "ZERO") false = none) ∧
      (∀ fuel, BndryLookup3D_label fuel InnerBndryTable (some "ZERO_GRAD") false = none) ∧
      ∀ fuel, BndryLookup3D_label fuel InnerBndryTable none false =
          some BNDRY_TYPE.BNDRY_Z ∧
        BndryLookup3D_label fuel InnerBndryTable (some "") false =
          some BNDRY_TYPE.BNDRY_Z :=
  ⟨fun fuel => BndryLookup3D_label_none fuel _ _ (by decide),
    fun fuel => BndryLookup3D_label_none fuel _ _ (by decide), fun _ => ⟨rfl, rfl⟩⟩

/-! ## The code at further inputs where it leaves its specification -/

/-- C33 (evaluation of the code): on the rank that owns the outer edge
(`PE_XIND = NXPE - 1 = 1`), on a 2 x 2 x 2 grid with `MXG = MYG = 1`, so that
`ncx - MXG = 0`, and no neighbour in y, with `var = 2.0`, `F_var = 3.0` and
`tconst = 1`, the call `BndryRelax(var, F_var, 1.0, bndry_inner_zero, OUTER_X)` stores
the rate 0 in `F_var` at the point `(0, 1, 0)` of the plane `x = 0`, which is no
outer-X guard plane; so does the `Field2D` overload at `(0, 1)`.  The call for
`INNER_X`, whose case ends with `break`, does not run into the next case: it leaves
`F_var` at 3 in the plane `x = 1`. -/
theorem outer_relax_runs_into_upper :
    outerMesh.ncx - outerMesh.MXG = 0 ∧
      (∃ t u, BndryRelax outerMesh 0 1 1 (bndry_inner_zero outerMesh) OUTER_X sampleState =
          some t ∧
        BndryRelax outerMesh 0 1 1 (bndry_inner_zero outerMesh) INNER_X sampleState =
          some u ∧
        sampleState.value 1 0 1 0 = some 3 ∧ t.value 1 0 1 0 = some 0 ∧
        u.value 1 1 0 0 = some 3) ∧
      ∃ t u, BndryRelax_2d outerMesh (Field2D.const 2) (Field2D.const 3) 1
          (bndry_inner_zero_2d outerMesh) OUTER_X = some t ∧
        BndryRelax_2d outerMesh (Field2D.const 2) (Field2D.const 3) 1
          (bndry_inner_zero_2d outerMesh) INNER_X = some u ∧
        t.2.get outerMesh.toGlobals 0 1 = some 0 ∧
        u.2.get outerMesh.toGlobals 1 0 = some 3 := by
  refine ⟨rfl, ⟨_, _, rfl, rfl, rfl, ?_, rfl⟩, ⟨_, _, rfl, rfl, ?_, rfl⟩⟩
  · show some (((2 : ℚ) - 2) / 1) = some 0
    norm_num
  · show some (((2 : ℚ) - 2) / 1) = some 0
    norm_num

/-- C34 (evaluation of the code): on a 2 x 2 x 2 grid with `MYG = 1`, so that
`ngy - MYG = 1`, and no neighbour in y, `bndry_yup_zero` applied to a field of 2.0
stores 0 at the point `(0, 0, 0)` of the row `jy = 0 = ngy - MYG - 1`, which is no
upper guard row; so does the `Field2D` overload at `(0, 0)`.  `bndry_ydown_zero`
leaves the row `jy = 1 = MYG` at 2. -/
theorem yup_zero_clears_interior_row :
    (outerMesh.ngy : Int) - outerMesh.MYG = 1 ∧
      (∃ t u, bndry_yup_zero outerMesh 0 sampleState = some t ∧
        bndry_ydown_zero outerMesh 0 sampleState = some u ∧
        sampleState.value 0 0 0 0 = some 2 ∧ t.value 0 0 0 0 = some 0 ∧
        u.value 0 0 1 0 = some 2) ∧
      ∃ t u, bndry_yup_zero_2d outerMesh (Field2D.const 2) = some t ∧
        bndry_ydown_zero_2d outerMesh (Field2D.const 2) = some u ∧
        t.get outerMesh.toGlobals 0 0 = some 0 ∧ u.get outerMesh.toGlobals 0 1 = some 2 :=
  ⟨rfl, ⟨_, _, rfl, rfl, rfl, rfl, rfl⟩, ⟨_, _, rfl, rfl, rfl, rfl⟩⟩

/-! ## The zero-gradient inner boundary -/

/-- Three nested loops that copy to every point they visit the value of the plane
`src` at the same `y` and `z`. -/
theorem flat_loops (M : Mesh) (s0 : State) (k : Nat) (hd0 : s0.hasData k) (src : Int)
    (hsrc : 0 ≤ src ∧ src < M.ngx) (xs ys zs : List Int)
    (hxs : ∀ j, j ∈ xs → 0 ≤ j ∧ j < M.ngx) (hys : ∀ j, j ∈ ys → 0 ≤ j ∧ j < M.ngy)
    (hzs : ∀ j, j ∈ zs → 0 ≤ j ∧ j < M.ngz)
    (D : Nat → Nat → Nat → Prop) (s : State)
    (h : Changed M.toGlobals s0 k D (fun _ y z => (s0.value k src.toNat y z).getD 0) s) :
    ∃ t, forEachM xs (fun jx => forEachM ys (fun jy => forEachM zs (fun jz =>
        State.copyElem M k jx jy jz src jy jz))) s = some t ∧
      Changed M.toGlobals s0 k
        (fun x y z => D x y z ∨ ((x : Int) ∈ xs ∧ (y : Int) ∈ ys ∧ (z : Int) ∈ zs))
        (fun _ y z => (s0.value k src.toNat y z).getD 0) t := by
  refine loops_changed M.toGlobals s0 k _ xs ys zs _ ?_ D s h
  intro jx hjx jy hjy jz hjz D1 s1 h1
  obtain ⟨f, b, hf, hb⟩ := h1.hasData k hd0
  obtain ⟨t, hg, hgc⟩ := getElem_same M s1 h1.inv k f b hf hb src jy jz hsrc (hys jy hjy)
    (hzs jz hjz)
  have h2 := h1.then_same (hgc (fun _ y z => (s0.value k src.toNat y z).getD 0))
  obtain ⟨f2, b2, hf2, hb2⟩ := h2.hasData k hd0
  obtain ⟨u, hu, huc⟩ := setElem_changed M t h2.inv k f2 b2 hf2 hb2 jx jy jz (hxs jx hjx)
    (hys jy hjy) (hzs jz hjz) (s1.pool.read b src.toNat jy.toNat jz.toNat)
  have hy := hys jy hjy
  have hz := hzs jz hjz
  have hval : s1.pool.read b src.toNat jy.toNat jz.toNat =
      (s0.value k src.toNat jy.toNat jz.toNat).getD 0 := by
    have hv1 := value_eq_read s1 k b f hf hb src.toNat jy.toNat jz.toNat
    by_cases hD : D1 src.toNat jy.toNat jz.toNat
    · have := h1.here src.toNat jy.toNat jz.toNat (by omega) (by omega) (by omega) hD
      rw [hv1] at this
      exact Option.some.inj this
    · have := h1.rest k src.toNat jy.toNat jz.toNat (hasData_lt hd0) (by omega) (by omega)
        (by omega) (Or.inr hD)
      rw [hv1] at this
      rw [← this]
      rfl
  refine ⟨u, ?_, h2.trans huc (fun x y z _ _ _ he => ?_)⟩
  · unfold State.copyElem
    rw [hg]
    exact hu
  · obtain ⟨_, hy2, hz2⟩ := he
    have e1 : y = jy.toNat := by omega
    have e2 : z = jz.toNat := by omega
    rw [hval, e1, e2]

/-- The `Field3D` function `bndry_inner_flat` on the rank with `PE_XIND = 0` and
`ShiftXderivs` off. -/
theorem inner_flat_3d (M : Mesh) (hpe : M.PE_XIND = 0) (hsx : M.ShiftXderivs = false)
    (hm0 : 0 ≤ M.MXG) (hm : M.MXG < M.ngx) (s : State) (hs : Inv s) (k : Nat)
    (hd : s.hasData k) :
    ∃ t, bndry_inner_flat M k s = some t ∧ Inv t ∧
      (∀ x y z, x < M.ngx → y < M.ngy → z < M.ngz → (x : Int) < M.MXG →
        t.value k x y z = s.value k M.MXG.toNat y z) ∧
      (∀ x y z, x < M.ngx → y < M.ngy → z < M.ngz → M.MXG ≤ (x : Int) →
        t.value k x y z = s.value k x y z) ∧
      ∀ j x y z, j ≠ k → j < s.nfields → x < M.ngx → y < M.ngy → z < M.ngz →
        t.value j x y z = s.value j x y z := by
  obtain ⟨t, ht, hc⟩ := flat_loops M s k hd M.MXG ⟨hm0, hm⟩ (downTo (M.MXG - 1) (-1))
    (upTo 0 M.ngy) (upTo 0 M.ngz)
    (fun j hj => by rw [mem_downTo] at hj; omega) (fun j hj => by rw [mem_upTo] at hj; omega)
    (fun j hj => by rw [mem_upTo] at hj; omega) _ s (Changed.refl M.toGlobals s hs k _)
  have hk : k < s.nfields := hasData_lt hd
  refine ⟨t, ?_, hc.inv, ?_, ?_, ?_⟩
  · unfold bndry_inner_flat
    rw [if_neg (by rw [hpe]; simp)]
    simp only [hsx, Bool.false_eq_true, if_false]
    rw [ht]
  · intro x y z hx hy hz hlt
    rw [hc.here x y z hx hy hz (Or.inr (by simp only [mem_upTo, mem_downTo]; omega))]
    exact (value_of_hasData hd M.MXG.toNat y z).symm
  · intro x y z hx hy hz hge
    refine hc.rest k x y z hk hx hy hz (Or.inr ?_)
    simp only [mem_upTo, mem_downTo]
    rintro (h | h)
    · exact h
    · omega
  · intro j x y z hjk hj hx hy hz
    exact hc.rest j x y z hj hx hy hz (Or.inl hjk)

theorem upTo_succ (m : Nat) : upTo 0 ((m : Int) + 1) = upTo 0 m ++ [(m : Int)] := by
  unfold upTo
  have h1 : ((m : Int) + 1 - 0).toNat = m + 1 := by omega
  have h2 : ((m : Int) - 0).toNat = m := by omega
  rw [h1, h2, List.range_succ, List.map_append]
  simp

theorem downTo_cons (a b : Int) (h : b < a) : downTo a b = a :: downTo (a - 1) b := by
  unfold downTo
  obtain ⟨n, hn⟩ : ∃ n : Nat, (a - b).toNat = n + 1 := ⟨(a - b).toNat - 1, by omega⟩
  have h2 : (a - 1 - b).toNat = n := by omega
  rw [hn, h2, List.range_succ_eq_map, List.map_cons, List.map_map]
  simp only [Nat.cast_zero, sub_zero, List.cons.injEq, true_and]
  refine List.map_congr_left (fun i _ => ?_)
  simp only [Function.comp, Nat.succ_eq_add_one, Nat.cast_add, Nat.cast_one]
  omega

theorem forEachM_append {S : Type} (body : Int → S → Option S) (l1 l2 : List Int) (s : S) :
    forEachM (l1 ++ l2) body s = (forEachM l1 body s).bind (forEachM l2 body) := by
  induction l1 generalizing s with
  | nil => rfl
  | cons j l ih =>
      simp only [List.cons_append, forEachM]
      cases body j s with
      | none => rfl
      | some t => exact ih t

/-- One row loop of the `Field2D` function: the first `m` points of the plane `jx` take
the values of the plane `src`. -/
theorem row_copy_2d (G : Globals) (jx src : Int) (hx : 0 ≤ jx ∧ jx < G.ngx)
    (hsr : 0 ≤ src ∧ src < G.ngx) (hne : src ≠ jx) (d : Nat → Nat → ℚ) :
    ∀ m : Nat, m ≤ G.ngy →
      ∃ d2, forEachM (upTo 0 m) (fun jy => Field2D.copyElem G jx jy src jy) ⟨some d⟩ =
          some ⟨some d2⟩ ∧
        ∀ x y, d2 x y = if x = jx.toNat ∧ y < m then d src.toNat y else d x y := by
  intro m
  induction m with
  | zero =>
      intro _
      exact ⟨d, rfl, fun x y => by rw [if_neg (by omega)]⟩
  | succ m ih =>
      intro hm
      obtain ⟨d1, h1, hv1⟩ := ih (by omega)
      have hcast : ((m + 1 : Nat) : Int) = (m : Int) + 1 := by push_cast; ring
      rw [hcast, upTo_succ, forEachM_append, h1]
      have hidx : 0 ≤ src ∧ src < G.ngx ∧ 0 ≤ (m : Int) ∧ (m : Int) < G.ngy := by omega
      have hidx2 : 0 ≤ jx ∧ jx < G.ngx ∧ 0 ≤ (m : Int) ∧ (m : Int) < G.ngy := by omega
      refine ⟨fun x y => if x = jx.toNat ∧ y = ((m : Int)).toNat then
        d1 src.toNat ((m : Int)).toNat else d1 x y, ?_, fun x y => ?_⟩
      · simp only [Option.some_bind, forEachM, Field2D.copyElem, Field2D.get, Field2D.set,
          if_pos hidx, if_pos hidx2]
      · simp only [Int.toNat_ofNat]
        rw [hv1, hv1]
        have hs : src.toNat ≠ jx.toNat := by omega
        by_cases hp : x = jx.toNat ∧ y = m
        · obtain ⟨rfl, rfl⟩ := hp
          simp [hs]
        · rw [if_neg hp]
          by_cases hq : x = jx.toNat ∧ y < m
          · rw [if_pos hq, if_pos ⟨hq.1, by omega⟩]
          · rw [if_neg hq, if_neg (fun hc => by
              obtain ⟨hc1, hc2⟩ := hc
              by_cases hym : y = m
              · exact hp ⟨hc1, hym⟩
              · exact hq ⟨hc1, by omega⟩)]

/-- The loops of the `Field2D` function `bndry_inner_flat` for the planes below `n`:
the copies chain, and every plane ends with the values of the plane `n`. -/
theorem flat_chain_2d (G : Globals) :
    ∀ n : Nat, n < G.ngx → ∀ d : Nat → Nat → ℚ,
      ∃ d2, forEachM (downTo ((n : Int) - 1) (-1)) (fun jx =>
          forEachM (upTo 0 G.ngy) (fun jy => Field2D.copyElem G jx jy (jx + 1) jy)) ⟨some d⟩ =
          some ⟨some d2⟩ ∧
        ∀ x y, d2 x y = if x < n ∧ y < G.ngy then d n y else d x y := by
  intro n
  induction n with
  | zero =>
      intro _ d
      exact ⟨d, rfl, fun x y => by rw [if_neg (by omega)]⟩
  | succ n ih =>
      intro hn d
      have hcast : ((n + 1 : Nat) : Int) - 1 = (n : Int) := by push_cast; ring
      rw [hcast, downTo_cons (n : Int) (-1) (by omega)]
      obtain ⟨d1, h1, hv1⟩ := row_copy_2d G (n : Int) ((n : Int) + 1) (by omega) (by omega)
        (by omega) d G.ngy (Nat.le_refl _)
      obtain ⟨d2, h2, hv2⟩ := ih (by omega) d1
      refine ⟨d2, ?_, fun x y => ?_⟩
      · simp only [forEachM]
        rw [h1]
        exact h2
      · rw [hv2, hv1, hv1]
        have e1 : ((n : Int) + 1).toNat = n + 1 := by omega
        have e2 : ((n : Int)).toNat = n := by omega
        rw [e1, e2]
        by_cases hp : x < n ∧ y < G.ngy
        · rw [if_pos hp, if_pos ⟨rfl, hp.2⟩, if_pos ⟨by omega, hp.2⟩]
        · rw [if_neg hp]
          by_cases hq : x = n ∧ y < G.ngy
          · rw [if_pos hq, if_pos ⟨by omega, hq.2⟩]
          · rw [if_neg hq, if_neg (fun hc => by
              obtain ⟨hc1, hc2⟩ := hc
              by_cases hxn : x = n
              · exact hq ⟨hxn, hc2⟩
              · exact hp ⟨by omega, hc2⟩)]

/-- C36: on the rank with `PE_XIND = 0` and with `0 <= MXG < ngx`, the `Field2D`
function `bndry_inner_flat` (for a field with data) and the `Field3D` function with
`ShiftXderivs` off (for an object with data) return; afterwards the field holds at
every grid point with `x < MXG` the value it held at the plane `MXG` at the same `y`
(and `z`), and at every grid point with `x >= MXG` the value it held before; the
other objects are unchanged. -/
theorem inner_flat_copies_plane (M : Mesh) (hpe : M.PE_XIND = 0) (hm0 : 0 ≤ M.MXG)
    (hm : M.MXG < M.ngx) :
    (∀ d : Nat → Nat → ℚ, ∃ d2, bndry_inner_flat_2d M ⟨some d⟩ = some ⟨some d2⟩ ∧
      ∀ x y, x < M.ngx → y < M.ngy →
        ((x : Int) < M.MXG → d2 x y = d M.MXG.toNat y) ∧ (M.MXG ≤ (x : Int) → d2 x y = d x y)) ∧
    (M.ShiftXderivs = false → ∀ (s : State) (k : Nat), Inv s → s.hasData k →
      ∃ t, bndry_inner_flat M k s = some t ∧ Inv t ∧
        (∀ x y z, x < M.ngx → y < M.ngy → z < M.ngz → (x : Int) < M.MXG →
          t.value k x y z = s.value k M.MXG.toNat y z) ∧
        (∀ x y z, x < M.ngx → y < M.ngy → z < M.ngz → M.MXG ≤ (x : Int) →
          t.value k x y z = s.value k x y z) ∧
        ∀ j x y z, j ≠ k → j < s.nfields → x < M.ngx → y < M.ngy → z < M.ngz →
          t.value j x y z = s.value j x y z) := by
  constructor
  · intro d
    obtain ⟨d2, h2, hv2⟩ := flat_chain_2d M.toGlobals M.MXG.toNat (by omega) d
    have hc : ((M.MXG.toNat : Nat) : Int) = M.MXG := by omega
    rw [hc] at h2
    refine ⟨d2, ?_, fun x y hx hy => ⟨fun hlt => ?_, fun hge => ?_⟩⟩
    · unfold bndry_inner_flat_2d
      rw [if_neg (by rw [hpe]; simp)]
      exact h2
    · rw [hv2, if_pos ⟨by omega, hy⟩]
    · rw [hv2, if_neg (by omega)]
  · intro hsx s k hs hd
    exact inner_flat_3d M hpe hsx hm0 hm s hs k hd

theorem inner_flat_copies_plane_witness :
    ∃ t, bndry_inner_flat relaxMesh 0 sampleState = some t ∧
      t.value 0 0 1 1 = sampleState.value 0 1 1 1 := by
  obtain ⟨t, h1, _, h2, _⟩ := (inner_flat_copies_plane relaxMesh rfl (by decide)
    (by decide)).2 rfl sampleState 0 sampleState_inv ⟨_, 0, rfl, rfl⟩
  exact ⟨t, h1, h2 0 1 1 (by decide) (by decide) (by decide) (by decide)⟩

/-! ## The z indices of `interp_z` and its values on grid points -/

/-- A rounding to the nearest integer on the range of `int` leaves the integers of that
range where they are. -/
theorem round_of_int (ROUND : ℚ → Int)
    (hR : ∀ q : ℚ, |q| ≤ 2147483647 → |q - (ROUND q : ℚ)| ≤ 1 / 2)
    (k : Int) (hk : |k| ≤ 2147483647) : ROUND (k : ℚ) = k := by
  have hk2 : |(k : ℚ)| ≤ 2147483647 := by
    have h0 : ((|k| : Int) : ℚ) ≤ ((2147483647 : Int) : ℚ) := Int.cast_le.2 hk
    rw [Int.cast_abs] at h0
    exact_mod_cast h0
  by_contra hne
  have h1 : (1 : Int) ≤ |k - ROUND (k : ℚ)| := Int.one_le_abs (sub_ne_zero.2 (Ne.symm hne))
  have h2 : ((1 : Int) : ℚ) ≤ ((|k - ROUND (k : ℚ)| : Int) : ℚ) := by exact_mod_cast h1
  have h3 := hR (k : ℚ) hk2
  rw [Int.cast_abs, Int.cast_sub] at h2
  have h4 : ((1 : Int) : ℚ) = 1 := by norm_num
  rw [h4] at h2
  linarith

theorem interp_z_split_int (ROUND : ℚ → Int) (k : Int) (hk : ROUND (k : ℚ) = k)
    (hr : toInt32 k = k) (order : Int) : interp_z_split ROUND (k : ℚ) order = (k, 0) := by
  unfold interp_z_split
  rw [hk, hr, sub_self, if_neg (fun h => lt_irrefl _ h.1)]

theorem interp_z_switch_zero (G : Globals) (p : Pool) (b : Nat)
    (jx jy jz0 jzp jz2p jzm : Int) (order : Int)
    (hx : 0 ≤ jx ∧ jx < G.ngx) (hy : 0 ≤ jy ∧ jy < G.ngy) (h0 : 0 ≤ jz0 ∧ jz0 < G.ngz)
    (hp : 0 ≤ jzp ∧ jzp < G.ngz) (h2p : 0 ≤ jz2p ∧ jz2p < G.ngz)
    (hm : 0 ≤ jzm ∧ jzm < G.ngz) :
    interp_z_switch G p b jx jy jz0 jzp jz2p jzm 0 order =
      some (p.read b jx.toNat jy.toNat jz0.toNat) := by
  unfold interp_z_switch
  rw [readAt_some G p b jx jy jz0 hx hy h0, readAt_some G p b jx jy jzp hx hy hp,
    readAt_some G p b jx jy jz2p hx hy h2p, readAt_some G p b jx jy jzm hx hy hm]
  split_ifs
  · simp only [Option.bind_eq_bind, Option.some_bind, Option.pure_def]
    congr 1
    ring
  · simp only [Option.bind_eq_bind, Option.some_bind, Option.pure_def]
    congr 1
    ring
  · simp only [Option.bind_eq_bind, Option.some_bind, Option.pure_def]
    congr 1
    ring
  · rfl

/-- At an integer offset `k`, where `ROUND` gives `k` and both `k` and `jz0 + k` fit
the `int`, `interp_z` returns the stored value at the z index `(jz0 + k) mod ncz`,
whatever the order. -/
theorem interp_z_int (Z : ZGrid) (hn : 0 < Z.ncz) (hnz : Z.ncz ≤ Z.ngz) (k : Int)
    (hk : Z.ROUND (k : ℚ) = k) (hr : toInt32 k = k) (f : Field3D) (p : Pool) (b : Nat)
    (hb : f.block = some b) (jx jy jz0 : Int) (hj : toInt32 (jz0 + k) = jz0 + k)
    (order : Int) (hx : 0 ≤ jx ∧ jx < Z.ngx) (hy : 0 ≤ jy ∧ jy < Z.ngy) :
    f.interp_z Z p jx jy jz0 (k : ℚ) order =
      some (p.read b jx.toNat jy.toNat ((jz0 + k) % (Z.ncz : Int)).toNat) := by
  rw [interp_z_eq Z hn f p b hb jx jy jz0 (k : ℚ) order,
    interp_z_split_int Z.ROUND k hk hr order]
  simp only [hj]
  have hn2 : (0 : Int) < Z.ncz := by exact_mod_cast hn
  have hle : (Z.ncz : Int) ≤ Z.ngz := by exact_mod_cast hnz
  have hr : ∀ a : Int, 0 ≤ a % (Z.ncz : Int) ∧ a % (Z.ncz : Int) < Z.ngz := fun a =>
    ⟨Int.emod_nonneg _ (by omega), lt_of_lt_of_le (Int.emod_lt_of_pos _ hn2) hle⟩
  exact interp_z_switch_zero Z.toGlobals p b jx jy _ _ _ _ order hx hy (hr _) (hr _) (hr _)
    (hr _)

/-- `SetStencil` with `need_x`, `ShiftXderivs` set, the x offsets an integer `k` that
`ROUND` keeps, `k` and `jz + k` within the `int`, and indices inside the grid: the
stencil is the one that `SetStencil` gives without the shift at the `bindex` with `jz`
replaced by `(jz + k) mod ncz` in the x neighbours. -/
theorem SetStencil_int (Z : ZGrid) (hn : 0 < Z.ncz) (hnz : Z.ncz ≤ Z.ngz) (k : Int)
    (hk : Z.ROUND (k : ℚ) = k) (hr : toInt32 k = k) (hsx : Z.ShiftXderivs = true)
    (f : Field3D) (p : Pool)
    (b : Nat) (hb : f.block = some b) (fval : bstencil) (bx : bindex)
    (hj : toInt32 (bx.jz + k) = bx.jz + k)
    (hg : bx.inGrid Z.toGlobals) (h1 : bx.xp_offset = k) (h2 : bx.xm_offset = k)
    (h3 : bx.x2p_offset = k) (h4 : bx.x2m_offset = k) :
    ∃ yp ym y2p y2m,
      f.yNeighbour Z p b bx.yp_shift bx.jx bx.jyp bx.jz bx.yp_offset = some yp ∧
      f.yNeighbour Z p b bx.ym_shift bx.jx bx.jym bx.jz bx.ym_offset = some ym ∧
      f.yNeighbour Z p b bx.y2p_shift bx.jx bx.jy2p bx.jz bx.yp_offset = some y2p ∧
      f.yNeighbour Z p b bx.y2m_shift bx.jx bx.jy2m bx.jz bx.ym_offset = some y2m ∧
      f.SetStencil Z p fval bx true = some
        ⟨bx.jx, bx.jy, bx.jz, p.read b bx.jx.toNat bx.jy.toNat bx.jz.toNat,
          p.read b bx.jxp.toNat bx.jy.toNat ((bx.jz + k) % (Z.ncz : Int)).toNat,
          p.read b bx.jxm.toNat bx.jy.toNat ((bx.jz + k) % (Z.ncz : Int)).toNat,
          p.read b bx.jx2p.toNat bx.jy.toNat ((bx.jz + k) % (Z.ncz : Int)).toNat,
          p.read b bx.jx2m.toNat bx.jy.toNat ((bx.jz + k) % (Z.ncz : Int)).toNat,
          yp, ym, y2p, y2m,
          p.read b bx.jx.toNat bx.jy.toNat bx.jzp.toNat,
          p.read b bx.jx.toNat bx.jy.toNat bx.jzm.toNat,
          p.read b bx.jx.toNat bx.jy.toNat bx.jz2p.toNat,
          p.read b bx.jx.toNat bx.jy.toNat bx.jz2m.toNat⟩ := by
  obtain ⟨hx, hxp, hxm, hx2p, hx2m, hy, hyp, hym, hy2p, hy2m, hz, hzp, hzm, hz2p, hz2m⟩ := hg
  obtain ⟨v1, e1⟩ := yNeighbour_some Z hn hnz f p b hb bx.yp_shift bx.jx bx.jyp bx.jz
    bx.yp_offset hx hyp hz
  obtain ⟨v2, e2⟩ := yNeighbour_some Z hn hnz f p b hb bx.ym_shift bx.jx bx.jym bx.jz
    bx.ym_offset hx hym hz
  obtain ⟨v3, e3⟩ := yNeighbour_some Z hn hnz f p b hb bx.y2p_shift bx.jx bx.jy2p bx.jz
    bx.yp_offset hx hy2p hz
  obtain ⟨v4, e4⟩ := yNeighbour_some Z hn hnz f p b hb bx.y2m_shift bx.jx bx.jy2m bx.jz
    bx.ym_offset hx hy2m hz
  refine ⟨v1, v2, v3, v4, e1, e2, e3, e4, ?_⟩
  unfold Field3D.SetStencil
  rw [hb]
  simp only [Option.bind_eq_bind, Option.pure_def, if_true, hsx, h1, h2, h3, h4]
  rw [readAt_some Z.toGlobals p b _ _ _ hx hy hz,
    interp_z_int Z hn hnz k hk hr f p b hb bx.jxp bx.jy bx.jz hj Z.ShiftOrder hxp hy,
    interp_z_int Z hn hnz k hk hr f p b hb bx.jxm bx.jy bx.jz hj Z.ShiftOrder hxm hy,
    interp_z_int Z hn hnz k hk hr f p b hb bx.jx2p bx.jy bx.jz hj Z.ShiftOrder hx2p hy,
    interp_z_int Z hn hnz k hk hr f p b hb bx.jx2m bx.jy bx.jz hj Z.ShiftOrder hx2m hy,
    e1, e2, e3, e4,
    readAt_some Z.toGlobals p b _ _ _ hx hy hzp, readAt_some Z.toGlobals p b _ _ _ hx hy hzm,
    readAt_some Z.toGlobals p b _ _ _ hx hy hz2p, readAt_some Z.toGlobals p b _ _ _ hx hy hz2m]
  rfl

/-- `SetXStencil` for `CELL_DEFAULT` with `ShiftXderivs` set, a non-zero `ShiftOrder`,
the x offsets an integer `k` that `ROUND` keeps, `k` and `jz + k` within the `int`, and
indices inside the grid. -/
theorem SetXStencil_int (Z : ZGrid) (hn : 0 < Z.ncz) (hnz : Z.ncz ≤ Z.ngz) (k : Int)
    (hk : Z.ROUND (k : ℚ) = k) (hr : toInt32 k = k) (hsx : Z.ShiftXderivs = true)
    (hso : Z.ShiftOrder ≠ 0) (f : Field3D) (p : Pool)
    (b : Nat) (hb : f.block = some b) (bx : bindex)
    (hj : toInt32 (bx.jz + k) = bx.jz + k)
    (hg : bx.inGrid Z.toGlobals) (h1 : bx.xp_offset = k) (h2 : bx.xm_offset = k)
    (h3 : bx.x2p_offset = k) (h4 : bx.x2m_offset = k) :
    f.SetXStencil Z p bx CELL_LOC.CELL_DEFAULT = some
      ⟨bx.jx, bx.jy, bx.jz, p.read b bx.jx.toNat bx.jy.toNat bx.jz.toNat,
        p.read b bx.jxp.toNat bx.jy.toNat ((bx.jz + k) % (Z.ncz : Int)).toNat,
        p.read b bx.jxm.toNat bx.jy.toNat ((bx.jz + k) % (Z.ncz : Int)).toNat,
        p.read b bx.jxp.toNat bx.jy.toNat ((bx.jz + k) % (Z.ncz : Int)).toNat,
        p.read b bx.jxm.toNat bx.jy.toNat ((bx.jz + k) % (Z.ncz : Int)).toNat⟩ := by
  obtain ⟨hx, hxp, hxm, hx2p, hx2m, hy, hyp, hym, hy2p, hy2m, hz, hzp, hzm, hz2p, hz2m⟩ := hg
  unfold Field3D.SetXStencil
  rw [hb]
  simp only [Option.bind_eq_bind, Option.pure_def, hsx, hso, ne_eq, not_false_eq_true,
    decide_True, Bool.and_self, if_true, h1, h2, h3, h4, recentre_default]
  rw [readAt_some Z.toGlobals p b _ _ _ hx hy hz,
    interp_z_int Z hn hnz k hk hr f p b hb bx.jxp bx.jy bx.jz hj Z.ShiftOrder hxp hy,
    interp_z_int Z hn hnz k hk hr f p b hb bx.jxm bx.jy bx.jz hj Z.ShiftOrder hxm hy]
  rfl

theorem sampleROUND_nearest (q : ℚ) (hq : |q| ≤ 2147483647) :
    |q - (sampleROUND q : ℚ)| ≤ 1 / 2 := by
  unfold sampleROUND
  rw [if_pos hq]
  exact abs_sub_round q

theorem sampleROUND_int (k : Int) (hk : |k| ≤ 2147483647) : sampleROUND (k : ℚ) = k :=
  round_of_int sampleROUND sampleROUND_nearest k hk

theorem planeBindex_inGrid : planeBindex.inGrid (shiftedZ 5 1 2 1).toGlobals := by
  unfold bindex.inGrid planeBindex shiftedZ sampleZ
  simp

/-- C35 (evaluation of the code): on a grid of 5 x 1 x 2 points with `ncz = 1`,
`ShiftXderivs` set and `ShiftOrder = 2`, for the field that holds the value `x` at
the point `(x, y, z)` and the `bindex` of the point `x = 2` with the neighbours
`jxp = 3`, `jxm = 1`, `jx2p = 4`, `jx2m = 0` and zero offsets, `SetXStencil` with
`CELL_DEFAULT` gives `p = 3`, `m = 1`, `pp = 3` and `mm = 1`, the values at `jxp` and
`jxm` in the slots of the second neighbours, where `SetStencil` with `need_x` gives
`xp = 3`, `xm = 1`, `x2p = 4` and `x2m = 0`. -/
theorem xstencil_second_neighbours :
    planeState.field 0 = some ⟨some 0, CELL_LOC.CELL_CENTRE⟩ ∧
      (∀ x y z : Nat, planeState.pool.read 0 x y z = (x : ℚ)) ∧
      Field3D.SetXStencil (shiftedZ 5 1 2 1) ⟨some 0, CELL_LOC.CELL_CENTRE⟩ planeState.pool
        planeBindex CELL_LOC.CELL_DEFAULT = some ⟨2, 0, 0, 2, 3, 1, 3, 1⟩ ∧
      Field3D.SetStencil (shiftedZ 5 1 2 1) ⟨some 0, CELL_LOC.CELL_CENTRE⟩ planeState.pool
        bstencil.zero planeBindex true =
          some ⟨2, 0, 0, 2, 3, 1, 4, 0, 2, 2, 2, 2, 2, 2, 2, 2⟩ := by
  have hk : (shiftedZ 5 1 2 1).ROUND ((0 : Int) : ℚ) = 0 := sampleROUND_int 0 (by decide)
  have hc : (0 : ℚ) = ((0 : Int) : ℚ) := Int.cast_zero.symm
  have hv : ∀ x y z : Nat, planeState.pool.read 0 x y z = (x : ℚ) := fun _ _ _ => rfl
  refine ⟨rfl, hv, ?_, ?_⟩
  · rw [SetXStencil_int (shiftedZ 5 1 2 1) (by decide) (by decide) 0 hk (by decide) rfl
      (by decide) ⟨some 0, CELL_LOC.CELL_CENTRE⟩ planeState.pool 0 rfl planeBindex
      (by decide) planeBindex_inGrid hc hc hc hc]
    simp only [hv]
    rfl
  · obtain ⟨yp, ym, y2p, y2m, e1, e2, e3, e4, hu⟩ := SetStencil_int (shiftedZ 5 1 2 1)
      (by decide) (by decide) 0 hk (by decide) rfl ⟨some 0, CELL_LOC.CELL_CENTRE⟩
      planeState.pool 0 rfl bstencil.zero planeBindex (by decide) planeBindex_inGrid
      hc hc hc hc
    rw [hu]
    simp only [hv]
    have r1 := readAt_some (shiftedZ 5 1 2 1).toGlobals planeState.pool 0 2 0 0
      ⟨by decide, by decide⟩ ⟨by decide, by decide⟩ ⟨by decide, by decide⟩
    rw [hv] at r1
    have f1 : yp = 2 := Option.some.inj (e1.symm.trans r1)
    have f2 : ym = 2 := Option.some.inj (e2.symm.trans r1)
    have f3 : y2p = 2 := Option.some.inj (e3.symm.trans r1)
    have f4 : y2m = 2 := Option.some.inj (e4.symm.trans r1)
    rw [f1, f2, f3, f4]
    rfl

/-! ## The nonlinear filter -/

theorem sum_set (l : List ℚ) (n : Nat) (hn : n < l.length) (a : ℚ) :
    (l.set n a).sum = l.sum - l.getD n 0 + a := by
  induction l generalizing n with
  | nil => exact absurd hn (Nat.not_lt_zero _)
  | cons x xs ih =>
      cases n with
      | zero =>
          simp only [List.set_cons_zero, List.sum_cons, List.getD_cons_zero]
          ring
      | succ m =>
          have hm : m < xs.length := Nat.lt_of_succ_lt_succ hn
          simp only [List.set_cons_succ, List.sum_cons, List.getD_cons_succ, ih m hm]
          ring

/-- An adjustment that subtracts `e` from the element `j` and then adds it to the
element `i` keeps the length and the sum. -/
theorem adjust_sum (f : rvec) (i j : Nat) (hi : i < f.length) (hj : j < f.length) (e : ℚ) :
    ((f.set j (f.getD j 0 - e)).set i ((f.set j (f.getD j 0 - e)).getD i 0 + e)).length =
        f.length ∧
      ((f.set j (f.getD j 0 - e)).set i ((f.set j (f.getD j 0 - e)).getD i 0 + e)).sum =
        f.sum := by
  constructor
  · rw [List.length_set, List.length_set]
  · rw [sum_set _ i (by rw [List.length_set]; exact hi), sum_set f j hj]
    ring

theorem nl_filter_step_sum (L : Libm) (w : ℚ) (i : Nat) (f : rvec) (h1 : 1 ≤ i)
    (h2 : i + 1 < f.length) :
    (nl_filter_step L w i f).length = f.length ∧ (nl_filter_step L w i f).sum = f.sum := by
  unfold nl_filter_step
  simp only
  split_ifs
  · exact adjust_sum f i (i + 1) (by omega) h2 _
  · exact adjust_sum f i (i - 1) (by omega) (by omega) _
  · exact ⟨rfl, rfl⟩

/-- C39: for every non-empty vector `f` and every weight `w`, `nl_filter(f, w)`
returns, and the vector it leaves has the length of `f` and, the values being
rationals, the sum of the elements of `f`. -/
theorem nl_filter_keeps_sum (L : Libm) (f : rvec) (w : ℚ) (hf : f ≠ []) :
    ∃ g, nl_filter L f w = some g ∧ g.length = f.length ∧ g.sum = f.sum := by
  have hlen : f.length ≠ 0 := fun h => hf (List.length_eq_zero.1 h)
  refine ⟨_, if_neg hlen, ?_⟩
  exact forLoop_inv (fun _ g => g.length = f.length ∧ g.sum = f.sum)
    (fun j g => nl_filter_step L w (j + 1) g) f (f.length - 2) ⟨rfl, rfl⟩
    (fun k q hk hq => by
      have h := nl_filter_step_sum L w (k + 1) q (by omega) (by rw [hq.1]; omega)
      exact ⟨h.1.trans hq.1, h.2.trans hq.2⟩)

theorem nl_filter_keeps_sum_witness :
    nl_filter sampleLibm [0, 4, 1, 3] 1 = some [2, 2, 2, 2] ∧
      ∃ g, nl_filter sampleLibm [0, 4, 1, 3] 1 = some g ∧ g.length = 4 ∧ g.sum = 8 := by
  obtain ⟨g, h1, h2, h3⟩ := nl_filter_keeps_sum sampleLibm [0, 4, 1, 3] 1 (by decide)
  refine ⟨?_, g, h1, h2, h3.trans (by norm_num)⟩
  simp [nl_filter, forLoop, nl_filter_step, nl_pick, sampleLibm]
  norm_num

/-! ## The sum over y -/

theorem ysum_val_eq (ngy MYG MYSUB : Nat) (rin rinout : Nat → ℚ) (x : Nat) :
    ysum_val ngy MYG MYSUB rin rinout x =
      ∑ j ∈ Finset.range MYSUB, (rin (x * ngy + (MYG + j)) + rinout (x * ngy + (MYG + j))) := by
  unfold ysum_val
  induction MYSUB with
  | zero => rfl
  | succ m ih =>
      rw [Finset.sum_range_succ, ← ih]
      rfl

/-- The loop `for(int y=0;y<ngy;y++) rinout[x*ngy + y] = val;`. -/
theorem ysum_spread (c : Nat) (v : ℚ) (out : Nat → ℚ) (n : Nat) :
    forLoop n (fun y o => Function.update o (c + y) v) out =
      fun i => if c ≤ i ∧ i < c + n then v else out i := by
  induction n with
  | zero =>
      funext i
      rw [if_neg (by omega)]
      rfl
  | succ m ih =>
      show Function.update (forLoop m (fun y o => Function.update o (c + y) v) out) (c + m) v = _
      rw [ih]
      funext i
      by_cases hi : i = c + m
      · rw [hi, Function.update_same, if_pos (by omega)]
      · rw [Function.update_noteq hi]
        by_cases h : c ≤ i ∧ i < c + m
        · rw [if_pos h, if_pos (by omega)]
        · rw [if_neg h, if_neg (by omega)]

/-- The array that `ysum_op` leaves: at every point of the row `x` the sum of both
arrays over the rows `MYG <= y < MYG + MYSUB`, divided by `MYSUB`; beyond the array,
what `rinout` held. -/
theorem ysum_op_rows (G : Globals) (MYG MYSUB : Nat) (a b : Nat → ℚ) :
    (∀ i, G.ngx * G.ngy ≤ i → ysum_op G MYG MYSUB a b i = b i) ∧
      ∀ x y, x < G.ngx → y < G.ngy → ysum_op G MYG MYSUB a b (x * G.ngy + y) =
        (∑ j ∈ Finset.range MYSUB,
          (a (x * G.ngy + (MYG + j)) + b (x * G.ngy + (MYG + j)))) / (MYSUB : ℚ) := by
  unfold ysum_op
  refine forLoop_inv (fun k out => (∀ i, k * G.ngy ≤ i → out i = b i) ∧
      ∀ x y, x < k → y < G.ngy → out (x * G.ngy + y) =
        (∑ j ∈ Finset.range MYSUB,
          (a (x * G.ngy + (MYG + j)) + b (x * G.ngy + (MYG + j)))) / (MYSUB : ℚ))
    _ b G.ngx ⟨fun _ _ => rfl, fun x y hx _ => absurd hx (Nat.not_lt_zero _)⟩ ?_
  intro k out _ hq
  obtain ⟨hb, hr⟩ := hq
  have hval : ysum_val G.ngy MYG MYSUB a out k =
      ∑ j ∈ Finset.range MYSUB, (a (k * G.ngy + (MYG + j)) + b (k * G.ngy + (MYG + j))) := by
    rw [ysum_val_eq]
    refine Finset.sum_congr rfl (fun j _ => ?_)
    rw [hb _ (by omega)]
  rw [ysum_spread, hval]
  have hk : (k + 1) * G.ngy = k * G.ngy + G.ngy := Nat.succ_mul k G.ngy
  refine ⟨fun i hi => ?_, fun x y hx hy => ?_⟩
  · simp only
    rw [if_neg (by omega)]
    exact hb i (by omega)
  · simp only
    by_cases hxk : x = k
    · rw [hxk, if_pos (by omega)]
    · have hlt : x + 1 ≤ k := by omega
      have h1 := Nat.mul_le_mul_right G.ngy hlt
      rw [Nat.succ_mul] at h1
      rw [if_neg (by omega)]
      exact hr x y (by omega) hy

/-- C40: with `MYSUB >= 1` and the rows `MYG <= y < MYG + MYSUB` inside the array
(`MYG + MYSUB <= ngy`), `ysum_op` gives at every point `(x, y)` of the `ngx` by `ngy`
array the sum over these rows of both arguments at `x`, divided by `MYSUB`; on these
arrays it is commutative and associative, the values being rationals. -/
theorem ysum_op_comm_assoc (G : Globals) (MYG MYSUB : Nat) (h1 : 1 ≤ MYSUB)
    (hg : MYG + MYSUB ≤ G.ngy) (x y : Nat) (hx : x < G.ngx) (hy : y < G.ngy)
    (a b c : Nat → ℚ) :
    ysum_op G MYG MYSUB a b (x * G.ngy + y) =
        (∑ j ∈ Finset.range MYSUB,
          (a (x * G.ngy + (MYG + j)) + b (x * G.ngy + (MYG + j)))) / (MYSUB : ℚ) ∧
      ysum_op G MYG MYSUB a b (x * G.ngy + y) = ysum_op G MYG MYSUB b a (x * G.ngy + y) ∧
      ysum_op G MYG MYSUB (ysum_op G MYG MYSUB a b) c (x * G.ngy + y) =
        ysum_op G MYG MYSUB a (ysum_op G MYG MYSUB b c) (x * G.ngy + y) := by
  have hm : (MYSUB : ℚ) ≠ 0 := by
    have : 0 < MYSUB := h1
    exact_mod_cast (Nat.pos_iff_ne_zero.1 this)
  have hrow : ∀ u v : Nat → ℚ, ysum_op G MYG MYSUB u v (x * G.ngy + y) =
      (∑ j ∈ Finset.range MYSUB,
        (u (x * G.ngy + (MYG + j)) + v (x * G.ngy + (MYG + j)))) / (MYSUB : ℚ) :=
    fun u v => (ysum_op_rows G MYG MYSUB u v).2 x y hx hy
  have hin : ∀ (u v : Nat → ℚ) (j : Nat), j ∈ Finset.range MYSUB →
      ysum_op G MYG MYSUB u v (x * G.ngy + (MYG + j)) =
        (∑ j ∈ Finset.range MYSUB,
          (u (x * G.ngy + (MYG + j)) + v (x * G.ngy + (MYG + j)))) / (MYSUB : ℚ) :=
    fun u v j hj => (ysum_op_rows G MYG MYSUB u v).2 x (MYG + j) hx
      (by have := Finset.mem_range.1 hj; omega)
  refine ⟨hrow a b, ?_, ?_⟩
  · rw [hrow a b, hrow b a]
    congr 1
    exact Finset.sum_congr rfl (fun j _ => add_comm _ _)
  · rw [hrow (ysum_op G MYG MYSUB a b) c, hrow a (ysum_op G MYG MYSUB b c)]
    congr 1
    have e1 : (∑ j ∈ Finset.range MYSUB, (ysum_op G MYG MYSUB a b (x * G.ngy + (MYG + j)) +
          c (x * G.ngy + (MYG + j)))) =
        ∑ j ∈ Finset.range MYSUB, ((∑ j ∈ Finset.range MYSUB,
          (a (x * G.ngy + (MYG + j)) + b (x * G.ngy + (MYG + j)))) / (MYSUB : ℚ) +
          c (x * G.ngy + (MYG + j))) :=
      Finset.sum_congr rfl (fun j hj => by rw [hin a b j hj])
    have e2 : (∑ j ∈ Finset.range MYSUB, (a (x * G.ngy + (MYG + j)) +
          ysum_op G MYG MYSUB b c (x * G.ngy + (MYG + j)))) =
        ∑ j ∈ Finset.range MYSUB, (a (x * G.ngy + (MYG + j)) + (∑ j ∈ Finset.range MYSUB,
          (b (x * G.ngy + (MYG + j)) + c (x * G.ngy + (MYG + j)))) / (MYSUB : ℚ)) :=
      Finset.sum_congr rfl (fun j hj => by rw [hin b c j hj])
    rw [e1, e2]
    simp only [Finset.sum_add_distrib, Finset.sum_const, Finset.card_range, nsmul_eq_mul]
    rw [mul_div_cancel₀ _ hm, mul_div_cancel₀ _ hm]
    ring

theorem ysum_op_comm_assoc_witness :
    ysum_op sampleGlobals 0 2 (fun i => (i : ℚ)) (fun _ => 1) (1 * sampleGlobals.ngy + 0) =
      ysum_op sampleGlobals 0 2 (fun _ => 1) (fun i => (i : ℚ)) (1 * sampleGlobals.ngy + 0) :=
  (ysum_op_comm_assoc sampleGlobals 0 2 (by decide) (by decide) 1 0 (by decide) (by decide)
    (fun i => (i : ℚ)) (fun _ => 1) (fun _ => 0)).2.1

/-! ## Copy-on-write and ownership at further inputs -/

/-- The sample routine `interp_fresh` meets what the field code relies on when it
calls `interp_to`. -/
theorem freshGlobals_ok : InterpOK freshGlobals := by
  have key : ∀ (s : State) (j : Nat) (rhs : Field3D) (loc : CELL_LOC) (b : Nat), Inv s →
      s.field j = some rhs → rhs.block = some b →
      freshGlobals.interp_to rhs loc s.pool =
        some (⟨((⟨some b, rhs.location⟩ : Field3D).Allocate sampleGlobals
            (Pool.incRefs b s.pool)).1.block, loc⟩,
          ((⟨some b, rhs.location⟩ : Field3D).Allocate sampleGlobals
            (Pool.incRefs b s.pool)).2) ∧
      Kept (s.push ⟨some b, rhs.location⟩ (Pool.incRefs b s.pool)) s.nfields
        (s.push ((⟨some b, rhs.location⟩ : Field3D).Allocate sampleGlobals
            (Pool.incRefs b s.pool)).1
          ((⟨some b, rhs.location⟩ : Field3D).Allocate sampleGlobals
            (Pool.incRefs b s.pool)).2) ∧
      Kept s s.nfields (s.push ⟨some b, rhs.location⟩ (Pool.incRefs b s.pool)) ∧
      ((⟨some b, rhs.location⟩ : Field3D).Allocate sampleGlobals
        (Pool.incRefs b s.pool)).1.block ≠ none := by
    intro s j rhs loc b hs hj hb
    have hc := copy_kept s hs j b rhs hj hb rhs.location
    have hf1 : (s.push ⟨some b, rhs.location⟩ (Pool.incRefs b s.pool)).field s.nfields =
        some ⟨some b, rhs.location⟩ := by
      simp [State.field, State.push]
    have ha := allocate_kept sampleGlobals _ hc.inv s.nfields _ hf1
    rw [push_put] at ha
    obtain ⟨hk1, hfs1⟩ := field_lt hf1
    obtain ⟨b2, he⟩ := alloc_effect sampleGlobals _ s.nfields b _ hc.inv hk1 hfs1 rfl
    refine ⟨?_, ha, hc, ?_⟩
    · show interp_fresh rhs loc s.pool = _
      unfold interp_fresh Field3D.copy_ctor
      rw [hb]
    · have hblk := he.block
      unfold Field3D.Allocate
      intro hnone
      have hcon : (none : Option Nat) = some b2 := hnone.symm.trans hblk
      cases hcon
  refine ⟨?_, ?_⟩
  · intro s j rhs loc tmp p1 hs hj hi
    cases hb : rhs.block with
    | none =>
        have hi2 : interp_fresh rhs loc s.pool = some (tmp, p1) := hi
        unfold interp_fresh Field3D.copy_ctor at hi2
        rw [hb] at hi2
        cases hi2
    | some b =>
        obtain ⟨h1, ha, hc, _⟩ := key s j rhs loc b hs hj hb
        rw [h1] at hi
        simp only [Option.some.injEq, Prod.mk.injEq] at hi
        obtain ⟨rfl, rfl⟩ := hi
        have hsame : SameShape
            ((⟨some b, rhs.location⟩ : Field3D).Allocate sampleGlobals
              (Pool.incRefs b s.pool)).2
            ((⟨some b, rhs.location⟩ : Field3D).Allocate sampleGlobals
              (Pool.incRefs b s.pool)).2 := ⟨rfl, rfl, rfl, rfl, fun _ => ⟨rfl, rfl⟩⟩
        have hinv := ha.inv.of_ptrs _
          (Function.update s.fields s.nfields (some ⟨((⟨some b, rhs.location⟩ :
            Field3D).Allocate sampleGlobals (Pool.incRefs b s.pool)).1.block, loc⟩))
          hsame (fun i _ => by
            by_cases hi : i = s.nfields
            · subst hi
              simp [State.push]
            · simp [State.push, Function.update_noteq hi])
        refine ⟨rfl, hinv, fun i x y z hi => ?_⟩
        have e1 : (s.push ⟨((⟨some b, rhs.location⟩ : Field3D).Allocate sampleGlobals
              (Pool.incRefs b s.pool)).1.block, loc⟩
            ((⟨some b, rhs.location⟩ : Field3D).Allocate sampleGlobals
              (Pool.incRefs b s.pool)).2).value i x y z =
            (s.push ((⟨some b, rhs.location⟩ : Field3D).Allocate sampleGlobals
              (Pool.incRefs b s.pool)).1
            ((⟨some b, rhs.location⟩ : Field3D).Allocate sampleGlobals
              (Pool.incRefs b s.pool)).2).value i x y z := by
          apply value_congr
          · rw [field_push_lt s i _ _ hi, field_push_lt s i _ _ hi]
          · intro _
            rfl
        rw [e1, ha.others i x y z (Nat.lt_succ_of_lt hi) (by omega),
          hc.others i x y z hi (by omega)]
  · intro s j rhs loc hs hj hne
    cases hb : rhs.block with
    | none => exact absurd hb hne
    | some b =>
        obtain ⟨h1, _, _, h4⟩ := key s j rhs loc b hs hj hb
        exact ⟨_, _, h1, h4⟩

/-- C1 (evaluation of the code): after `a = 2.0; b = 3.0; b = a; b += 1.0` the object
`a` reads `2.0` and `b` reads `3.0`.  Two further mutations: `a = b`, after which `a`
reads `3.0`, and `b[bx] = 7.0` with `bx = (1,0,0)`, which runs and leaves `a` reading
`7.0` at `(1,0,0)`.  The same write through `operator[](int)` leaves `a` at `3.0`. -/
theorem bindex_write_breaks_isolation :
    ∃ s2 s3 t u, run relaxMesh.toGlobals
        [Action.assign 1 0, Action.compound 1 CompoundOp.plus (Arg.real 1) 1] sampleState =
          some s2 ∧
      s2.value 0 1 0 0 = some 2 ∧ s2.value 1 1 0 0 = some 3 ∧
      step relaxMesh.toGlobals s2 (Action.assign 0 1) = some s3 ∧
      s3.value 0 1 0 0 = some 3 ∧
      s3.setBindex relaxMesh.toGlobals 1 1 0 0 7 = some t ∧ t.value 0 1 0 0 = some 7 ∧
      s3.setElem relaxMesh 1 1 0 0 7 = some u ∧ u.value 0 1 0 0 = some 3 ∧
      u.value 1 1 0 0 = some 7 := by
  refine ⟨_, _, _, _, rfl, rfl, ?_, rfl, ?_, rfl, rfl, rfl, ?_, rfl⟩
  · show some ((2 : ℚ) + 1) = some 3
    norm_num
  · show some ((2 : ℚ) + 1) = some 3
    norm_num
  · show some ((2 : ℚ) + 1) = some 3
    norm_num

end BOUT
